import Mathlib

/-!
Verification of the recursive-smoothing indicators of `indicator-libs`.

Shallow embedding of `indicators/atr.go`, `indicators/adx.go`,
`indicators/parabolic_sar.go`, `indicators/supertrend.go`,
`indicators/kama.go`, `indicators/ichimoku.go`, `indicators/obv.go` and
`indicators/rsi.go`.

Conventions of the embedding.

* `float64` values are exact rationals (`ℚ`): the theorems are statements
  in exact arithmetic, about finite inputs. Where the source compares with
  `math.MaxFloat64`, the theorems say that the inputs lie in the finite
  `float64` range (`Float64Range`). Where a property of `kama.go` holds in
  exact arithmetic only, the same lines are also embedded with every
  operation rounded to the nearest `float64` (`f64Round`, the definitions
  ending in `F64`), and the rounded computation is evaluated on `float64`
  inputs.
* An output cell that the source may leave at `math.NaN()` is an `F64`: a
  rational or the NaN marker.
* Go `int` values are `Int`. In `ichimoku.go` a caller chooses the periods
  and the shift freely and the source adds and subtracts them without a
  check, so these operations are `addInt` and `subInt`, which wrap around at
  64 bits as Go `int` arithmetic does. In the other engines an `int` is an
  unbounded `Int`.
* A slice is a `List`; every index expression of the source is a checked
  access (`rd`, `wr`) that yields `Res.panic` when the index is out of range,
  as the Go runtime does.
* A Go function returning `(..., error)` returns `Res`: `ok` for a nil error,
  `error msg` for `errors.New(msg)`, `panic` for a run-time panic.
* `for i := lo; i < hi; i++ { body }` is `forRange lo hi body`; no loop of
  the embedded code changes its bound or its counter inside the body.
-/

namespace Indicators

/-! ## Results, slices and loops -/

/-- Outcome of a Go call: a value, an error value, or a run-time panic. -/
inductive Res (α : Type) where
  | ok (v : α) : Res α
  | error (msg : String) : Res α
  | panic : Res α
  deriving DecidableEq, Repr

/-- Sequencing of outcomes: the first failure is the failure of the whole. -/
def Res.bind {α β : Type} : Res α → (α → Res β) → Res β
  | Res.ok v, f => f v
  | Res.error msg, _ => Res.error msg
  | Res.panic, _ => Res.panic

instance : Monad Res where
  pure := Res.ok
  bind := Res.bind

/-- Go `make([]T, n)`: a slice of `n` zero values. -/
def make {α : Type} [Zero α] (n : Nat) : List α :=
  List.replicate n 0

/-- Go `len(xs)` as an `int`. -/
def len {α : Type} (xs : List α) : Int :=
  (xs.length : Int)

/-- Go `xs[i]` read: panics outside `0 <= i < len(xs)`. -/
def rd {α : Type} [Zero α] (xs : List α) (i : Int) : Res α :=
  if 0 ≤ i ∧ i < len xs then Res.ok (xs.getD i.toNat 0) else Res.panic

/-- Go `xs[i] = v` write: panics outside `0 <= i < len(xs)`. -/
def wr {α : Type} (xs : List α) (i : Int) (v : α) : Res (List α) :=
  if 0 ≤ i ∧ i < len xs then Res.ok (xs.set i.toNat v) else Res.panic

/-- Runs `body i`, `body (i+1)`, ... for `k` consecutive counter values. -/
def iter {σ : Type} : Nat → Int → (Int → σ → Res σ) → σ → Res σ
  | 0, _, _, s => Res.ok s
  | k + 1, i, body, s =>
    match body i s with
    | Res.ok s' => iter k (i + 1) body s'
    | Res.error msg => Res.error msg
    | Res.panic => Res.panic

/-- Go `for i := lo; i < hi; i++ { body }`. -/
def forRange {σ : Type} (lo hi : Int) (body : Int → σ → Res σ) (s : σ) : Res σ :=
  iter (hi - lo).toNat lo body s

/-- Go `math.MaxInt64`, the largest value of the type `int` (64 bits). -/
def maxInt : Int :=
  9223372036854775807

/-- Two's-complement wrap-around of an exact integer result into the range
`-2^63 .. 2^63 - 1` of the Go type `int`. -/
def wrapInt (x : Int) : Int :=
  (x + 9223372036854775808) % 18446744073709551616 - 9223372036854775808

/-- Go `a + b` on two `int` values: the sum wraps around on overflow. -/
def addInt (a b : Int) : Int :=
  wrapInt (a + b)

/-- Go `a - b` on two `int` values: the difference wraps around on overflow. -/
def subInt (a b : Int) : Int :=
  wrapInt (a - b)

/-- Modelled from the spec: the two-argument helper `max` that `atr.go` and
`adx.go` take "from utils.go", a file that is not among the sources. The spec
describes the shared maximum primitives as exact, ties returning the value. -/
def utilsMax (a b : ℚ) : ℚ :=
  if a ≥ b then a else b

/-- Go `math.Abs` in exact arithmetic. -/
def mathAbs (x : ℚ) : ℚ :=
  if x < 0 then -x else x

/-- Go `math.Max` in exact arithmetic. -/
def mathMax (a b : ℚ) : ℚ :=
  if a > b then a else b

/-- Go `math.Min` in exact arithmetic. -/
def mathMin (a b : ℚ) : ℚ :=
  if a < b then a else b

/-! ## ATR (`indicators/atr.go`) -/

/-- Configuration `type ATR struct { Window int }`. -/
structure ATR where
  Window : Int
  deriving DecidableEq, Repr

/-- Body of the true-range loop of `ATR.Calculate` (lines 35-40). -/
def ATR.trBody (highs lows closes : List ℚ) (i : Int) (tr : List ℚ) : Res (List ℚ) := do
  let hi ← rd highs i
  let lo ← rd lows i
  let range1 := hi - lo
  let hi2 ← rd highs i
  let pc ← rd closes (i - 1)
  let range2 := mathAbs (hi2 - pc)
  let lo2 ← rd lows i
  let pc2 ← rd closes (i - 1)
  let range3 := mathAbs (lo2 - pc2)
  wr tr i (utilsMax range1 (utilsMax range2 range3))

/-- Body of the warm-up loop `atr[i] = 0` (lines 46-48). -/
def ATR.zeroBody (i : Int) (atr : List ℚ) : Res (List ℚ) :=
  wr atr i 0

/-- Body of the seed loop `sumTR += tr[i]` (lines 52-54). -/
def ATR.sumBody (tr : List ℚ) (i : Int) (sumTR : ℚ) : Res ℚ := do
  let t ← rd tr i
  pure (sumTR + t)

/-- Body of the Wilder loop (lines 58-61). -/
def ATR.smoothBody (window : Int) (tr : List ℚ) (i : Int) (atr : List ℚ) : Res (List ℚ) := do
  let prev ← rd atr (i - 1)
  let t ← rd tr i
  wr atr i (((prev * ((window - 1 : Int) : ℚ)) + t) / ((window : Int) : ℚ))

/-- Embedding of `func (a *ATR) Calculate(highs, lows, closes []float64)`. -/
def ATR.Calculate (a : ATR) (highs lows closes : List ℚ) : Res (List ℚ) :=
  if len highs ≠ len lows ∨ len lows ≠ len closes then
    Res.error "highs, lows, and closes must have the same length"
  else if len highs < a.Window then
    Res.error "not enough data for ATR"
  else do
    let length := len highs
    let tr : List ℚ := make highs.length
    let h0 ← rd highs 0
    let l0 ← rd lows 0
    let tr ← wr tr 0 (h0 - l0)
    let tr ← forRange 1 length (ATR.trBody highs lows closes) tr
    let atr : List ℚ := make highs.length
    let atr ← forRange 0 (a.Window - 1) ATR.zeroBody atr
    let sumTR ← forRange 0 a.Window (ATR.sumBody tr) 0
    let atr ← wr atr (a.Window - 1) (sumTR / ((a.Window : Int) : ℚ))
    let atr ← forRange a.Window length (ATR.smoothBody a.Window tr) atr
    pure atr

/-! ## ADX (`indicators/adx.go`) -/

/-- Configuration `type ADX struct { Window int }`. -/
structure ADX where
  Window : Int
  deriving DecidableEq, Repr

/-- The three raw slices `tr`, `pDM`, `mDM` of `ADX.Calculate`. -/
structure ADX.Raw where
  tr : List ℚ
  pDM : List ℚ
  mDM : List ℚ
  deriving DecidableEq, Repr

/-- Body of the raw loop of `ADX.Calculate` (lines 39-64): true range and the
two directional movements of bar `i`. -/
def ADX.rawBody (highs lows closes : List ℚ) (i : Int) (s : ADX.Raw) : Res ADX.Raw := do
  let currentHigh ← rd highs i
  let currentLow ← rd lows i
  let prevClose ← rd closes (i - 1)
  let range1 := currentHigh - currentLow
  let range2 := mathAbs (currentHigh - prevClose)
  let range3 := mathAbs (currentLow - prevClose)
  let tr ← wr s.tr i (utilsMax range1 (utilsMax range2 range3))
  let prevHigh ← rd highs (i - 1)
  let upMove := currentHigh - prevHigh
  let prevLow ← rd lows (i - 1)
  let downMove := prevLow - currentLow
  let pDM ← (if upMove > downMove ∧ upMove > 0 then wr s.pDM i upMove else wr s.pDM i 0)
  let mDM ← (if downMove > upMove ∧ downMove > 0 then wr s.mDM i downMove else wr s.mDM i 0)
  pure ⟨tr, pDM, mDM⟩

/-- Lines 27-64 of `ADX.Calculate`: allocation of `tr`, `pDM`, `mDM`, the
first-day assignments and the raw loop. -/
def ADX.rawSeries (highs lows closes : List ℚ) : Res ADX.Raw := do
  let length := len highs
  let tr : List ℚ := make highs.length
  let pDM : List ℚ := make highs.length
  let mDM : List ℚ := make highs.length
  let h0 ← rd highs 0
  let l0 ← rd lows 0
  let tr ← wr tr 0 (h0 - l0)
  let pDM ← wr pDM 0 0
  let mDM ← wr mDM 0 0
  forRange 1 length (ADX.rawBody highs lows closes) ⟨tr, pDM, mDM⟩

/-- The running sums `sumTR`, `sumPDM`, `sumMDM`. -/
structure ADX.Sums where
  sumTR : ℚ
  sumPDM : ℚ
  sumMDM : ℚ
  deriving DecidableEq, Repr

/-- Body of the seed loop (lines 71-75). -/
def ADX.sumBody (raw : ADX.Raw) (i : Int) (s : ADX.Sums) : Res ADX.Sums := do
  let t ← rd raw.tr i
  let p ← rd raw.pDM i
  let m ← rd raw.mDM i
  pure ⟨s.sumTR + t, s.sumPDM + p, s.sumMDM + m⟩

/-- The three smoothed slices `smTr`, `smPDM`, `smMDM`. -/
structure ADX.Smoothed where
  smTr : List ℚ
  smPDM : List ℚ
  smMDM : List ℚ
  deriving DecidableEq, Repr

/-- Body of the accumulator-form Wilder loop (lines 80-84). -/
def ADX.smoothBody (window : Int) (raw : ADX.Raw) (i : Int) (s : ADX.Smoothed) :
    Res ADX.Smoothed := do
  let prevTr ← rd s.smTr (i - 1)
  let t ← rd raw.tr i
  let smTr ← wr s.smTr i (prevTr - (prevTr / ((window : Int) : ℚ)) + t)
  let prevP ← rd s.smPDM (i - 1)
  let p ← rd raw.pDM i
  let smPDM ← wr s.smPDM i (prevP - (prevP / ((window : Int) : ℚ)) + p)
  let prevM ← rd s.smMDM (i - 1)
  let m ← rd raw.mDM i
  let smMDM ← wr s.smMDM i (prevM - (prevM / ((window : Int) : ℚ)) + m)
  pure ⟨smTr, smPDM, smMDM⟩

/-- Lines 66-85 of `ADX.Calculate`: the smoothed slices, seeded with the sums
of the first `Window` raw values. -/
def ADX.smoothSeries (window : Int) (length : Int) (n : Nat) (raw : ADX.Raw) :
    Res ADX.Smoothed := do
  let smTr : List ℚ := make n
  let smPDM : List ℚ := make n
  let smMDM : List ℚ := make n
  let sums ← forRange 0 window (ADX.sumBody raw) ⟨0, 0, 0⟩
  let smTr ← wr smTr (window - 1) sums.sumTR
  let smPDM ← wr smPDM (window - 1) sums.sumPDM
  let smMDM ← wr smMDM (window - 1) sums.sumMDM
  forRange window length (ADX.smoothBody window raw) ⟨smTr, smPDM, smMDM⟩

/-- The two directional-indicator slices `plusDI`, `minusDI`. -/
structure ADX.DI where
  plusDI : List ℚ
  minusDI : List ℚ
  deriving DecidableEq, Repr

/-- Body of the warm-up loop of the DI slices (lines 90-93). -/
def ADX.diZeroBody (i : Int) (s : ADX.DI) : Res ADX.DI := do
  let plusDI ← wr s.plusDI i 0
  let minusDI ← wr s.minusDI i 0
  pure ⟨plusDI, minusDI⟩

/-- Body of the DI loop (lines 94-102). -/
def ADX.diBody (sm : ADX.Smoothed) (i : Int) (s : ADX.DI) : Res ADX.DI := do
  let st ← rd sm.smTr i
  if st = 0 then
    let plusDI ← wr s.plusDI i 0
    let minusDI ← wr s.minusDI i 0
    pure ⟨plusDI, minusDI⟩
  else
    let sp ← rd sm.smPDM i
    let plusDI ← wr s.plusDI i ((sp / st) * 100)
    let smm ← rd sm.smMDM i
    let minusDI ← wr s.minusDI i ((smm / st) * 100)
    pure ⟨plusDI, minusDI⟩

/-- Lines 87-102 of `ADX.Calculate`: the `+DI` and `-DI` slices. -/
def ADX.diSeries (window : Int) (length : Int) (n : Nat) (sm : ADX.Smoothed) : Res ADX.DI := do
  let plusDI : List ℚ := make n
  let minusDI : List ℚ := make n
  let di ← forRange 0 (window - 1) ADX.diZeroBody ⟨plusDI, minusDI⟩
  forRange (window - 1) length (ADX.diBody sm) di

/-- Body of the warm-up loop `dx[i] = 0` (lines 106-108). -/
def ADX.dxZeroBody (i : Int) (dx : List ℚ) : Res (List ℚ) :=
  wr dx i 0

/-- Body of the DX loop (lines 109-117). -/
def ADX.dxBody (di : ADX.DI) (i : Int) (dx : List ℚ) : Res (List ℚ) := do
  let p ← rd di.plusDI i
  let m ← rd di.minusDI i
  let sumDI := p + m
  let diffDI := mathAbs (p - m)
  if sumDI = 0 then wr dx i 0 else wr dx i ((diffDI / sumDI) * 100)

/-- Body of the loop `sumDX += dx[i]` (lines 122-124). -/
def ADX.sumDXBody (dx : List ℚ) (i : Int) (sumDX : ℚ) : Res ℚ := do
  let d ← rd dx i
  pure (sumDX + d)

/-- Body of the final average-form loop over DX (lines 127-129). -/
def ADX.adxBody (window : Int) (dx : List ℚ) (i : Int) (adx : List ℚ) : Res (List ℚ) := do
  let prev ← rd adx (i - 1)
  let d ← rd dx i
  wr adx i (((prev * ((window - 1 : Int) : ℚ)) + d) / ((window : Int) : ℚ))

/-- Lines 104-129 of `ADX.Calculate`: the DX slice and its smoothing. The seed
loop is `for i := Window-1-(Window-1); i <= Window-1; i++`. -/
def ADX.adxSeries (window : Int) (length : Int) (n : Nat) (di : ADX.DI) : Res (List ℚ) := do
  let dx : List ℚ := make n
  let dx ← forRange 0 (window - 1) ADX.dxZeroBody dx
  let dx ← forRange (window - 1) length (ADX.dxBody di) dx
  let adx : List ℚ := make n
  let sumDX ← forRange (window - 1 - (window - 1)) (window - 1 + 1) (ADX.sumDXBody dx) 0
  let adx ← wr adx (window - 1) (sumDX / ((window : Int) : ℚ))
  forRange window length (ADX.adxBody window dx) adx

/-- Lines 104-117 of `ADX.Calculate`: the slice `dx` on its own, as
`ADX.adxSeries` fills it before smoothing. -/
def ADX.dxSlice (window : Int) (length : Int) (n : Nat) (di : ADX.DI) : Res (List ℚ) := do
  let dx : List ℚ := make n
  let dx ← forRange 0 (window - 1) ADX.dxZeroBody dx
  forRange (window - 1) length (ADX.dxBody di) dx

/-- Embedding of `func (a *ADX) Calculate(highs, lows, closes []float64)`;
the result is `(adx, plusDI, minusDI)`. -/
def ADX.Calculate (a : ADX) (highs lows closes : List ℚ) :
    Res (List ℚ × List ℚ × List ℚ) :=
  if len highs ≠ len lows ∨ len lows ≠ len closes then
    Res.error "highs, lows, and closes must have the same length"
  else if len highs < a.Window then
    Res.error "not enough data for ADX"
  else do
    let length := len highs
    let raw ← ADX.rawSeries highs lows closes
    let sm ← ADX.smoothSeries a.Window length highs.length raw
    let di ← ADX.diSeries a.Window length highs.length sm
    let adx ← ADX.adxSeries a.Window length highs.length di
    pure (adx, di.plusDI, di.minusDI)

/-! ## Parabolic SAR (`indicators/parabolic_sar.go`) -/

/-- Configuration `type ParabolicSAR struct { StartAF, IncrementAF, MaxAF float64 }`. -/
structure ParabolicSAR where
  StartAF : ℚ
  IncrementAF : ℚ
  MaxAF : ℚ
  deriving DecidableEq, Repr

/-- The variables that `ParabolicSAR.Calculate` carries from bar to bar: the
output slice `sar`, the flag `upTrend`, the extreme point `ep` and the
acceleration factor `af`. -/
structure ParabolicSAR.State where
  sar : List ℚ
  upTrend : Bool
  ep : ℚ
  af : ℚ
  deriving DecidableEq, Repr

/-- Lines 41-65 of `ParabolicSAR.Calculate` for `length >= 2`: trend detection
on the midpoints of bars 0 and 1, then the initial `sar[0]`, `ep`, `af`. -/
def ParabolicSAR.init (p : ParabolicSAR) (high low : List ℚ) (sar : List ℚ) :
    Res ParabolicSAR.State := do
  let h1 ← rd high 1
  let l1 ← rd low 1
  let h0 ← rd high 0
  let l0 ← rd low 0
  let upTrend : Bool := if (h1 + l1) / 2 > (h0 + l0) / 2 then true else false
  let af := p.StartAF
  if upTrend then
    let l ← rd low 0
    let sar ← wr sar 0 l
    let ep ← rd high 0
    pure ⟨sar, upTrend, ep, af⟩
  else
    let h ← rd high 0
    let sar ← wr sar 0 h
    let ep ← rd low 0
    pure ⟨sar, upTrend, ep, af⟩

/-- Body of the bar loop of `ParabolicSAR.Calculate` (lines 68-119). -/
def ParabolicSAR.step (p : ParabolicSAR) (high low : List ℚ) (i : Int)
    (s : ParabolicSAR.State) : Res ParabolicSAR.State := do
  let prevSAR ← rd s.sar (i - 1)
  let currSAR := prevSAR + s.af * (s.ep - prevSAR)
  if s.upTrend then
    let lowPrev ← rd low (i - 1)
    let lowCur ← rd low i
    let limit := mathMin lowPrev lowCur
    if currSAR > limit then
      let highPrev ← rd high (i - 1)
      let highCur ← rd high i
      let currSAR := mathMax highPrev highCur
      let sar ← wr s.sar i currSAR
      let ep ← rd low i
      pure ⟨sar, false, ep, p.StartAF⟩
    else
      let sar ← wr s.sar i currSAR
      let highCur ← rd high i
      if highCur > s.ep then
        let af := s.af + p.IncrementAF
        let af := if af > p.MaxAF then p.MaxAF else af
        pure ⟨sar, true, highCur, af⟩
      else
        pure ⟨sar, true, s.ep, s.af⟩
  else
    let highPrev ← rd high (i - 1)
    let highCur ← rd high i
    let limit := mathMax highPrev highCur
    if currSAR < limit then
      let lowPrev ← rd low (i - 1)
      let lowCur ← rd low i
      let currSAR := mathMin lowPrev lowCur
      let sar ← wr s.sar i currSAR
      let ep ← rd high i
      pure ⟨sar, true, ep, p.StartAF⟩
    else
      let sar ← wr s.sar i currSAR
      let lowCur ← rd low i
      if lowCur < s.ep then
        let af := s.af + p.IncrementAF
        let af := if af > p.MaxAF then p.MaxAF else af
        pure ⟨sar, false, lowCur, af⟩
      else
        pure ⟨sar, false, s.ep, s.af⟩

/-- Embedding of `func (p *ParabolicSAR) Calculate(high, low []float64)`. -/
def ParabolicSAR.Calculate (p : ParabolicSAR) (high low : List ℚ) : Res (List ℚ) :=
  let length := len high
  if length ≠ len low then
    Res.error "high and low must have the same length"
  else if length = 0 then
    Res.error "no data provided"
  else
    let sar : List ℚ := make high.length
    if length = 1 then do
      let l0 ← rd low 0
      let sar ← wr sar 0 l0
      pure sar
    else do
      let s0 ← ParabolicSAR.init p high low sar
      let s ← forRange 1 length (ParabolicSAR.step p high low) s0
      pure s.sar

/-- The variables of `ParabolicSAR.Calculate` once bars `1..i` have gone
through the loop body (`i = 0`: right after the initialisation). -/
def ParabolicSAR.stateAfter (p : ParabolicSAR) (high low : List ℚ) (i : Nat) :
    Res ParabolicSAR.State := do
  let s0 ← ParabolicSAR.init p high low (make high.length)
  iter i 1 (ParabolicSAR.step p high low) s0

/-! ## SuperTrend (`indicators/supertrend.go`) -/

/-- Configuration `type SuperTrend struct { Period int; Multiplier float64 }`. -/
structure SuperTrend where
  Period : Int
  Multiplier : ℚ
  deriving DecidableEq, Repr

/-- Body of the true-range loop of `computeATR` (lines 165-170). -/
def computeATR.trBody (high low close : List ℚ) (i : Int) (tr : List ℚ) : Res (List ℚ) := do
  let hi ← rd high i
  let lo ← rd low i
  let range1 := hi - lo
  let pc ← rd close (i - 1)
  let range2 := mathAbs (hi - pc)
  let range3 := mathAbs (lo - pc)
  wr tr i (mathMax range1 (mathMax range2 range3))

/-- Body of the seed loop `sumTR += tr[i]` of `computeATR` (lines 181-183). -/
def computeATR.sumBody (tr : List ℚ) (i : Int) (sumTR : ℚ) : Res ℚ := do
  let t ← rd tr i
  pure (sumTR + t)

/-- Body of the Wilder loop of `computeATR` (lines 187-190). -/
def computeATR.smoothBody (period : Int) (tr : List ℚ) (i : Int) (atr : List ℚ) :
    Res (List ℚ) := do
  let prev ← rd atr (i - 1)
  let t ← rd tr i
  wr atr i (((prev * ((period - 1 : Int) : ℚ)) + t) / ((period : Int) : ℚ))

/-- Body of the closing loop `atr[i] = 0.0` of `computeATR` (lines 193-195). -/
def computeATR.zeroBody (i : Int) (atr : List ℚ) : Res (List ℚ) :=
  wr atr i 0

/-- Embedding of `func computeATR(high, low, close []float64, period int)`. -/
def computeATR (high low close : List ℚ) (period : Int) : Res (List ℚ) :=
  let length := len high
  if length ≠ len low ∨ length ≠ len close then
    Res.error "mismatched slice lengths for ATR"
  else if period < 1 ∨ period > length then
    Res.error "invalid ATR period"
  else do
    let tr : List ℚ := make high.length
    let h0 ← rd high 0
    let l0 ← rd low 0
    let tr ← wr tr 0 (h0 - l0)
    let tr ← forRange 1 length (computeATR.trBody high low close) tr
    let atr : List ℚ := make high.length
    let sumTR ← forRange 0 period (computeATR.sumBody tr) 0
    let atr ← wr atr (period - 1) (sumTR / ((period : Int) : ℚ))
    let atr ← forRange period length (computeATR.smoothBody period tr) atr
    let atr ← forRange 0 (period - 1) computeATR.zeroBody atr
    pure atr

/-- The two basic-band slices `basicUB`, `basicLB`. -/
structure SuperTrend.Basic where
  basicUB : List ℚ
  basicLB : List ℚ
  deriving DecidableEq, Repr

/-- Body of the basic-band loop (lines 94-98). -/
def SuperTrend.basicBody (multiplier : ℚ) (high low atrValues : List ℚ) (i : Int)
    (s : SuperTrend.Basic) : Res SuperTrend.Basic := do
  let hi ← rd high i
  let lo ← rd low i
  let midPrice := (hi + lo) / 2
  let a ← rd atrValues i
  let basicUB ← wr s.basicUB i (midPrice + multiplier * a)
  let a2 ← rd atrValues i
  let basicLB ← wr s.basicLB i (midPrice - multiplier * a2)
  pure ⟨basicUB, basicLB⟩

/-- The four output slices of `SuperTrend.Calculate`, in the order returned. -/
structure SuperTrend.Out where
  superTrendLine : List ℚ
  trendDirection : List Int
  finalUB : List ℚ
  finalLB : List ℚ
  deriving DecidableEq, Repr

/-- Body of the main loop of `SuperTrend.Calculate` (lines 108-143): the two
ratchets, then the trend decision. -/
def SuperTrend.trendBody (close : List ℚ) (b : SuperTrend.Basic) (i : Int)
    (s : SuperTrend.Out) : Res SuperTrend.Out := do
  let prevClose ← rd close (i - 1)
  let prevUB ← rd s.finalUB (i - 1)
  let ub ← rd b.basicUB i
  let finalUB ← (if prevClose ≤ prevUB then wr s.finalUB i (mathMin ub prevUB)
    else wr s.finalUB i ub)
  let prevLB ← rd s.finalLB (i - 1)
  let lb ← rd b.basicLB i
  let finalLB ← (if prevClose ≥ prevLB then wr s.finalLB i (mathMax lb prevLB)
    else wr s.finalLB i lb)
  let prevDir ← rd s.trendDirection (i - 1)
  let c ← rd close i
  if prevDir = 1 then
    let fl ← rd finalLB i
    if c ≤ fl then
      let trendDirection ← wr s.trendDirection i (-1)
      let fu ← rd finalUB i
      let superTrendLine ← wr s.superTrendLine i fu
      pure ⟨superTrendLine, trendDirection, finalUB, finalLB⟩
    else
      let trendDirection ← wr s.trendDirection i 1
      let superTrendLine ← wr s.superTrendLine i fl
      pure ⟨superTrendLine, trendDirection, finalUB, finalLB⟩
  else
    let fu ← rd finalUB i
    if c ≥ fu then
      let trendDirection ← wr s.trendDirection i 1
      let fl ← rd finalLB i
      let superTrendLine ← wr s.superTrendLine i fl
      pure ⟨superTrendLine, trendDirection, finalUB, finalLB⟩
    else
      let trendDirection ← wr s.trendDirection i (-1)
      let superTrendLine ← wr s.superTrendLine i fu
      pure ⟨superTrendLine, trendDirection, finalUB, finalLB⟩

/-- Embedding of `func (s *SuperTrend) Calculate(high, low, close []float64)`. -/
def SuperTrend.Calculate (s : SuperTrend) (high low close : List ℚ) : Res SuperTrend.Out :=
  let length := len high
  if length ≠ len low ∨ length ≠ len close then
    Res.error "high, low, close must have same length"
  else if length < s.Period then
    Res.error "not enough data for SuperTrend period"
  else do
    let atrValues ← computeATR high low close s.Period
    let superTrendLine : List ℚ := make high.length
    let trendDirection : List Int := make high.length
    let finalUB : List ℚ := make high.length
    let finalLB : List ℚ := make high.length
    let basic ← forRange 0 length (SuperTrend.basicBody s.Multiplier high low atrValues)
      ⟨make high.length, make high.length⟩
    let ub0 ← rd basic.basicUB 0
    let finalUB ← wr finalUB 0 ub0
    let lb0 ← rd basic.basicLB 0
    let finalLB ← wr finalLB 0 lb0
    let trendDirection ← wr trendDirection 0 1
    let fl0 ← rd finalLB 0
    let superTrendLine ← wr superTrendLine 0 fl0
    forRange 1 length (SuperTrend.trendBody close basic)
      ⟨superTrendLine, trendDirection, finalUB, finalLB⟩

/-! ## KAMA (`indicators/kama.go`) -/

/-- Configuration `type KAMA struct { ERPeriod, FastPeriod, SlowPeriod int }`. -/
structure KAMA where
  ERPeriod : Int
  FastPeriod : Int
  SlowPeriod : Int
  deriving DecidableEq, Repr

/-- Body of the inner loop `volatility += math.Abs(prices[j+1] - prices[j])`
(lines 105-107). -/
def KAMA.volBody (prices : List ℚ) (j : Int) (volatility : ℚ) : Res ℚ := do
  let a ← rd prices (j + 1)
  let b ← rd prices j
  pure (volatility + mathAbs (a - b))

/-- Body of the bar loop of `KAMA.Calculate` (lines 90-123); the `continue` of
the warm-up branch is the first branch of the conditional. -/
def KAMA.body (k : KAMA) (prices : List ℚ) (fastSC slowSC : ℚ) (i : Int) (kama : List ℚ) :
    Res (List ℚ) := do
  if i < k.ERPeriod then
    let prev ← rd kama (i - 1)
    let p ← rd prices i
    wr kama i (prev + fastSC * (p - prev))
  else
    let startIndex := i - k.ERPeriod + 1
    let p ← rd prices i
    let ps ← rd prices startIndex
    let change := mathAbs (p - ps)
    let volatility ← forRange startIndex i (KAMA.volBody prices) 0
    let er : ℚ := if volatility = 0 then 0 else change / volatility
    let sc := er * (fastSC - slowSC) + slowSC
    let sc2 := sc * sc
    let prevKama ← rd kama (i - 1)
    let p2 ← rd prices i
    wr kama i (prevKama + sc2 * (p2 - prevKama))

/-- Embedding of `func (k *KAMA) Calculate(prices []float64)`. -/
def KAMA.Calculate (k : KAMA) (prices : List ℚ) : Res (List ℚ) :=
  let n := len prices
  if n = 0 then
    Res.error "no price data provided for KAMA"
  else if k.ERPeriod < 2 then
    Res.error "ERPeriod must be >= 2 for KAMA"
  else if k.FastPeriod < 1 ∨ k.SlowPeriod < 1 then
    Res.error "fastPeriod and slowPeriod must be >= 1 for KAMA"
  else if n < k.ERPeriod then
    Res.error "not enough data to compute KAMA for the specified ERPeriod"
  else do
    let fastSC : ℚ := 2 / (((k.FastPeriod : Int) : ℚ) + 1)
    let slowSC : ℚ := 2 / (((k.SlowPeriod : Int) : ℚ) + 1)
    let kama : List ℚ := make prices.length
    let initialVal ← rd prices 0
    let kama ← wr kama 0 initialVal
    forRange 1 n (KAMA.body k prices fastSC slowSC) kama

/-- Lines 99-113 of `KAMA.Calculate` in exact arithmetic: the efficiency ratio
of bar `i`, as the loop body computes it once the window is full. -/
def KAMA.erAt (k : KAMA) (prices : List ℚ) (i : Int) : Res ℚ := do
  let startIndex := i - k.ERPeriod + 1
  let p ← rd prices i
  let ps ← rd prices startIndex
  let change := mathAbs (p - ps)
  let volatility ← forRange startIndex i (KAMA.volBody prices) 0
  pure (if volatility = 0 then 0 else change / volatility)

/-! ## `float64` rounding

The exact model above takes every `float64` operation without rounding. The
definitions of this section round: they are used to evaluate the efficiency
ratio and the smoothing constant of `kama.go` as the compiled code computes
them, each operation rounded to the nearest `float64`. -/

/-- The power `2^e` of an integer exponent. -/
def pow2 (e : Int) : ℚ :=
  if 0 ≤ e then ((2 ^ e.toNat : Nat) : ℚ) else 1 / ((2 ^ (-e).toNat : Nat) : ℚ)

/-- Number of halvings that bring `n` below 2, at most `fuel` of them. -/
def log2Fuel : Nat → Nat → Nat
  | 0, _ => 0
  | fuel + 1, n => if 2 ≤ n then log2Fuel fuel (n / 2) + 1 else 0

/-- For `n > 0`, the exponent `e` with `2^e <= n < 2^(e+1)`. -/
def natLog2 (n : Nat) : Nat :=
  log2Fuel n n

/-- For `q > 0`, the exponent `e` with `2^e <= q < 2^(e+1)`: the difference of
the exponents of numerator and denominator, or one less. -/
def floorLog2 (q : ℚ) : Int :=
  let k : Int := (natLog2 q.num.toNat : Int) - (natLog2 q.den : Int)
  if pow2 k ≤ q then k else k - 1

/-- The integer nearest to `q`; a tie goes to the even integer. -/
def roundHalfEven (q : ℚ) : Int :=
  let f := Rat.floor q
  let r := q - (f : ℚ)
  if r < 1 / 2 then f
  else if 1 / 2 < r then f + 1
  else if f % 2 = 0 then f
  else f + 1

/-- IEEE 754 binary64 rounding, to nearest with ties to even, of an exact
result `q` of magnitude at most `math.MaxFloat64`: the nearest multiple of
the unit in the last place `2^e`, where `e = floorLog2 |q| - 52` for a normal
number (53 significant bits) and `e = -1074` in the subnormal range. -/
def f64Round (q : ℚ) : ℚ :=
  if q = 0 then 0
  else
    let e := max (floorLog2 (mathAbs q) - 52) (-1074)
    (roundHalfEven (q / pow2 e) : ℚ) * pow2 e

/-- Go `a + b` on `float64`. -/
def f64Add (a b : ℚ) : ℚ :=
  f64Round (a + b)

/-- Go `a - b` on `float64`. -/
def f64Sub (a b : ℚ) : ℚ :=
  f64Round (a - b)

/-- Go `a * b` on `float64`. -/
def f64Mul (a b : ℚ) : ℚ :=
  f64Round (a * b)

/-- Go `a / b` on `float64`, for `b` not zero. -/
def f64Div (a b : ℚ) : ℚ :=
  f64Round (a / b)

/-- Body of the inner loop `volatility += math.Abs(prices[j+1] - prices[j])`
(lines 105-107) in `float64` arithmetic: the difference and the sum are each
rounded; `math.Abs` is exact. -/
def KAMA.volBodyF64 (prices : List ℚ) (j : Int) (volatility : ℚ) : Res ℚ := do
  let a ← rd prices (j + 1)
  let b ← rd prices j
  pure (f64Add volatility (mathAbs (f64Sub a b)))

/-- Lines 99-113 of `KAMA.Calculate` in `float64` arithmetic: the efficiency
ratio of bar `i`. -/
def KAMA.erAtF64 (k : KAMA) (prices : List ℚ) (i : Int) : Res ℚ := do
  let startIndex := i - k.ERPeriod + 1
  let p ← rd prices i
  let ps ← rd prices startIndex
  let change := mathAbs (f64Sub p ps)
  let volatility ← forRange startIndex i (KAMA.volBodyF64 prices) 0
  pure (if volatility = 0 then 0 else f64Div change volatility)

/-- Line 77 of `KAMA.Calculate` in `float64` arithmetic:
`fastSC := 2.0 / (float64(k.FastPeriod) + 1.0)`. -/
def KAMA.fastSCF64 (k : KAMA) : ℚ :=
  f64Div 2 (f64Add (f64Round (k.FastPeriod : ℚ)) 1)

/-- Line 78 of `KAMA.Calculate` in `float64` arithmetic:
`slowSC := 2.0 / (float64(k.SlowPeriod) + 1.0)`. -/
def KAMA.slowSCF64 (k : KAMA) : ℚ :=
  f64Div 2 (f64Add (f64Round (k.SlowPeriod : ℚ)) 1)

/-- Lines 99-118 of `KAMA.Calculate` in `float64` arithmetic: the smoothing
factor `sc2` of bar `i`, the product and the sum of line 117 rounded one
after the other (a default amd64 build emits no fused multiply-add). -/
def KAMA.sc2AtF64 (k : KAMA) (prices : List ℚ) (i : Int) : Res ℚ := do
  let er ← KAMA.erAtF64 k prices i
  let sc := f64Add (f64Mul er (f64Sub (KAMA.fastSCF64 k) (KAMA.slowSCF64 k))) (KAMA.slowSCF64 k)
  pure (f64Mul sc sc)

/-- Body of the bar loop of `KAMA.Calculate` (lines 90-123) in `float64`
arithmetic, every operation rounded by itself; the block of lines 99-118 is
`KAMA.sc2AtF64`. -/
def KAMA.bodyF64 (k : KAMA) (prices : List ℚ) (i : Int) (kama : List ℚ) : Res (List ℚ) := do
  if i < k.ERPeriod then
    let prev ← rd kama (i - 1)
    let p ← rd prices i
    wr kama i (f64Add prev (f64Mul (KAMA.fastSCF64 k) (f64Sub p prev)))
  else
    let sc2 ← KAMA.sc2AtF64 k prices i
    let prevKama ← rd kama (i - 1)
    let p2 ← rd prices i
    wr kama i (f64Add prevKama (f64Mul sc2 (f64Sub p2 prevKama)))

/-- Embedding of `func (k *KAMA) Calculate(prices []float64)` in `float64`
arithmetic, for prices that are `float64` values. -/
def KAMA.CalculateF64 (k : KAMA) (prices : List ℚ) : Res (List ℚ) :=
  let n := len prices
  if n = 0 then
    Res.error "no price data provided for KAMA"
  else if k.ERPeriod < 2 then
    Res.error "ERPeriod must be >= 2 for KAMA"
  else if k.FastPeriod < 1 ∨ k.SlowPeriod < 1 then
    Res.error "fastPeriod and slowPeriod must be >= 1 for KAMA"
  else if n < k.ERPeriod then
    Res.error "not enough data to compute KAMA for the specified ERPeriod"
  else do
    let kama : List ℚ := make prices.length
    let initialVal ← rd prices 0
    let kama ← wr kama 0 initialVal
    forRange 1 n (KAMA.bodyF64 k prices) kama

/-! ## Ichimoku (`indicators/ichimoku.go`) -/

/-- Go `math.MaxFloat64`, the largest finite `float64`: `(2^53 - 1) * 2^971`. -/
def maxFloat64 : ℚ :=
  (2 ^ 53 - 1) * 2 ^ 971

/-- A `float64` cell of an output slice: a number of the exact model, or the
NaN marker that `Ichimoku.Calculate` stores with `math.NaN()`. -/
inductive F64 where
  | num (q : ℚ) : F64
  | nan : F64
  deriving DecidableEq, Repr

/-- The zero value of a `float64` cell, as `make` produces it. -/
instance : Zero F64 where
  zero := F64.num 0

/-- Go `math.IsNaN`. -/
def F64.isNaN : F64 → Bool
  | F64.nan => true
  | F64.num _ => false

/-- Addition of two cells; NaN propagates. -/
def F64.add : F64 → F64 → F64
  | F64.num a, F64.num b => F64.num (a + b)
  | _, _ => F64.nan

/-- Division of a cell by a finite non-zero constant; NaN propagates. -/
def F64.divBy : F64 → ℚ → F64
  | F64.num a, d => F64.num (a / d)
  | F64.nan, _ => F64.nan

/-- Configuration `type Ichimoku struct { TenkanPeriod, KijunPeriod,
SenkouPeriod, Shift int }`. -/
structure Ichimoku where
  TenkanPeriod : Int
  KijunPeriod : Int
  SenkouPeriod : Int
  Shift : Int
  deriving DecidableEq, Repr

/-- The five output slices of `Ichimoku.Calculate`, in the order returned. -/
structure Ichimoku.Out where
  tenkanVals : List F64
  kijunVals : List F64
  spanA : List F64
  spanB : List F64
  chikouSpan : List F64
  deriving DecidableEq, Repr

/-- Body of the loop that fills the five slices with NaN (lines 55-61). -/
def Ichimoku.nanBody (idx : Int) (s : Ichimoku.Out) : Res Ichimoku.Out := do
  let tenkanVals ← wr s.tenkanVals idx F64.nan
  let kijunVals ← wr s.kijunVals idx F64.nan
  let spanA ← wr s.spanA idx F64.nan
  let spanB ← wr s.spanB idx F64.nan
  let chikouSpan ← wr s.chikouSpan idx F64.nan
  pure ⟨tenkanVals, kijunVals, spanA, spanB, chikouSpan⟩

/-- The two locals `highMax`, `lowMin` of the closure `getMinMax`. -/
structure Ichimoku.MinMax where
  highMax : ℚ
  lowMin : ℚ
  deriving DecidableEq, Repr

/-- Body of the loop of `getMinMax` (lines 67-74). -/
def Ichimoku.minMaxBody (high low : List ℚ) (j : Int) (s : Ichimoku.MinMax) :
    Res Ichimoku.MinMax := do
  let h ← rd high j
  let highMax := if h > s.highMax then h else s.highMax
  let l ← rd low j
  let lowMin := if l < s.lowMin then l else s.lowMin
  pure ⟨highMax, lowMin⟩

/-- The closure `getMinMax(start, end)` (lines 64-76): the loop
`for j := start; j <= end; j++` started from `-math.MaxFloat64` and
`math.MaxFloat64`. -/
def Ichimoku.getMinMax (high low : List ℚ) (start stop : Int) : Res Ichimoku.MinMax :=
  forRange start (stop + 1) (Ichimoku.minMaxBody high low) ⟨-maxFloat64, maxFloat64⟩

/-- Body of the Tenkan loop (lines 80-84) and of the Kijun loop (lines 87-91),
which differ only in the period and the slice written. The start of the
window, `idx - (period - 1)`, is computed in `int` arithmetic. -/
def Ichimoku.lineBody (period : Int) (high low : List ℚ) (idx : Int) (vals : List F64) :
    Res (List F64) := do
  let start := subInt idx (subInt period 1)
  let mm ← Ichimoku.getMinMax high low start idx
  wr vals idx (F64.num ((mm.highMax + mm.lowMin) / 2))

/-- Body of the Senkou Span A loop (lines 96-104); `continue` is the branch
that leaves the slice unchanged, and `||` reads `kijunVals[idx]` only when
`tenkanVals[idx]` is not NaN. `forwardIndex := idx + i.Shift` is an `int`
sum: when it overflows it wraps to a negative index, which passes the test
`forwardIndex < n`. -/
def Ichimoku.spanABody (shift n : Int) (tenkanVals kijunVals : List F64) (idx : Int)
    (spanA : List F64) : Res (List F64) := do
  let t ← rd tenkanVals idx
  if t.isNaN then
    pure spanA
  else
    let k ← rd kijunVals idx
    if k.isNaN then
      pure spanA
    else
      let forwardIndex := addInt idx shift
      if forwardIndex < n then
        wr spanA forwardIndex (F64.divBy (F64.add t k) 2)
      else
        pure spanA

/-- Body of the Senkou Span B loop (lines 108-115), with the same `int` sum
`idx + i.Shift` as the Span A loop. -/
def Ichimoku.spanBBody (period shift n : Int) (high low : List ℚ) (idx : Int)
    (spanB : List F64) : Res (List F64) := do
  let start := subInt idx (subInt period 1)
  let mm ← Ichimoku.getMinMax high low start idx
  let forwardIndex := addInt idx shift
  if forwardIndex < n then
    wr spanB forwardIndex (F64.num ((mm.highMax + mm.lowMin) / 2))
  else
    pure spanB

/-- Body of the Chikou loop (lines 118-123); `backIndex := idx - i.Shift` is
an `int` difference. -/
def Ichimoku.chikouBody (shift : Int) (close : List ℚ) (idx : Int) (chikouSpan : List F64) :
    Res (List F64) := do
  let backIndex := subInt idx shift
  if backIndex ≥ 0 then
    let c ← rd close idx
    wr chikouSpan backIndex (F64.num c)
  else
    pure chikouSpan

/-- Embedding of `func (i *Ichimoku) Calculate(high, low, close []float64)`.
The inputs are finite values of the exact model; the outputs may hold NaN.
The loop starts `i.TenkanPeriod - 1`, `i.KijunPeriod - 1` and
`i.SenkouPeriod - 1` are `int` differences. -/
def Ichimoku.Calculate (i : Ichimoku) (high low close : List ℚ) : Res Ichimoku.Out :=
  let n := len high
  if n ≠ len low ∨ n ≠ len close then
    Res.error "high, low, close must have the same length"
  else if n < i.SenkouPeriod then
    Res.error "not enough data for Ichimoku: need >= senkouPeriod bars"
  else do
    let o ← forRange 0 n Ichimoku.nanBody
      ⟨make high.length, make high.length, make high.length, make high.length,
        make high.length⟩
    let tenkanVals ← forRange (subInt i.TenkanPeriod 1) n
      (Ichimoku.lineBody i.TenkanPeriod high low) o.tenkanVals
    let kijunVals ← forRange (subInt i.KijunPeriod 1) n
      (Ichimoku.lineBody i.KijunPeriod high low) o.kijunVals
    let spanA ← forRange 0 n (Ichimoku.spanABody i.Shift n tenkanVals kijunVals) o.spanA
    let spanB ← forRange (subInt i.SenkouPeriod 1) n
      (Ichimoku.spanBBody i.SenkouPeriod i.Shift n high low) o.spanB
    let chikouSpan ← forRange 0 n (Ichimoku.chikouBody i.Shift close) o.chikouSpan
    pure ⟨tenkanVals, kijunVals, spanA, spanB, chikouSpan⟩

/-! ## OBV (`indicators/obv.go`) -/

/-- Configuration `type OBV struct{}`: no parameter. -/
structure OBV where
  deriving DecidableEq, Repr

/-- Body of the loop of `OBV.Calculate` (lines 37-46). -/
def OBV.body (closes volumes : List ℚ) (i : Int) (obv : List ℚ) : Res (List ℚ) := do
  let c ← rd closes i
  let pc ← rd closes (i - 1)
  if c > pc then
    let prev ← rd obv (i - 1)
    let v ← rd volumes i
    wr obv i (prev + v)
  else
    let c2 ← rd closes i
    let pc2 ← rd closes (i - 1)
    if c2 < pc2 then
      let prev ← rd obv (i - 1)
      let v ← rd volumes i
      wr obv i (prev - v)
    else
      let prev ← rd obv (i - 1)
      wr obv i prev

/-- Embedding of `func (o *OBV) Calculate(closes, volumes []float64)`. -/
def OBV.Calculate (_o : OBV) (closes volumes : List ℚ) : Res (List ℚ) :=
  if len closes ≠ len volumes then
    Res.error "closes and volumes must have the same length"
  else if len closes = 0 then
    Res.error "empty data set"
  else do
    let obv : List ℚ := make closes.length
    let v0 ← rd volumes 0
    let obv ← wr obv 0 v0
    forRange 1 (len closes) (OBV.body closes volumes) obv

/-! ## RSI (`indicators/rsi.go`) -/

/-- Configuration `type RSI struct { Window int }`. -/
structure RSI where
  Window : Int
  deriving DecidableEq, Repr

/-- The two slices `gains`, `losses` of `RSI.Calculate`. -/
structure RSI.Moves where
  gains : List ℚ
  losses : List ℚ
  deriving DecidableEq, Repr

/-- Body of the difference loop of `RSI.Calculate` (lines 21-28). -/
def RSI.diffBody (prices : List ℚ) (i : Int) (s : RSI.Moves) : Res RSI.Moves := do
  let p ← rd prices i
  let pp ← rd prices (i - 1)
  let diff := p - pp
  if diff > 0 then
    let gains ← wr s.gains (i - 1) diff
    pure ⟨gains, s.losses⟩
  else
    let losses ← wr s.losses (i - 1) (-diff)
    pure ⟨s.gains, losses⟩

/-- Body of the warm-up loop `rsiVals[i] = 0` (lines 30-32). -/
def RSI.zeroBody (i : Int) (rsiVals : List ℚ) : Res (List ℚ) :=
  wr rsiVals i 0

/-- The running sums `sumG`, `sumL`. -/
structure RSI.Sums where
  sumG : ℚ
  sumL : ℚ
  deriving DecidableEq, Repr

/-- Body of the seed loop (lines 34-37). -/
def RSI.sumBody (m : RSI.Moves) (i : Int) (s : RSI.Sums) : Res RSI.Sums := do
  let g ← rd m.gains i
  let l ← rd m.losses i
  pure ⟨s.sumG + g, s.sumL + l⟩

/-- The variables that the last loop of `RSI.Calculate` carries: the output
slice and the running averages `avgG`, `avgL` and the ratio `rs`. -/
structure RSI.State where
  rsiVals : List ℚ
  avgG : ℚ
  avgL : ℚ
  rs : ℚ
  deriving DecidableEq, Repr

/-- Body of the smoothing loop (lines 45-54). -/
def RSI.smoothBody (window : Int) (m : RSI.Moves) (i : Int) (s : RSI.State) :
    Res RSI.State := do
  let g ← rd m.gains (i - 1)
  let avgG := ((s.avgG * ((window - 1 : Int) : ℚ)) + g) / ((window : Int) : ℚ)
  let l ← rd m.losses (i - 1)
  let avgL := ((s.avgL * ((window - 1 : Int) : ℚ)) + l) / ((window : Int) : ℚ)
  if avgL = 0 then
    let rsiVals ← wr s.rsiVals i 100
    pure ⟨rsiVals, avgG, avgL, s.rs⟩
  else
    let rs := avgG / avgL
    let rsiVals ← wr s.rsiVals i (100 - (100 / (1 + rs)))
    pure ⟨rsiVals, avgG, avgL, rs⟩

/-- Embedding of `func (r *RSI) Calculate(prices []float64)`. The call
`make([]float64, len(prices)-1)` panics on a negative length. -/
def RSI.Calculate (r : RSI) (prices : List ℚ) : Res (List ℚ) :=
  if len prices < r.Window then
    Res.error "not enough data for RSI"
  else if len prices - 1 < 0 then
    Res.panic
  else do
    let m ← forRange 1 (len prices) (RSI.diffBody prices)
      ⟨make (prices.length - 1), make (prices.length - 1)⟩
    let rsiVals : List ℚ := make prices.length
    let rsiVals ← forRange 0 r.Window RSI.zeroBody rsiVals
    let sums ← forRange 0 r.Window (RSI.sumBody m) ⟨0, 0⟩
    let avgG := sums.sumG / ((r.Window : Int) : ℚ)
    let avgL := sums.sumL / ((r.Window : Int) : ℚ)
    let rs : ℚ := if avgL ≠ 0 then avgG / avgL else 0
    let rsiVals ← wr rsiVals r.Window (100 - (100 / (1 + rs)))
    let s ← forRange (r.Window + 1) (len prices) (RSI.smoothBody r.Window m)
      ⟨rsiVals, avgG, avgL, rs⟩
    pure s.rsiVals

/-! ## Reference series, written from the claims

The series below restate the formulas of the specification over the input
lists; the theorems compare them with what the embedded code returns. -/

/-- True range of the claim: `TR[0] = high[0]-low[0]`, and for `i >= 1`
`TR[i] = max(high[i]-low[i], |high[i]-close[i-1]|, |low[i]-close[i-1]|)`. -/
def trueRange (highs lows closes : List ℚ) (i : Nat) : ℚ :=
  if i = 0 then highs.getD 0 0 - lows.getD 0 0
  else max (highs.getD i 0 - lows.getD i 0)
    (max |highs.getD i 0 - closes.getD (i - 1) 0| |lows.getD i 0 - closes.getD (i - 1) 0|)

/-- Average-form Wilder smoothing of `raw` with period `w`: `0` before index
`w-1`, the mean of the first `w` raw values at index `w-1`, and afterwards
`s[i] = (s[i-1]*(w-1) + raw[i]) / w`. -/
def wilderAvg (w : Nat) (raw : Nat → ℚ) : Nat → ℚ
  | 0 => if 1 < w then 0 else (∑ j in Finset.range w, raw j) / (w : ℚ)
  | i + 1 =>
    if i + 2 < w then 0
    else if i + 2 = w then (∑ j in Finset.range w, raw j) / (w : ℚ)
    else (wilderAvg w raw i * ((w : ℚ) - 1) + raw (i + 1)) / (w : ℚ)

/-- Raw `+DM` of the claim: `0` at bar 0, and at bar `i >= 1` the up move
`high[i]-high[i-1]` when it exceeds the down move and is positive, else `0`. -/
def plusDM (highs lows : List ℚ) (i : Nat) : ℚ :=
  if i = 0 then 0
  else if highs.getD i 0 - highs.getD (i - 1) 0 > lows.getD (i - 1) 0 - lows.getD i 0
      ∧ highs.getD i 0 - highs.getD (i - 1) 0 > 0
    then highs.getD i 0 - highs.getD (i - 1) 0 else 0

/-- Raw `-DM` of the claim: `0` at bar 0, and at bar `i >= 1` the down move
`low[i-1]-low[i]` when it exceeds the up move and is positive, else `0`. -/
def minusDM (highs lows : List ℚ) (i : Nat) : ℚ :=
  if i = 0 then 0
  else if lows.getD (i - 1) 0 - lows.getD i 0 > highs.getD i 0 - highs.getD (i - 1) 0
      ∧ lows.getD (i - 1) 0 - lows.getD i 0 > 0
    then lows.getD (i - 1) 0 - lows.getD i 0 else 0

/-- Accumulator-form Wilder smoothing of `raw` with period `w`: `0` before
index `w-1`, the sum of the first `w` raw values at index `w-1`, and afterwards
`X[i] = X[i-1] - X[i-1]/w + raw[i]`. -/
def wilderAcc (w : Nat) (raw : Nat → ℚ) : Nat → ℚ
  | 0 => if 1 < w then 0 else ∑ j in Finset.range w, raw j
  | i + 1 =>
    if i + 2 < w then 0
    else if i + 2 = w then ∑ j in Finset.range w, raw j
    else wilderAcc w raw i - wilderAcc w raw i / (w : ℚ) + raw (i + 1)

/-- Directional indicator of the claim from a smoothed movement `sx` and the
smoothed true range `st`: `0` before index `w-1`, then `100*sx[i]/st[i]`,
and `0` when `st[i] = 0`. -/
def dirIndex (w : Nat) (sx st : Nat → ℚ) (i : Nat) : ℚ :=
  if i + 1 < w then 0
  else if st i = 0 then 0
  else 100 * sx i / st i

/-- The `+DI` series of the claim for period `w`. -/
def plusDISeries (w : Nat) (highs lows closes : List ℚ) : Nat → ℚ :=
  dirIndex w (wilderAcc w (plusDM highs lows)) (wilderAcc w (trueRange highs lows closes))

/-- The `-DI` series of the claim for period `w`. -/
def minusDISeries (w : Nat) (highs lows closes : List ℚ) : Nat → ℚ :=
  dirIndex w (wilderAcc w (minusDM highs lows)) (wilderAcc w (trueRange highs lows closes))

/-- The DX series of the claim: `0` before index `w-1`, then
`100*|+DI - -DI|/(+DI + -DI)`, and `0` when that sum is `0`. -/
def dxSeries (w : Nat) (pdi mdi : Nat → ℚ) (i : Nat) : ℚ :=
  if i + 1 < w then 0
  else if pdi i + mdi i = 0 then 0
  else 100 * |pdi i - mdi i| / (pdi i + mdi i)

/-- One point of the SAR machine of the claim: the SAR value of a bar and the
trend, extreme point and acceleration factor held after that bar. -/
structure SarPoint where
  sar : ℚ
  up : Bool
  ep : ℚ
  af : ℚ
  deriving DecidableEq, Repr

/-- Initial point of the claim: up trend exactly when the midpoint of bar 1
exceeds that of bar 0. -/
def sarStart (p : ParabolicSAR) (high low : List ℚ) : SarPoint :=
  if (high.getD 1 0 + low.getD 1 0) / 2 > (high.getD 0 0 + low.getD 0 0) / 2
  then ⟨low.getD 0 0, true, high.getD 0 0, p.StartAF⟩
  else ⟨high.getD 0 0, false, low.getD 0 0, p.StartAF⟩

/-- Transition of the claim at bar `i >= 1`. -/
def sarNext (p : ParabolicSAR) (high low : List ℚ) (i : Nat) (s : SarPoint) : SarPoint :=
  if s.up then
    if s.sar + s.af * (s.ep - s.sar) > min (low.getD (i - 1) 0) (low.getD i 0) then
      ⟨max (high.getD (i - 1) 0) (high.getD i 0), false, low.getD i 0, p.StartAF⟩
    else if high.getD i 0 > s.ep then
      ⟨s.sar + s.af * (s.ep - s.sar), true, high.getD i 0, min (s.af + p.IncrementAF) p.MaxAF⟩
    else
      ⟨s.sar + s.af * (s.ep - s.sar), true, s.ep, s.af⟩
  else
    if s.sar + s.af * (s.ep - s.sar) < max (high.getD (i - 1) 0) (high.getD i 0) then
      ⟨min (low.getD (i - 1) 0) (low.getD i 0), true, high.getD i 0, p.StartAF⟩
    else if low.getD i 0 < s.ep then
      ⟨s.sar + s.af * (s.ep - s.sar), false, low.getD i 0, min (s.af + p.IncrementAF) p.MaxAF⟩
    else
      ⟨s.sar + s.af * (s.ep - s.sar), false, s.ep, s.af⟩

/-- The run of the SAR machine of the claim. -/
def sarTrace (p : ParabolicSAR) (high low : List ℚ) : Nat → SarPoint
  | 0 => sarStart p high low
  | i + 1 => sarNext p high low (i + 1) (sarTrace p high low i)

/-- Basic upper band of the claim: `mid[i] + Multiplier*ATR[i]` with
`mid[i] = (high[i]+low[i])/2`. -/
def basicUpper (mult : ℚ) (high low : List ℚ) (atr : Nat → ℚ) (i : Nat) : ℚ :=
  (high.getD i 0 + low.getD i 0) / 2 + mult * atr i

/-- Basic lower band of the claim: `mid[i] - Multiplier*ATR[i]`. -/
def basicLower (mult : ℚ) (high low : List ℚ) (atr : Nat → ℚ) (i : Nat) : ℚ :=
  (high.getD i 0 + low.getD i 0) / 2 - mult * atr i

/-- Final upper band of the claim: the basic band at bar 0, then
`min(UB[i], finalUB[i-1])` when `close[i-1] <= finalUB[i-1]`, else `UB[i]`. -/
def finalUpper (ub : Nat → ℚ) (close : List ℚ) : Nat → ℚ
  | 0 => ub 0
  | i + 1 =>
    if close.getD i 0 ≤ finalUpper ub close i then min (ub (i + 1)) (finalUpper ub close i)
    else ub (i + 1)

/-- Final lower band of the claim: the basic band at bar 0, then
`max(LB[i], finalLB[i-1])` when `close[i-1] >= finalLB[i-1]`, else `LB[i]`. -/
def finalLower (lb : Nat → ℚ) (close : List ℚ) : Nat → ℚ
  | 0 => lb 0
  | i + 1 =>
    if close.getD i 0 ≥ finalLower lb close i then max (lb (i + 1)) (finalLower lb close i)
    else lb (i + 1)

/-- Trend direction of the claim: `1` at bar 0; an up trend flips to `-1` when
`close[i] <= finalLB[i]`, a down trend flips to `1` when `close[i] >= finalUB[i]`. -/
def trendDir (fub flb : Nat → ℚ) (close : List ℚ) : Nat → Int
  | 0 => 1
  | i + 1 =>
    if trendDir fub flb close i = 1 then
      if close.getD (i + 1) 0 ≤ flb (i + 1) then -1 else 1
    else
      if close.getD (i + 1) 0 ≥ fub (i + 1) then 1 else -1

/-- Active line of the claim: `finalLB` while up, `finalUB` while down. -/
def trendLine (fub flb : Nat → ℚ) (close : List ℚ) (i : Nat) : ℚ :=
  if trendDir fub flb close i = 1 then flb i else fub i

/-- Final upper band of SuperTrend with period `k` over the average-form
Wilder ATR, as the claim composes it. -/
def superUB (k : Nat) (mult : ℚ) (high low close : List ℚ) : Nat → ℚ :=
  finalUpper (basicUpper mult high low (wilderAvg k (trueRange high low close))) close

/-- Final lower band of SuperTrend with period `k`, as the claim composes it. -/
def superLB (k : Nat) (mult : ℚ) (high low close : List ℚ) : Nat → ℚ :=
  finalLower (basicLower mult high low (wilderAvg k (trueRange high low close))) close

/-- Volatility of the claim at bar `i` for ER period `e`: the sum of
`|prices[j+1]-prices[j]|` for `j` from `i-e+1` to `i-1`. -/
def kamaVolatility (prices : List ℚ) (e i : Nat) : ℚ :=
  ∑ j in Finset.Ico (i + 1 - e) i, |prices.getD (j + 1) 0 - prices.getD j 0|

/-- Efficiency ratio of the claim: `|prices[i]-prices[i-e+1]| / V`, and `0`
when the volatility `V` is `0`. -/
def kamaER (prices : List ℚ) (e i : Nat) : ℚ :=
  if kamaVolatility prices e i = 0 then 0
  else |prices.getD i 0 - prices.getD (i + 1 - e) 0| / kamaVolatility prices e i

/-- KAMA series of the claim: `prices[0]` at bar 0, fixed `fastSC` smoothing
while `i < e`, and smoothing by `(ER*(fastSC-slowSC)+slowSC)^2` from bar `e`. -/
def kamaSeries (prices : List ℚ) (e : Nat) (fastSC slowSC : ℚ) : Nat → ℚ
  | 0 => prices.getD 0 0
  | i + 1 =>
    if i + 1 < e then
      kamaSeries prices e fastSC slowSC i
        + fastSC * (prices.getD (i + 1) 0 - kamaSeries prices e fastSC slowSC i)
    else
      kamaSeries prices e fastSC slowSC i
        + (kamaER prices e (i + 1) * (fastSC - slowSC) + slowSC) ^ 2
          * (prices.getD (i + 1) 0 - kamaSeries prices e fastSC slowSC i)

/-- Value of `highMax` in `getMinMax` after `k` bars from `start`: the running
maximum started from `-math.MaxFloat64`. -/
def sentinelMax (xs : List ℚ) (start : Nat) : Nat → ℚ
  | 0 => -maxFloat64
  | k + 1 =>
    if xs.getD (start + k) 0 > sentinelMax xs start k then xs.getD (start + k) 0
    else sentinelMax xs start k

/-- Value of `lowMin` in `getMinMax` after `k` bars from `start`: the running
minimum started from `math.MaxFloat64`. -/
def sentinelMin (xs : List ℚ) (start : Nat) : Nat → ℚ
  | 0 => maxFloat64
  | k + 1 =>
    if xs.getD (start + k) 0 < sentinelMin xs start k then xs.getD (start + k) 0
    else sentinelMin xs start k

/-- `M` is the maximum of `xs[lo..hi]`, bounds inclusive. -/
def IsWindowMax (xs : List ℚ) (lo hi : Nat) (M : ℚ) : Prop :=
  (∀ j, lo ≤ j → j ≤ hi → xs.getD j 0 ≤ M) ∧ ∃ j, lo ≤ j ∧ j ≤ hi ∧ xs.getD j 0 = M

/-- `m` is the minimum of `xs[lo..hi]`, bounds inclusive. -/
def IsWindowMin (xs : List ℚ) (lo hi : Nat) (m : ℚ) : Prop :=
  (∀ j, lo ≤ j → j ≤ hi → m ≤ xs.getD j 0) ∧ ∃ j, lo ≤ j ∧ j ≤ hi ∧ xs.getD j 0 = m

/-- Midpoint line of period `P` (Tenkan, Kijun, and the unshifted Senkou B):
NaN before index `P-1`, then the midpoint of the window of `P` bars ending at
the index. -/
def midLine (high low : List ℚ) (P : Nat) (i : Nat) : F64 :=
  if i + 1 < P then F64.nan
  else F64.num ((sentinelMax high (i + 1 - P) P + sentinelMin low (i + 1 - P) P) / 2)

/-- Senkou Span A of the claim: the midpoint of Tenkan and Kijun, `shift`
bars earlier. -/
def spanASeries (high low : List ℚ) (T K shift : Nat) (j : Nat) : F64 :=
  if j < shift then F64.nan
  else F64.divBy (F64.add (midLine high low T (j - shift)) (midLine high low K (j - shift))) 2

/-- Senkou Span B of the claim: the midpoint line of the Senkou period,
`shift` bars earlier. -/
def spanBSeries (high low : List ℚ) (S shift : Nat) (j : Nat) : F64 :=
  if j < shift then F64.nan else midLine high low S (j - shift)

/-- Chikou span of the claim: the close `shift` bars later, NaN when there is
no such bar. -/
def chikouSeries (close : List ℚ) (shift : Nat) (j : Nat) : F64 :=
  if j + shift < close.length then F64.num (close.getD (j + shift) 0) else F64.nan

/-- A slice of length `n` written through a forward shift: the entries below
`m + shift` are those of `F`, the others still hold NaN. -/
def ShiftFilled (n m shift : Nat) (F : Nat → F64) (t : List F64) : Prop :=
  t.length = n ∧ ∀ j, j < n → t.getD j 0 = if j < m + shift then F j else F64.nan

/-- The entries of a slice are finite `float64` values: every one lies between
`-math.MaxFloat64` and `math.MaxFloat64`. -/
def Float64Range (xs : List ℚ) : Prop :=
  ∀ x ∈ xs, -maxFloat64 ≤ x ∧ x ≤ maxFloat64

/-- Membership in the finite `float64` range can be checked entry by entry. -/
instance Float64Range.decidable (xs : List ℚ) : Decidable (Float64Range xs) := by
  unfold Float64Range
  infer_instance

/-- On-balance volume of the claim: `volumes[0]` at bar 0; afterwards the
previous value plus `volumes[i]` on a higher close, minus `volumes[i]` on a
lower close, unchanged on an equal close. -/
def obvSeries (closes volumes : List ℚ) : Nat → ℚ
  | 0 => volumes.getD 0 0
  | i + 1 =>
    if closes.getD (i + 1) 0 > closes.getD i 0 then
      obvSeries closes volumes i + volumes.getD (i + 1) 0
    else if closes.getD (i + 1) 0 < closes.getD i 0 then
      obvSeries closes volumes i - volumes.getD (i + 1) 0
    else obvSeries closes volumes i

/-- Trend flag that `ParabolicSAR.Calculate` holds after bar `i` (`false` when
the run does not reach that bar). -/
def ParabolicSAR.trendAfter (p : ParabolicSAR) (high low : List ℚ) (i : Nat) : Bool :=
  match ParabolicSAR.stateAfter p high low i with
  | Res.ok s => s.upTrend
  | _ => false

/-- Bar `i >= 1` flips the trend: the flag held after bar `i` differs from the
flag held after bar `i-1`. -/
def ParabolicSAR.flipsAt (p : ParabolicSAR) (high low : List ℚ) (i : Nat) : Bool :=
  decide (1 ≤ i) && (ParabolicSAR.trendAfter p high low i
    != ParabolicSAR.trendAfter p high low (i - 1))

/-- Index of the most recent bar `<= i` that flipped the trend, `0` when no
bar has flipped yet. -/
def ParabolicSAR.lastFlip (p : ParabolicSAR) (high low : List ℚ) : Nat → Nat
  | 0 => 0
  | i + 1 =>
    if ParabolicSAR.flipsAt p high low (i + 1) then i + 1
    else ParabolicSAR.lastFlip p high low i

/-- Bar `i >= 1` brings a new extreme for the state held after bar `i-1`: a
high above the extreme point in an up trend, a low below it in a down trend. -/
def ParabolicSAR.newExtremeAt (p : ParabolicSAR) (high low : List ℚ) (i : Nat) : Bool :=
  match ParabolicSAR.stateAfter p high low (i - 1) with
  | Res.ok s =>
    if s.upTrend then decide (high.getD i 0 > s.ep) else decide (low.getD i 0 < s.ep)
  | _ => false

/-- Number of bars that brought a new extreme since the last flip (or since
bar 0), counted after bar `i`. -/
def ParabolicSAR.extremesSinceFlip (p : ParabolicSAR) (high low : List ℚ) : Nat → Nat
  | 0 => 0
  | i + 1 =>
    if ParabolicSAR.flipsAt p high low (i + 1) then 0
    else if ParabolicSAR.newExtremeAt p high low (i + 1) then
      ParabolicSAR.extremesSinceFlip p high low i + 1
    else ParabolicSAR.extremesSinceFlip p high low i

/-- A slice of length `n` whose entries below `m` are those of `F`. -/
def FilledTo {α : Type} [Zero α] (n m : Nat) (F : Nat → α) (t : List α) : Prop :=
  t.length = n ∧ ∀ j, j < m → t.getD j 0 = F j

/-! ## Basic facts -/

@[simp] theorem Res.ok_bind {α β : Type} (v : α) (f : α → Res β) :
    (Res.ok v >>= f) = f v := rfl

@[simp] theorem Res.pure_eq {α : Type} (v : α) : (pure v : Res α) = Res.ok v := rfl

theorem utilsMax_eq (a b : ℚ) : utilsMax a b = max a b := by
  unfold utilsMax
  split_ifs with h
  · exact (max_eq_left h).symm
  · exact (max_eq_right (le_of_lt (not_le.mp h))).symm

theorem mathAbs_eq (x : ℚ) : mathAbs x = |x| := by
  unfold mathAbs
  split_ifs with h
  · exact (abs_of_neg h).symm
  · exact (abs_of_nonneg (not_lt.mp h)).symm

theorem mathMax_eq (a b : ℚ) : mathMax a b = max a b := by
  unfold mathMax
  split_ifs with h
  · exact (max_eq_left (le_of_lt h)).symm
  · exact (max_eq_right (not_lt.mp h)).symm

theorem mathMin_eq (a b : ℚ) : mathMin a b = min a b := by
  unfold mathMin
  split_ifs with h
  · exact (min_eq_left (le_of_lt h)).symm
  · exact (min_eq_right (not_lt.mp h)).symm

theorem rd_nat {α : Type} [Zero α] (xs : List α) (i : Int) (m : Nat)
    (hi : i = (m : Int)) (hm : m < xs.length) : rd xs i = Res.ok (xs.getD m 0) := by
  subst hi
  have h : (0 : Int) ≤ (m : Int) ∧ (m : Int) < len xs := by
    constructor
    · omega
    · unfold len; omega
  simp [rd, h]

theorem wr_nat {α : Type} (xs : List α) (i : Int) (m : Nat) (v : α)
    (hi : i = (m : Int)) (hm : m < xs.length) : wr xs i v = Res.ok (xs.set m v) := by
  subst hi
  have h : (0 : Int) ≤ (m : Int) ∧ (m : Int) < len xs := by
    constructor
    · omega
    · unfold len; omega
  simp [wr, h]

theorem getD_set_eq {α : Type} (xs : List α) (i : Nat) (v d : α) (h : i < xs.length) :
    (xs.set i v).getD i d = v := by
  simp [List.getD_eq_getElem?_getD, List.getElem?_set, h]

theorem getD_set_ne {α : Type} (xs : List α) (i j : Nat) (v d : α) (h : i ≠ j) :
    (xs.set i v).getD j d = xs.getD j d := by
  simp [List.getD_eq_getElem?_getD, List.getElem?_set, h]

theorem getD_make {α : Type} [Zero α] (n j : Nat) : (make n : List α).getD j 0 = 0 := by
  unfold make
  by_cases h : j < n
  · simp [List.getD_eq_getElem?_getD, List.getElem?_replicate, h]
  · simp [List.getD_eq_getElem?_getD, List.getElem?_replicate, h]

theorem length_make {α : Type} [Zero α] (n : Nat) : (make n : List α).length = n := by
  simp [make]

theorem eq_map_range {α : Type} [Zero α] (xs : List α) (n : Nat) (F : Nat → α)
    (hlen : xs.length = n) (h : ∀ j, j < n → xs.getD j 0 = F j) :
    xs = (List.range n).map F := by
  apply List.ext_getElem
  · simp [hlen]
  · intro j h1 h2
    have hj : j < n := by omega
    have := h j hj
    rw [List.getD_eq_getElem?_getD, List.getElem?_eq_getElem h1] at this
    simpa using this

theorem getD_map_range {α : Type} [Zero α] (n j : Nat) (F : Nat → α) (hj : j < n) :
    ((List.range n).map F).getD j 0 = F j := by
  simp [List.getD_eq_getElem?_getD, hj]

/-- Invariant rule for `iter` started at a non-negative counter. -/
theorem iter_inv {σ : Type} (Inv : Nat → σ → Prop) (body : Int → σ → Res σ) :
    ∀ (k lo : Nat) (i : Int) (s : σ), i = (lo : Int) → Inv lo s →
      (∀ m t, lo ≤ m → m < lo + k → Inv m t → ∃ t', body (m : Int) t = Res.ok t' ∧ Inv (m + 1) t') →
      ∃ s', iter k i body s = Res.ok s' ∧ Inv (lo + k) s' := by
  intro k
  induction k with
  | zero =>
    intro lo i s _ h0 _
    exact ⟨s, rfl, by simpa using h0⟩
  | succ k ih =>
    intro lo i s hi h0 hstep
    subst hi
    obtain ⟨t', hb, ht'⟩ := hstep lo s (le_refl _) (by omega) h0
    obtain ⟨s', hs', hinv⟩ := ih (lo + 1) ((lo : Int) + 1) t' (by push_cast; rfl) ht'
      (fun m t h1 h2 h3 => hstep m t (by omega) (by omega) h3)
    refine ⟨s', ?_, ?_⟩
    · simp only [iter, hb]
      exact hs'
    · have : lo + (k + 1) = lo + 1 + k := by omega
      rw [this]
      exact hinv

/-- Invariant rule for `forRange` between two natural bounds. -/
theorem forRange_inv {σ : Type} (Inv : Nat → σ → Prop) (body : Int → σ → Res σ)
    (lo hi : Nat) (a b : Int) (s : σ) (ha : a = (lo : Int)) (hb : b = (hi : Int))
    (hle : lo ≤ hi) (h0 : Inv lo s)
    (hstep : ∀ m t, lo ≤ m → m < hi → Inv m t →
      ∃ t', body (m : Int) t = Res.ok t' ∧ Inv (m + 1) t') :
    ∃ s', forRange a b body s = Res.ok s' ∧ Inv hi s' := by
  subst ha hb
  have hk : ((hi : Int) - (lo : Int)).toNat = hi - lo := by omega
  obtain ⟨s', h1, h2⟩ := iter_inv Inv body (hi - lo) lo (lo : Int) s rfl h0
    (fun m t h1 h2 h3 => hstep m t h1 (by omega) h3)
  refine ⟨s', ?_, ?_⟩
  · unfold forRange
    rw [hk]
    exact h1
  · have : lo + (hi - lo) = hi := by omega
    rw [this] at h2
    exact h2

theorem wr_ite {α : Type} (c : Prop) [Decidable c] (xs : List α) (i : Int) (x y : α) :
    (if c then wr xs i x else wr xs i y) = wr xs i (if c then x else y) := by
  split_ifs <;> rfl

theorem FilledTo.set_next {α : Type} [Zero α] {n m : Nat} {F : Nat → α} {t : List α}
    (h : FilledTo n m F t) (hm : m < n) (v : α) (hv : v = F m) :
    FilledTo n (m + 1) F (t.set m v) := by
  obtain ⟨htl, htv⟩ := h
  refine ⟨by simp [htl], ?_⟩
  intro j hj
  by_cases hjm : j = m
  · subst hjm
    rw [getD_set_eq t j _ _ (by omega), hv]
  · rw [getD_set_ne t m j _ _ (fun h => hjm h.symm)]
    exact htv j (by omega)

theorem FilledTo.eq_map {α : Type} [Zero α] {n : Nat} {F : Nat → α} {t : List α}
    (h : FilledTo n n F t) :
    t = (List.range n).map F :=
  eq_map_range t n F h.1 h.2

theorem FilledTo.of_map {α : Type} [Zero α] (n m : Nat) (F : Nat → α) (hm : m ≤ n) :
    FilledTo n m F ((List.range n).map F) :=
  ⟨by simp, fun j hj => getD_map_range n j F (by omega)⟩

theorem FilledTo.make_zero {α : Type} [Zero α] (n m : Nat) (F : Nat → α)
    (h : ∀ j, j < m → F j = 0) :
    FilledTo n m F (make n) :=
  ⟨length_make n, fun j hj => by rw [getD_make, h j hj]⟩

theorem FilledTo.zero_set {n m : Nat} {F : Nat → ℚ} {t : List ℚ} (h : FilledTo n m F t)
    (p : Nat) (hF : p < m → F p = 0) : FilledTo n m F (t.set p 0) := by
  obtain ⟨htl, htv⟩ := h
  refine ⟨by simp [htl], ?_⟩
  intro j hj
  by_cases hjp : j = p
  · subst hjp
    by_cases hjn : j < t.length
    · rw [getD_set_eq t j _ _ hjn, hF hj]
    · rw [List.set_eq_of_length_le (by omega)]
      exact htv j hj
  · rw [getD_set_ne t p j _ _ (fun h => hjp h.symm)]
    exact htv j hj

theorem zeros_set_zero (n m : Nat) (t : List ℚ)
    (h : t.length = n ∧ ∀ j, t.getD j 0 = 0) :
    (t.set m 0).length = n ∧ ∀ j, (t.set m 0).getD j 0 = 0 := by
  obtain ⟨htl, htv⟩ := h
  refine ⟨by simp [htl], ?_⟩
  intro j
  by_cases hjm : j = m
  · subst hjm
    by_cases hjn : j < t.length
    · exact getD_set_eq t j _ _ hjn
    · rw [List.set_eq_of_length_le (by omega)]
      exact htv j
  · rw [getD_set_ne t m j _ _ (fun h => hjm h.symm)]
    exact htv j

theorem zeros_make (n : Nat) :
    (make n : List ℚ).length = n ∧ ∀ j, (make n : List ℚ).getD j 0 = 0 :=
  ⟨length_make n, fun j => getD_make n j⟩

theorem FilledTo.of_zeros (n m : Nat) (F : Nat → ℚ) (t : List ℚ)
    (h : t.length = n ∧ ∀ j, t.getD j 0 = 0) (hF : ∀ j, j < m → F j = 0) :
    FilledTo n m F t :=
  ⟨h.1, fun j hj => by rw [h.2 j, hF j hj]⟩

/-! ## ATR -/

theorem wilderAvg_warm (w : Nat) (raw : Nat → ℚ) (i : Nat) (h : i + 1 < w) :
    wilderAvg w raw i = 0 := by
  cases i with
  | zero => simp [wilderAvg, h]
  | succ i => simp [wilderAvg, h]

theorem wilderAvg_seed (w : Nat) (raw : Nat → ℚ) (i : Nat) (h : i + 1 = w) :
    wilderAvg w raw i = (∑ j in Finset.range w, raw j) / (w : ℚ) := by
  cases i with
  | zero =>
    have : ¬ (1 < w) := by omega
    simp [wilderAvg, this]
  | succ i =>
    have h1 : ¬ (i + 2 < w) := by omega
    have h2 : i + 2 = w := by omega
    simp [wilderAvg, h1, h2]

theorem wilderAvg_step (w : Nat) (raw : Nat → ℚ) (i : Nat) (h : w ≤ i + 1) :
    wilderAvg w raw (i + 1)
      = (wilderAvg w raw i * ((w : ℚ) - 1) + raw (i + 1)) / (w : ℚ) := by
  have h1 : ¬ (i + 2 < w) := by omega
  have h2 : ¬ (i + 2 = w) := by omega
  simp [wilderAvg, h1, h2]

/-- The true-range phase shared by the engines: the slice written by the first
assignment and the true-range loop holds `trueRange` at every index. -/
theorem ATR.atrTrLoop (highs lows closes : List ℚ) (n : Nat) (hn : 1 ≤ n)
    (hh : highs.length = n) (hl : lows.length = n) (hc : closes.length = n)
    (tr0 : List ℚ) (h0len : tr0.length = n)
    (h00 : tr0.getD 0 0 = trueRange highs lows closes 0) :
    forRange 1 (n : Int) (ATR.trBody highs lows closes) tr0
      = Res.ok ((List.range n).map (trueRange highs lows closes)) := by
  obtain ⟨tr, htr, hlen, hval⟩ := forRange_inv
    (fun m (t : List ℚ) => t.length = n ∧ ∀ j, j < m → t.getD j 0 = trueRange highs lows closes j)
    (ATR.trBody highs lows closes) 1 n 1 (n : Int) tr0 rfl rfl hn
    ⟨h0len, fun j hj => by
      have : j = 0 := by omega
      subst this
      exact h00⟩
    (fun m t h1 h2 hinv => by
      obtain ⟨htl, htv⟩ := hinv
      refine ⟨t.set m (trueRange highs lows closes m), ?_, ?_, ?_⟩
      · simp only [ATR.trBody]
        rw [rd_nat highs m m rfl (by omega), rd_nat lows m m rfl (by omega),
          rd_nat closes ((m : Int) - 1) (m - 1) (by omega) (by omega)]
        simp only [Res.ok_bind]
        rw [wr_nat t m m _ rfl (by omega)]
        have hm : m ≠ 0 := by omega
        simp only [trueRange, hm, if_false, utilsMax_eq, mathAbs_eq]
      · simp [htl]
      · intro j hj
        by_cases hjm : j = m
        · subst hjm
          exact getD_set_eq t j _ _ (by omega)
        · rw [getD_set_ne t m j _ _ (fun h => hjm h.symm)]
          exact htv j (by omega))
  rw [htr]
  exact congrArg Res.ok (eq_map_range tr n _ hlen (fun j hj => hval j hj))

theorem ATR.atrZeroLoop (n k : Nat) (hk : k ≤ n) (a0 : List ℚ) (hlen : a0.length = n)
    (hz : ∀ j, a0.getD j 0 = 0) (lo hi : Int) (hlo : lo = 0) (hhi : hi = (k : Int)) :
    ∃ a1 : List ℚ, forRange lo hi ATR.zeroBody a0 = Res.ok a1 ∧ a1.length = n ∧
      ∀ j, a1.getD j 0 = 0 := by
  exact forRange_inv (fun _ (t : List ℚ) => t.length = n ∧ ∀ j, t.getD j 0 = 0)
    ATR.zeroBody 0 k lo hi a0 (by simpa using hlo) hhi (by omega) ⟨hlen, hz⟩
    (fun m t _ h2 hinv => by
      obtain ⟨htl, htv⟩ := hinv
      refine ⟨t.set m 0, ?_, ?_, ?_⟩
      · simp only [ATR.zeroBody]
        rw [wr_nat t m m _ rfl (by omega)]
      · simp [htl]
      · intro j
        by_cases hjm : j = m
        · subst hjm
          exact getD_set_eq t j _ _ (by omega)
        · rw [getD_set_ne t m j _ _ (fun h => hjm h.symm)]
          exact htv j)

theorem ATR.atrSumLoop (tr : List ℚ) (k : Nat) (hk : k ≤ tr.length) (hi : Int)
    (hhi : hi = (k : Int)) :
    forRange 0 hi (ATR.sumBody tr) 0 = Res.ok (∑ j in Finset.range k, tr.getD j 0) := by
  obtain ⟨s, hs, hv⟩ := forRange_inv
    (fun m (t : ℚ) => t = ∑ j in Finset.range m, tr.getD j 0)
    (ATR.sumBody tr) 0 k 0 hi 0 rfl hhi (by omega) (by simp)
    (fun m t _ h2 hinv => by
      refine ⟨t + tr.getD m 0, ?_, ?_⟩
      · simp only [ATR.sumBody]
        rw [rd_nat tr m m rfl (by omega)]
        rfl
      · have hinv : t = ∑ j in Finset.range m, tr.getD j 0 := hinv
        show t + tr.getD m 0 = ∑ j in Finset.range (m + 1), tr.getD j 0
        rw [Finset.sum_range_succ, hinv])
  rw [hs, hv]

theorem ATR.atrSmoothLoop (raw : Nat → ℚ) (n k : Nat) (hk : 1 ≤ k) (hkn : k ≤ n)
    (tr : List ℚ) (htr : tr = (List.range n).map raw) (a0 : List ℚ) (hlen : a0.length = n)
    (h0 : ∀ j, j < k → a0.getD j 0 = wilderAvg k raw j) :
    forRange (k : Int) (n : Int) (ATR.smoothBody (k : Int) tr) a0
      = Res.ok ((List.range n).map (wilderAvg k raw)) := by
  obtain ⟨a1, ha1, hl1, hv1⟩ := forRange_inv
    (fun m (t : List ℚ) => t.length = n ∧ ∀ j, j < m → t.getD j 0 = wilderAvg k raw j)
    (ATR.smoothBody (k : Int) tr) k n (k : Int) (n : Int) a0 rfl rfl hkn ⟨hlen, h0⟩
    (fun m t h1 h2 hinv => by
      obtain ⟨htl, htv⟩ := hinv
      have hrl : tr.length = n := by simp [htr]
      refine ⟨t.set m (wilderAvg k raw m), ?_, ?_, ?_⟩
      · simp only [ATR.smoothBody]
        rw [rd_nat t ((m : Int) - 1) (m - 1) (by omega) (by omega),
          rd_nat tr m m rfl (by omega)]
        simp only [Res.ok_bind]
        rw [wr_nat t m m _ rfl (by omega)]
        obtain ⟨p, rfl⟩ : ∃ p, m = p + 1 := ⟨m - 1, by omega⟩
        simp only [Nat.add_sub_cancel]
        rw [wilderAvg_step k raw p (by omega), htv p (by omega), htr,
          getD_map_range n (p + 1) raw (by omega)]
        push_cast
        rfl
      · simp [htl]
      · intro j hj
        by_cases hjm : j = m
        · subst hjm
          exact getD_set_eq t j _ _ (by omega)
        · rw [getD_set_ne t m j _ _ (fun h => hjm h.symm)]
          exact htv j (by omega))
  rw [ha1]
  exact congrArg Res.ok (eq_map_range a1 n _ hl1 (fun j hj => hv1 j hj))

/-- Closed form of `ATR.Calculate` on well-shaped input: the average-form
Wilder smoothing of the true range. -/
theorem ATR.atr_closed (k n : Nat) (highs lows closes : List ℚ) (hk : 1 ≤ k) (hkn : k ≤ n)
    (hh : highs.length = n) (hl : lows.length = n) (hc : closes.length = n) :
    ATR.Calculate ⟨(k : Int)⟩ highs lows closes
      = Res.ok ((List.range n).map (wilderAvg k (trueRange highs lows closes))) := by
  subst hh
  have hh : highs.length = highs.length := rfl
  have hn : 1 ≤ highs.length := by omega
  have c1 : ¬ (len highs ≠ len lows ∨ len lows ≠ len closes) := by
    simp [len, hh, hl, hc]
  have c2 : ¬ (len highs < (k : Int)) := by
    simp only [len, hh]
    omega
  have e1 := rd_nat highs 0 0 rfl (by omega)
  have e2 := rd_nat lows 0 0 rfl (by omega)
  have e3 := wr_nat (make highs.length : List ℚ) 0 0 (highs.getD 0 0 - lows.getD 0 0) rfl
    (by rw [length_make]; omega)
  have e4 := ATR.atrTrLoop highs lows closes highs.length hn hh hl hc
    ((make highs.length : List ℚ).set 0 (highs.getD 0 0 - lows.getD 0 0))
    (by simp [length_make, hh])
    (by rw [getD_set_eq _ _ _ _ (by rw [length_make]; omega)]; simp [trueRange])
  obtain ⟨a1, e5, hl1, hz1⟩ := ATR.atrZeroLoop highs.length (k - 1) (by omega)
    (make highs.length : List ℚ) (by rw [length_make]) (fun j => getD_make _ j)
    0 ((k : Int) - 1) rfl (by omega)
  have e6 := ATR.atrSumLoop ((List.range highs.length).map (trueRange highs lows closes)) k
    (by simp; omega) (k : Int) rfl
  have e7 := wr_nat a1 ((k : Int) - 1) (k - 1)
    ((∑ j in Finset.range k,
      ((List.range highs.length).map (trueRange highs lows closes)).getD j 0) / ((k : Int) : ℚ))
    (by omega) (by omega)
  have hsum : (∑ j in Finset.range k,
      ((List.range highs.length).map (trueRange highs lows closes)).getD j 0)
        = ∑ j in Finset.range k, trueRange highs lows closes j := by
    apply Finset.sum_congr rfl
    intro j hj
    exact getD_map_range highs.length j _ (by have := Finset.mem_range.mp hj; omega)
  have e8 := ATR.atrSmoothLoop (trueRange highs lows closes) highs.length k hk hkn _ rfl
    (a1.set (k - 1) ((∑ j in Finset.range k,
      ((List.range highs.length).map (trueRange highs lows closes)).getD j 0) / ((k : Int) : ℚ)))
    (by simp [hl1])
    (fun j hj => by
      by_cases hjk : j = k - 1
      · subst hjk
        rw [getD_set_eq _ _ _ _ (by omega), wilderAvg_seed k _ (k - 1) (by omega), hsum]
        simp
      · rw [getD_set_ne _ _ _ _ _ (fun h => hjk h.symm), hz1 j,
          wilderAvg_warm k _ j (by omega)])
  simp only [ATR.Calculate, c1, c2, if_false]
  rw [e1, e2]
  simp only [Res.ok_bind]
  rw [e3]
  simp only [Res.ok_bind, len, hh]
  rw [e4]
  simp only [Res.ok_bind]
  rw [e5]
  simp only [Res.ok_bind]
  rw [e6]
  simp only [Res.ok_bind]
  rw [e7]
  simp only [Res.ok_bind]
  rw [e8]
  rfl

/-- C1: for `Window >= 1` and `high`, `low`, `close` of one length
`n >= Window`, `ATR.Calculate` succeeds with an output of length `n` in which
`atr[i] = 0` for `i < Window-1`, `atr[Window-1]` is the mean of the first
`Window` true ranges, and `atr[i] = (atr[i-1]*(Window-1) + TR[i])/Window` for
every `i >= Window`. -/
theorem ATR.Calculate_wilder (w : Int) (highs lows closes : List ℚ) (hw : 1 ≤ w)
    (hl : highs.length = lows.length) (hc : lows.length = closes.length)
    (hn : w ≤ (highs.length : Int)) :
    ∃ atr : List ℚ, ATR.Calculate ⟨w⟩ highs lows closes = Res.ok atr ∧
      atr.length = highs.length ∧
      (∀ i : Nat, (i : Int) < w - 1 → atr.getD i 0 = 0) ∧
      atr.getD (w - 1).toNat 0
        = (∑ j in Finset.range w.toNat, trueRange highs lows closes j) / (w : ℚ) ∧
      (∀ i : Nat, w ≤ (i : Int) → i < highs.length →
        atr.getD i 0
          = (atr.getD (i - 1) 0 * ((w : ℚ) - 1) + trueRange highs lows closes i) / (w : ℚ)) := by
  obtain ⟨k, rfl⟩ : ∃ k : Nat, w = (k : Int) := ⟨w.toNat, by omega⟩
  have hk : 1 ≤ k := by omega
  have hkn : k ≤ highs.length := by omega
  refine ⟨_, ATR.atr_closed k highs.length highs lows closes hk hkn rfl hl.symm
    (by omega), by simp, ?_, ?_, ?_⟩
  · intro i hi
    rw [getD_map_range _ i _ (by omega)]
    exact wilderAvg_warm k _ i (by omega)
  · have h1 : ((k : Int) - 1).toNat = k - 1 := by omega
    rw [h1, getD_map_range _ (k - 1) _ (by omega), wilderAvg_seed k _ (k - 1) (by omega)]
    simp
  · intro i hi hin
    obtain ⟨p, rfl⟩ : ∃ p, i = p + 1 := ⟨i - 1, by omega⟩
    rw [getD_map_range _ (p + 1) _ hin, Nat.add_sub_cancel,
      getD_map_range _ p _ (by omega), wilderAvg_step k _ p (by omega)]
    simp

/-- Instance of C1 on the bars of `TestATR`, `Window = 3`. -/
theorem ATR.Calculate_wilder_witness :
    ∃ atr : List ℚ, ATR.Calculate ⟨3⟩ [10, 11, 13, 14, 15, 17, 17] [9, 9, 11, 13, 14, 15, 16]
        [9, 10, 12, 14, 14, 16, 17] = Res.ok atr ∧
      atr.length = 7 ∧
      (∀ i : Nat, (i : Int) < 3 - 1 → atr.getD i 0 = 0) ∧
      atr.getD ((3 : Int) - 1).toNat 0
        = (∑ j in Finset.range (3 : Int).toNat,
            trueRange [10, 11, 13, 14, 15, 17, 17] [9, 9, 11, 13, 14, 15, 16]
              [9, 10, 12, 14, 14, 16, 17] j) / ((3 : Int) : ℚ) ∧
      (∀ i : Nat, (3 : Int) ≤ (i : Int) → i < 7 →
        atr.getD i 0
          = (atr.getD (i - 1) 0 * (((3 : Int) : ℚ) - 1)
              + trueRange [10, 11, 13, 14, 15, 17, 17] [9, 9, 11, 13, 14, 15, 16]
                [9, 10, 12, 14, 14, 16, 17] i) / ((3 : Int) : ℚ)) :=
  ATR.Calculate_wilder 3 [10, 11, 13, 14, 15, 17, 17] [9, 9, 11, 13, 14, 15, 16]
    [9, 10, 12, 14, 14, 16, 17] (by decide) (by decide) (by decide) (by decide)

/-! ## ADX -/

theorem wilderAcc_warm (w : Nat) (raw : Nat → ℚ) (i : Nat) (h : i + 1 < w) :
    wilderAcc w raw i = 0 := by
  cases i with
  | zero => simp [wilderAcc, h]
  | succ i => simp [wilderAcc, h]

theorem wilderAcc_seed (w : Nat) (raw : Nat → ℚ) (i : Nat) (h : i + 1 = w) :
    wilderAcc w raw i = ∑ j in Finset.range w, raw j := by
  cases i with
  | zero =>
    have : ¬ (1 < w) := by omega
    simp [wilderAcc, this]
  | succ i =>
    have h1 : ¬ (i + 2 < w) := by omega
    have h2 : i + 2 = w := by omega
    simp [wilderAcc, h1, h2]

theorem wilderAcc_step (w : Nat) (raw : Nat → ℚ) (i : Nat) (h : w ≤ i + 1) :
    wilderAcc w raw (i + 1)
      = wilderAcc w raw i - wilderAcc w raw i / (w : ℚ) + raw (i + 1) := by
  have h1 : ¬ (i + 2 < w) := by omega
  have h2 : ¬ (i + 2 = w) := by omega
  simp [wilderAcc, h1, h2]

/-- The raw phase of `ADX.Calculate` on bars of one length `n >= 1`: the three
slices hold the true range and the two directional movements. -/
theorem ADX.rawSeries_eq (highs lows closes : List ℚ) (n : Nat) (hn : 1 ≤ n)
    (hh : highs.length = n) (hl : lows.length = n) (hc : closes.length = n) :
    ADX.rawSeries highs lows closes
      = Res.ok ⟨(List.range n).map (trueRange highs lows closes),
          (List.range n).map (plusDM highs lows), (List.range n).map (minusDM highs lows)⟩ := by
  subst hh
  have e1 := rd_nat highs 0 0 rfl (by omega)
  have e2 := rd_nat lows 0 0 rfl (by omega)
  have e3 := wr_nat (make highs.length : List ℚ) 0 0 (highs.getD 0 0 - lows.getD 0 0) rfl
    (by rw [length_make]; omega)
  have e4 := wr_nat (make highs.length : List ℚ) 0 0 0 rfl (by rw [length_make]; omega)
  have i1 : FilledTo highs.length 1 (trueRange highs lows closes)
      ((make highs.length : List ℚ).set 0 (highs.getD 0 0 - lows.getD 0 0)) :=
    FilledTo.set_next (FilledTo.make_zero _ 0 _ (fun j hj => by omega)) (by omega) _
      (by simp [trueRange])
  have i2 : FilledTo highs.length 1 (plusDM highs lows)
      ((make highs.length : List ℚ).set 0 0) :=
    FilledTo.set_next (FilledTo.make_zero _ 0 _ (fun j hj => by omega)) (by omega) _
      (by simp [plusDM])
  have i3 : FilledTo highs.length 1 (minusDM highs lows)
      ((make highs.length : List ℚ).set 0 0) :=
    FilledTo.set_next (FilledTo.make_zero _ 0 _ (fun j hj => by omega)) (by omega) _
      (by simp [minusDM])
  obtain ⟨r, hr, f1, f2, f3⟩ := forRange_inv
    (fun m (t : ADX.Raw) => FilledTo highs.length m (trueRange highs lows closes) t.tr ∧
      FilledTo highs.length m (plusDM highs lows) t.pDM ∧
      FilledTo highs.length m (minusDM highs lows) t.mDM)
    (ADX.rawBody highs lows closes) 1 highs.length 1 (highs.length : Int)
    ⟨(make highs.length : List ℚ).set 0 (highs.getD 0 0 - lows.getD 0 0),
      (make highs.length : List ℚ).set 0 0, (make highs.length : List ℚ).set 0 0⟩ rfl rfl hn
    ⟨i1, i2, i3⟩
    (fun m t h1 h2 hinv => by
      obtain ⟨g1, g2, g3⟩ := hinv
      have hm : m ≠ 0 := by omega
      refine ⟨⟨t.tr.set m (trueRange highs lows closes m), t.pDM.set m (plusDM highs lows m),
        t.mDM.set m (minusDM highs lows m)⟩, ?_, FilledTo.set_next g1 h2 _ rfl,
        FilledTo.set_next g2 h2 _ rfl, FilledTo.set_next g3 h2 _ rfl⟩
      simp only [ADX.rawBody, wr_ite]
      rw [rd_nat highs m m rfl (by omega), rd_nat lows m m rfl (by omega),
        rd_nat closes ((m : Int) - 1) (m - 1) (by omega) (by omega)]
      simp only [Res.ok_bind]
      rw [wr_nat t.tr m m _ rfl (by rw [g1.1]; exact h2)]
      simp only [Res.ok_bind]
      rw [rd_nat highs ((m : Int) - 1) (m - 1) (by omega) (by omega),
        rd_nat lows ((m : Int) - 1) (m - 1) (by omega) (by omega)]
      simp only [Res.ok_bind]
      rw [wr_nat t.pDM m m _ rfl (by rw [g2.1]; exact h2)]
      simp only [Res.ok_bind]
      rw [wr_nat t.mDM m m _ rfl (by rw [g3.1]; exact h2)]
      simp only [Res.ok_bind, Res.pure_eq, trueRange, plusDM, minusDM, hm, if_false,
        utilsMax_eq, mathAbs_eq])
  simp only [ADX.rawSeries]
  rw [e1, e2]
  simp only [Res.ok_bind]
  rw [e3]
  simp only [Res.ok_bind]
  rw [e4]
  simp only [Res.ok_bind, len]
  rw [hr]
  obtain ⟨rt, rp, rm⟩ := r
  simp only at f1 f2 f3
  rw [FilledTo.eq_map f1, FilledTo.eq_map f2, FilledTo.eq_map f3]

theorem ADX.adxSumLoop (T P M : Nat → ℚ) (n k : Nat) (hkn : k ≤ n) :
    forRange 0 (k : Int)
        (ADX.sumBody ⟨(List.range n).map T, (List.range n).map P, (List.range n).map M⟩)
        ⟨0, 0, 0⟩
      = Res.ok ⟨∑ j in Finset.range k, T j, ∑ j in Finset.range k, P j,
          ∑ j in Finset.range k, M j⟩ := by
  obtain ⟨r, hr, f1, f2, f3⟩ := forRange_inv
    (fun m (t : ADX.Sums) => t.sumTR = ∑ j in Finset.range m, T j ∧
      t.sumPDM = ∑ j in Finset.range m, P j ∧ t.sumMDM = ∑ j in Finset.range m, M j)
    (ADX.sumBody ⟨(List.range n).map T, (List.range n).map P, (List.range n).map M⟩)
    0 k 0 (k : Int) ⟨0, 0, 0⟩ rfl rfl (by omega) (by simp)
    (fun m t _ h2 hinv => by
      obtain ⟨g1, g2, g3⟩ := hinv
      refine ⟨⟨t.sumTR + T m, t.sumPDM + P m, t.sumMDM + M m⟩, ?_, ?_, ?_, ?_⟩
      · simp only [ADX.sumBody]
        rw [rd_nat _ m m rfl (by simp; omega), rd_nat _ m m rfl (by simp; omega),
          rd_nat _ m m rfl (by simp; omega)]
        simp only [Res.ok_bind, Res.pure_eq]
        rw [getD_map_range n m T (by omega), getD_map_range n m P (by omega),
          getD_map_range n m M (by omega)]
      · show t.sumTR + T m = _
        rw [Finset.sum_range_succ, g1]
      · show t.sumPDM + P m = _
        rw [Finset.sum_range_succ, g2]
      · show t.sumMDM + M m = _
        rw [Finset.sum_range_succ, g3])
  rw [hr]
  obtain ⟨a, b, c⟩ := r
  simp only at f1 f2 f3
  rw [f1, f2, f3]

/-- The smoothing phase of `ADX.Calculate`: each raw slice is replaced by its
accumulator-form Wilder smoothing. -/
theorem ADX.smoothSeries_eq (T P M : Nat → ℚ) (n k : Nat) (hk : 1 ≤ k) (hkn : k ≤ n) :
    ADX.smoothSeries (k : Int) (n : Int) n
        ⟨(List.range n).map T, (List.range n).map P, (List.range n).map M⟩
      = Res.ok ⟨(List.range n).map (wilderAcc k T), (List.range n).map (wilderAcc k P),
          (List.range n).map (wilderAcc k M)⟩ := by
  have seed : ∀ (X : Nat → ℚ), FilledTo n k (wilderAcc k X)
      ((make n : List ℚ).set (k - 1) (∑ j in Finset.range k, X j)) := by
    intro X
    have h := FilledTo.set_next
      (FilledTo.make_zero n (k - 1) (wilderAcc k X)
        (fun j hj => wilderAcc_warm k X j (by omega)))
      (by omega) (∑ j in Finset.range k, X j) (wilderAcc_seed k X (k - 1) (by omega)).symm
    rwa [Nat.sub_add_cancel hk] at h
  have ew : ∀ (v : ℚ), wr (make n : List ℚ) ((k : Int) - 1) v
      = Res.ok ((make n : List ℚ).set (k - 1) v) :=
    fun v => wr_nat _ _ (k - 1) v (by omega) (by rw [length_make]; omega)
  obtain ⟨r, hr, f1, f2, f3⟩ := forRange_inv
    (fun m (t : ADX.Smoothed) => FilledTo n m (wilderAcc k T) t.smTr ∧
      FilledTo n m (wilderAcc k P) t.smPDM ∧ FilledTo n m (wilderAcc k M) t.smMDM)
    (ADX.smoothBody (k : Int)
      ⟨(List.range n).map T, (List.range n).map P, (List.range n).map M⟩)
    k n (k : Int) (n : Int)
    ⟨(make n : List ℚ).set (k - 1) (∑ j in Finset.range k, T j),
      (make n : List ℚ).set (k - 1) (∑ j in Finset.range k, P j),
      (make n : List ℚ).set (k - 1) (∑ j in Finset.range k, M j)⟩ rfl rfl hkn
    ⟨seed T, seed P, seed M⟩
    (fun m t h1 h2 hinv => by
      obtain ⟨g1, g2, g3⟩ := hinv
      obtain ⟨p, rfl⟩ : ∃ p, m = p + 1 := ⟨m - 1, by omega⟩
      refine ⟨⟨t.smTr.set (p + 1) (wilderAcc k T (p + 1)),
        t.smPDM.set (p + 1) (wilderAcc k P (p + 1)),
        t.smMDM.set (p + 1) (wilderAcc k M (p + 1))⟩, ?_, FilledTo.set_next g1 h2 _ rfl,
        FilledTo.set_next g2 h2 _ rfl, FilledTo.set_next g3 h2 _ rfl⟩
      simp only [ADX.smoothBody]
      rw [rd_nat t.smTr _ p (by push_cast; omega) (by rw [g1.1]; omega),
        rd_nat _ _ (p + 1) rfl (by simp; omega)]
      simp only [Res.ok_bind]
      rw [wr_nat t.smTr _ (p + 1) _ rfl (by rw [g1.1]; omega)]
      simp only [Res.ok_bind]
      rw [rd_nat t.smPDM _ p (by push_cast; omega) (by rw [g2.1]; omega),
        rd_nat _ _ (p + 1) rfl (by simp; omega)]
      simp only [Res.ok_bind]
      rw [wr_nat t.smPDM _ (p + 1) _ rfl (by rw [g2.1]; omega)]
      simp only [Res.ok_bind]
      rw [rd_nat t.smMDM _ p (by push_cast; omega) (by rw [g3.1]; omega),
        rd_nat _ _ (p + 1) rfl (by simp; omega)]
      simp only [Res.ok_bind]
      rw [wr_nat t.smMDM _ (p + 1) _ rfl (by rw [g3.1]; omega)]
      simp only [Res.ok_bind, Res.pure_eq]
      rw [getD_map_range n (p + 1) T (by omega), getD_map_range n (p + 1) P (by omega),
        getD_map_range n (p + 1) M (by omega), g1.2 p (by omega), g2.2 p (by omega),
        g3.2 p (by omega), wilderAcc_step k T p (by omega), wilderAcc_step k P p (by omega),
        wilderAcc_step k M p (by omega)]
      simp)
  simp only [ADX.smoothSeries]
  rw [ADX.adxSumLoop T P M n k hkn]
  simp only [Res.ok_bind]
  rw [ew, ew, ew]
  simp only [Res.ok_bind]
  rw [hr]
  obtain ⟨a, b, c⟩ := r
  simp only at f1 f2 f3
  rw [FilledTo.eq_map f1, FilledTo.eq_map f2, FilledTo.eq_map f3]

theorem dirIndex_warm (w : Nat) (sx st : Nat → ℚ) (i : Nat) (h : i + 1 < w) :
    dirIndex w sx st i = 0 := by
  simp [dirIndex, h]

theorem dxSeries_warm (w : Nat) (pdi mdi : Nat → ℚ) (i : Nat) (h : i + 1 < w) :
    dxSeries w pdi mdi i = 0 := by
  simp [dxSeries, h]

/-- The DI phase of `ADX.Calculate`. -/
theorem ADX.diSeries_eq (ST SP SM : Nat → ℚ) (n k : Nat) (hk : 1 ≤ k) (hkn : k ≤ n) :
    ADX.diSeries (k : Int) (n : Int) n
        ⟨(List.range n).map ST, (List.range n).map SP, (List.range n).map SM⟩
      = Res.ok ⟨(List.range n).map (dirIndex k SP ST),
          (List.range n).map (dirIndex k SM ST)⟩ := by
  obtain ⟨z, hz, z1, z2⟩ := forRange_inv
    (fun _ (t : ADX.DI) => (t.plusDI.length = n ∧ ∀ j, t.plusDI.getD j 0 = 0) ∧
      (t.minusDI.length = n ∧ ∀ j, t.minusDI.getD j 0 = 0))
    ADX.diZeroBody 0 (k - 1) 0 ((k : Int) - 1) ⟨make n, make n⟩ rfl (by omega) (by omega)
    ⟨zeros_make n, zeros_make n⟩
    (fun m t _ h2 hinv => by
      obtain ⟨g1, g2⟩ := hinv
      refine ⟨⟨t.plusDI.set m 0, t.minusDI.set m 0⟩, ?_, zeros_set_zero n m _ g1,
        zeros_set_zero n m _ g2⟩
      simp only [ADX.diZeroBody]
      rw [wr_nat t.plusDI m m _ rfl (by rw [g1.1]; omega)]
      simp only [Res.ok_bind]
      rw [wr_nat t.minusDI m m _ rfl (by rw [g2.1]; omega)]
      rfl)
  obtain ⟨r, hr, f1, f2⟩ := forRange_inv
    (fun m (t : ADX.DI) => FilledTo n m (dirIndex k SP ST) t.plusDI ∧
      FilledTo n m (dirIndex k SM ST) t.minusDI)
    (ADX.diBody ⟨(List.range n).map ST, (List.range n).map SP, (List.range n).map SM⟩)
    (k - 1) n ((k : Int) - 1) (n : Int) z (by omega) rfl (by omega)
    ⟨FilledTo.of_zeros n (k - 1) _ _ z1 (fun j hj => dirIndex_warm k SP ST j (by omega)),
      FilledTo.of_zeros n (k - 1) _ _ z2 (fun j hj => dirIndex_warm k SM ST j (by omega))⟩
    (fun m t h1 h2 hinv => by
      obtain ⟨g1, g2⟩ := hinv
      have hw : ¬ (m + 1 < k) := by omega
      refine ⟨⟨t.plusDI.set m (dirIndex k SP ST m), t.minusDI.set m (dirIndex k SM ST m)⟩,
        ?_, FilledTo.set_next g1 h2 _ rfl, FilledTo.set_next g2 h2 _ rfl⟩
      simp only [ADX.diBody]
      rw [rd_nat _ _ m rfl (by simp; omega)]
      simp only [Res.ok_bind]
      rw [getD_map_range n m ST h2]
      by_cases h0 : ST m = 0
      · simp only [h0, if_true]
        rw [wr_nat t.plusDI m m _ rfl (by rw [g1.1]; omega)]
        simp only [Res.ok_bind]
        rw [wr_nat t.minusDI m m _ rfl (by rw [g2.1]; omega)]
        simp [dirIndex, hw, h0]
      · simp only [h0, if_false]
        rw [rd_nat _ _ m rfl (by simp; omega)]
        simp only [Res.ok_bind]
        rw [wr_nat t.plusDI m m _ rfl (by rw [g1.1]; omega)]
        simp only [Res.ok_bind]
        rw [rd_nat _ _ m rfl (by simp; omega)]
        simp only [Res.ok_bind]
        rw [wr_nat t.minusDI m m _ rfl (by rw [g2.1]; omega)]
        rw [getD_map_range n m SP h2, getD_map_range n m SM h2]
        have e1 : SP m / ST m * 100 = dirIndex k SP ST m := by
          simp only [dirIndex, hw, h0, if_false]
          ring
        have e2 : SM m / ST m * 100 = dirIndex k SM ST m := by
          simp only [dirIndex, hw, h0, if_false]
          ring
        rw [e1, e2]
        rfl)
  simp only [ADX.diSeries]
  rw [hz]
  simp only [Res.ok_bind]
  rw [hr]
  obtain ⟨a, b⟩ := r
  simp only at f1 f2
  rw [FilledTo.eq_map f1, FilledTo.eq_map f2]

/-- The DX and ADX phase of `ADX.Calculate`. -/
theorem ADX.adxSeries_eq (PDI MDI : Nat → ℚ) (n k : Nat) (hk : 1 ≤ k) (hkn : k ≤ n) :
    ADX.adxSeries (k : Int) (n : Int) n ⟨(List.range n).map PDI, (List.range n).map MDI⟩
      = Res.ok ((List.range n).map (wilderAvg k (dxSeries k PDI MDI))) := by
  obtain ⟨z, hz, z1⟩ := forRange_inv
    (fun _ (t : List ℚ) => t.length = n ∧ ∀ j, t.getD j 0 = 0)
    ADX.dxZeroBody 0 (k - 1) 0 ((k : Int) - 1) (make n) rfl (by omega) (by omega)
    (zeros_make n)
    (fun m t _ h2 hinv => by
      refine ⟨t.set m 0, ?_, zeros_set_zero n m _ hinv⟩
      simp only [ADX.dxZeroBody]
      rw [wr_nat t m m _ rfl (by rw [hinv.1]; omega)])
  obtain ⟨dx, hdx, f1⟩ := forRange_inv
    (fun m (t : List ℚ) => FilledTo n m (dxSeries k PDI MDI) t)
    (ADX.dxBody ⟨(List.range n).map PDI, (List.range n).map MDI⟩)
    (k - 1) n ((k : Int) - 1) (n : Int) z (by omega) rfl (by omega)
    (FilledTo.of_zeros n (k - 1) _ _ z1 (fun j hj => dxSeries_warm k PDI MDI j (by omega)))
    (fun m t h1 h2 hinv => by
      have hw : ¬ (m + 1 < k) := by omega
      refine ⟨t.set m (dxSeries k PDI MDI m), ?_, FilledTo.set_next hinv h2 _ rfl⟩
      simp only [ADX.dxBody]
      rw [rd_nat _ _ m rfl (by simp; omega), rd_nat _ _ m rfl (by simp; omega)]
      simp only [Res.ok_bind]
      rw [getD_map_range n m PDI h2, getD_map_range n m MDI h2]
      by_cases h0 : PDI m + MDI m = 0
      · simp only [h0, if_true]
        rw [wr_nat t m m _ rfl (by rw [hinv.1]; omega)]
        simp [dxSeries, hw, h0]
      · simp only [h0, if_false]
        rw [wr_nat t m m _ rfl (by rw [hinv.1]; omega)]
        have e1 : mathAbs (PDI m - MDI m) / (PDI m + MDI m) * 100 = dxSeries k PDI MDI m := by
          simp only [dxSeries, hw, h0, if_false, mathAbs_eq]
          ring
        rw [e1])
  have hdxm := FilledTo.eq_map f1
  have hsum : forRange ((k : Int) - 1 - ((k : Int) - 1)) ((k : Int) - 1 + 1)
      (ADX.sumDXBody dx) 0 = Res.ok (∑ j in Finset.range k, dx.getD j 0) := by
    rw [sub_self]
    exact ATR.atrSumLoop dx k (by rw [f1.1]; exact hkn) _ (by omega)
  have hsum2 : (∑ j in Finset.range k, dx.getD j 0)
      = ∑ j in Finset.range k, dxSeries k PDI MDI j := by
    apply Finset.sum_congr rfl
    intro j hj
    exact f1.2 j (by have := Finset.mem_range.mp hj; omega)
  have hseed : FilledTo n k (wilderAvg k (dxSeries k PDI MDI))
      ((make n : List ℚ).set (k - 1)
        ((∑ j in Finset.range k, dx.getD j 0) / (((k : Int)) : ℚ))) := by
    have h := FilledTo.set_next
      (FilledTo.make_zero n (k - 1) (wilderAvg k (dxSeries k PDI MDI))
        (fun j hj => wilderAvg_warm k _ j (by omega)))
      (by omega) ((∑ j in Finset.range k, dx.getD j 0) / (((k : Int)) : ℚ))
      (by rw [wilderAvg_seed k _ (k - 1) (by omega), hsum2]; simp)
    rwa [Nat.sub_add_cancel hk] at h
  have hadx := ATR.atrSmoothLoop (dxSeries k PDI MDI) n k hk hkn dx hdxm _ hseed.1 hseed.2
  simp only [ADX.adxSeries]
  rw [hz]
  simp only [Res.ok_bind]
  rw [hdx]
  simp only [Res.ok_bind]
  rw [hsum]
  simp only [Res.ok_bind]
  rw [wr_nat _ _ (k - 1) _ (by omega) (by rw [length_make]; omega)]
  simp only [Res.ok_bind]
  exact hadx

/-- Closed form of `ADX.Calculate` on well-shaped input. -/
theorem ADX.adx_closed (k n : Nat) (highs lows closes : List ℚ) (hk : 1 ≤ k) (hkn : k ≤ n)
    (hh : highs.length = n) (hl : lows.length = n) (hc : closes.length = n) :
    ADX.Calculate ⟨(k : Int)⟩ highs lows closes
      = Res.ok ((List.range n).map (wilderAvg k
            (dxSeries k (plusDISeries k highs lows closes) (minusDISeries k highs lows closes))),
          (List.range n).map (plusDISeries k highs lows closes),
          (List.range n).map (minusDISeries k highs lows closes)) := by
  have c1 : ¬ (len highs ≠ len lows ∨ len lows ≠ len closes) := by
    simp [len, hh, hl, hc]
  have c2 : ¬ (len highs < (k : Int)) := by
    simp only [len, hh]
    omega
  simp only [ADX.Calculate, c1, c2, if_false]
  rw [ADX.rawSeries_eq highs lows closes n (by omega) hh hl hc]
  simp only [Res.ok_bind, len, hh]
  rw [ADX.smoothSeries_eq _ _ _ n k hk hkn]
  simp only [Res.ok_bind]
  rw [ADX.diSeries_eq _ _ _ n k hk hkn]
  simp only [Res.ok_bind]
  rw [ADX.adxSeries_eq _ _ n k hk hkn]
  rfl

/-- C2: for `Window >= 1` and bars of one length `n >= Window`,
`ADX.Calculate` returns `+DI` and `-DI` that are `0` below index `Window-1`
and, from index `Window-1` on, `100*SP[i]/ST[i]` and `100*SM[i]/ST[i]` when
`ST[i] != 0` and `0` when `ST[i] = 0`, where `SP`, `SM`, `ST` are the
accumulator-form Wilder smoothings of `+DM`, `-DM` and the true range. -/
theorem ADX.Calculate_di (w : Int) (highs lows closes : List ℚ) (hw : 1 ≤ w)
    (hl : highs.length = lows.length) (hc : lows.length = closes.length)
    (hn : w ≤ (highs.length : Int)) :
    ∃ adx pdi mdi : List ℚ, ADX.Calculate ⟨w⟩ highs lows closes = Res.ok (adx, pdi, mdi) ∧
      pdi.length = highs.length ∧ mdi.length = highs.length ∧
      (∀ i : Nat, (i : Int) < w - 1 → pdi.getD i 0 = 0 ∧ mdi.getD i 0 = 0) ∧
      (∀ i : Nat, w - 1 ≤ (i : Int) → i < highs.length →
        (wilderAcc w.toNat (trueRange highs lows closes) i ≠ 0 →
          pdi.getD i 0 = 100 * wilderAcc w.toNat (plusDM highs lows) i
              / wilderAcc w.toNat (trueRange highs lows closes) i ∧
          mdi.getD i 0 = 100 * wilderAcc w.toNat (minusDM highs lows) i
              / wilderAcc w.toNat (trueRange highs lows closes) i) ∧
        (wilderAcc w.toNat (trueRange highs lows closes) i = 0 →
          pdi.getD i 0 = 0 ∧ mdi.getD i 0 = 0)) := by
  obtain ⟨k, rfl⟩ : ∃ k : Nat, w = (k : Int) := ⟨w.toNat, by omega⟩
  have hk : 1 ≤ k := by omega
  have hkn : k ≤ highs.length := by omega
  refine ⟨_, _, _, ADX.adx_closed k highs.length highs lows closes hk hkn rfl hl.symm
    (by omega), by simp, by simp, ?_, ?_⟩
  · intro i hi
    rw [getD_map_range _ i _ (by omega), getD_map_range _ i _ (by omega)]
    exact ⟨dirIndex_warm k _ _ i (by omega), dirIndex_warm k _ _ i (by omega)⟩
  · intro i hi hin
    have hnw : ¬ (i + 1 < k) := by omega
    rw [getD_map_range _ i _ hin, getD_map_range _ i _ hin]
    simp only [Int.toNat_ofNat, plusDISeries, minusDISeries, dirIndex, hnw, if_false]
    constructor
    · intro h0
      simp [h0]
    · intro h0
      simp [h0]

/-- Instance of C2 on the bars of `TestADX`, `Window = 3`. -/
theorem ADX.Calculate_di_witness :
    ∃ adx pdi mdi : List ℚ,
      ADX.Calculate ⟨3⟩ [10, 11, 13, 14, 15, 18, 20] [9, 10, 11, 13, 14, 15, 16]
        [9, 10, 12, 14, 14, 16, 19] = Res.ok (adx, pdi, mdi) ∧
      pdi.length = 7 ∧ mdi.length = 7 ∧
      (∀ i : Nat, (i : Int) < 3 - 1 → pdi.getD i 0 = 0 ∧ mdi.getD i 0 = 0) ∧
      (∀ i : Nat, (3 : Int) - 1 ≤ (i : Int) → i < 7 →
        (wilderAcc (3 : Int).toNat (trueRange [10, 11, 13, 14, 15, 18, 20]
            [9, 10, 11, 13, 14, 15, 16] [9, 10, 12, 14, 14, 16, 19]) i ≠ 0 →
          pdi.getD i 0 = 100 * wilderAcc (3 : Int).toNat
              (plusDM [10, 11, 13, 14, 15, 18, 20] [9, 10, 11, 13, 14, 15, 16]) i
              / wilderAcc (3 : Int).toNat (trueRange [10, 11, 13, 14, 15, 18, 20]
                [9, 10, 11, 13, 14, 15, 16] [9, 10, 12, 14, 14, 16, 19]) i ∧
          mdi.getD i 0 = 100 * wilderAcc (3 : Int).toNat
              (minusDM [10, 11, 13, 14, 15, 18, 20] [9, 10, 11, 13, 14, 15, 16]) i
              / wilderAcc (3 : Int).toNat (trueRange [10, 11, 13, 14, 15, 18, 20]
                [9, 10, 11, 13, 14, 15, 16] [9, 10, 12, 14, 14, 16, 19]) i) ∧
        (wilderAcc (3 : Int).toNat (trueRange [10, 11, 13, 14, 15, 18, 20]
            [9, 10, 11, 13, 14, 15, 16] [9, 10, 12, 14, 14, 16, 19]) i = 0 →
          pdi.getD i 0 = 0 ∧ mdi.getD i 0 = 0)) :=
  ADX.Calculate_di 3 [10, 11, 13, 14, 15, 18, 20] [9, 10, 11, 13, 14, 15, 16]
    [9, 10, 12, 14, 14, 16, 19] (by decide) (by decide) (by decide) (by decide)

theorem dxSeries_congr (k : Nat) (P M P2 M2 : Nat → ℚ) (i : Nat) (hp : P i = P2 i)
    (hm : M i = M2 i) : dxSeries k P M i = dxSeries k P2 M2 i := by
  simp only [dxSeries, hp, hm]

theorem sum_dxSeries_seed (k : Nat) (hk : 1 ≤ k) (P M : Nat → ℚ) :
    (∑ j in Finset.range k, dxSeries k P M j) = dxSeries k P M (k - 1) := by
  apply Finset.sum_eq_single_of_mem (k - 1) (Finset.mem_range.mpr (by omega))
  intro j hj hne
  have := Finset.mem_range.mp hj
  exact dxSeries_warm k P M j (by omega)

/-- C3: for `Window >= 1` and bars of one length `n >= Window`, the ADX
series is `0` below index `Window-1`; at `Window-1` it is the mean of `DX`
over indices `0..Window-1`, which is `DX[Window-1]/Window` because `DX` is `0`
below `Window-1`; and `adx[i] = (adx[i-1]*(Window-1) + DX[i])/Window` for
`i >= Window`. Here `DX` is formed from the returned `+DI` and `-DI`. -/
theorem ADX.Calculate_adx (w : Int) (highs lows closes : List ℚ) (hw : 1 ≤ w)
    (hl : highs.length = lows.length) (hc : lows.length = closes.length)
    (hn : w ≤ (highs.length : Int)) :
    ∃ adx pdi mdi : List ℚ, ADX.Calculate ⟨w⟩ highs lows closes = Res.ok (adx, pdi, mdi) ∧
      adx.length = highs.length ∧
      (∀ i : Nat, (i : Int) < w - 1 → adx.getD i 0 = 0) ∧
      adx.getD (w - 1).toNat 0
        = (∑ j in Finset.range w.toNat,
            dxSeries w.toNat (fun i => pdi.getD i 0) (fun i => mdi.getD i 0) j) / (w : ℚ) ∧
      adx.getD (w - 1).toNat 0
        = dxSeries w.toNat (fun i => pdi.getD i 0) (fun i => mdi.getD i 0) (w - 1).toNat
            / (w : ℚ) ∧
      (∀ i : Nat, w ≤ (i : Int) → i < highs.length →
        adx.getD i 0
          = (adx.getD (i - 1) 0 * ((w : ℚ) - 1)
              + dxSeries w.toNat (fun i => pdi.getD i 0) (fun i => mdi.getD i 0) i)
            / (w : ℚ)) := by
  obtain ⟨k, rfl⟩ : ∃ k : Nat, w = (k : Int) := ⟨w.toNat, by omega⟩
  have hk : 1 ≤ k := by omega
  have hkn : k ≤ highs.length := by omega
  have hcg : ∀ i, i < highs.length →
      dxSeries k (plusDISeries k highs lows closes) (minusDISeries k highs lows closes) i
        = dxSeries k
            (fun i => ((List.range highs.length).map (plusDISeries k highs lows closes)).getD i 0)
            (fun i => ((List.range highs.length).map (minusDISeries k highs lows closes)).getD i 0)
            i := by
    intro i hi
    apply dxSeries_congr
    · exact (getD_map_range _ i _ hi).symm
    · exact (getD_map_range _ i _ hi).symm
  have h1 : ((k : Int) - 1).toNat = k - 1 := by omega
  have hseed : ((List.range highs.length).map (wilderAvg k (dxSeries k
      (plusDISeries k highs lows closes) (minusDISeries k highs lows closes)))).getD (k - 1) 0
      = (∑ j in Finset.range k, dxSeries k
            (fun i => ((List.range highs.length).map (plusDISeries k highs lows closes)).getD i 0)
            (fun i => ((List.range highs.length).map (minusDISeries k highs lows closes)).getD i 0)
            j) / (k : ℚ) := by
    rw [getD_map_range _ (k - 1) _ (by omega), wilderAvg_seed k _ (k - 1) (by omega)]
    congr 1
    apply Finset.sum_congr rfl
    intro j hj
    exact hcg j (by have := Finset.mem_range.mp hj; omega)
  refine ⟨_, _, _, ADX.adx_closed k highs.length highs lows closes hk hkn rfl hl.symm
    (by omega), by simp, ?_, ?_, ?_, ?_⟩
  · intro i hi
    rw [getD_map_range _ i _ (by omega)]
    exact wilderAvg_warm k _ i (by omega)
  · rw [h1, hseed]
    simp
  · rw [h1, hseed, sum_dxSeries_seed k hk]
    simp
  · intro i hi hin
    obtain ⟨p, rfl⟩ : ∃ p, i = p + 1 := ⟨i - 1, by omega⟩
    rw [getD_map_range _ (p + 1) _ hin, Nat.add_sub_cancel,
      getD_map_range _ p _ (by omega), wilderAvg_step k _ p (by omega), hcg (p + 1) hin]
    simp

/-- Instance of C3 on the bars of `TestADX`, `Window = 3`. -/
theorem ADX.Calculate_adx_witness :
    ∃ adx pdi mdi : List ℚ,
      ADX.Calculate ⟨3⟩ [10, 11, 13, 14, 15, 18, 20] [9, 10, 11, 13, 14, 15, 16]
        [9, 10, 12, 14, 14, 16, 19] = Res.ok (adx, pdi, mdi) ∧
      adx.length = 7 ∧
      (∀ i : Nat, (i : Int) < 3 - 1 → adx.getD i 0 = 0) ∧
      adx.getD ((3 : Int) - 1).toNat 0
        = (∑ j in Finset.range (3 : Int).toNat,
            dxSeries (3 : Int).toNat (fun i => pdi.getD i 0) (fun i => mdi.getD i 0) j)
          / ((3 : Int) : ℚ) ∧
      adx.getD ((3 : Int) - 1).toNat 0
        = dxSeries (3 : Int).toNat (fun i => pdi.getD i 0) (fun i => mdi.getD i 0)
            ((3 : Int) - 1).toNat / ((3 : Int) : ℚ) ∧
      (∀ i : Nat, (3 : Int) ≤ (i : Int) → i < 7 →
        adx.getD i 0
          = (adx.getD (i - 1) 0 * (((3 : Int) : ℚ) - 1)
              + dxSeries (3 : Int).toNat (fun i => pdi.getD i 0) (fun i => mdi.getD i 0) i)
            / ((3 : Int) : ℚ)) :=
  ADX.Calculate_adx 3 [10, 11, 13, 14, 15, 18, 20] [9, 10, 11, 13, 14, 15, 16]
    [9, 10, 12, 14, 14, 16, 19] (by decide) (by decide) (by decide) (by decide)

/-- C4: in the raw loop of `ADX.Calculate`, `+DM[0] = -DM[0] = 0`, and for
every bar `i >= 1` with `upMove = high[i]-high[i-1]` and
`downMove = low[i-1]-low[i]`, `+DM[i]` is `upMove` when `upMove > downMove`
and `upMove > 0` and `0` otherwise, `-DM[i]` is `downMove` when
`downMove > upMove` and `downMove > 0` and `0` otherwise; hence both are
non-negative and at most one of them is nonzero on any bar. -/
theorem ADX.rawSeries_directional (highs lows closes : List ℚ)
    (hl : highs.length = lows.length) (hc : lows.length = closes.length)
    (hn : 1 ≤ highs.length) :
    ∃ raw : ADX.Raw, ADX.rawSeries highs lows closes = Res.ok raw ∧
      raw.pDM.length = highs.length ∧ raw.mDM.length = highs.length ∧
      raw.pDM.getD 0 0 = 0 ∧ raw.mDM.getD 0 0 = 0 ∧
      (∀ i : Nat, 1 ≤ i → i < highs.length →
        raw.pDM.getD i 0
          = (if highs.getD i 0 - highs.getD (i - 1) 0 > lows.getD (i - 1) 0 - lows.getD i 0
                ∧ highs.getD i 0 - highs.getD (i - 1) 0 > 0
              then highs.getD i 0 - highs.getD (i - 1) 0 else 0) ∧
        raw.mDM.getD i 0
          = (if lows.getD (i - 1) 0 - lows.getD i 0 > highs.getD i 0 - highs.getD (i - 1) 0
                ∧ lows.getD (i - 1) 0 - lows.getD i 0 > 0
              then lows.getD (i - 1) 0 - lows.getD i 0 else 0)) ∧
      (∀ i : Nat, i < highs.length →
        0 ≤ raw.pDM.getD i 0 ∧ 0 ≤ raw.mDM.getD i 0 ∧
          (raw.pDM.getD i 0 = 0 ∨ raw.mDM.getD i 0 = 0)) := by
  refine ⟨_, ADX.rawSeries_eq highs lows closes highs.length hn rfl hl.symm (by omega),
    by simp, by simp, ?_, ?_, ?_, ?_⟩
  · show ((List.range highs.length).map (plusDM highs lows)).getD 0 0 = 0
    rw [getD_map_range _ 0 _ (by omega)]
    simp [plusDM]
  · show ((List.range highs.length).map (minusDM highs lows)).getD 0 0 = 0
    rw [getD_map_range _ 0 _ (by omega)]
    simp [minusDM]
  · intro i hi hin
    have h0 : i ≠ 0 := by omega
    show ((List.range highs.length).map (plusDM highs lows)).getD i 0 = _ ∧
      ((List.range highs.length).map (minusDM highs lows)).getD i 0 = _
    rw [getD_map_range _ i _ hin, getD_map_range _ i _ hin]
    simp only [plusDM, minusDM, h0, if_false]
    exact ⟨trivial, trivial⟩
  · intro i hin
    show 0 ≤ ((List.range highs.length).map (plusDM highs lows)).getD i 0 ∧
      0 ≤ ((List.range highs.length).map (minusDM highs lows)).getD i 0 ∧
      (((List.range highs.length).map (plusDM highs lows)).getD i 0 = 0 ∨
        ((List.range highs.length).map (minusDM highs lows)).getD i 0 = 0)
    rw [getD_map_range _ i _ hin, getD_map_range _ i _ hin]
    unfold plusDM minusDM
    by_cases h0 : i = 0
    · simp [h0]
    · simp only [h0, if_false]
      split_ifs with h1 h2 h2
      · exact absurd h1.1 (not_lt.mpr (le_of_lt h2.1))
      · exact ⟨le_of_lt h1.2, le_refl _, Or.inr rfl⟩
      · exact ⟨le_refl _, le_of_lt h2.2, Or.inl rfl⟩
      · exact ⟨le_refl _, le_refl _, Or.inl rfl⟩

/-- Instance of C4 on the bars of `TestADX`. -/
theorem ADX.rawSeries_directional_witness :
    ∃ raw : ADX.Raw,
      ADX.rawSeries [10, 11, 13, 14, 15, 18, 20] [9, 10, 11, 13, 14, 15, 16]
        [9, 10, 12, 14, 14, 16, 19] = Res.ok raw ∧
      raw.pDM.length = 7 ∧ raw.mDM.length = 7 ∧
      raw.pDM.getD 0 0 = 0 ∧ raw.mDM.getD 0 0 = 0 ∧
      (∀ i : Nat, 1 ≤ i → i < 7 →
        raw.pDM.getD i 0
          = (if ([10, 11, 13, 14, 15, 18, 20] : List ℚ).getD i 0
                  - ([10, 11, 13, 14, 15, 18, 20] : List ℚ).getD (i - 1) 0
                > ([9, 10, 11, 13, 14, 15, 16] : List ℚ).getD (i - 1) 0
                  - ([9, 10, 11, 13, 14, 15, 16] : List ℚ).getD i 0
                ∧ ([10, 11, 13, 14, 15, 18, 20] : List ℚ).getD i 0
                  - ([10, 11, 13, 14, 15, 18, 20] : List ℚ).getD (i - 1) 0 > 0
              then ([10, 11, 13, 14, 15, 18, 20] : List ℚ).getD i 0
                  - ([10, 11, 13, 14, 15, 18, 20] : List ℚ).getD (i - 1) 0 else 0) ∧
        raw.mDM.getD i 0
          = (if ([9, 10, 11, 13, 14, 15, 16] : List ℚ).getD (i - 1) 0
                  - ([9, 10, 11, 13, 14, 15, 16] : List ℚ).getD i 0
                > ([10, 11, 13, 14, 15, 18, 20] : List ℚ).getD i 0
                  - ([10, 11, 13, 14, 15, 18, 20] : List ℚ).getD (i - 1) 0
                ∧ ([9, 10, 11, 13, 14, 15, 16] : List ℚ).getD (i - 1) 0
                  - ([9, 10, 11, 13, 14, 15, 16] : List ℚ).getD i 0 > 0
              then ([9, 10, 11, 13, 14, 15, 16] : List ℚ).getD (i - 1) 0
                  - ([9, 10, 11, 13, 14, 15, 16] : List ℚ).getD i 0 else 0)) ∧
      (∀ i : Nat, i < 7 →
        0 ≤ raw.pDM.getD i 0 ∧ 0 ≤ raw.mDM.getD i 0 ∧
          (raw.pDM.getD i 0 = 0 ∨ raw.mDM.getD i 0 = 0)) :=
  ADX.rawSeries_directional [10, 11, 13, 14, 15, 18, 20] [9, 10, 11, 13, 14, 15, 16]
    [9, 10, 12, 14, 14, 16, 19] (by decide) (by decide) (by decide)

/-! ## Parabolic SAR -/

theorem ParabolicSAR.init_eq (p : ParabolicSAR) (high low : List ℚ) (n : Nat)
    (hh : high.length = n) (hl : low.length = n) (hn : 2 ≤ n) (arr : List ℚ)
    (hlen : arr.length = n) :
    ParabolicSAR.init p high low arr
      = Res.ok ⟨arr.set 0 (sarStart p high low).sar, (sarStart p high low).up,
          (sarStart p high low).ep, (sarStart p high low).af⟩ := by
  simp only [ParabolicSAR.init]
  rw [rd_nat high 1 1 rfl (by omega), rd_nat low 1 1 rfl (by omega),
    rd_nat high 0 0 rfl (by omega), rd_nat low 0 0 rfl (by omega)]
  simp only [Res.ok_bind]
  rw [wr_nat arr 0 0 _ rfl (by omega), wr_nat arr 0 0 _ rfl (by omega)]
  simp only [Res.ok_bind, Res.pure_eq, sarStart]
  by_cases hc : (high.getD 1 0 + low.getD 1 0) / 2 > (high.getD 0 0 + low.getD 0 0) / 2
  · simp only [hc, if_true]
  · simp only [hc, if_false, Bool.false_eq_true]

theorem ParabolicSAR.step_eq (p : ParabolicSAR) (high low : List ℚ) (n : Nat)
    (hh : high.length = n) (hl : low.length = n) (q : Nat) (hq : q + 1 < n)
    (arr : List ℚ) (T : SarPoint) (hlen : arr.length = n) (hprev : arr.getD q 0 = T.sar) :
    ParabolicSAR.step p high low ((q + 1 : Nat) : Int) ⟨arr, T.up, T.ep, T.af⟩
      = Res.ok ⟨arr.set (q + 1) (sarNext p high low (q + 1) T).sar,
          (sarNext p high low (q + 1) T).up, (sarNext p high low (q + 1) T).ep,
          (sarNext p high low (q + 1) T).af⟩ := by
  have r1 := rd_nat arr (((q + 1 : Nat) : Int) - 1) q (by push_cast; omega) (by omega)
  have r2 := rd_nat low (((q + 1 : Nat) : Int) - 1) q (by push_cast; omega) (by omega)
  have r3 := rd_nat low ((q + 1 : Nat) : Int) (q + 1) rfl (by omega)
  have r4 := rd_nat high (((q + 1 : Nat) : Int) - 1) q (by push_cast; omega) (by omega)
  have r5 := rd_nat high ((q + 1 : Nat) : Int) (q + 1) rfl (by omega)
  have w1 : ∀ v : ℚ, wr arr ((q + 1 : Nat) : Int) v = Res.ok (arr.set (q + 1) v) :=
    fun v => wr_nat arr _ (q + 1) v rfl (by omega)
  obtain ⟨ts, tu, te, ta⟩ := T
  simp only at hprev
  simp only [ParabolicSAR.step, sarNext, Nat.add_sub_cancel]
  rw [r1]
  simp only [Res.ok_bind, hprev]
  cases tu with
  | true =>
    simp only [if_true]
    rw [r2, r3]
    simp only [Res.ok_bind, mathMin_eq]
    by_cases hc : ts + ta * (te - ts) > min (low.getD q 0) (low.getD (q + 1) 0)
    · simp only [hc, if_true]
      rw [r4, r5]
      simp only [Res.ok_bind]
      rw [w1]
      simp only [Res.ok_bind, mathMax_eq]
      rfl
    · simp only [hc, if_false]
      rw [w1]
      simp only [Res.ok_bind]
      rw [r5]
      simp only [Res.ok_bind]
      by_cases he : high.getD (q + 1) 0 > te
      · simp only [he, if_true, Res.pure_eq]
        have : (if ta + p.IncrementAF > p.MaxAF then p.MaxAF else ta + p.IncrementAF)
            = min (ta + p.IncrementAF) p.MaxAF := by
          split_ifs with h
          · exact (min_eq_right (le_of_lt h)).symm
          · exact (min_eq_left (not_lt.mp h)).symm
        rw [this]
      · simp only [he, if_false, Res.pure_eq]
  | false =>
    simp only [Bool.false_eq_true, if_false]
    rw [r4, r5]
    simp only [Res.ok_bind, mathMax_eq]
    by_cases hc : ts + ta * (te - ts) < max (high.getD q 0) (high.getD (q + 1) 0)
    · simp only [hc, if_true]
      rw [r2, r3]
      simp only [Res.ok_bind]
      rw [w1]
      simp only [Res.ok_bind, mathMin_eq]
      rfl
    · simp only [hc, if_false]
      rw [w1]
      simp only [Res.ok_bind]
      rw [r3]
      simp only [Res.ok_bind]
      by_cases he : low.getD (q + 1) 0 < te
      · simp only [he, if_true, Res.pure_eq]
        have : (if ta + p.IncrementAF > p.MaxAF then p.MaxAF else ta + p.IncrementAF)
            = min (ta + p.IncrementAF) p.MaxAF := by
          split_ifs with h
          · exact (min_eq_right (le_of_lt h)).symm
          · exact (min_eq_left (not_lt.mp h)).symm
        rw [this]
      · simp only [he, if_false, Res.pure_eq]

/-- The variables of the source after bar `i` are those of the reference run,
and the slice holds the reference SAR values up to index `i`. -/
theorem ParabolicSAR.stateAfter_eq (p : ParabolicSAR) (high low : List ℚ) (n : Nat)
    (hh : high.length = n) (hl : low.length = n) (hn : 2 ≤ n) (i : Nat) (hi : i < n) :
    ∃ arr : List ℚ,
      ParabolicSAR.stateAfter p high low i
        = Res.ok ⟨arr, (sarTrace p high low i).up, (sarTrace p high low i).ep,
            (sarTrace p high low i).af⟩ ∧
      FilledTo n (i + 1) (fun j => (sarTrace p high low j).sar) arr := by
  have h0 := ParabolicSAR.init_eq p high low n hh hl hn (make n) (length_make n)
  have f0 : FilledTo n 1 (fun j => (sarTrace p high low j).sar)
      ((make n : List ℚ).set 0 (sarStart p high low).sar) :=
    FilledTo.set_next (FilledTo.make_zero n 0 _ (fun j hj => by omega)) (by omega) _ rfl
  obtain ⟨s, hs, g1, g2, g3, g4⟩ := iter_inv
    (fun m (t : ParabolicSAR.State) =>
      FilledTo n m (fun j => (sarTrace p high low j).sar) t.sar ∧
      t.upTrend = (sarTrace p high low (m - 1)).up ∧
      t.ep = (sarTrace p high low (m - 1)).ep ∧
      t.af = (sarTrace p high low (m - 1)).af)
    (ParabolicSAR.step p high low) i 1 1
    ⟨(make n : List ℚ).set 0 (sarStart p high low).sar, (sarStart p high low).up,
      (sarStart p high low).ep, (sarStart p high low).af⟩ rfl
    ⟨f0, rfl, rfl, rfl⟩
    (fun m t h1 h2 hinv => by
      obtain ⟨k1, k2, k3, k4⟩ := hinv
      obtain ⟨q, rfl⟩ : ∃ q, m = q + 1 := ⟨m - 1, by omega⟩
      obtain ⟨arr, u, e, a⟩ := t
      simp only [Nat.add_sub_cancel] at k1 k2 k3 k4
      subst k2 k3 k4
      have hstep := ParabolicSAR.step_eq p high low n hh hl q (by omega) arr
        (sarTrace p high low q) k1.1 (k1.2 q (by omega))
      refine ⟨_, hstep, FilledTo.set_next k1 (by omega) _ rfl, ?_, ?_, ?_⟩
      · simp only [Nat.add_sub_cancel]
        rfl
      · simp only [Nat.add_sub_cancel]
        rfl
      · simp only [Nat.add_sub_cancel]
        rfl)
  obtain ⟨arr, u, e, a⟩ := s
  simp only [Nat.add_sub_cancel_left] at g2 g3 g4
  simp only at g1
  subst g2 g3 g4
  refine ⟨arr, ?_, ?_⟩
  · simp only [ParabolicSAR.stateAfter]
    rw [hh, h0]
    exact hs
  · rw [Nat.add_comm]
    exact g1

/-- For two bars or more `ParabolicSAR.Calculate` returns the slice held after
the last bar. -/
theorem ParabolicSAR.Calculate_stateAfter (p : ParabolicSAR) (high low : List ℚ)
    (hl : high.length = low.length) (hn : 2 ≤ high.length) :
    ParabolicSAR.Calculate p high low
      = (ParabolicSAR.stateAfter p high low (high.length - 1) >>= fun s => pure s.sar) := by
  have c1 : ¬ (len high ≠ len low) := by simp [len, hl]
  have c2 : ¬ (len high = 0) := by simp only [len]; omega
  have c3 : ¬ (len high = 1) := by simp only [len]; omega
  have c4 : (len high - 1).toNat = high.length - 1 := by simp only [len]; omega
  simp only [ParabolicSAR.Calculate, c1, c2, c3, if_false, ParabolicSAR.stateAfter, forRange, c4]
  cases ParabolicSAR.init p high low (make high.length) <;> rfl

/-- Closed form of `ParabolicSAR.Calculate` on two bars or more. -/
theorem ParabolicSAR.sar_closed (p : ParabolicSAR) (high low : List ℚ)
    (hl : high.length = low.length) (hn : 2 ≤ high.length) :
    ParabolicSAR.Calculate p high low
      = Res.ok ((List.range high.length).map (fun j => (sarTrace p high low j).sar)) := by
  obtain ⟨arr, h1, h2⟩ := ParabolicSAR.stateAfter_eq p high low high.length rfl hl.symm hn
    (high.length - 1) (by omega)
  rw [ParabolicSAR.Calculate_stateAfter p high low hl hn, h1]
  rw [Nat.sub_add_cancel (by omega)] at h2
  simp only [Res.ok_bind, Res.pure_eq]
  rw [FilledTo.eq_map h2]

theorem sarNext_up (p : ParabolicSAR) (high low : List ℚ) (i : Nat) (T : SarPoint)
    (hu : T.up = true) :
    (T.sar + T.af * (T.ep - T.sar) > min (low.getD (i - 1) 0) (low.getD i 0) →
      (sarNext p high low i T).up = false ∧
      (sarNext p high low i T).sar = max (high.getD (i - 1) 0) (high.getD i 0) ∧
      (sarNext p high low i T).af = p.StartAF ∧
      (sarNext p high low i T).ep = low.getD i 0) ∧
    (¬ T.sar + T.af * (T.ep - T.sar) > min (low.getD (i - 1) 0) (low.getD i 0) →
      (sarNext p high low i T).sar = T.sar + T.af * (T.ep - T.sar) ∧
      (sarNext p high low i T).up = true ∧
      (high.getD i 0 > T.ep →
        (sarNext p high low i T).ep = high.getD i 0 ∧
        (sarNext p high low i T).af = min (T.af + p.IncrementAF) p.MaxAF) ∧
      (¬ high.getD i 0 > T.ep →
        (sarNext p high low i T).ep = T.ep ∧ (sarNext p high low i T).af = T.af)) := by
  unfold sarNext
  rw [if_pos hu]
  constructor
  · intro hc
    rw [if_pos hc]
    exact ⟨rfl, rfl, rfl, rfl⟩
  · intro hc
    rw [if_neg hc]
    by_cases he : high.getD i 0 > T.ep
    · rw [if_pos he]
      exact ⟨rfl, rfl, fun _ => ⟨rfl, rfl⟩, fun h => absurd he h⟩
    · rw [if_neg he]
      exact ⟨rfl, rfl, fun h => absurd h he, fun _ => ⟨rfl, rfl⟩⟩

theorem sarNext_down (p : ParabolicSAR) (high low : List ℚ) (i : Nat) (T : SarPoint)
    (hu : T.up = false) :
    (T.sar + T.af * (T.ep - T.sar) < max (high.getD (i - 1) 0) (high.getD i 0) →
      (sarNext p high low i T).up = true ∧
      (sarNext p high low i T).sar = min (low.getD (i - 1) 0) (low.getD i 0) ∧
      (sarNext p high low i T).af = p.StartAF ∧
      (sarNext p high low i T).ep = high.getD i 0) ∧
    (¬ T.sar + T.af * (T.ep - T.sar) < max (high.getD (i - 1) 0) (high.getD i 0) →
      (sarNext p high low i T).sar = T.sar + T.af * (T.ep - T.sar) ∧
      (sarNext p high low i T).up = false ∧
      (low.getD i 0 < T.ep →
        (sarNext p high low i T).ep = low.getD i 0 ∧
        (sarNext p high low i T).af = min (T.af + p.IncrementAF) p.MaxAF) ∧
      (¬ low.getD i 0 < T.ep →
        (sarNext p high low i T).ep = T.ep ∧ (sarNext p high low i T).af = T.af)) := by
  have hu2 : ¬ (T.up = true) := by simp [hu]
  unfold sarNext
  rw [if_neg hu2]
  constructor
  · intro hc
    rw [if_pos hc]
    exact ⟨rfl, rfl, rfl, rfl⟩
  · intro hc
    rw [if_neg hc]
    by_cases he : low.getD i 0 < T.ep
    · rw [if_pos he]
      exact ⟨rfl, rfl, fun _ => ⟨rfl, rfl⟩, fun h => absurd he h⟩
    · rw [if_neg he]
      exact ⟨rfl, rfl, fun h => absurd h he, fun _ => ⟨rfl, rfl⟩⟩

theorem sarNext_side (p : ParabolicSAR) (high low : List ℚ) (i : Nat) (T : SarPoint) :
    ((sarNext p high low i T).up = true →
      (sarNext p high low i T).sar ≤ min (low.getD (i - 1) 0) (low.getD i 0)) ∧
    ((sarNext p high low i T).up = false →
      (sarNext p high low i T).sar ≥ max (high.getD (i - 1) 0) (high.getD i 0)) := by
  cases hu : T.up with
  | true =>
    obtain ⟨h1, h2⟩ := sarNext_up p high low i T hu
    by_cases hc : T.sar + T.af * (T.ep - T.sar) > min (low.getD (i - 1) 0) (low.getD i 0)
    · obtain ⟨a, b, _, _⟩ := h1 hc
      refine ⟨fun h => ?_, fun _ => ?_⟩
      · rw [a] at h
        exact absurd h (by simp)
      · rw [b]
    · obtain ⟨a, b, _, _⟩ := h2 hc
      refine ⟨fun _ => ?_, fun h => ?_⟩
      · rw [a]
        exact not_lt.mp hc
      · rw [b] at h
        exact absurd h (by simp)
  | false =>
    obtain ⟨h1, h2⟩ := sarNext_down p high low i T hu
    by_cases hc : T.sar + T.af * (T.ep - T.sar) < max (high.getD (i - 1) 0) (high.getD i 0)
    · obtain ⟨a, b, _, _⟩ := h1 hc
      refine ⟨fun _ => ?_, fun h => ?_⟩
      · rw [b]
      · rw [a] at h
        exact absurd h (by simp)
    · obtain ⟨a, b, _, _⟩ := h2 hc
      refine ⟨fun h => ?_, fun _ => ?_⟩
      · rw [b] at h
        exact absurd h (by simp)
      · rw [a]
        exact not_lt.mp hc

/-- C5: for bars of one length `n >= 2`, `ParabolicSAR.Calculate` succeeds and
every `sar[i]`, `i >= 1`, comes from the state `(upTrend, EP, AF)` held after
bar `i-1` by the transition of the claim, with
`candidate = sar[i-1] + AF*(EP - sar[i-1])`: in an up trend a candidate above
`min(low[i-1], low[i])` flips to a down trend with
`sar[i] = max(high[i-1], high[i])`, `AF = StartAF`, `EP = low[i]`, and
otherwise `sar[i] = candidate`, the trend stays up and a new high moves `EP`
to `high[i]` and `AF` to `min(AF + IncrementAF, MaxAF)`; the down trend is
the mirror image. -/
theorem ParabolicSAR.Calculate_transition (p : ParabolicSAR) (high low : List ℚ)
    (hl : high.length = low.length) (hn : 2 ≤ high.length) :
    ∃ sar : List ℚ, ParabolicSAR.Calculate p high low = Res.ok sar ∧
      sar.length = high.length ∧
      ∀ i : Nat, 1 ≤ i → i < high.length →
        ∃ s s' : ParabolicSAR.State,
          ParabolicSAR.stateAfter p high low (i - 1) = Res.ok s ∧
          ParabolicSAR.stateAfter p high low i = Res.ok s' ∧
          (s.upTrend = true →
            (sar.getD (i - 1) 0 + s.af * (s.ep - sar.getD (i - 1) 0)
                > min (low.getD (i - 1) 0) (low.getD i 0) →
              s'.upTrend = false ∧
              sar.getD i 0 = max (high.getD (i - 1) 0) (high.getD i 0) ∧
              s'.af = p.StartAF ∧ s'.ep = low.getD i 0) ∧
            (¬ sar.getD (i - 1) 0 + s.af * (s.ep - sar.getD (i - 1) 0)
                > min (low.getD (i - 1) 0) (low.getD i 0) →
              sar.getD i 0 = sar.getD (i - 1) 0 + s.af * (s.ep - sar.getD (i - 1) 0) ∧
              s'.upTrend = true ∧
              (high.getD i 0 > s.ep →
                s'.ep = high.getD i 0 ∧ s'.af = min (s.af + p.IncrementAF) p.MaxAF) ∧
              (¬ high.getD i 0 > s.ep → s'.ep = s.ep ∧ s'.af = s.af))) ∧
          (s.upTrend = false →
            (sar.getD (i - 1) 0 + s.af * (s.ep - sar.getD (i - 1) 0)
                < max (high.getD (i - 1) 0) (high.getD i 0) →
              s'.upTrend = true ∧
              sar.getD i 0 = min (low.getD (i - 1) 0) (low.getD i 0) ∧
              s'.af = p.StartAF ∧ s'.ep = high.getD i 0) ∧
            (¬ sar.getD (i - 1) 0 + s.af * (s.ep - sar.getD (i - 1) 0)
                < max (high.getD (i - 1) 0) (high.getD i 0) →
              sar.getD i 0 = sar.getD (i - 1) 0 + s.af * (s.ep - sar.getD (i - 1) 0) ∧
              s'.upTrend = false ∧
              (low.getD i 0 < s.ep →
                s'.ep = low.getD i 0 ∧ s'.af = min (s.af + p.IncrementAF) p.MaxAF) ∧
              (¬ low.getD i 0 < s.ep → s'.ep = s.ep ∧ s'.af = s.af))) := by
  refine ⟨_, ParabolicSAR.sar_closed p high low hl hn, by simp, ?_⟩
  intro i h1 h2
  obtain ⟨q, rfl⟩ : ∃ q, i = q + 1 := ⟨i - 1, by omega⟩
  obtain ⟨a0, e0, _⟩ := ParabolicSAR.stateAfter_eq p high low high.length rfl hl.symm hn q
    (by omega)
  obtain ⟨a1, e1, _⟩ := ParabolicSAR.stateAfter_eq p high low high.length rfl hl.symm hn
    (q + 1) h2
  refine ⟨_, _, by rw [Nat.add_sub_cancel]; exact e0, e1, ?_, ?_⟩
  · intro hu
    simp only [Nat.add_sub_cancel]
    rw [getD_map_range _ q _ (by omega), getD_map_range _ (q + 1) _ h2]
    exact sarNext_up p high low (q + 1) (sarTrace p high low q) hu
  · intro hu
    simp only [Nat.add_sub_cancel]
    rw [getD_map_range _ q _ (by omega), getD_map_range _ (q + 1) _ h2]
    exact sarNext_down p high low (q + 1) (sarTrace p high low q) hu

/-- Instance of C5 on the first bars of `TestParabolicSAR`. -/
theorem ParabolicSAR.Calculate_transition_witness :
    ∃ sar : List ℚ,
      ParabolicSAR.Calculate ⟨1/50, 1/50, 1/5⟩ [10, 21/2, 54/5, 11] [19/2, 10, 51/5, 21/2]
        = Res.ok sar ∧
      sar.length = 4 ∧
      ∀ i : Nat, 1 ≤ i → i < 4 →
        ∃ s s' : ParabolicSAR.State,
          ParabolicSAR.stateAfter ⟨1/50, 1/50, 1/5⟩ [10, 21/2, 54/5, 11]
            [19/2, 10, 51/5, 21/2] (i - 1) = Res.ok s ∧
          ParabolicSAR.stateAfter ⟨1/50, 1/50, 1/5⟩ [10, 21/2, 54/5, 11]
            [19/2, 10, 51/5, 21/2] i = Res.ok s' ∧
          (s.upTrend = true →
            (sar.getD (i - 1) 0 + s.af * (s.ep - sar.getD (i - 1) 0)
                > min (([19/2, 10, 51/5, 21/2] : List ℚ).getD (i - 1) 0)
                    (([19/2, 10, 51/5, 21/2] : List ℚ).getD i 0) →
              s'.upTrend = false ∧
              sar.getD i 0 = max (([10, 21/2, 54/5, 11] : List ℚ).getD (i - 1) 0)
                (([10, 21/2, 54/5, 11] : List ℚ).getD i 0) ∧
              s'.af = (⟨1/50, 1/50, 1/5⟩ : ParabolicSAR).StartAF ∧
              s'.ep = ([19/2, 10, 51/5, 21/2] : List ℚ).getD i 0) ∧
            (¬ sar.getD (i - 1) 0 + s.af * (s.ep - sar.getD (i - 1) 0)
                > min (([19/2, 10, 51/5, 21/2] : List ℚ).getD (i - 1) 0)
                    (([19/2, 10, 51/5, 21/2] : List ℚ).getD i 0) →
              sar.getD i 0 = sar.getD (i - 1) 0 + s.af * (s.ep - sar.getD (i - 1) 0) ∧
              s'.upTrend = true ∧
              (([10, 21/2, 54/5, 11] : List ℚ).getD i 0 > s.ep →
                s'.ep = ([10, 21/2, 54/5, 11] : List ℚ).getD i 0 ∧
                s'.af = min (s.af + (⟨1/50, 1/50, 1/5⟩ : ParabolicSAR).IncrementAF)
                  (⟨1/50, 1/50, 1/5⟩ : ParabolicSAR).MaxAF) ∧
              (¬ ([10, 21/2, 54/5, 11] : List ℚ).getD i 0 > s.ep →
                s'.ep = s.ep ∧ s'.af = s.af))) ∧
          (s.upTrend = false →
            (sar.getD (i - 1) 0 + s.af * (s.ep - sar.getD (i - 1) 0)
                < max (([10, 21/2, 54/5, 11] : List ℚ).getD (i - 1) 0)
                    (([10, 21/2, 54/5, 11] : List ℚ).getD i 0) →
              s'.upTrend = true ∧
              sar.getD i 0 = min (([19/2, 10, 51/5, 21/2] : List ℚ).getD (i - 1) 0)
                (([19/2, 10, 51/5, 21/2] : List ℚ).getD i 0) ∧
              s'.af = (⟨1/50, 1/50, 1/5⟩ : ParabolicSAR).StartAF ∧
              s'.ep = ([10, 21/2, 54/5, 11] : List ℚ).getD i 0) ∧
            (¬ sar.getD (i - 1) 0 + s.af * (s.ep - sar.getD (i - 1) 0)
                < max (([10, 21/2, 54/5, 11] : List ℚ).getD (i - 1) 0)
                    (([10, 21/2, 54/5, 11] : List ℚ).getD i 0) →
              sar.getD i 0 = sar.getD (i - 1) 0 + s.af * (s.ep - sar.getD (i - 1) 0) ∧
              s'.upTrend = false ∧
              (([19/2, 10, 51/5, 21/2] : List ℚ).getD i 0 < s.ep →
                s'.ep = ([19/2, 10, 51/5, 21/2] : List ℚ).getD i 0 ∧
                s'.af = min (s.af + (⟨1/50, 1/50, 1/5⟩ : ParabolicSAR).IncrementAF)
                  (⟨1/50, 1/50, 1/5⟩ : ParabolicSAR).MaxAF) ∧
              (¬ ([19/2, 10, 51/5, 21/2] : List ℚ).getD i 0 < s.ep →
                s'.ep = s.ep ∧ s'.af = s.af))) :=
  ParabolicSAR.Calculate_transition ⟨1/50, 1/50, 1/5⟩ [10, 21/2, 54/5, 11]
    [19/2, 10, 51/5, 21/2] (by decide) (by decide)

/-- C6: for bars of one length `n >= 2`, any configuration and every bar
`i >= 1`: when the machine is in an up trend after bar `i` then
`sar[i] <= min(low[i-1], low[i])`, when it is in a down trend after bar `i`
then `sar[i] >= max(high[i-1], high[i])`; in particular
`sar[i] <= low[i]` or `sar[i] >= high[i]`. -/
theorem ParabolicSAR.Calculate_side (p : ParabolicSAR) (high low : List ℚ)
    (hl : high.length = low.length) (hn : 2 ≤ high.length) :
    ∃ sar : List ℚ, ParabolicSAR.Calculate p high low = Res.ok sar ∧
      ∀ i : Nat, 1 ≤ i → i < high.length →
        ∃ s' : ParabolicSAR.State,
          ParabolicSAR.stateAfter p high low i = Res.ok s' ∧
          (s'.upTrend = true → sar.getD i 0 ≤ min (low.getD (i - 1) 0) (low.getD i 0)) ∧
          (s'.upTrend = false → sar.getD i 0 ≥ max (high.getD (i - 1) 0) (high.getD i 0)) ∧
          (sar.getD i 0 ≤ low.getD i 0 ∨ sar.getD i 0 ≥ high.getD i 0) := by
  refine ⟨_, ParabolicSAR.sar_closed p high low hl hn, ?_⟩
  intro i h1 h2
  obtain ⟨q, rfl⟩ : ∃ q, i = q + 1 := ⟨i - 1, by omega⟩
  obtain ⟨a1, e1, _⟩ := ParabolicSAR.stateAfter_eq p high low high.length rfl hl.symm hn
    (q + 1) h2
  obtain ⟨k1, k2⟩ := sarNext_side p high low (q + 1) (sarTrace p high low q)
  refine ⟨_, e1, ?_, ?_, ?_⟩
  · intro hu
    rw [getD_map_range _ (q + 1) _ h2]
    exact k1 hu
  · intro hu
    rw [getD_map_range _ (q + 1) _ h2]
    exact k2 hu
  · rw [getD_map_range _ (q + 1) _ h2]
    cases hu : (sarTrace p high low (q + 1)).up with
    | true => exact Or.inl (le_trans (k1 hu) (min_le_right _ _))
    | false => exact Or.inr (le_trans (le_max_right _ _) (k2 hu))

/-- Instance of C6 on the first bars of `TestParabolicSAR`. -/
theorem ParabolicSAR.Calculate_side_witness :
    ∃ sar : List ℚ,
      ParabolicSAR.Calculate ⟨1/50, 1/50, 1/5⟩ [10, 21/2, 54/5, 11] [19/2, 10, 51/5, 21/2]
        = Res.ok sar ∧
      ∀ i : Nat, 1 ≤ i → i < 4 →
        ∃ s' : ParabolicSAR.State,
          ParabolicSAR.stateAfter ⟨1/50, 1/50, 1/5⟩ [10, 21/2, 54/5, 11]
            [19/2, 10, 51/5, 21/2] i = Res.ok s' ∧
          (s'.upTrend = true →
            sar.getD i 0 ≤ min (([19/2, 10, 51/5, 21/2] : List ℚ).getD (i - 1) 0)
              (([19/2, 10, 51/5, 21/2] : List ℚ).getD i 0)) ∧
          (s'.upTrend = false →
            sar.getD i 0 ≥ max (([10, 21/2, 54/5, 11] : List ℚ).getD (i - 1) 0)
              (([10, 21/2, 54/5, 11] : List ℚ).getD i 0)) ∧
          (sar.getD i 0 ≤ ([19/2, 10, 51/5, 21/2] : List ℚ).getD i 0 ∨
            sar.getD i 0 ≥ ([10, 21/2, 54/5, 11] : List ℚ).getD i 0) :=
  ParabolicSAR.Calculate_side ⟨1/50, 1/50, 1/5⟩ [10, 21/2, 54/5, 11]
    [19/2, 10, 51/5, 21/2] (by decide) (by decide)

/-! ## SuperTrend -/

theorem computeATR.superTrLoop (high low close : List ℚ) (n : Nat) (hn : 1 ≤ n)
    (hh : high.length = n) (hl : low.length = n) (hc : close.length = n)
    (tr0 : List ℚ) (h0 : FilledTo n 1 (trueRange high low close) tr0) :
    forRange 1 (n : Int) (computeATR.trBody high low close) tr0
      = Res.ok ((List.range n).map (trueRange high low close)) := by
  obtain ⟨tr, htr, hf⟩ := forRange_inv
    (fun m (t : List ℚ) => FilledTo n m (trueRange high low close) t)
    (computeATR.trBody high low close) 1 n 1 (n : Int) tr0 rfl rfl hn h0
    (fun m t h1 h2 hinv => by
      refine ⟨t.set m (trueRange high low close m), ?_, FilledTo.set_next hinv h2 _ rfl⟩
      simp only [computeATR.trBody]
      rw [rd_nat high m m rfl (by omega), rd_nat low m m rfl (by omega),
        rd_nat close ((m : Int) - 1) (m - 1) (by omega) (by omega)]
      simp only [Res.ok_bind]
      rw [wr_nat t m m _ rfl (by rw [hinv.1]; omega)]
      have hm : m ≠ 0 := by omega
      simp only [trueRange, hm, if_false, mathMax_eq, mathAbs_eq])
  rw [htr, FilledTo.eq_map hf]

/-- Closed form of `computeATR` on well-shaped input: the series that
`ATR.Calculate` returns. -/
theorem computeATR_eq (k n : Nat) (high low close : List ℚ) (hk : 1 ≤ k) (hkn : k ≤ n)
    (hh : high.length = n) (hl : low.length = n) (hc : close.length = n) :
    computeATR high low close (k : Int)
      = Res.ok ((List.range n).map (wilderAvg k (trueRange high low close))) := by
  subst hh
  have c1 : ¬ (len high ≠ len low ∨ len high ≠ len close) := by
    simp [len, hl, hc]
  have c2 : ¬ ((k : Int) < 1 ∨ (k : Int) > len high) := by
    simp only [len]
    omega
  have e1 := rd_nat high 0 0 rfl (by omega)
  have e2 := rd_nat low 0 0 rfl (by omega)
  have e3 := wr_nat (make high.length : List ℚ) 0 0 (high.getD 0 0 - low.getD 0 0) rfl
    (by rw [length_make]; omega)
  have e4 := computeATR.superTrLoop high low close high.length (by omega) rfl hl hc
    ((make high.length : List ℚ).set 0 (high.getD 0 0 - low.getD 0 0))
    (FilledTo.set_next (FilledTo.make_zero _ 0 _ (fun j hj => by omega)) (by omega) _
      (by simp [trueRange]))
  have e6 : forRange 0 (k : Int)
      (computeATR.sumBody ((List.range high.length).map (trueRange high low close))) 0
      = Res.ok (∑ j in Finset.range k,
          ((List.range high.length).map (trueRange high low close)).getD j 0) :=
    ATR.atrSumLoop ((List.range high.length).map (trueRange high low close)) k
      (by simp; omega) (k : Int) rfl
  have hsum : (∑ j in Finset.range k,
      ((List.range high.length).map (trueRange high low close)).getD j 0)
        = ∑ j in Finset.range k, trueRange high low close j := by
    apply Finset.sum_congr rfl
    intro j hj
    exact getD_map_range high.length j _ (by have := Finset.mem_range.mp hj; omega)
  have hseed : FilledTo high.length k (wilderAvg k (trueRange high low close))
      ((make high.length : List ℚ).set (k - 1)
        ((∑ j in Finset.range k,
          ((List.range high.length).map (trueRange high low close)).getD j 0)
            / (((k : Int)) : ℚ))) := by
    have h := FilledTo.set_next
      (FilledTo.make_zero high.length (k - 1) (wilderAvg k (trueRange high low close))
        (fun j hj => wilderAvg_warm k _ j (by omega)))
      (by omega) ((∑ j in Finset.range k,
          ((List.range high.length).map (trueRange high low close)).getD j 0)
            / (((k : Int)) : ℚ))
      (by rw [wilderAvg_seed k _ (k - 1) (by omega), hsum]; simp)
    rwa [Nat.sub_add_cancel hk] at h
  have e8 : forRange (k : Int) (high.length : Int)
      (computeATR.smoothBody (k : Int) ((List.range high.length).map (trueRange high low close)))
      ((make high.length : List ℚ).set (k - 1)
        ((∑ j in Finset.range k,
          ((List.range high.length).map (trueRange high low close)).getD j 0)
            / (((k : Int)) : ℚ)))
      = Res.ok ((List.range high.length).map (wilderAvg k (trueRange high low close))) :=
    ATR.atrSmoothLoop (trueRange high low close) high.length k hk hkn _ rfl _ hseed.1 hseed.2
  obtain ⟨a9, e9, f9⟩ := forRange_inv
    (fun _ (t : List ℚ) =>
      FilledTo high.length high.length (wilderAvg k (trueRange high low close)) t)
    computeATR.zeroBody 0 (k - 1) 0 ((k : Int) - 1)
    ((List.range high.length).map (wilderAvg k (trueRange high low close))) rfl (by omega)
    (by omega) (FilledTo.of_map _ _ _ (le_refl _))
    (fun m t _ h2 hinv => by
      refine ⟨t.set m 0, ?_, FilledTo.zero_set hinv m
        (fun _ => wilderAvg_warm k _ m (by omega))⟩
      simp only [computeATR.zeroBody]
      rw [wr_nat t m m _ rfl (by rw [hinv.1]; omega)])
  simp only [computeATR, c1, c2, if_false]
  rw [e1, e2]
  simp only [Res.ok_bind]
  rw [e3]
  simp only [Res.ok_bind, len]
  rw [e4]
  simp only [Res.ok_bind]
  rw [e6]
  simp only [Res.ok_bind]
  rw [wr_nat _ _ (k - 1) _ (by omega) (by rw [length_make]; omega)]
  simp only [Res.ok_bind]
  rw [e8]
  simp only [Res.ok_bind]
  rw [e9, FilledTo.eq_map f9]
  rfl

theorem SuperTrend.basicLoop (mult : ℚ) (high low : List ℚ) (A : Nat → ℚ) (n : Nat)
    (hh : high.length = n) (hl : low.length = n) :
    forRange 0 (n : Int) (SuperTrend.basicBody mult high low ((List.range n).map A))
        ⟨make n, make n⟩
      = Res.ok ⟨(List.range n).map (basicUpper mult high low A),
          (List.range n).map (basicLower mult high low A)⟩ := by
  obtain ⟨r, hr, f1, f2⟩ := forRange_inv
    (fun m (t : SuperTrend.Basic) => FilledTo n m (basicUpper mult high low A) t.basicUB ∧
      FilledTo n m (basicLower mult high low A) t.basicLB)
    (SuperTrend.basicBody mult high low ((List.range n).map A)) 0 n 0 (n : Int)
    ⟨make n, make n⟩ rfl rfl (by omega)
    ⟨FilledTo.make_zero n 0 _ (fun j hj => by omega),
      FilledTo.make_zero n 0 _ (fun j hj => by omega)⟩
    (fun m t _ h2 hinv => by
      obtain ⟨g1, g2⟩ := hinv
      refine ⟨⟨t.basicUB.set m (basicUpper mult high low A m),
        t.basicLB.set m (basicLower mult high low A m)⟩, ?_,
        FilledTo.set_next g1 h2 _ rfl, FilledTo.set_next g2 h2 _ rfl⟩
      simp only [SuperTrend.basicBody]
      rw [rd_nat high m m rfl (by omega), rd_nat low m m rfl (by omega),
        rd_nat _ (m : Int) m rfl (by simp; omega)]
      simp only [Res.ok_bind]
      rw [wr_nat t.basicUB m m _ rfl (by rw [g1.1]; omega)]
      simp only [Res.ok_bind]
      rw [wr_nat t.basicLB m m _ rfl (by rw [g2.1]; omega)]
      simp only [Res.ok_bind, Res.pure_eq, getD_map_range n m A h2, basicUpper, basicLower])
  rw [hr]
  obtain ⟨a, b⟩ := r
  simp only at f1 f2
  rw [FilledTo.eq_map f1, FilledTo.eq_map f2]

theorem SuperTrend.trendBody_eq (close : List ℚ) (UB LB : Nat → ℚ) (n : Nat)
    (hc : close.length = n) (q : Nat) (hq : q + 1 < n) (t : SuperTrend.Out)
    (g1 : FilledTo n (q + 1)
      (trendLine (finalUpper UB close) (finalLower LB close) close) t.superTrendLine)
    (g2 : FilledTo n (q + 1)
      (trendDir (finalUpper UB close) (finalLower LB close) close) t.trendDirection)
    (g3 : FilledTo n (q + 1) (finalUpper UB close) t.finalUB)
    (g4 : FilledTo n (q + 1) (finalLower LB close) t.finalLB) :
    SuperTrend.trendBody close ⟨(List.range n).map UB, (List.range n).map LB⟩
        ((q + 1 : Nat) : Int) t
      = Res.ok ⟨t.superTrendLine.set (q + 1)
            (trendLine (finalUpper UB close) (finalLower LB close) close (q + 1)),
          t.trendDirection.set (q + 1)
            (trendDir (finalUpper UB close) (finalLower LB close) close (q + 1)),
          t.finalUB.set (q + 1) (finalUpper UB close (q + 1)),
          t.finalLB.set (q + 1) (finalLower LB close (q + 1))⟩ := by
  have r1 := rd_nat close (((q + 1 : Nat) : Int) - 1) q (by push_cast; omega) (by omega)
  have r2 := rd_nat t.finalUB (((q + 1 : Nat) : Int) - 1) q (by push_cast; omega)
    (by rw [g3.1]; omega)
  have r3 := rd_nat ((List.range n).map UB) ((q + 1 : Nat) : Int) (q + 1) rfl
    (by simp; omega)
  have r4 := rd_nat t.finalLB (((q + 1 : Nat) : Int) - 1) q (by push_cast; omega)
    (by rw [g4.1]; omega)
  have r5 := rd_nat ((List.range n).map LB) ((q + 1 : Nat) : Int) (q + 1) rfl
    (by simp; omega)
  have r6 := rd_nat t.trendDirection (((q + 1 : Nat) : Int) - 1) q (by push_cast; omega)
    (by rw [g2.1]; omega)
  have r7 := rd_nat close ((q + 1 : Nat) : Int) (q + 1) rfl (by omega)
  have w1 : ∀ v : ℚ, wr t.finalUB ((q + 1 : Nat) : Int) v = Res.ok (t.finalUB.set (q + 1) v) :=
    fun v => wr_nat _ _ (q + 1) v rfl (by rw [g3.1]; omega)
  have w2 : ∀ v : ℚ, wr t.finalLB ((q + 1 : Nat) : Int) v = Res.ok (t.finalLB.set (q + 1) v) :=
    fun v => wr_nat _ _ (q + 1) v rfl (by rw [g4.1]; omega)
  have w3 : ∀ v : Int, wr t.trendDirection ((q + 1 : Nat) : Int) v
      = Res.ok (t.trendDirection.set (q + 1) v) :=
    fun v => wr_nat _ _ (q + 1) v rfl (by rw [g2.1]; omega)
  have w4 : ∀ v : ℚ, wr t.superTrendLine ((q + 1 : Nat) : Int) v
      = Res.ok (t.superTrendLine.set (q + 1) v) :=
    fun v => wr_nat _ _ (q + 1) v rfl (by rw [g1.1]; omega)
  have r8 : ∀ v : ℚ, rd (t.finalLB.set (q + 1) v) ((q + 1 : Nat) : Int) = Res.ok v := by
    intro v
    rw [rd_nat _ _ (q + 1) rfl (by simp [g4.1]; omega),
      getD_set_eq _ _ _ _ (by rw [g4.1]; omega)]
  have r9 : ∀ v : ℚ, rd (t.finalUB.set (q + 1) v) ((q + 1 : Nat) : Int) = Res.ok v := by
    intro v
    rw [rd_nat _ _ (q + 1) rfl (by simp [g3.1]; omega),
      getD_set_eq _ _ _ _ (by rw [g3.1]; omega)]
  have eU : (if close.getD q 0 ≤ finalUpper UB close q
      then mathMin (UB (q + 1)) (finalUpper UB close q) else UB (q + 1))
      = finalUpper UB close (q + 1) := by
    simp only [finalUpper, mathMin_eq]
  have eL : (if close.getD q 0 ≥ finalLower LB close q
      then mathMax (LB (q + 1)) (finalLower LB close q) else LB (q + 1))
      = finalLower LB close (q + 1) := by
    simp only [finalLower, mathMax_eq]
  simp only [SuperTrend.trendBody, wr_ite]
  rw [r1, r2, r3]
  simp only [Res.ok_bind]
  rw [w1]
  simp only [Res.ok_bind]
  rw [r4, r5]
  simp only [Res.ok_bind]
  rw [w2]
  simp only [Res.ok_bind]
  rw [r6, r7]
  simp only [Res.ok_bind]
  rw [getD_map_range n (q + 1) UB hq, getD_map_range n (q + 1) LB hq, g3.2 q (by omega),
    g4.2 q (by omega), g2.2 q (by omega), eU, eL]
  by_cases hd : trendDir (finalUpper UB close) (finalLower LB close) close q = 1
  · simp only [hd, if_true]
    rw [r8]
    simp only [Res.ok_bind]
    by_cases hcl : close.getD (q + 1) 0 ≤ finalLower LB close (q + 1)
    · simp only [hcl, if_true]
      rw [w3]
      simp only [Res.ok_bind]
      rw [r9]
      simp only [Res.ok_bind]
      rw [w4]
      have eD : trendDir (finalUpper UB close) (finalLower LB close) close (q + 1) = -1 := by
        simp only [trendDir, hd, hcl, if_true]
      have eT : trendLine (finalUpper UB close) (finalLower LB close) close (q + 1)
          = finalUpper UB close (q + 1) := by
        simp only [trendLine, eD]
        rfl
      rw [eD, eT]
      rfl
    · simp only [hcl, if_false]
      rw [w3]
      simp only [Res.ok_bind]
      rw [w4]
      have eD : trendDir (finalUpper UB close) (finalLower LB close) close (q + 1) = 1 := by
        simp only [trendDir, hd, hcl, if_true, if_false]
      have eT : trendLine (finalUpper UB close) (finalLower LB close) close (q + 1)
          = finalLower LB close (q + 1) := by
        simp only [trendLine, eD, if_true]
      rw [eD, eT]
      rfl
  · simp only [hd, if_false]
    rw [r9]
    simp only [Res.ok_bind]
    by_cases hcu : close.getD (q + 1) 0 ≥ finalUpper UB close (q + 1)
    · simp only [hcu, if_true]
      rw [w3]
      simp only [Res.ok_bind]
      rw [r8]
      simp only [Res.ok_bind]
      rw [w4]
      have eD : trendDir (finalUpper UB close) (finalLower LB close) close (q + 1) = 1 := by
        simp only [trendDir, hd, hcu, if_true, if_false]
      have eT : trendLine (finalUpper UB close) (finalLower LB close) close (q + 1)
          = finalLower LB close (q + 1) := by
        simp only [trendLine, eD, if_true]
      rw [eD, eT]
      rfl
    · simp only [hcu, if_false]
      rw [w3]
      simp only [Res.ok_bind]
      rw [w4]
      have eD : trendDir (finalUpper UB close) (finalLower LB close) close (q + 1) = -1 := by
        simp only [trendDir, hd, hcu, if_false]
      have eT : trendLine (finalUpper UB close) (finalLower LB close) close (q + 1)
          = finalUpper UB close (q + 1) := by
        simp only [trendLine, eD]
        rfl
      rw [eD, eT]
      rfl

/-- Closed form of `SuperTrend.Calculate` on well-shaped input. -/
theorem SuperTrend.super_closed (k n : Nat) (mult : ℚ) (high low close : List ℚ)
    (hk : 1 ≤ k) (hkn : k ≤ n) (hh : high.length = n) (hl : low.length = n)
    (hc : close.length = n) :
    SuperTrend.Calculate ⟨(k : Int), mult⟩ high low close
      = Res.ok ⟨(List.range n).map
            (trendLine (superUB k mult high low close) (superLB k mult high low close) close),
          (List.range n).map
            (trendDir (superUB k mult high low close) (superLB k mult high low close) close),
          (List.range n).map (superUB k mult high low close),
          (List.range n).map (superLB k mult high low close)⟩ := by
  subst hh
  have hn : 1 ≤ high.length := by omega
  have c1 : ¬ (len high ≠ len low ∨ len high ≠ len close) := by
    simp [len, hl, hc]
  have c2 : ¬ (len high < (k : Int)) := by
    simp only [len]
    omega
  have b0 : ∀ (F : Nat → ℚ), rd ((List.range high.length).map F) 0 = Res.ok (F 0) := by
    intro F
    rw [rd_nat _ 0 0 rfl (by simp; omega), getD_map_range _ 0 F (by omega)]
  have wq : ∀ v : ℚ, wr (make high.length : List ℚ) 0 v
      = Res.ok ((make high.length : List ℚ).set 0 v) :=
    fun v => wr_nat _ 0 0 v rfl (by rw [length_make]; omega)
  have wi : ∀ v : Int, wr (make high.length : List Int) 0 v
      = Res.ok ((make high.length : List Int).set 0 v) :=
    fun v => wr_nat _ 0 0 v rfl (by rw [length_make]; omega)
  have rq : ∀ v : ℚ, rd ((make high.length : List ℚ).set 0 v) 0 = Res.ok v := by
    intro v
    rw [rd_nat _ 0 0 rfl (by simp [length_make]; omega),
      getD_set_eq _ _ _ _ (by rw [length_make]; omega)]
  have fq : ∀ (F : Nat → ℚ), FilledTo high.length 1 F
      ((make high.length : List ℚ).set 0 (F 0)) :=
    fun F => FilledTo.set_next (FilledTo.make_zero _ 0 _ (fun j hj => by omega)) (by omega) _ rfl
  have fi : FilledTo high.length 1
      (trendDir (superUB k mult high low close) (superLB k mult high low close) close)
      ((make high.length : List Int).set 0 1) :=
    FilledTo.set_next (FilledTo.make_zero _ 0 _ (fun j hj => by omega)) (by omega) _ rfl
  have fl : FilledTo high.length 1
      (trendLine (superUB k mult high low close) (superLB k mult high low close) close)
      ((make high.length : List ℚ).set 0 (superLB k mult high low close 0)) :=
    FilledTo.set_next (FilledTo.make_zero _ 0 _ (fun j hj => by omega)) (by omega) _
      (by simp [trendLine, trendDir])
  obtain ⟨r, hr, f1, f2, f3, f4⟩ := forRange_inv
    (fun m (t : SuperTrend.Out) =>
      FilledTo high.length m
        (trendLine (superUB k mult high low close) (superLB k mult high low close) close)
        t.superTrendLine ∧
      FilledTo high.length m
        (trendDir (superUB k mult high low close) (superLB k mult high low close) close)
        t.trendDirection ∧
      FilledTo high.length m (superUB k mult high low close) t.finalUB ∧
      FilledTo high.length m (superLB k mult high low close) t.finalLB)
    (SuperTrend.trendBody close
      ⟨(List.range high.length).map
          (basicUpper mult high low (wilderAvg k (trueRange high low close))),
        (List.range high.length).map
          (basicLower mult high low (wilderAvg k (trueRange high low close)))⟩)
    1 high.length 1 (high.length : Int)
    ⟨(make high.length : List ℚ).set 0 (superLB k mult high low close 0),
      (make high.length : List Int).set 0 1,
      (make high.length : List ℚ).set 0 (superUB k mult high low close 0),
      (make high.length : List ℚ).set 0 (superLB k mult high low close 0)⟩ rfl rfl hn
    ⟨fl, fi, fq _, fq _⟩
    (fun m t h1 h2 hinv => by
      obtain ⟨g1, g2, g3, g4⟩ := hinv
      obtain ⟨q, rfl⟩ : ∃ q, m = q + 1 := ⟨m - 1, by omega⟩
      exact ⟨_, SuperTrend.trendBody_eq close _ _ high.length hc q h2 t g1 g2 g3 g4,
        FilledTo.set_next g1 h2 _ rfl, FilledTo.set_next g2 h2 _ rfl,
        FilledTo.set_next g3 h2 _ rfl, FilledTo.set_next g4 h2 _ rfl⟩)
  simp only [SuperTrend.Calculate, c1, c2, if_false]
  rw [computeATR_eq k high.length high low close hk hkn rfl hl hc]
  simp only [Res.ok_bind, len]
  rw [SuperTrend.basicLoop mult high low _ high.length rfl hl]
  simp only [Res.ok_bind]
  rw [b0, b0]
  simp only [Res.ok_bind]
  rw [wq, wq]
  simp only [Res.ok_bind]
  rw [wi]
  simp only [Res.ok_bind]
  rw [rq]
  simp only [Res.ok_bind]
  rw [wq]
  simp only [Res.ok_bind]
  have hr2 := hr
  simp only [superUB, superLB, finalUpper, finalLower] at hr2
  rw [hr2]
  obtain ⟨a, b, c, d⟩ := r
  simp only at f1 f2 f3 f4
  rw [FilledTo.eq_map f1, FilledTo.eq_map f2, FilledTo.eq_map f3, FilledTo.eq_map f4]

/-- A call of `SuperTrend.Calculate` that returns without error was made on
bars of one length, at least `Period` of them, with `Period >= 1`. -/
theorem SuperTrend.ok_shape (s : SuperTrend) (high low close : List ℚ) (out : SuperTrend.Out)
    (h : SuperTrend.Calculate s high low close = Res.ok out) :
    high.length = low.length ∧ high.length = close.length ∧ 1 ≤ s.Period ∧
      s.Period ≤ (high.length : Int) := by
  by_cases c1 : len high ≠ len low ∨ len high ≠ len close
  · simp only [SuperTrend.Calculate, c1, if_true] at h
    cases h
  · by_cases c2 : len high < s.Period
    · simp only [SuperTrend.Calculate, c1, c2, if_true, if_false] at h
      cases h
    · by_cases c3 : s.Period < 1 ∨ s.Period > len high
      · have e : computeATR high low close s.Period = Res.error "invalid ATR period" := by
          simp only [computeATR, c1, c3, if_true, if_false]
        simp only [SuperTrend.Calculate, c1, c2, if_false, e] at h
        cases h
      · simp only [len] at c1 c2 c3
        omega

theorem finalUpper_le (ub : Nat → ℚ) (close : List ℚ) (i : Nat) :
    finalUpper ub close i ≤ ub i := by
  cases i with
  | zero => exact le_refl _
  | succ i =>
    simp only [finalUpper]
    split_ifs
    · exact min_le_left _ _
    · exact le_refl _

theorem finalLower_ge (lb : Nat → ℚ) (close : List ℚ) (i : Nat) :
    finalLower lb close i ≥ lb i := by
  cases i with
  | zero => exact le_refl _
  | succ i =>
    simp only [finalLower]
    split_ifs
    · exact le_max_left _ _
    · exact le_refl _

theorem trendDir_cases (fub flb : Nat → ℚ) (close : List ℚ) (i : Nat) :
    trendDir fub flb close i = 1 ∨ trendDir fub flb close i = -1 := by
  cases i with
  | zero => exact Or.inl rfl
  | succ i =>
    simp only [trendDir]
    split_ifs
    · exact Or.inr rfl
    · exact Or.inl rfl
    · exact Or.inl rfl
    · exact Or.inr rfl

/-- C7: for `Period >= 1` and bars of one length `n >= Period`,
`SuperTrend.Calculate` returns final bands with, for every `i >= 1`,
`finalUB[i] = min(UB[i], finalUB[i-1])` if `close[i-1] <= finalUB[i-1]`, else
`UB[i]`, and `finalLB[i] = max(LB[i], finalLB[i-1])` if
`close[i-1] >= finalLB[i-1]`, else `LB[i]`, where
`UB[i] = (high[i]+low[i])/2 + Multiplier*ATR[i]`,
`LB[i] = (high[i]+low[i])/2 - Multiplier*ATR[i]` and `ATR` is the series of
`computeATR`. Hence `finalUB[i] <= UB[i]`, `finalLB[i] >= LB[i]`, and
`finalUB[i] <= finalUB[i-1]` whenever `close[i-1] <= finalUB[i-1]`. -/
theorem SuperTrend.Calculate_bands (p : Int) (mult : ℚ) (high low close : List ℚ)
    (hp : 1 ≤ p) (hl : high.length = low.length) (hc : low.length = close.length)
    (hn : p ≤ (high.length : Int)) :
    ∃ (atr : List ℚ) (out : SuperTrend.Out),
      computeATR high low close p = Res.ok atr ∧
      SuperTrend.Calculate ⟨p, mult⟩ high low close = Res.ok out ∧
      out.finalUB.length = high.length ∧ out.finalLB.length = high.length ∧
      (∀ i : Nat, 1 ≤ i → i < high.length →
        out.finalUB.getD i 0
          = (if close.getD (i - 1) 0 ≤ out.finalUB.getD (i - 1) 0
              then min ((high.getD i 0 + low.getD i 0) / 2 + mult * atr.getD i 0)
                (out.finalUB.getD (i - 1) 0)
              else (high.getD i 0 + low.getD i 0) / 2 + mult * atr.getD i 0) ∧
        out.finalLB.getD i 0
          = (if close.getD (i - 1) 0 ≥ out.finalLB.getD (i - 1) 0
              then max ((high.getD i 0 + low.getD i 0) / 2 - mult * atr.getD i 0)
                (out.finalLB.getD (i - 1) 0)
              else (high.getD i 0 + low.getD i 0) / 2 - mult * atr.getD i 0)) ∧
      (∀ i : Nat, i < high.length →
        out.finalUB.getD i 0 ≤ (high.getD i 0 + low.getD i 0) / 2 + mult * atr.getD i 0 ∧
        out.finalLB.getD i 0 ≥ (high.getD i 0 + low.getD i 0) / 2 - mult * atr.getD i 0) ∧
      (∀ i : Nat, 1 ≤ i → i < high.length →
        close.getD (i - 1) 0 ≤ out.finalUB.getD (i - 1) 0 →
        out.finalUB.getD i 0 ≤ out.finalUB.getD (i - 1) 0) := by
  obtain ⟨k, rfl⟩ : ∃ k : Nat, p = (k : Int) := ⟨p.toNat, by omega⟩
  have hk : 1 ≤ k := by omega
  have hkn : k ≤ high.length := by omega
  have e : ∀ (F : Nat → ℚ) (i : Nat), i < high.length →
      ((List.range high.length).map F).getD i 0 = F i :=
    fun F i hi => getD_map_range _ i F hi
  refine ⟨_, _, computeATR_eq k high.length high low close hk hkn rfl hl.symm (by omega),
    SuperTrend.super_closed k high.length mult high low close hk hkn rfl hl.symm (by omega),
    by simp, by simp, ?_, ?_, ?_⟩
  · intro i h1 h2
    obtain ⟨q, rfl⟩ : ∃ q, i = q + 1 := ⟨i - 1, by omega⟩
    simp only [Nat.add_sub_cancel]
    rw [e _ (q + 1) h2, e _ (q + 1) h2, e _ (q + 1) h2, e _ q (by omega), e _ q (by omega)]
    exact ⟨rfl, rfl⟩
  · intro i h2
    simp only
    rw [e _ i h2, e _ i h2, e _ i h2]
    exact ⟨finalUpper_le _ _ i, finalLower_ge _ _ i⟩
  · intro i h1 h2
    obtain ⟨q, rfl⟩ : ∃ q, i = q + 1 := ⟨i - 1, by omega⟩
    simp only [Nat.add_sub_cancel]
    rw [e _ (q + 1) h2, e _ q (by omega)]
    intro hcl
    have hcl2 : close.getD q 0 ≤ finalUpper
        (basicUpper mult high low (wilderAvg k (trueRange high low close))) close q := hcl
    show finalUpper (basicUpper mult high low (wilderAvg k (trueRange high low close)))
        close (q + 1) ≤ finalUpper
        (basicUpper mult high low (wilderAvg k (trueRange high low close))) close q
    simp only [finalUpper, hcl2, if_true]
    exact min_le_right _ _

/-- Instance of C7: five bars, `Period = 2`, `Multiplier = 1`. -/
theorem SuperTrend.Calculate_bands_witness :
    ∃ (atr : List ℚ) (out : SuperTrend.Out),
      computeATR [10, 12, 9, 8, 12] [8, 10, 6, 5, 9] [9, 11, 7, 6, 12] 2 = Res.ok atr ∧
      SuperTrend.Calculate ⟨2, 1⟩ [10, 12, 9, 8, 12] [8, 10, 6, 5, 9] [9, 11, 7, 6, 12]
        = Res.ok out ∧
      out.finalUB.length = 5 ∧ out.finalLB.length = 5 ∧
      (∀ i : Nat, 1 ≤ i → i < 5 →
        out.finalUB.getD i 0
          = (if ([9, 11, 7, 6, 12] : List ℚ).getD (i - 1) 0 ≤ out.finalUB.getD (i - 1) 0
              then min ((([10, 12, 9, 8, 12] : List ℚ).getD i 0
                  + ([8, 10, 6, 5, 9] : List ℚ).getD i 0) / 2 + 1 * atr.getD i 0)
                (out.finalUB.getD (i - 1) 0)
              else (([10, 12, 9, 8, 12] : List ℚ).getD i 0
                  + ([8, 10, 6, 5, 9] : List ℚ).getD i 0) / 2 + 1 * atr.getD i 0) ∧
        out.finalLB.getD i 0
          = (if ([9, 11, 7, 6, 12] : List ℚ).getD (i - 1) 0 ≥ out.finalLB.getD (i - 1) 0
              then max ((([10, 12, 9, 8, 12] : List ℚ).getD i 0
                  + ([8, 10, 6, 5, 9] : List ℚ).getD i 0) / 2 - 1 * atr.getD i 0)
                (out.finalLB.getD (i - 1) 0)
              else (([10, 12, 9, 8, 12] : List ℚ).getD i 0
                  + ([8, 10, 6, 5, 9] : List ℚ).getD i 0) / 2 - 1 * atr.getD i 0)) ∧
      (∀ i : Nat, i < 5 →
        out.finalUB.getD i 0 ≤ (([10, 12, 9, 8, 12] : List ℚ).getD i 0
            + ([8, 10, 6, 5, 9] : List ℚ).getD i 0) / 2 + 1 * atr.getD i 0 ∧
        out.finalLB.getD i 0 ≥ (([10, 12, 9, 8, 12] : List ℚ).getD i 0
            + ([8, 10, 6, 5, 9] : List ℚ).getD i 0) / 2 - 1 * atr.getD i 0) ∧
      (∀ i : Nat, 1 ≤ i → i < 5 →
        ([9, 11, 7, 6, 12] : List ℚ).getD (i - 1) 0 ≤ out.finalUB.getD (i - 1) 0 →
        out.finalUB.getD i 0 ≤ out.finalUB.getD (i - 1) 0) :=
  SuperTrend.Calculate_bands 2 1 [10, 12, 9, 8, 12] [8, 10, 6, 5, 9] [9, 11, 7, 6, 12]
    (by decide) (by decide) (by decide) (by decide)

/-- Every successful call of `SuperTrend.Calculate` returns the reference
series of its period. -/
theorem SuperTrend.ok_eq (s : SuperTrend) (high low close : List ℚ) (out : SuperTrend.Out)
    (h : SuperTrend.Calculate s high low close = Res.ok out) :
    ∃ k : Nat, s.Period = (k : Int) ∧
      out = ⟨(List.range high.length).map
            (trendLine (superUB k s.Multiplier high low close)
              (superLB k s.Multiplier high low close) close),
          (List.range high.length).map
            (trendDir (superUB k s.Multiplier high low close)
              (superLB k s.Multiplier high low close) close),
          (List.range high.length).map (superUB k s.Multiplier high low close),
          (List.range high.length).map (superLB k s.Multiplier high low close)⟩ := by
  obtain ⟨h1, h2, h3, h4⟩ := SuperTrend.ok_shape s high low close out h
  obtain ⟨k, hk⟩ : ∃ k : Nat, s.Period = (k : Int) := ⟨s.Period.toNat, by omega⟩
  refine ⟨k, hk, ?_⟩
  have e := SuperTrend.super_closed k high.length s.Multiplier high low close (by omega)
    (by omega) rfl h1.symm h2.symm
  obtain ⟨p, m⟩ := s
  simp only at hk
  subst hk
  rw [e] at h
  exact (Res.ok.inj h).symm

/-- C8: on every successful `SuperTrend.Calculate` call and every bar
`i >= 1`: after an up bar (`direction[i-1] = 1`) the direction becomes `-1`
exactly when `close[i] <= finalLB[i]`; after a down bar
(`direction[i-1] = -1`) it becomes `1` exactly when `close[i] >= finalUB[i]`;
in every other case `direction[i] = direction[i-1]`. -/
theorem SuperTrend.Calculate_direction (s : SuperTrend) (high low close : List ℚ)
    (out : SuperTrend.Out) (h : SuperTrend.Calculate s high low close = Res.ok out) :
    ∀ i : Nat, 1 ≤ i → i < high.length →
      (out.trendDirection.getD (i - 1) 0 = 1 →
        (out.trendDirection.getD i 0 = -1 ↔ close.getD i 0 ≤ out.finalLB.getD i 0)) ∧
      (out.trendDirection.getD (i - 1) 0 = -1 →
        (out.trendDirection.getD i 0 = 1 ↔ close.getD i 0 ≥ out.finalUB.getD i 0)) ∧
      (¬ ((out.trendDirection.getD (i - 1) 0 = 1 ∧ close.getD i 0 ≤ out.finalLB.getD i 0) ∨
          (out.trendDirection.getD (i - 1) 0 = -1 ∧ close.getD i 0 ≥ out.finalUB.getD i 0)) →
        out.trendDirection.getD i 0 = out.trendDirection.getD (i - 1) 0) := by
  obtain ⟨k, _, rfl⟩ := SuperTrend.ok_eq s high low close out h
  intro i h1 h2
  obtain ⟨q, rfl⟩ : ∃ q, i = q + 1 := ⟨i - 1, by omega⟩
  simp only [Nat.add_sub_cancel]
  rw [getD_map_range _ (q + 1) _ h2, getD_map_range _ (q + 1) _ h2,
    getD_map_range _ (q + 1) _ h2, getD_map_range _ q _ (by omega)]
  generalize superUB k s.Multiplier high low close = F
  generalize superLB k s.Multiplier high low close = G
  refine ⟨?_, ?_, ?_⟩
  · intro hd
    by_cases hcl : close.getD (q + 1) 0 ≤ G (q + 1)
    · simp only [trendDir, hd, hcl, if_true]
    · simp only [trendDir, hd, hcl, if_true, if_false]
      decide
  · intro hd
    have hd1 : ¬ (trendDir F G close q = 1) := by rw [hd]; decide
    by_cases hcu : close.getD (q + 1) 0 ≥ F (q + 1)
    · simp only [trendDir, hd1, hcu, if_true, if_false]
    · simp only [trendDir, hd1, hcu, if_false]
      decide
  · intro hno
    rcases trendDir_cases F G close q with hd | hd
    · have hcl : ¬ close.getD (q + 1) 0 ≤ G (q + 1) := fun hh => hno (Or.inl ⟨hd, hh⟩)
      simp only [trendDir, hd, hcl, if_true, if_false]
    · have hd1 : ¬ (trendDir F G close q = 1) := by rw [hd]; decide
      have hcu : ¬ close.getD (q + 1) 0 ≥ F (q + 1) := fun hh => hno (Or.inr ⟨hd, hh⟩)
      simp only [trendDir, hd1, hcu, if_false]
      exact hd.symm

/-- Instance of C8: five bars with a flip down at bar 2 and a flip up at bar 4. -/
theorem SuperTrend.Calculate_direction_witness :
    SuperTrend.Calculate ⟨2, 1⟩ [10, 12, 9, 8, 12] [8, 10, 6, 5, 9] [9, 11, 7, 6, 12]
      = Res.ok ⟨[9, 9, 45/4, 79/8, 93/16], [1, 1, -1, -1, 1], [9, 9, 45/4, 79/8, 79/8],
          [9, 9, 9, 25/8, 93/16]⟩ ∧
    ∀ i : Nat, 1 ≤ i → i < 5 →
      (([1, 1, -1, -1, 1] : List Int).getD (i - 1) 0 = 1 →
        (([1, 1, -1, -1, 1] : List Int).getD i 0 = -1 ↔
          ([9, 11, 7, 6, 12] : List ℚ).getD i 0 ≤ ([9, 9, 9, 25/8, 93/16] : List ℚ).getD i 0)) ∧
      (([1, 1, -1, -1, 1] : List Int).getD (i - 1) 0 = -1 →
        (([1, 1, -1, -1, 1] : List Int).getD i 0 = 1 ↔
          ([9, 11, 7, 6, 12] : List ℚ).getD i 0
            ≥ ([9, 9, 45/4, 79/8, 79/8] : List ℚ).getD i 0)) ∧
      (¬ ((([1, 1, -1, -1, 1] : List Int).getD (i - 1) 0 = 1 ∧
            ([9, 11, 7, 6, 12] : List ℚ).getD i 0
              ≤ ([9, 9, 9, 25/8, 93/16] : List ℚ).getD i 0) ∨
          (([1, 1, -1, -1, 1] : List Int).getD (i - 1) 0 = -1 ∧
            ([9, 11, 7, 6, 12] : List ℚ).getD i 0
              ≥ ([9, 9, 45/4, 79/8, 79/8] : List ℚ).getD i 0)) →
        ([1, 1, -1, -1, 1] : List Int).getD i 0
          = ([1, 1, -1, -1, 1] : List Int).getD (i - 1) 0) :=
  ⟨by decide!,
    SuperTrend.Calculate_direction ⟨2, 1⟩ [10, 12, 9, 8, 12] [8, 10, 6, 5, 9]
      [9, 11, 7, 6, 12]
      ⟨[9, 9, 45/4, 79/8, 93/16], [1, 1, -1, -1, 1], [9, 9, 45/4, 79/8, 79/8],
        [9, 9, 9, 25/8, 93/16]⟩ (by decide!)⟩

/-- C9: on every successful `SuperTrend.Calculate` call and every index `i`,
`direction[i]` is `1` or `-1`, the line equals `finalLB[i]` when the
direction is `1` and `finalUB[i]` when it is `-1`. -/
theorem SuperTrend.Calculate_line (s : SuperTrend) (high low close : List ℚ)
    (out : SuperTrend.Out) (h : SuperTrend.Calculate s high low close = Res.ok out) :
    ∀ i : Nat, i < high.length →
      (out.trendDirection.getD i 0 = 1 ∨ out.trendDirection.getD i 0 = -1) ∧
      (out.trendDirection.getD i 0 = 1 →
        out.superTrendLine.getD i 0 = out.finalLB.getD i 0) ∧
      (out.trendDirection.getD i 0 = -1 →
        out.superTrendLine.getD i 0 = out.finalUB.getD i 0) := by
  obtain ⟨k, _, rfl⟩ := SuperTrend.ok_eq s high low close out h
  intro i h2
  simp only
  rw [getD_map_range _ i _ h2, getD_map_range _ i _ h2, getD_map_range _ i _ h2,
    getD_map_range _ i _ h2]
  refine ⟨trendDir_cases _ _ _ i, ?_, ?_⟩
  · intro hd
    simp only [trendLine, hd, if_true]
  · intro hd
    have hd1 : ¬ (trendDir (superUB k s.Multiplier high low close)
        (superLB k s.Multiplier high low close) close i = 1) := by rw [hd]; decide
    simp only [trendLine, hd1, if_false]

/-- Instance of C9 on the same five bars. -/
theorem SuperTrend.Calculate_line_witness :
    SuperTrend.Calculate ⟨2, 1⟩ [10, 12, 9, 8, 12] [8, 10, 6, 5, 9] [9, 11, 7, 6, 12]
      = Res.ok ⟨[9, 9, 45/4, 79/8, 93/16], [1, 1, -1, -1, 1], [9, 9, 45/4, 79/8, 79/8],
          [9, 9, 9, 25/8, 93/16]⟩ ∧
    ∀ i : Nat, i < 5 →
      (([1, 1, -1, -1, 1] : List Int).getD i 0 = 1 ∨
        ([1, 1, -1, -1, 1] : List Int).getD i 0 = -1) ∧
      (([1, 1, -1, -1, 1] : List Int).getD i 0 = 1 →
        ([9, 9, 45/4, 79/8, 93/16] : List ℚ).getD i 0
          = ([9, 9, 9, 25/8, 93/16] : List ℚ).getD i 0) ∧
      (([1, 1, -1, -1, 1] : List Int).getD i 0 = -1 →
        ([9, 9, 45/4, 79/8, 93/16] : List ℚ).getD i 0
          = ([9, 9, 45/4, 79/8, 79/8] : List ℚ).getD i 0) :=
  ⟨by decide!,
    SuperTrend.Calculate_line ⟨2, 1⟩ [10, 12, 9, 8, 12] [8, 10, 6, 5, 9]
      [9, 11, 7, 6, 12]
      ⟨[9, 9, 45/4, 79/8, 93/16], [1, 1, -1, -1, 1], [9, 9, 45/4, 79/8, 79/8],
        [9, 9, 9, 25/8, 93/16]⟩ (by decide!)⟩

/-! ## KAMA -/

theorem KAMA.volLoop (prices : List ℚ) (lo hi : Nat) (hle : lo ≤ hi)
    (hhi : hi < prices.length) (a : Int) (ha : a = (lo : Int)) :
    forRange a (hi : Int) (KAMA.volBody prices) 0
      = Res.ok (∑ j in Finset.Ico lo hi, |prices.getD (j + 1) 0 - prices.getD j 0|) := by
  obtain ⟨v, hv, hval⟩ := forRange_inv
    (fun m (t : ℚ) => t = ∑ j in Finset.Ico lo m, |prices.getD (j + 1) 0 - prices.getD j 0|)
    (KAMA.volBody prices) lo hi a (hi : Int) 0 ha rfl hle (by simp)
    (fun m t h1 h2 hinv => by
      refine ⟨t + |prices.getD (m + 1) 0 - prices.getD m 0|, ?_, ?_⟩
      · simp only [KAMA.volBody]
        rw [rd_nat prices ((m : Int) + 1) (m + 1) (by push_cast; rfl) (by omega),
          rd_nat prices m m rfl (by omega)]
        simp only [Res.ok_bind, Res.pure_eq, mathAbs_eq]
      · have hinv : t = ∑ j in Finset.Ico lo m, |prices.getD (j + 1) 0 - prices.getD j 0| :=
          hinv
        show t + |prices.getD (m + 1) 0 - prices.getD m 0|
          = ∑ j in Finset.Ico lo (m + 1), |prices.getD (j + 1) 0 - prices.getD j 0|
        rw [Finset.sum_Ico_succ_top h1, hinv])
  rw [hv, hval]

theorem KAMA.body_eq (e : Nat) (fp sp : Int) (prices : List ℚ) (fastSC slowSC : ℚ)
    (he : 2 ≤ e) (q : Nat) (hq : q + 1 < prices.length) (t : List ℚ)
    (g : FilledTo prices.length (q + 1) (kamaSeries prices e fastSC slowSC) t) :
    KAMA.body ⟨(e : Int), fp, sp⟩ prices fastSC slowSC ((q + 1 : Nat) : Int) t
      = Res.ok (t.set (q + 1) (kamaSeries prices e fastSC slowSC (q + 1))) := by
  have r1 := rd_nat t (((q + 1 : Nat) : Int) - 1) q (by push_cast; omega) (by rw [g.1]; omega)
  have r2 := rd_nat prices ((q + 1 : Nat) : Int) (q + 1) rfl hq
  have w1 : ∀ v : ℚ, wr t ((q + 1 : Nat) : Int) v = Res.ok (t.set (q + 1) v) :=
    fun v => wr_nat _ _ (q + 1) v rfl (by rw [g.1]; omega)
  simp only [KAMA.body]
  by_cases hw : q + 1 < e
  · have hw2 : ((q + 1 : Nat) : Int) < (e : Int) := by omega
    simp only [hw2, if_true]
    rw [r1, r2]
    simp only [Res.ok_bind]
    rw [w1, g.2 q (by omega)]
    simp only [kamaSeries, hw, if_true]
  · have hw2 : ¬ ((q + 1 : Nat) : Int) < (e : Int) := by omega
    have r3 := rd_nat prices (((q + 1 : Nat) : Int) - (e : Int) + 1) (q + 1 + 1 - e)
      (by omega) (by omega)
    have r4 := KAMA.volLoop prices (q + 1 + 1 - e) (q + 1) (by omega) hq
      (((q + 1 : Nat) : Int) - (e : Int) + 1) (by omega)
    simp only [hw2, if_false]
    rw [r2, r3]
    simp only [Res.ok_bind]
    rw [r4]
    simp only [Res.ok_bind]
    rw [r1]
    simp only [Res.ok_bind]
    rw [w1, g.2 q (by omega)]
    simp only [kamaSeries, hw, if_false, kamaER, kamaVolatility, mathAbs_eq, pow_two]

/-- Closed form of `KAMA.Calculate` on a valid configuration and enough
prices. -/
theorem KAMA.kama_closed (e : Nat) (fp sp : Int) (prices : List ℚ) (he : 2 ≤ e)
    (hf : 1 ≤ fp) (hs : 1 ≤ sp) (hn : e ≤ prices.length) :
    KAMA.Calculate ⟨(e : Int), fp, sp⟩ prices
      = Res.ok ((List.range prices.length).map
          (kamaSeries prices e (2 / ((fp : ℚ) + 1)) (2 / ((sp : ℚ) + 1)))) := by
  have c1 : ¬ (len prices = 0) := by simp only [len]; omega
  have c2 : ¬ ((e : Int) < 2) := by omega
  have c3 : ¬ (fp < 1 ∨ sp < 1) := by omega
  have c4 : ¬ (len prices < (e : Int)) := by simp only [len]; omega
  obtain ⟨r, hr, f⟩ := forRange_inv
    (fun m (t : List ℚ) => FilledTo prices.length m
      (kamaSeries prices e (2 / ((fp : ℚ) + 1)) (2 / ((sp : ℚ) + 1))) t)
    (KAMA.body ⟨(e : Int), fp, sp⟩ prices (2 / ((fp : ℚ) + 1)) (2 / ((sp : ℚ) + 1)))
    1 prices.length 1 (prices.length : Int)
    ((make prices.length : List ℚ).set 0 (prices.getD 0 0)) rfl rfl (by omega)
    (FilledTo.set_next (FilledTo.make_zero _ 0 _ (fun j hj => by omega)) (by omega) _ rfl)
    (fun m t h1 h2 hinv => by
      obtain ⟨q, rfl⟩ : ∃ q, m = q + 1 := ⟨m - 1, by omega⟩
      exact ⟨_, KAMA.body_eq e fp sp prices _ _ he q h2 t hinv,
        FilledTo.set_next hinv h2 _ rfl⟩)
  simp only [KAMA.Calculate, c1, c2, c3, c4, if_false]
  rw [rd_nat prices 0 0 rfl (by omega)]
  simp only [Res.ok_bind]
  rw [wr_nat _ 0 0 _ rfl (by rw [length_make]; omega)]
  simp only [Res.ok_bind, len]
  rw [hr, FilledTo.eq_map f]

/-- C10: for `ERPeriod >= 2`, `FastPeriod >= 1`, `SlowPeriod >= 1` and at
least `ERPeriod` prices, `KAMA.Calculate` succeeds with `kama[0] = prices[0]`,
`kama[i] = kama[i-1] + fastSC*(prices[i]-kama[i-1])` for `1 <= i < ERPeriod`,
and `kama[i] = kama[i-1] + SC*(prices[i]-kama[i-1])` for `i >= ERPeriod`,
where `SC = (ER*(fastSC-slowSC)+slowSC)^2`, `ER` is the net change over the
window divided by the volatility `V` (and `0` when `V = 0`),
`fastSC = 2/(FastPeriod+1)` and `slowSC = 2/(SlowPeriod+1)`. -/
theorem KAMA.Calculate_adaptive (er fp sp : Int) (prices : List ℚ) (he : 2 ≤ er)
    (hf : 1 ≤ fp) (hs : 1 ≤ sp) (hn : er ≤ (prices.length : Int)) :
    ∃ kama : List ℚ, KAMA.Calculate ⟨er, fp, sp⟩ prices = Res.ok kama ∧
      kama.length = prices.length ∧
      kama.getD 0 0 = prices.getD 0 0 ∧
      (∀ i : Nat, 1 ≤ i → (i : Int) < er →
        kama.getD i 0
          = kama.getD (i - 1) 0
            + 2 / ((fp : ℚ) + 1) * (prices.getD i 0 - kama.getD (i - 1) 0)) ∧
      (∀ i : Nat, er ≤ (i : Int) → i < prices.length →
        kama.getD i 0
          = kama.getD (i - 1) 0
            + ((if (∑ j in Finset.Ico (i + 1 - er.toNat) i,
                      |prices.getD (j + 1) 0 - prices.getD j 0|) = 0 then 0
                  else |prices.getD i 0 - prices.getD (i + 1 - er.toNat) 0|
                    / (∑ j in Finset.Ico (i + 1 - er.toNat) i,
                        |prices.getD (j + 1) 0 - prices.getD j 0|))
                * (2 / ((fp : ℚ) + 1) - 2 / ((sp : ℚ) + 1)) + 2 / ((sp : ℚ) + 1)) ^ 2
              * (prices.getD i 0 - kama.getD (i - 1) 0)) := by
  obtain ⟨e, rfl⟩ : ∃ e : Nat, er = (e : Int) := ⟨er.toNat, by omega⟩
  have he2 : 2 ≤ e := by omega
  have hn2 : e ≤ prices.length := by omega
  have g : ∀ (i : Nat), i < prices.length →
      ((List.range prices.length).map
        (kamaSeries prices e (2 / ((fp : ℚ) + 1)) (2 / ((sp : ℚ) + 1)))).getD i 0
      = kamaSeries prices e (2 / ((fp : ℚ) + 1)) (2 / ((sp : ℚ) + 1)) i :=
    fun i hi => getD_map_range _ i _ hi
  refine ⟨_, KAMA.kama_closed e fp sp prices he2 hf hs hn2, by simp, ?_, ?_, ?_⟩
  · rw [g 0 (by omega)]
    rfl
  · intro i h1 h2
    obtain ⟨q, rfl⟩ : ∃ q, i = q + 1 := ⟨i - 1, by omega⟩
    have hw : q + 1 < e := by omega
    rw [g (q + 1) (by omega), Nat.add_sub_cancel, g q (by omega)]
    simp only [kamaSeries, hw, if_true]
  · intro i h1 h2
    obtain ⟨q, rfl⟩ : ∃ q, i = q + 1 := ⟨i - 1, by omega⟩
    have hw : ¬ (q + 1 < e) := by omega
    rw [g (q + 1) h2, Nat.add_sub_cancel, g q (by omega)]
    simp only [kamaSeries, hw, if_false, kamaER, kamaVolatility, Int.toNat_ofNat]

/-- Instance of C10 on the first prices of `TestKAMA` with `ERPeriod = 3`,
`FastPeriod = 2`, `SlowPeriod = 30`. -/
theorem KAMA.Calculate_adaptive_witness :
    ∃ kama : List ℚ,
      KAMA.Calculate ⟨3, 2, 30⟩ [10, 51/5, 21/2, 103/10, 52/5] = Res.ok kama ∧
      kama.length = 5 ∧
      kama.getD 0 0 = ([10, 51/5, 21/2, 103/10, 52/5] : List ℚ).getD 0 0 ∧
      (∀ i : Nat, 1 ≤ i → (i : Int) < 3 →
        kama.getD i 0
          = kama.getD (i - 1) 0
            + 2 / (((2 : Int) : ℚ) + 1)
              * (([10, 51/5, 21/2, 103/10, 52/5] : List ℚ).getD i 0 - kama.getD (i - 1) 0)) ∧
      (∀ i : Nat, (3 : Int) ≤ (i : Int) → i < 5 →
        kama.getD i 0
          = kama.getD (i - 1) 0
            + ((if (∑ j in Finset.Ico (i + 1 - (3 : Int).toNat) i,
                      |([10, 51/5, 21/2, 103/10, 52/5] : List ℚ).getD (j + 1) 0
                        - ([10, 51/5, 21/2, 103/10, 52/5] : List ℚ).getD j 0|) = 0 then 0
                  else |([10, 51/5, 21/2, 103/10, 52/5] : List ℚ).getD i 0
                      - ([10, 51/5, 21/2, 103/10, 52/5] : List ℚ).getD
                          (i + 1 - (3 : Int).toNat) 0|
                    / (∑ j in Finset.Ico (i + 1 - (3 : Int).toNat) i,
                        |([10, 51/5, 21/2, 103/10, 52/5] : List ℚ).getD (j + 1) 0
                          - ([10, 51/5, 21/2, 103/10, 52/5] : List ℚ).getD j 0|))
                * (2 / (((2 : Int) : ℚ) + 1) - 2 / (((30 : Int) : ℚ) + 1))
                + 2 / (((30 : Int) : ℚ) + 1)) ^ 2
              * (([10, 51/5, 21/2, 103/10, 52/5] : List ℚ).getD i 0
                  - kama.getD (i - 1) 0)) :=
  KAMA.Calculate_adaptive 3 2 30 [10, 51/5, 21/2, 103/10, 52/5] (by decide) (by decide)
    (by decide) (by decide)

/-! ## KAMA: bounds on the efficiency ratio -/

theorem Res.bind_assoc {α β γ : Type} (x : Res α) (f : α → Res β) (g : β → Res γ) :
    ((x >>= f) >>= g) = (x >>= fun a => f a >>= g) := by
  cases x <;> rfl

/-- Past the warm-up the loop body of `KAMA.Calculate` is the efficiency ratio
`KAMA.erAt` followed by the smoothing step. -/
theorem KAMA.body_erAt (k : KAMA) (prices : List ℚ) (fastSC slowSC : ℚ) (i : Int)
    (kama : List ℚ) (hi : ¬ i < k.ERPeriod) :
    KAMA.body k prices fastSC slowSC i kama
      = (KAMA.erAt k prices i >>= fun er =>
          rd kama (i - 1) >>= fun prevKama =>
          rd prices i >>= fun p2 =>
          wr kama i (prevKama
            + (er * (fastSC - slowSC) + slowSC) * (er * (fastSC - slowSC) + slowSC)
              * (p2 - prevKama))) := by
  simp only [KAMA.body, KAMA.erAt, hi, if_false, Res.bind_assoc, Res.pure_eq, Res.ok_bind]

theorem KAMA.erAt_eq (e : Nat) (fp sp : Int) (prices : List ℚ) (he : 2 ≤ e) (i : Nat)
    (hi : e ≤ i) (hin : i < prices.length) :
    KAMA.erAt ⟨(e : Int), fp, sp⟩ prices (i : Int) = Res.ok (kamaER prices e i) := by
  simp only [KAMA.erAt]
  rw [rd_nat prices (i : Int) i rfl hin,
    rd_nat prices ((i : Int) - (e : Int) + 1) (i + 1 - e) (by omega) (by omega)]
  simp only [Res.ok_bind]
  rw [KAMA.volLoop prices (i + 1 - e) i (by omega) hin _ (by omega)]
  simp only [Res.ok_bind, Res.pure_eq, kamaER, kamaVolatility, mathAbs_eq]

/-- The net change over a window never exceeds the sum of the absolute steps. -/
theorem abs_net_le_sum_steps (prices : List ℚ) (lo : Nat) :
    ∀ d : Nat, |prices.getD (lo + d) 0 - prices.getD lo 0|
      ≤ ∑ j in Finset.Ico lo (lo + d), |prices.getD (j + 1) 0 - prices.getD j 0| := by
  intro d
  induction d with
  | zero => simp
  | succ d ih =>
    have h1 : lo + (d + 1) = lo + d + 1 := by omega
    rw [h1, Finset.sum_Ico_succ_top (by omega)]
    calc |prices.getD (lo + d + 1) 0 - prices.getD lo 0|
        = |(prices.getD (lo + d + 1) 0 - prices.getD (lo + d) 0)
            + (prices.getD (lo + d) 0 - prices.getD lo 0)| := by ring_nf
      _ ≤ |prices.getD (lo + d + 1) 0 - prices.getD (lo + d) 0|
            + |prices.getD (lo + d) 0 - prices.getD lo 0| := abs_add _ _
      _ ≤ |prices.getD (lo + d + 1) 0 - prices.getD (lo + d) 0|
            + ∑ j in Finset.Ico lo (lo + d), |prices.getD (j + 1) 0 - prices.getD j 0| :=
          add_le_add_left ih _
      _ = _ := add_comm _ _

theorem kamaVolatility_nonneg (prices : List ℚ) (e i : Nat) :
    0 ≤ kamaVolatility prices e i :=
  Finset.sum_nonneg (fun _ _ => abs_nonneg _)

theorem kamaER_bounds (prices : List ℚ) (e i : Nat) (he : 1 ≤ e) (hi : e ≤ i) :
    0 ≤ kamaER prices e i ∧ kamaER prices e i ≤ 1 := by
  unfold kamaER
  split_ifs with h0
  · exact ⟨le_refl _, zero_le_one⟩
  · have hpos : 0 < kamaVolatility prices e i :=
      lt_of_le_of_ne (kamaVolatility_nonneg prices e i) (Ne.symm h0)
    refine ⟨div_nonneg (abs_nonneg _) (le_of_lt hpos), ?_⟩
    rw [div_le_one hpos]
    have h := abs_net_le_sum_steps prices (i + 1 - e) (e - 1)
    have h1 : i + 1 - e + (e - 1) = i := by omega
    rw [h1] at h
    exact h

theorem smoothing_constant_bounds (r fast slow : ℚ) (h0 : 0 ≤ r) (h1 : r ≤ 1)
    (hs : 0 ≤ slow) (hfs : slow ≤ fast) :
    slow ^ 2 ≤ (r * (fast - slow) + slow) ^ 2 ∧ (r * (fast - slow) + slow) ^ 2 ≤ fast ^ 2 := by
  have a : slow ≤ r * (fast - slow) + slow := by nlinarith
  have b : r * (fast - slow) + slow ≤ fast := by nlinarith
  constructor
  · exact pow_le_pow_left₀ hs a 2
  · exact pow_le_pow_left₀ (le_trans hs a) b 2

/-- The rounding steps behind the efficiency ratio of the prices 0.1, 0.1,
0.2, 0.9 at bar 3: the `float64` values of the three literals, the net change
`0.9 - 0.1`, the two steps `0.2 - 0.1` and `0.9 - 0.2`, their sum, and the
ties-to-even rounding of `2^53 + 1` and `2^53 + 3`. -/
theorem f64Round_decimal_steps :
    f64Round (1 / 10) = 3602879701896397 / 36028797018963968 ∧
    f64Round (2 / 10) = 3602879701896397 / 18014398509481984 ∧
    f64Round (9 / 10) = 8106479329266893 / 9007199254740992 ∧
    f64Sub (f64Round (9 / 10)) (f64Round (1 / 10)) = 3602879701896397 / 4503599627370496 ∧
    f64Sub (f64Round (2 / 10)) (f64Round (1 / 10)) = 3602879701896397 / 36028797018963968 ∧
    f64Sub (f64Round (9 / 10)) (f64Round (2 / 10)) = 3152519739159347 / 4503599627370496 ∧
    f64Add (f64Add 0 (3602879701896397 / 36028797018963968))
        (3152519739159347 / 4503599627370496)
      = 7205759403792793 / 9007199254740992 ∧
    f64Div (3602879701896397 / 4503599627370496) (7205759403792793 / 9007199254740992)
      = 4503599627370497 / 4503599627370496 ∧
    f64Round (9007199254740993) = 9007199254740992 ∧
    f64Round (9007199254740995) = 9007199254740996 := by
  decide!

/-- Counterexample to C11: `NewKAMA(3, 2, 30)` on the `float64` prices 0.1,
0.1, 0.2, 0.9, at bar 3. The configuration is valid, `FastPeriod <=
SlowPeriod` and `3 >= ERPeriod`. In `float64` arithmetic the net change of
the window 0.1, 0.2, 0.9 is `0.9 - 0.1` rounded, 0.8, and the volatility is
`(0.2 - 0.1) + (0.9 - 0.2)` with every step rounded, 0.7999999999999999, so
the efficiency ratio is `1 + 2^-52`, above 1, and the smoothing factor `sc2` is above
`fastSC * fastSC`, rounded or not. Fusing the product and the sum of line
117 into one rounding gives the same `sc`. -/
theorem KAMA.Calculate_er_above_one :
    KAMA.erAtF64 ⟨3, 2, 30⟩
        [f64Round (1 / 10), f64Round (1 / 10), f64Round (2 / 10), f64Round (9 / 10)] 3
      = Res.ok (4503599627370497 / 4503599627370496) ∧
    (1 : ℚ) < 4503599627370497 / 4503599627370496 ∧
    KAMA.sc2AtF64 ⟨3, 2, 30⟩
        [f64Round (1 / 10), f64Round (1 / 10), f64Round (2 / 10), f64Round (9 / 10)] 3
      = Res.ok (4003199668773775 / 9007199254740992) ∧
    KAMA.fastSCF64 ⟨3, 2, 30⟩ = 6004799503160661 / 9007199254740992 ∧
    f64Mul (KAMA.fastSCF64 ⟨3, 2, 30⟩) (KAMA.fastSCF64 ⟨3, 2, 30⟩)
      < 4003199668773775 / 9007199254740992 ∧
    KAMA.fastSCF64 ⟨3, 2, 30⟩ * KAMA.fastSCF64 ⟨3, 2, 30⟩
      < 4003199668773775 / 9007199254740992 ∧
    f64Round (4503599627370497 / 4503599627370496
        * f64Sub (KAMA.fastSCF64 ⟨3, 2, 30⟩) (KAMA.slowSCF64 ⟨3, 2, 30⟩)
        + KAMA.slowSCF64 ⟨3, 2, 30⟩)
      = f64Add (f64Mul (4503599627370497 / 4503599627370496)
          (f64Sub (KAMA.fastSCF64 ⟨3, 2, 30⟩) (KAMA.slowSCF64 ⟨3, 2, 30⟩)))
        (KAMA.slowSCF64 ⟨3, 2, 30⟩) := by
  decide!

/-- C11 (amended): in exact arithmetic, for a valid KAMA configuration with
`FastPeriod <= SlowPeriod`, any
prices and any bar `i >= ERPeriod`, the efficiency ratio that
`KAMA.Calculate` computes at bar `i` lies in `[0, 1]`, and the squared
smoothing constant applied at that bar lies between `slowSC^2` and
`fastSC^2`. -/
theorem KAMA.Calculate_er_bounds (er fp sp : Int) (prices : List ℚ) (he : 2 ≤ er)
    (hf : 1 ≤ fp) (hs : 1 ≤ sp) (hfs : fp ≤ sp) (hn : er ≤ (prices.length : Int))
    (i : Nat) (hi : er ≤ (i : Int)) (hin : i < prices.length) :
    ∃ (kama : List ℚ) (r : ℚ),
      KAMA.Calculate ⟨er, fp, sp⟩ prices = Res.ok kama ∧
      KAMA.erAt ⟨er, fp, sp⟩ prices (i : Int) = Res.ok r ∧
      0 ≤ r ∧ r ≤ 1 ∧
      (2 / ((sp : ℚ) + 1)) ^ 2
        ≤ (r * (2 / ((fp : ℚ) + 1) - 2 / ((sp : ℚ) + 1)) + 2 / ((sp : ℚ) + 1)) ^ 2 ∧
      (r * (2 / ((fp : ℚ) + 1) - 2 / ((sp : ℚ) + 1)) + 2 / ((sp : ℚ) + 1)) ^ 2
        ≤ (2 / ((fp : ℚ) + 1)) ^ 2 ∧
      kama.getD i 0
        = kama.getD (i - 1) 0
          + (r * (2 / ((fp : ℚ) + 1) - 2 / ((sp : ℚ) + 1)) + 2 / ((sp : ℚ) + 1)) ^ 2
            * (prices.getD i 0 - kama.getD (i - 1) 0) := by
  obtain ⟨e, rfl⟩ : ∃ e : Nat, er = (e : Int) := ⟨er.toNat, by omega⟩
  have he2 : 2 ≤ e := by omega
  have hn2 : e ≤ prices.length := by omega
  have hi2 : e ≤ i := by omega
  obtain ⟨b0, b1⟩ := kamaER_bounds prices e i (by omega) hi2
  have hfq : (1 : ℚ) ≤ (fp : ℚ) := by exact_mod_cast hf
  have hsq : (1 : ℚ) ≤ (sp : ℚ) := by exact_mod_cast hs
  have hfsq : (fp : ℚ) ≤ (sp : ℚ) := by exact_mod_cast hfs
  have hslow : (0 : ℚ) ≤ 2 / ((sp : ℚ) + 1) := by positivity
  have hle : 2 / ((sp : ℚ) + 1) ≤ 2 / ((fp : ℚ) + 1) :=
    div_le_div_of_nonneg_left (by norm_num) (by linarith) (by linarith)
  obtain ⟨c1, c2⟩ := smoothing_constant_bounds (kamaER prices e i) _ _ b0 b1 hslow hle
  refine ⟨_, _, KAMA.kama_closed e fp sp prices he2 hf hs hn2,
    KAMA.erAt_eq e fp sp prices he2 i hi2 hin, b0, b1, c1, c2, ?_⟩
  obtain ⟨q, rfl⟩ : ∃ q, i = q + 1 := ⟨i - 1, by omega⟩
  have hw : ¬ (q + 1 < e) := by omega
  rw [getD_map_range _ (q + 1) _ hin, Nat.add_sub_cancel, getD_map_range _ q _ (by omega)]
  simp only [kamaSeries, hw, if_false]

/-- Instance of the amended C11: bar 3 of five prices with `ERPeriod = 3`, `FastPeriod = 2`,
`SlowPeriod = 30`. -/
theorem KAMA.Calculate_er_bounds_witness :
    ∃ (kama : List ℚ) (r : ℚ),
      KAMA.Calculate ⟨3, 2, 30⟩ [10, 51/5, 21/2, 103/10, 52/5] = Res.ok kama ∧
      KAMA.erAt ⟨3, 2, 30⟩ [10, 51/5, 21/2, 103/10, 52/5] ((3 : Nat) : Int) = Res.ok r ∧
      0 ≤ r ∧ r ≤ 1 ∧
      (2 / (((30 : Int) : ℚ) + 1)) ^ 2
        ≤ (r * (2 / (((2 : Int) : ℚ) + 1) - 2 / (((30 : Int) : ℚ) + 1))
            + 2 / (((30 : Int) : ℚ) + 1)) ^ 2 ∧
      (r * (2 / (((2 : Int) : ℚ) + 1) - 2 / (((30 : Int) : ℚ) + 1))
            + 2 / (((30 : Int) : ℚ) + 1)) ^ 2
        ≤ (2 / (((2 : Int) : ℚ) + 1)) ^ 2 ∧
      kama.getD 3 0
        = kama.getD (3 - 1) 0
          + (r * (2 / (((2 : Int) : ℚ) + 1) - 2 / (((30 : Int) : ℚ) + 1))
              + 2 / (((30 : Int) : ℚ) + 1)) ^ 2
            * (([10, 51/5, 21/2, 103/10, 52/5] : List ℚ).getD 3 0 - kama.getD (3 - 1) 0) :=
  KAMA.Calculate_er_bounds 3 2 30 [10, 51/5, 21/2, 103/10, 52/5] (by decide) (by decide)
    (by decide) (by decide) (by decide) 3 (by decide) (by decide)

/-! ## Accumulator form against average form -/

/-- The accumulator form of Wilder smoothing is `w` times the average form. -/
theorem wilderAcc_eq_mul_wilderAvg (w : Nat) (hw : 1 ≤ w) (raw : Nat → ℚ) :
    ∀ i : Nat, wilderAcc w raw i = (w : ℚ) * wilderAvg w raw i := by
  have hw0 : (w : ℚ) ≠ 0 := by
    have : (0 : ℚ) < (w : ℚ) := by exact_mod_cast hw
    exact ne_of_gt this
  intro i
  induction i with
  | zero =>
    by_cases h : 0 + 1 < w
    · rw [wilderAcc_warm w raw 0 h, wilderAvg_warm w raw 0 h, mul_zero]
    · have h1 : 0 + 1 = w := by omega
      rw [wilderAcc_seed w raw 0 h1, wilderAvg_seed w raw 0 h1]
      field_simp
  | succ i ih =>
    by_cases h : i + 1 + 1 < w
    · rw [wilderAcc_warm w raw (i + 1) h, wilderAvg_warm w raw (i + 1) h, mul_zero]
    · by_cases h1 : i + 1 + 1 = w
      · rw [wilderAcc_seed w raw (i + 1) h1, wilderAvg_seed w raw (i + 1) h1]
        field_simp
      · rw [wilderAcc_step w raw i (by omega), wilderAvg_step w raw i (by omega), ih]
        field_simp
        ring

/-- C15: in exact arithmetic, for `Window >= 1`, bars of one length
`n >= Window` and every index `i >= Window-1`, the accumulator-form smoothed
true range inside `ADX.Calculate` is `Window` times the value that
`ATR.Calculate` returns at the same index. -/
theorem ADX.smTr_eq_window_mul_atr (w : Int) (highs lows closes : List ℚ) (hw : 1 ≤ w)
    (hl : highs.length = lows.length) (hc : lows.length = closes.length)
    (hn : w ≤ (highs.length : Int)) :
    ∃ (atr : List ℚ) (raw : ADX.Raw) (sm : ADX.Smoothed),
      ATR.Calculate ⟨w⟩ highs lows closes = Res.ok atr ∧
      ADX.rawSeries highs lows closes = Res.ok raw ∧
      ADX.smoothSeries w (len highs) highs.length raw = Res.ok sm ∧
      ∀ i : Nat, w - 1 ≤ (i : Int) → i < highs.length →
        sm.smTr.getD i 0 = (w : ℚ) * atr.getD i 0 := by
  obtain ⟨k, rfl⟩ : ∃ k : Nat, w = (k : Int) := ⟨w.toNat, by omega⟩
  have hk : 1 ≤ k := by omega
  have hkn : k ≤ highs.length := by omega
  refine ⟨_, _, _, ATR.atr_closed k highs.length highs lows closes hk hkn rfl hl.symm
    (by omega), ADX.rawSeries_eq highs lows closes highs.length (by omega) rfl hl.symm
    (by omega), ADX.smoothSeries_eq _ _ _ highs.length k hk hkn, ?_⟩
  intro i _ hin
  show ((List.range highs.length).map (wilderAcc k (trueRange highs lows closes))).getD i 0
    = ((k : Int) : ℚ)
      * ((List.range highs.length).map (wilderAvg k (trueRange highs lows closes))).getD i 0
  rw [getD_map_range _ i _ hin, getD_map_range _ i _ hin,
    wilderAcc_eq_mul_wilderAvg k hk _ i]
  simp

/-- Instance of C15 on the bars of `TestADX`, `Window = 3`. -/
theorem ADX.smTr_eq_window_mul_atr_witness :
    ∃ (atr : List ℚ) (raw : ADX.Raw) (sm : ADX.Smoothed),
      ATR.Calculate ⟨3⟩ [10, 11, 13, 14, 15, 18, 20] [9, 10, 11, 13, 14, 15, 16]
        [9, 10, 12, 14, 14, 16, 19] = Res.ok atr ∧
      ADX.rawSeries [10, 11, 13, 14, 15, 18, 20] [9, 10, 11, 13, 14, 15, 16]
        [9, 10, 12, 14, 14, 16, 19] = Res.ok raw ∧
      ADX.smoothSeries 3 (len ([10, 11, 13, 14, 15, 18, 20] : List ℚ)) 7 raw = Res.ok sm ∧
      ∀ i : Nat, (3 : Int) - 1 ≤ (i : Int) → i < 7 →
        sm.smTr.getD i 0 = ((3 : Int) : ℚ) * atr.getD i 0 :=
  ADX.smTr_eq_window_mul_atr 3 [10, 11, 13, 14, 15, 18, 20] [9, 10, 11, 13, 14, 15, 16]
    [9, 10, 12, 14, 14, 16, 19] (by decide) (by decide) (by decide) (by decide)

/-! ## Error results -/

theorem ATR.shape_error (a : ATR) (highs lows closes : List ℚ)
    (h : ¬ (highs.length = lows.length ∧ lows.length = closes.length)) :
    ATR.Calculate a highs lows closes
      = Res.error "highs, lows, and closes must have the same length" := by
  have c1 : len highs ≠ len lows ∨ len lows ≠ len closes := by
    simp only [len]
    omega
  simp only [ATR.Calculate, c1, if_true]

theorem ATR.short_error (a : ATR) (highs lows closes : List ℚ)
    (h : highs.length = lows.length ∧ lows.length = closes.length)
    (hs : (highs.length : Int) < a.Window) :
    ATR.Calculate a highs lows closes = Res.error "not enough data for ATR" := by
  have c1 : ¬ (len highs ≠ len lows ∨ len lows ≠ len closes) := by
    simp only [len]
    omega
  have c2 : len highs < a.Window := hs
  simp only [ATR.Calculate, c1, c2, if_true, if_false]

theorem ADX.shape_error_adx (a : ADX) (highs lows closes : List ℚ)
    (h : ¬ (highs.length = lows.length ∧ lows.length = closes.length)) :
    ADX.Calculate a highs lows closes
      = Res.error "highs, lows, and closes must have the same length" := by
  have c1 : len highs ≠ len lows ∨ len lows ≠ len closes := by
    simp only [len]
    omega
  simp only [ADX.Calculate, c1, if_true]

theorem ADX.short_error_adx (a : ADX) (highs lows closes : List ℚ)
    (h : highs.length = lows.length ∧ lows.length = closes.length)
    (hs : (highs.length : Int) < a.Window) :
    ADX.Calculate a highs lows closes = Res.error "not enough data for ADX" := by
  have c1 : ¬ (len highs ≠ len lows ∨ len lows ≠ len closes) := by
    simp only [len]
    omega
  have c2 : len highs < a.Window := hs
  simp only [ADX.Calculate, c1, c2, if_true, if_false]

/-- C17: for `Window >= 1`, `ATR.Calculate` and `ADX.Calculate` return an
error (no outputs) exactly when the three lengths are not all equal or
`len(highs) < Window`; on unequal lengths the error is the shape error
whatever the window; in every other case they return outputs and no error. -/
theorem ATR_ADX_error_iff (w : Int) (highs lows closes : List ℚ) (hw : 1 ≤ w) :
    ((∃ msg, ATR.Calculate ⟨w⟩ highs lows closes = Res.error msg) ↔
      (¬ (highs.length = lows.length ∧ lows.length = closes.length)
        ∨ (highs.length : Int) < w)) ∧
    ((∃ msg, ADX.Calculate ⟨w⟩ highs lows closes = Res.error msg) ↔
      (¬ (highs.length = lows.length ∧ lows.length = closes.length)
        ∨ (highs.length : Int) < w)) ∧
    (¬ (highs.length = lows.length ∧ lows.length = closes.length) →
      ∀ w2 : Int,
        ATR.Calculate ⟨w2⟩ highs lows closes
          = Res.error "highs, lows, and closes must have the same length" ∧
        ADX.Calculate ⟨w2⟩ highs lows closes
          = Res.error "highs, lows, and closes must have the same length") ∧
    (¬ (¬ (highs.length = lows.length ∧ lows.length = closes.length)
        ∨ (highs.length : Int) < w) →
      (∃ atr : List ℚ, ATR.Calculate ⟨w⟩ highs lows closes = Res.ok atr) ∧
      (∃ out : List ℚ × List ℚ × List ℚ,
        ADX.Calculate ⟨w⟩ highs lows closes = Res.ok out)) := by
  have good : ¬ (¬ (highs.length = lows.length ∧ lows.length = closes.length)
        ∨ (highs.length : Int) < w) →
      (∃ atr : List ℚ, ATR.Calculate ⟨w⟩ highs lows closes = Res.ok atr) ∧
      (∃ out : List ℚ × List ℚ × List ℚ,
        ADX.Calculate ⟨w⟩ highs lows closes = Res.ok out) := by
    intro hg
    have h1 : highs.length = lows.length ∧ lows.length = closes.length := by
      by_contra hne
      exact hg (Or.inl hne)
    have h2 : w ≤ (highs.length : Int) := by
      by_contra hlt
      exact hg (Or.inr (by omega))
    obtain ⟨k, rfl⟩ : ∃ k : Nat, w = (k : Int) := ⟨w.toNat, by omega⟩
    exact ⟨⟨_, ATR.atr_closed k highs.length highs lows closes (by omega) (by omega) rfl
        h1.1.symm (by omega)⟩,
      ⟨_, ADX.adx_closed k highs.length highs lows closes (by omega) (by omega) rfl
        h1.1.symm (by omega)⟩⟩
  refine ⟨⟨?_, ?_⟩, ⟨?_, ?_⟩, ?_, good⟩
  · rintro ⟨msg, hm⟩
    by_contra hg
    obtain ⟨⟨atr, ha⟩, _⟩ := good hg
    rw [ha] at hm
    cases hm
  · rintro (h | h)
    · exact ⟨_, ATR.shape_error ⟨w⟩ highs lows closes h⟩
    · by_cases he : highs.length = lows.length ∧ lows.length = closes.length
      · exact ⟨_, ATR.short_error ⟨w⟩ highs lows closes he h⟩
      · exact ⟨_, ATR.shape_error ⟨w⟩ highs lows closes he⟩
  · rintro ⟨msg, hm⟩
    by_contra hg
    obtain ⟨_, ⟨out, ha⟩⟩ := good hg
    rw [ha] at hm
    cases hm
  · rintro (h | h)
    · exact ⟨_, ADX.shape_error_adx ⟨w⟩ highs lows closes h⟩
    · by_cases he : highs.length = lows.length ∧ lows.length = closes.length
      · exact ⟨_, ADX.short_error_adx ⟨w⟩ highs lows closes he h⟩
      · exact ⟨_, ADX.shape_error_adx ⟨w⟩ highs lows closes he⟩
  · intro h w2
    exact ⟨ATR.shape_error ⟨w2⟩ highs lows closes h,
      ADX.shape_error_adx ⟨w2⟩ highs lows closes h⟩

/-- Instance of C17: two bars against one low with `Window = 1`. -/
theorem ATR_ADX_error_iff_witness :
    (1 : Int) ≤ 1 ∧
    ((∃ msg, ATR.Calculate ⟨1⟩ [2, 3] [1] [1, 2] = Res.error msg) ↔
      (¬ (([2, 3] : List ℚ).length = ([1] : List ℚ).length
          ∧ ([1] : List ℚ).length = ([1, 2] : List ℚ).length)
        ∨ ((([2, 3] : List ℚ).length : Nat) : Int) < 1)) :=
  ⟨by decide, (ATR_ADX_error_iff 1 [2, 3] [1] [1, 2] (by decide)).1⟩

theorem KAMA.error_of_invalid (k : KAMA) (prices : List ℚ)
    (h : prices.length = 0 ∨ k.ERPeriod < 2 ∨ k.FastPeriod < 1 ∨ k.SlowPeriod < 1
      ∨ (prices.length : Int) < k.ERPeriod) :
    ∃ msg, KAMA.Calculate k prices = Res.error msg := by
  by_cases c1 : len prices = 0
  · refine ⟨"no price data provided for KAMA", ?_⟩
    simp only [KAMA.Calculate, c1, if_true]
  · by_cases c2 : k.ERPeriod < 2
    · refine ⟨"ERPeriod must be >= 2 for KAMA", ?_⟩
      simp only [KAMA.Calculate, c1, c2, if_true, if_false]
    · by_cases c3 : k.FastPeriod < 1 ∨ k.SlowPeriod < 1
      · refine ⟨"fastPeriod and slowPeriod must be >= 1 for KAMA", ?_⟩
        simp only [KAMA.Calculate, c1, c2, c3, if_true, if_false]
      · by_cases c4 : len prices < k.ERPeriod
        · refine ⟨"not enough data to compute KAMA for the specified ERPeriod", ?_⟩
          simp only [KAMA.Calculate, c1, c2, c3, c4, if_true, if_false]
        · exfalso
          simp only [len] at c1 c4
          omega

/-- C18: `KAMA.Calculate` returns an error (no output) exactly when the
prices are empty, or `ERPeriod < 2`, or `FastPeriod < 1`, or `SlowPeriod < 1`,
or there are fewer than `ERPeriod` prices; in every other case it returns an
output, no index being out of range. -/
theorem KAMA.kama_error_iff (k : KAMA) (prices : List ℚ) :
    ((∃ msg, KAMA.Calculate k prices = Res.error msg) ↔
      (prices.length = 0 ∨ k.ERPeriod < 2 ∨ k.FastPeriod < 1 ∨ k.SlowPeriod < 1
        ∨ (prices.length : Int) < k.ERPeriod)) ∧
    (¬ (prices.length = 0 ∨ k.ERPeriod < 2 ∨ k.FastPeriod < 1 ∨ k.SlowPeriod < 1
        ∨ (prices.length : Int) < k.ERPeriod) →
      ∃ kama : List ℚ, KAMA.Calculate k prices = Res.ok kama) := by
  have good : ¬ (prices.length = 0 ∨ k.ERPeriod < 2 ∨ k.FastPeriod < 1 ∨ k.SlowPeriod < 1
        ∨ (prices.length : Int) < k.ERPeriod) →
      ∃ kama : List ℚ, KAMA.Calculate k prices = Res.ok kama := by
    intro hg
    obtain ⟨er, fp, sp⟩ := k
    simp only at hg
    obtain ⟨e, rfl⟩ : ∃ e : Nat, er = (e : Int) := ⟨er.toNat, by omega⟩
    exact ⟨_, KAMA.kama_closed e fp sp prices (by omega) (by omega) (by omega) (by omega)⟩
  refine ⟨⟨?_, KAMA.error_of_invalid k prices⟩, good⟩
  rintro ⟨msg, hm⟩
  by_contra hg
  obtain ⟨kama, hk⟩ := good hg
  rw [hk] at hm
  cases hm

/-- Instance of C18: five prices, `ERPeriod = 3`, `FastPeriod = 2`,
`SlowPeriod = 30`. -/
theorem KAMA.kama_error_iff_witness :
    ∃ kama : List ℚ, KAMA.Calculate ⟨3, 2, 30⟩ [10, 51/5, 21/2, 103/10, 52/5] = Res.ok kama :=
  (KAMA.kama_error_iff ⟨3, 2, 30⟩ [10, 51/5, 21/2, 103/10, 52/5]).2 (by decide)

theorem ParabolicSAR.single_bar (p : ParabolicSAR) (high low : List ℚ)
    (hh : high.length = 1) (hl : low.length = 1) :
    ParabolicSAR.Calculate p high low = Res.ok [low.getD 0 0] := by
  have c1 : ¬ (len high ≠ len low) := by simp [len, hh, hl]
  have c2 : ¬ (len high = 0) := by simp [len, hh]
  have c3 : len high = 1 := by simp [len, hh]
  simp only [ParabolicSAR.Calculate]
  rw [if_neg c1, if_neg c2, if_pos c3]
  rw [rd_nat low 0 0 rfl (by omega)]
  simp only [Res.ok_bind]
  rw [wr_nat _ 0 0 _ rfl (by rw [length_make]; omega)]
  simp [hh, make]

theorem ParabolicSAR.error_of_shape (p : ParabolicSAR) (high low : List ℚ)
    (h : high.length ≠ low.length ∨ high.length = 0) :
    ∃ msg, ParabolicSAR.Calculate p high low = Res.error msg := by
  by_cases c1 : len high ≠ len low
  · refine ⟨"high and low must have the same length", ?_⟩
    simp only [ParabolicSAR.Calculate]
    rw [if_pos c1]
  · have c2 : len high = 0 := by
      simp only [len] at c1 ⊢
      omega
    refine ⟨"no data provided", ?_⟩
    simp only [ParabolicSAR.Calculate]
    rw [if_neg c1, if_pos c2]

/-- C19: `ParabolicSAR.Calculate` returns an error (no output) exactly when
`len(high) != len(low)` or `len(high) = 0`; on a single bar it returns the
one-element series `[low[0]]`; and on every equal-length input of length
`>= 1` it returns an output, no index being out of range. -/
theorem ParabolicSAR.sar_error_iff (p : ParabolicSAR) (high low : List ℚ) :
    ((∃ msg, ParabolicSAR.Calculate p high low = Res.error msg) ↔
      (high.length ≠ low.length ∨ high.length = 0)) ∧
    (∀ h l : ℚ, ParabolicSAR.Calculate p [h] [l] = Res.ok [l]) ∧
    (high.length = low.length → 1 ≤ high.length →
      ∃ sar : List ℚ, ParabolicSAR.Calculate p high low = Res.ok sar) := by
  have good : high.length = low.length → 1 ≤ high.length →
      ∃ sar : List ℚ, ParabolicSAR.Calculate p high low = Res.ok sar := by
    intro h1 h2
    by_cases h3 : high.length = 1
    · exact ⟨_, ParabolicSAR.single_bar p high low h3 (by omega)⟩
    · exact ⟨_, ParabolicSAR.sar_closed p high low h1 (by omega)⟩
  refine ⟨⟨?_, ?_⟩, ?_, good⟩
  · rintro ⟨msg, hm⟩
    by_contra hg
    obtain ⟨sar, hs⟩ := good (by omega) (by omega)
    rw [hs] at hm
    cases hm
  · exact ParabolicSAR.error_of_shape p high low
  · intro h l
    exact ParabolicSAR.single_bar p [h] [l] rfl rfl

/-- Instance of C19: four bars of `TestParabolicSAR`. -/
theorem ParabolicSAR.sar_error_iff_witness :
    ∃ sar : List ℚ,
      ParabolicSAR.Calculate ⟨1/50, 1/50, 1/5⟩ [10, 21/2, 54/5, 11] [19/2, 10, 51/5, 21/2]
        = Res.ok sar :=
  (ParabolicSAR.sar_error_iff ⟨1/50, 1/50, 1/5⟩ [10, 21/2, 54/5, 11]
    [19/2, 10, 51/5, 21/2]).2.2 (by decide) (by decide)

/-- C20: `SuperTrend.Calculate` is total for every `Period` (zero and
negative included), `Multiplier` and input: it returns an error (no outputs)
exactly when the lengths are not all equal, or `len(high) < Period`, or
`Period < 1`; in every other case it returns the four outputs, no index being
out of range. -/
theorem SuperTrend.super_error_iff (s : SuperTrend) (high low close : List ℚ) :
    ((∃ msg, SuperTrend.Calculate s high low close = Res.error msg) ↔
      (¬ (high.length = low.length ∧ high.length = close.length)
        ∨ (high.length : Int) < s.Period ∨ s.Period < 1)) ∧
    (¬ (¬ (high.length = low.length ∧ high.length = close.length)
        ∨ (high.length : Int) < s.Period ∨ s.Period < 1) →
      ∃ out : SuperTrend.Out, SuperTrend.Calculate s high low close = Res.ok out) ∧
    SuperTrend.Calculate s high low close ≠ Res.panic := by
  have good : ¬ (¬ (high.length = low.length ∧ high.length = close.length)
        ∨ (high.length : Int) < s.Period ∨ s.Period < 1) →
      ∃ out : SuperTrend.Out, SuperTrend.Calculate s high low close = Res.ok out := by
    intro hg
    obtain ⟨p, m⟩ := s
    simp only at hg
    obtain ⟨k, rfl⟩ : ∃ k : Nat, p = (k : Int) := ⟨p.toNat, by omega⟩
    exact ⟨_, SuperTrend.super_closed k high.length m high low close (by omega) (by omega)
      rfl (by omega) (by omega)⟩
  have bad : (¬ (high.length = low.length ∧ high.length = close.length)
        ∨ (high.length : Int) < s.Period ∨ s.Period < 1) →
      ∃ msg, SuperTrend.Calculate s high low close = Res.error msg := by
    intro h
    by_cases c1 : len high ≠ len low ∨ len high ≠ len close
    · refine ⟨"high, low, close must have same length", ?_⟩
      simp only [SuperTrend.Calculate, c1, if_true]
    · by_cases c2 : len high < s.Period
      · refine ⟨"not enough data for SuperTrend period", ?_⟩
        simp only [SuperTrend.Calculate, c1, c2, if_true, if_false]
      · have c3 : s.Period < 1 ∨ s.Period > len high := by
          simp only [len] at c1 c2 ⊢
          omega
        have e : computeATR high low close s.Period = Res.error "invalid ATR period" := by
          simp only [computeATR, c1, c3, if_true, if_false]
        refine ⟨"invalid ATR period", ?_⟩
        simp only [SuperTrend.Calculate, c1, c2, if_false, e]
        rfl
  refine ⟨⟨?_, bad⟩, good, ?_⟩
  · rintro ⟨msg, hm⟩
    by_contra hg
    obtain ⟨out, ho⟩ := good hg
    rw [ho] at hm
    cases hm
  · intro hp
    by_cases hg : (¬ (high.length = low.length ∧ high.length = close.length)
        ∨ (high.length : Int) < s.Period ∨ s.Period < 1)
    · obtain ⟨msg, hm⟩ := bad hg
      rw [hm] at hp
      cases hp
    · obtain ⟨out, ho⟩ := good hg
      rw [ho] at hp
      cases hp

/-- Instance of C20: five bars, `Period = 2`, `Multiplier = 1`. -/
theorem SuperTrend.super_error_iff_witness :
    ∃ out : SuperTrend.Out,
      SuperTrend.Calculate ⟨2, 1⟩ [10, 12, 9, 8, 12] [8, 10, 6, 5, 9] [9, 11, 7, 6, 12]
        = Res.ok out :=
  (SuperTrend.super_error_iff ⟨2, 1⟩ [10, 12, 9, 8, 12] [8, 10, 6, 5, 9]
    [9, 11, 7, 6, 12]).2.1 (by decide)

/-! ## Ichimoku -/

theorem forRange_empty {σ : Type} (lo hi : Int) (body : Int → σ → Res σ) (s : σ)
    (h : hi ≤ lo) : forRange lo hi body s = Res.ok s := by
  have hk : (hi - lo).toNat = 0 := by omega
  simp only [forRange, hk, iter]

/-- An exact result inside the 64-bit range is not changed by the wrap. -/
theorem wrapInt_eq (x : Int) (h1 : -9223372036854775808 ≤ x)
    (h2 : x ≤ 9223372036854775807) : wrapInt x = x := by
  unfold wrapInt
  omega

theorem addInt_eq (a b : Int) (h1 : -9223372036854775808 ≤ a + b)
    (h2 : a + b ≤ 9223372036854775807) : addInt a b = a + b :=
  wrapInt_eq _ h1 h2

theorem subInt_eq (a b : Int) (h1 : -9223372036854775808 ≤ a - b)
    (h2 : a - b ≤ 9223372036854775807) : subInt a b = a - b :=
  wrapInt_eq _ h1 h2

theorem Ichimoku.nanLoop (n : Nat) :
    forRange 0 (n : Int) Ichimoku.nanBody ⟨make n, make n, make n, make n, make n⟩
      = Res.ok ⟨(List.range n).map (fun _ => F64.nan), (List.range n).map (fun _ => F64.nan),
          (List.range n).map (fun _ => F64.nan), (List.range n).map (fun _ => F64.nan),
          (List.range n).map (fun _ => F64.nan)⟩ := by
  obtain ⟨r, hr, f1, f2, f3, f4, f5⟩ := forRange_inv
    (fun m (t : Ichimoku.Out) =>
      FilledTo n m (fun _ => F64.nan) t.tenkanVals ∧
      FilledTo n m (fun _ => F64.nan) t.kijunVals ∧
      FilledTo n m (fun _ => F64.nan) t.spanA ∧
      FilledTo n m (fun _ => F64.nan) t.spanB ∧
      FilledTo n m (fun _ => F64.nan) t.chikouSpan)
    Ichimoku.nanBody 0 n 0 (n : Int) ⟨make n, make n, make n, make n, make n⟩ rfl rfl
    (by omega)
    ⟨⟨length_make n, fun j hj => by omega⟩, ⟨length_make n, fun j hj => by omega⟩,
      ⟨length_make n, fun j hj => by omega⟩, ⟨length_make n, fun j hj => by omega⟩,
      ⟨length_make n, fun j hj => by omega⟩⟩
    (fun m t _ h2 hinv => by
      obtain ⟨g1, g2, g3, g4, g5⟩ := hinv
      refine ⟨⟨t.tenkanVals.set m F64.nan, t.kijunVals.set m F64.nan, t.spanA.set m F64.nan,
        t.spanB.set m F64.nan, t.chikouSpan.set m F64.nan⟩, ?_,
        FilledTo.set_next g1 h2 _ rfl, FilledTo.set_next g2 h2 _ rfl,
        FilledTo.set_next g3 h2 _ rfl, FilledTo.set_next g4 h2 _ rfl,
        FilledTo.set_next g5 h2 _ rfl⟩
      simp only [Ichimoku.nanBody]
      rw [wr_nat t.tenkanVals m m _ rfl (by rw [g1.1]; omega)]
      simp only [Res.ok_bind]
      rw [wr_nat t.kijunVals m m _ rfl (by rw [g2.1]; omega)]
      simp only [Res.ok_bind]
      rw [wr_nat t.spanA m m _ rfl (by rw [g3.1]; omega)]
      simp only [Res.ok_bind]
      rw [wr_nat t.spanB m m _ rfl (by rw [g4.1]; omega)]
      simp only [Res.ok_bind]
      rw [wr_nat t.chikouSpan m m _ rfl (by rw [g5.1]; omega)]
      rfl)
  rw [hr]
  obtain ⟨a, b, c, d, e⟩ := r
  simp only at f1 f2 f3 f4 f5
  rw [FilledTo.eq_map f1, FilledTo.eq_map f2, FilledTo.eq_map f3, FilledTo.eq_map f4,
    FilledTo.eq_map f5]

/-- The closure `getMinMax` on a window inside the slices returns the running
maximum and minimum of its `k` bars. -/
theorem Ichimoku.getMinMax_eq (high low : List ℚ) (start k : Nat)
    (hh : start + k ≤ high.length) (hl : start + k ≤ low.length) (a b : Int)
    (ha : a = (start : Int)) (hb : b + 1 = ((start + k : Nat) : Int)) :
    Ichimoku.getMinMax high low a b
      = Res.ok ⟨sentinelMax high start k, sentinelMin low start k⟩ := by
  obtain ⟨r, hr, hv⟩ := forRange_inv
    (fun m (t : Ichimoku.MinMax) =>
      t = ⟨sentinelMax high start (m - start), sentinelMin low start (m - start)⟩)
    (Ichimoku.minMaxBody high low) start (start + k) a (b + 1) ⟨-maxFloat64, maxFloat64⟩
    ha hb (by omega) (by simp [sentinelMax, sentinelMin])
    (fun m t h1 h2 hinv => by
      have hinv : t = ⟨sentinelMax high start (m - start), sentinelMin low start (m - start)⟩ :=
        hinv
      subst hinv
      obtain ⟨d, rfl⟩ : ∃ d, m = start + d := ⟨m - start, by omega⟩
      refine ⟨⟨sentinelMax high start (d + 1), sentinelMin low start (d + 1)⟩, ?_, ?_⟩
      · simp only [Ichimoku.minMaxBody]
        rw [rd_nat high _ (start + d) rfl (by omega), rd_nat low _ (start + d) rfl (by omega)]
        simp only [Res.ok_bind, Res.pure_eq, Nat.add_sub_cancel_left, sentinelMax, sentinelMin]
      · show (⟨sentinelMax high start (d + 1), sentinelMin low start (d + 1)⟩ : Ichimoku.MinMax)
          = ⟨sentinelMax high start (start + d + 1 - start),
              sentinelMin low start (start + d + 1 - start)⟩
        have : start + d + 1 - start = d + 1 := by omega
        rw [this])
  have hv : r = ⟨sentinelMax high start (start + k - start),
      sentinelMin low start (start + k - start)⟩ := hv
  rw [Nat.add_sub_cancel_left] at hv
  simp only [Ichimoku.getMinMax]
  rw [hr, hv]

theorem getD_nan_range (n j : Nat) (hj : j < n) :
    ((List.range n).map (fun _ => F64.nan)).getD j 0 = F64.nan :=
  getD_map_range n j _ hj

theorem midLine_warm (high low : List ℚ) (P i : Nat) (h : i + 1 < P) :
    midLine high low P i = F64.nan := by
  simp only [midLine, h, if_true]

theorem midLine_full (high low : List ℚ) (P i : Nat) (h : ¬ i + 1 < P) :
    midLine high low P i
      = F64.num ((sentinelMax high (i + 1 - P) P + sentinelMin low (i + 1 - P) P) / 2) := by
  simp only [midLine, h, if_false]

/-- The Tenkan loop and the Kijun loop: a slice of NaN becomes the midpoint
line of the period. -/
theorem Ichimoku.lineLoop (high low : List ℚ) (n P : Nat) (hP : 1 ≤ P)
    (hh : high.length = n) (hl : low.length = n) (hPi : (P : Int) ≤ maxInt)
    (hni : (n : Int) - 1 ≤ maxInt) :
    forRange (subInt (P : Int) 1) (n : Int) (Ichimoku.lineBody (P : Int) high low)
        ((List.range n).map (fun _ => F64.nan))
      = Res.ok ((List.range n).map (midLine high low P)) := by
  have hPi : (P : Int) ≤ 9223372036854775807 := hPi
  have hni : (n : Int) - 1 ≤ 9223372036854775807 := hni
  have eP : subInt (P : Int) 1 = (P : Int) - 1 := subInt_eq _ _ (by omega) (by omega)
  rw [eP]
  by_cases hPn : P - 1 ≤ n
  · obtain ⟨r, hr, f⟩ := forRange_inv
      (fun m (t : List F64) => FilledTo n m (midLine high low P) t)
      (Ichimoku.lineBody (P : Int) high low) (P - 1) n ((P : Int) - 1) (n : Int)
      ((List.range n).map (fun _ => F64.nan)) (by omega) rfl hPn
      ⟨by simp, fun j hj => by
        rw [getD_nan_range n j (by omega), midLine_warm high low P j (by omega)]⟩
      (fun m t h1 h2 hinv => by
        refine ⟨t.set m (midLine high low P m), ?_, FilledTo.set_next hinv h2 _ rfl⟩
        simp only [Ichimoku.lineBody]
        rw [eP, subInt_eq (m : Int) ((P : Int) - 1) (by omega) (by omega)]
        rw [Ichimoku.getMinMax_eq high low (m + 1 - P) P (by omega) (by omega) _ _
          (by omega) (by omega)]
        simp only [Res.ok_bind]
        rw [wr_nat t _ m _ rfl (by rw [hinv.1]; exact h2),
          midLine_full high low P m (by omega)])
    rw [hr, FilledTo.eq_map f]
  · rw [forRange_empty _ _ _ _ (by omega)]
    congr 1
    apply List.map_congr_left
    intro j hj
    have := List.mem_range.mp hj
    exact (midLine_warm high low P j (by omega)).symm

theorem ShiftFilled.init (n m shift : Nat) (F : Nat → F64)
    (hF : ∀ j, j < m + shift → j < n → F j = F64.nan) :
    ShiftFilled n m shift F ((List.range n).map (fun _ => F64.nan)) := by
  refine ⟨by simp, fun j hj => ?_⟩
  rw [getD_nan_range n j hj]
  split_ifs with h
  · exact (hF j h hj).symm
  · rfl

theorem ShiftFilled.write {n m shift : Nat} {F : Nat → F64} {t : List F64}
    (h : ShiftFilled n m shift F t) (hlt : m + shift < n) (v : F64) (hv : v = F (m + shift)) :
    ShiftFilled n (m + 1) shift F (t.set (m + shift) v) := by
  obtain ⟨htl, htv⟩ := h
  refine ⟨by simp [htl], fun j hj => ?_⟩
  by_cases hjm : j = m + shift
  · subst hjm
    rw [getD_set_eq t _ _ _ (by omega), hv]
    have : m + shift < m + 1 + shift := by omega
    simp only [this, if_true]
  · rw [getD_set_ne t (m + shift) j _ _ (fun h => hjm h.symm), htv j hj]
    by_cases hlt2 : j < m + shift
    · have : j < m + 1 + shift := by omega
      simp only [hlt2, this, if_true]
    · have : ¬ j < m + 1 + shift := by omega
      simp only [hlt2, this, if_false]

theorem ShiftFilled.skip {n m shift : Nat} {F : Nat → F64} {t : List F64}
    (h : ShiftFilled n m shift F t) (hF : m + shift < n → F (m + shift) = F64.nan) :
    ShiftFilled n (m + 1) shift F t := by
  obtain ⟨htl, htv⟩ := h
  refine ⟨htl, fun j hj => ?_⟩
  rw [htv j hj]
  by_cases hjm : j = m + shift
  · subst hjm
    have h1 : ¬ m + shift < m + shift := by omega
    have h2 : m + shift < m + 1 + shift := by omega
    simp only [h1, h2, if_true, if_false]
    exact (hF hj).symm
  · by_cases hlt2 : j < m + shift
    · have : j < m + 1 + shift := by omega
      simp only [hlt2, this, if_true]
    · have : ¬ j < m + 1 + shift := by omega
      simp only [hlt2, this, if_false]

theorem ShiftFilled.shift_eq_map {n shift : Nat} {F : Nat → F64} {t : List F64}
    (h : ShiftFilled n n shift F t) : t = (List.range n).map F := by
  apply eq_map_range t n F h.1
  intro j hj
  rw [h.2 j hj]
  have : j < n + shift := by omega
  simp only [this, if_true]

theorem spanASeries_at (high low : List ℚ) (T K shift m : Nat) :
    spanASeries high low T K shift (m + shift)
      = F64.divBy (F64.add (midLine high low T m) (midLine high low K m)) 2 := by
  have h : ¬ m + shift < shift := by omega
  simp only [spanASeries, h, if_false, Nat.add_sub_cancel]

theorem spanBSeries_at (high low : List ℚ) (S shift m : Nat) :
    spanBSeries high low S shift (m + shift) = midLine high low S m := by
  have h : ¬ m + shift < shift := by omega
  simp only [spanBSeries, h, if_false, Nat.add_sub_cancel]

/-- The Senkou Span A loop. -/
theorem Ichimoku.spanALoop (high low : List ℚ) (n T K shift : Nat)
    (hov : (n : Int) - 1 + (shift : Int) ≤ maxInt) :
    forRange 0 (n : Int)
        (Ichimoku.spanABody (shift : Int) (n : Int) ((List.range n).map (midLine high low T))
          ((List.range n).map (midLine high low K)))
        ((List.range n).map (fun _ => F64.nan))
      = Res.ok ((List.range n).map (spanASeries high low T K shift)) := by
  have hov : (n : Int) - 1 + (shift : Int) ≤ 9223372036854775807 := hov
  obtain ⟨r, hr, f⟩ := forRange_inv
    (fun m (t : List F64) => ShiftFilled n m shift (spanASeries high low T K shift) t)
    (Ichimoku.spanABody (shift : Int) (n : Int) ((List.range n).map (midLine high low T))
      ((List.range n).map (midLine high low K)))
    0 n 0 (n : Int) ((List.range n).map (fun _ => F64.nan)) rfl rfl (by omega)
    (ShiftFilled.init n 0 shift _ (fun j hj _ => by
      have : j < shift := by omega
      simp only [spanASeries, this, if_true]))
    (fun m t _ h2 hinv => by
      have hinv : ShiftFilled n m shift (spanASeries high low T K shift) t := hinv
      simp only [Ichimoku.spanABody]
      rw [rd_nat _ (m : Int) m rfl (by simp; omega), getD_map_range n m _ h2]
      simp only [Res.ok_bind]
      cases hT : midLine high low T m with
      | nan =>
        refine ⟨t, by simp [F64.isNaN], hinv.skip (fun _ => ?_)⟩
        rw [spanASeries_at, hT]
        rfl
      | num a =>
        simp only [F64.isNaN, Bool.false_eq_true, if_false]
        rw [rd_nat _ (m : Int) m rfl (by simp; omega), getD_map_range n m _ h2]
        simp only [Res.ok_bind]
        cases hK : midLine high low K m with
        | nan =>
          refine ⟨t, by simp [F64.isNaN], hinv.skip (fun _ => ?_)⟩
          rw [spanASeries_at, hT, hK]
          rfl
        | num b =>
          simp only [F64.isNaN, Bool.false_eq_true, if_false]
          rw [addInt_eq (m : Int) (shift : Int) (by omega) (by omega)]
          by_cases hf : m + shift < n
          · have hf2 : (m : Int) + (shift : Int) < (n : Int) := by omega
            simp only [hf2, if_true]
            refine ⟨t.set (m + shift) (F64.divBy (F64.add (F64.num a) (F64.num b)) 2), ?_,
              hinv.write hf _ (by rw [spanASeries_at, hT, hK])⟩
            exact wr_nat t _ (m + shift) _ (by push_cast; rfl) (by rw [hinv.1]; exact hf)
          · have hf2 : ¬ (m : Int) + (shift : Int) < (n : Int) := by omega
            simp only [hf2, if_false]
            exact ⟨t, rfl, hinv.skip (fun h => absurd h hf)⟩)
  rw [hr, ShiftFilled.shift_eq_map f]

/-- The Senkou Span B loop. -/
theorem Ichimoku.spanBLoop (high low : List ℚ) (n S shift : Nat) (hS : 1 ≤ S) (hSn : S ≤ n)
    (hh : high.length = n) (hl : low.length = n)
    (hov : (n : Int) - 1 + (shift : Int) ≤ maxInt) :
    forRange (subInt (S : Int) 1) (n : Int)
        (Ichimoku.spanBBody (S : Int) (shift : Int) (n : Int) high low)
        ((List.range n).map (fun _ => F64.nan))
      = Res.ok ((List.range n).map (spanBSeries high low S shift)) := by
  have hov : (n : Int) - 1 + (shift : Int) ≤ 9223372036854775807 := hov
  have eS : subInt (S : Int) 1 = (S : Int) - 1 := subInt_eq _ _ (by omega) (by omega)
  rw [eS]
  obtain ⟨r, hr, f⟩ := forRange_inv
    (fun m (t : List F64) => ShiftFilled n m shift (spanBSeries high low S shift) t)
    (Ichimoku.spanBBody (S : Int) (shift : Int) (n : Int) high low)
    (S - 1) n ((S : Int) - 1) (n : Int) ((List.range n).map (fun _ => F64.nan))
    (by omega) rfl (by omega)
    (ShiftFilled.init n (S - 1) shift _ (fun j hj _ => by
      by_cases h : j < shift
      · simp only [spanBSeries, h, if_true]
      · simp only [spanBSeries, h, if_false]
        exact midLine_warm high low S (j - shift) (by omega)))
    (fun m t h1 h2 hinv => by
      have hinv : ShiftFilled n m shift (spanBSeries high low S shift) t := hinv
      simp only [Ichimoku.spanBBody]
      rw [eS, subInt_eq (m : Int) ((S : Int) - 1) (by omega) (by omega),
        addInt_eq (m : Int) (shift : Int) (by omega) (by omega)]
      rw [Ichimoku.getMinMax_eq high low (m + 1 - S) S (by omega) (by omega) _ _
        (by omega) (by omega)]
      simp only [Res.ok_bind]
      by_cases hf : m + shift < n
      · have hf2 : (m : Int) + (shift : Int) < (n : Int) := by omega
        simp only [hf2, if_true]
        refine ⟨t.set (m + shift) _, ?_,
          hinv.write hf _ (by rw [spanBSeries_at, midLine_full high low S m (by omega)])⟩
        exact wr_nat t _ (m + shift) _ (by push_cast; rfl) (by rw [hinv.1]; exact hf)
      · have hf2 : ¬ (m : Int) + (shift : Int) < (n : Int) := by omega
        simp only [hf2, if_false]
        exact ⟨t, rfl, hinv.skip (fun h => absurd h hf)⟩)
  rw [hr, ShiftFilled.shift_eq_map f]

/-- The Chikou loop. -/
theorem Ichimoku.chikouLoop (close : List ℚ) (shift : Nat)
    (hov : (close.length : Int) - 1 + (shift : Int) ≤ maxInt) :
    forRange 0 (close.length : Int) (Ichimoku.chikouBody (shift : Int) close)
        ((List.range close.length).map (fun _ => F64.nan))
      = Res.ok ((List.range close.length).map (chikouSeries close shift)) := by
  have hov : (close.length : Int) - 1 + (shift : Int) ≤ 9223372036854775807 := hov
  obtain ⟨r, hr, hlen, hv⟩ := forRange_inv
    (fun m (t : List F64) => t.length = close.length ∧ ∀ j, j < close.length →
      t.getD j 0 = if j + shift < m then F64.num (close.getD (j + shift) 0) else F64.nan)
    (Ichimoku.chikouBody (shift : Int) close) 0 close.length 0 (close.length : Int)
    ((List.range close.length).map (fun _ => F64.nan)) rfl rfl (by omega)
    ⟨by simp, fun j hj => by
      rw [getD_nan_range _ j hj]
      have : ¬ j + shift < 0 := by omega
      simp only [this, if_false]⟩
    (fun m t _ h2 hinv => by
      obtain ⟨htl, htv⟩ := hinv
      simp only [Ichimoku.chikouBody]
      rw [subInt_eq (m : Int) (shift : Int) (by omega) (by omega)]
      by_cases hb : shift ≤ m
      · have hb2 : (m : Int) - (shift : Int) ≥ 0 := by omega
        simp only [hb2, if_true]
        rw [rd_nat close (m : Int) m rfl h2]
        simp only [Res.ok_bind]
        refine ⟨t.set (m - shift) (F64.num (close.getD m 0)),
          wr_nat t _ (m - shift) _ (by omega) (by omega), by simp [htl], fun j hj => ?_⟩
        by_cases hjm : j = m - shift
        · subst hjm
          rw [getD_set_eq t _ _ _ (by omega)]
          have h3 : m - shift + shift = m := by omega
          have h4 : m < m + 1 := by omega
          simp only [h3, h4, if_true]
        · rw [getD_set_ne t (m - shift) j _ _ (fun h => hjm h.symm), htv j hj]
          by_cases hlt : j + shift < m
          · have : j + shift < m + 1 := by omega
            simp only [hlt, this, if_true]
          · have : ¬ j + shift < m + 1 := by omega
            simp only [hlt, this, if_false]
      · have hb2 : ¬ (m : Int) - (shift : Int) ≥ 0 := by omega
        simp only [hb2, if_false]
        refine ⟨t, rfl, htl, fun j hj => ?_⟩
        rw [htv j hj]
        have h1 : ¬ j + shift < m := by omega
        have h3 : ¬ j + shift < m + 1 := by omega
        simp only [h1, h3, if_false])
  rw [hr]
  congr 1
  exact eq_map_range r close.length _ hlen (fun j hj => by
    rw [hv j hj]
    rfl)

/-- Closed form of `Ichimoku.Calculate` on a valid configuration and bars of
one length `n >= SenkouPeriod`, when the periods are `int` values and the
largest forward index `n - 1 + Shift` does not overflow. -/
theorem Ichimoku.ichimoku_closed (T K S shift : Nat) (high low close : List ℚ)
    (hT : 1 ≤ T) (hK : 1 ≤ K) (hS : 1 ≤ S) (hl : high.length = low.length)
    (hc : high.length = close.length) (hSn : S ≤ high.length)
    (hTi : (T : Int) ≤ maxInt) (hKi : (K : Int) ≤ maxInt)
    (hov : (high.length : Int) - 1 + (shift : Int) ≤ maxInt) :
    Ichimoku.Calculate ⟨(T : Int), (K : Int), (S : Int), (shift : Int)⟩ high low close
      = Res.ok ⟨(List.range high.length).map (midLine high low T),
          (List.range high.length).map (midLine high low K),
          (List.range high.length).map (spanASeries high low T K shift),
          (List.range high.length).map (spanBSeries high low S shift),
          (List.range high.length).map (chikouSeries close shift)⟩ := by
  have c1 : ¬ (len high ≠ len low ∨ len high ≠ len close) := by
    simp only [len]
    omega
  have c2 : ¬ (len high < (S : Int)) := by
    simp only [len]
    omega
  have hni : (high.length : Int) - 1 ≤ maxInt := by
    have hov : (high.length : Int) - 1 + (shift : Int) ≤ 9223372036854775807 := hov
    show (high.length : Int) - 1 ≤ 9223372036854775807
    omega
  have e6 := Ichimoku.chikouLoop close shift (by rw [← hc]; exact hov)
  rw [← hc] at e6
  simp only [Ichimoku.Calculate]
  rw [if_neg c1, if_neg c2]
  simp only [len]
  rw [Ichimoku.nanLoop high.length]
  simp only [Res.ok_bind]
  rw [Ichimoku.lineLoop high low high.length T hT rfl hl.symm hTi hni]
  simp only [Res.ok_bind]
  rw [Ichimoku.lineLoop high low high.length K hK rfl hl.symm hKi hni]
  simp only [Res.ok_bind]
  rw [Ichimoku.spanALoop high low high.length T K shift hov]
  simp only [Res.ok_bind]
  rw [Ichimoku.spanBLoop high low high.length S shift hS hSn rfl hl.symm hov]
  simp only [Res.ok_bind]
  rw [e6]
  rfl

theorem Float64Range.at {xs : List ℚ} (h : Float64Range xs) (j : Nat) (hj : j < xs.length) :
    -maxFloat64 ≤ xs.getD j 0 ∧ xs.getD j 0 ≤ maxFloat64 := by
  apply h
  rw [List.getD_eq_getElem xs 0 hj]
  exact List.getElem_mem hj

theorem sentinelMax_facts (xs : List ℚ) (start : Nat) :
    ∀ k : Nat, (∀ j, start ≤ j → j < start + k → -maxFloat64 ≤ xs.getD j 0) →
      (∀ j, start ≤ j → j < start + k → xs.getD j 0 ≤ sentinelMax xs start k) ∧
      (1 ≤ k → ∃ j, start ≤ j ∧ j < start + k ∧ xs.getD j 0 = sentinelMax xs start k) := by
  intro k
  induction k with
  | zero =>
    intro _
    exact ⟨fun j h1 h2 => by omega, fun h => by omega⟩
  | succ k ih =>
    intro hr
    obtain ⟨b, a⟩ := ih (fun j h1 h2 => hr j h1 (by omega))
    by_cases hgt : xs.getD (start + k) 0 > sentinelMax xs start k
    · have e : sentinelMax xs start (k + 1) = xs.getD (start + k) 0 := by
        simp only [sentinelMax, hgt, if_true]
      rw [e]
      refine ⟨fun j h1 h2 => ?_, fun _ => ⟨start + k, by omega, by omega, rfl⟩⟩
      by_cases hj : j = start + k
      · rw [hj]
      · exact le_trans (b j h1 (by omega)) (le_of_lt hgt)
    · have e : sentinelMax xs start (k + 1) = sentinelMax xs start k := by
        simp only [sentinelMax, hgt, if_false]
      rw [e]
      refine ⟨fun j h1 h2 => ?_, fun _ => ?_⟩
      · by_cases hj : j = start + k
        · rw [hj]
          exact not_lt.mp hgt
        · exact b j h1 (by omega)
      · by_cases hk : 1 ≤ k
        · obtain ⟨j, j1, j2, j3⟩ := a hk
          exact ⟨j, j1, by omega, j3⟩
        · have hk0 : k = 0 := by omega
          subst hk0
          refine ⟨start, le_refl _, by omega, ?_⟩
          have h1 : xs.getD (start + 0) 0 ≤ -maxFloat64 := not_lt.mp hgt
          have h2 := hr (start + 0) (by omega) (by omega)
          exact le_antisymm h1 h2

theorem sentinelMin_facts (xs : List ℚ) (start : Nat) :
    ∀ k : Nat, (∀ j, start ≤ j → j < start + k → xs.getD j 0 ≤ maxFloat64) →
      (∀ j, start ≤ j → j < start + k → sentinelMin xs start k ≤ xs.getD j 0) ∧
      (1 ≤ k → ∃ j, start ≤ j ∧ j < start + k ∧ xs.getD j 0 = sentinelMin xs start k) := by
  intro k
  induction k with
  | zero =>
    intro _
    exact ⟨fun j h1 h2 => by omega, fun h => by omega⟩
  | succ k ih =>
    intro hr
    obtain ⟨b, a⟩ := ih (fun j h1 h2 => hr j h1 (by omega))
    by_cases hlt : xs.getD (start + k) 0 < sentinelMin xs start k
    · have e : sentinelMin xs start (k + 1) = xs.getD (start + k) 0 := by
        simp only [sentinelMin, hlt, if_true]
      rw [e]
      refine ⟨fun j h1 h2 => ?_, fun _ => ⟨start + k, by omega, by omega, rfl⟩⟩
      by_cases hj : j = start + k
      · rw [hj]
      · exact le_trans (le_of_lt hlt) (b j h1 (by omega))
    · have e : sentinelMin xs start (k + 1) = sentinelMin xs start k := by
        simp only [sentinelMin, hlt, if_false]
      rw [e]
      refine ⟨fun j h1 h2 => ?_, fun _ => ?_⟩
      · by_cases hj : j = start + k
        · rw [hj]
          exact not_lt.mp hlt
        · exact b j h1 (by omega)
      · by_cases hk : 1 ≤ k
        · obtain ⟨j, j1, j2, j3⟩ := a hk
          exact ⟨j, j1, by omega, j3⟩
        · have hk0 : k = 0 := by omega
          subst hk0
          refine ⟨start, le_refl _, by omega, ?_⟩
          have h1 : maxFloat64 ≤ xs.getD (start + 0) 0 := not_lt.mp hlt
          have h2 := hr (start + 0) (by omega) (by omega)
          exact le_antisymm h2 h1

/-- On finite bars the midpoint line of a full window is the midpoint of the
window maximum of the highs and the window minimum of the lows. -/
theorem midLine_window (high low : List ℚ) (P i : Nat) (hP : 1 ≤ P) (hi : P ≤ i + 1)
    (hh : i < high.length) (hl : i < low.length) (fh : Float64Range high)
    (fl : Float64Range low) :
    ∃ M m : ℚ, IsWindowMax high (i + 1 - P) i M ∧ IsWindowMin low (i + 1 - P) i m ∧
      midLine high low P i = F64.num ((M + m) / 2) := by
  obtain ⟨b1, a1⟩ := sentinelMax_facts high (i + 1 - P) P
    (fun j _ h2 => (fh.at j (by omega)).1)
  obtain ⟨b2, a2⟩ := sentinelMin_facts low (i + 1 - P) P
    (fun j _ h2 => (fl.at j (by omega)).2)
  obtain ⟨j1, p1, p2, p3⟩ := a1 hP
  obtain ⟨j2, q1, q2, q3⟩ := a2 hP
  refine ⟨sentinelMax high (i + 1 - P) P, sentinelMin low (i + 1 - P) P,
    ⟨fun j h1 h2 => b1 j h1 (by omega), j1, p1, by omega, p3⟩,
    ⟨fun j h1 h2 => b2 j h1 (by omega), j2, q1, by omega, q3⟩,
    midLine_full high low P i (by omega)⟩

/-- Counterexample to C12: periods 1, 1, 1 and `Shift = math.MaxInt64` on two
bars. Every condition of the claim holds, and the call does not succeed: at
`idx = 1` the sum `idx + Shift` of line 100 wraps around to `math.MinInt64`,
which passes the test `forwardIndex < n`, and the write `spanA[forwardIndex]`
is out of range. -/
theorem Ichimoku.Calculate_lines_overflow :
    (0 : Int) ≤ maxInt ∧
    (([2, 3] : List ℚ).length = ([1, 1] : List ℚ).length ∧
      ([2, 3] : List ℚ).length = ([1, 2] : List ℚ).length) ∧
    (1 : Int) ≤ (([2, 3] : List ℚ).length : Int) ∧
    Float64Range [2, 3] ∧ Float64Range [1, 1] ∧
    addInt 1 maxInt = -9223372036854775808 ∧
    Ichimoku.Calculate ⟨1, 1, 1, maxInt⟩ [2, 3] [1, 1] [1, 2] = Res.panic ∧
    ¬ ∃ out, Ichimoku.Calculate ⟨1, 1, 1, maxInt⟩ [2, 3] [1, 1] [1, 2] = Res.ok out := by
  have h : Ichimoku.Calculate ⟨1, 1, 1, maxInt⟩ [2, 3] [1, 1] [1, 2] = Res.panic := by
    decide!
  refine ⟨by decide, by decide, by decide, by decide!, by decide!, by decide!, h, ?_⟩
  rintro ⟨out, ho⟩
  rw [h] at ho
  exact Res.noConfusion ho

/-- C12 (amended): for periods `>= 1` and `Shift >= 0` that are `int` values
with `n - 1 + Shift <= math.MaxInt64` (no forward index `idx + Shift`
overflows) and finite bars of one length `n >= SenkouPeriod`,
`Ichimoku.Calculate` succeeds and each of the Tenkan and Kijun lines, of
period `P`, holds NaN at every index below `P-1` and, from index `P-1` on, the
midpoint of the maximum of `high[idx-P+1..idx]` and the minimum of
`low[idx-P+1..idx]`, bounds inclusive. -/
theorem Ichimoku.Calculate_lines (t k s sh : Int) (high low close : List ℚ)
    (ht : 1 ≤ t) (hk : 1 ≤ k) (hs : 1 ≤ s) (hsh : 0 ≤ sh)
    (hl : high.length = low.length) (hc : high.length = close.length)
    (hn : s ≤ (high.length : Int)) (fh : Float64Range high) (fl : Float64Range low)
    (hti : t ≤ maxInt) (hki : k ≤ maxInt)
    (hov : (high.length : Int) - 1 + sh ≤ maxInt) :
    ∃ out : Ichimoku.Out, Ichimoku.Calculate ⟨t, k, s, sh⟩ high low close = Res.ok out ∧
      ∀ idx : Nat, idx < high.length →
        ((idx : Int) < t - 1 → out.tenkanVals.getD idx 0 = F64.nan) ∧
        (t - 1 ≤ (idx : Int) → ∃ M m : ℚ,
          IsWindowMax high (idx + 1 - t.toNat) idx M ∧
          IsWindowMin low (idx + 1 - t.toNat) idx m ∧
          out.tenkanVals.getD idx 0 = F64.num ((M + m) / 2)) ∧
        ((idx : Int) < k - 1 → out.kijunVals.getD idx 0 = F64.nan) ∧
        (k - 1 ≤ (idx : Int) → ∃ M m : ℚ,
          IsWindowMax high (idx + 1 - k.toNat) idx M ∧
          IsWindowMin low (idx + 1 - k.toNat) idx m ∧
          out.kijunVals.getD idx 0 = F64.num ((M + m) / 2)) := by
  obtain ⟨T, rfl⟩ : ∃ T : Nat, t = (T : Int) := ⟨t.toNat, by omega⟩
  obtain ⟨K, rfl⟩ : ∃ K : Nat, k = (K : Int) := ⟨k.toNat, by omega⟩
  obtain ⟨S, rfl⟩ : ∃ S : Nat, s = (S : Int) := ⟨s.toNat, by omega⟩
  obtain ⟨shift, rfl⟩ : ∃ shift : Nat, sh = (shift : Int) := ⟨sh.toNat, by omega⟩
  refine ⟨_, Ichimoku.ichimoku_closed T K S shift high low close (by omega) (by omega)
    (by omega) hl hc (by omega) hti hki hov, ?_⟩
  intro idx hidx
  simp only [Int.toNat_ofNat]
  rw [getD_map_range _ idx _ hidx, getD_map_range _ idx _ hidx]
  refine ⟨fun h => midLine_warm high low T idx (by omega),
    fun h => midLine_window high low T idx (by omega) (by omega) hidx (by omega) fh fl,
    fun h => midLine_warm high low K idx (by omega),
    fun h => midLine_window high low K idx (by omega) (by omega) hidx (by omega) fh fl⟩

/-- Instance of the amended C12 on the bars of `TestIchimoku`, periods 3, 5,
7, shift 3. -/
theorem Ichimoku.Calculate_lines_witness :
    ∃ out : Ichimoku.Out,
      Ichimoku.Calculate ⟨3, 5, 7, 3⟩ [10, 12, 13, 13, 14, 15, 15, 16]
        [9, 10, 11, 12, 12, 13, 14, 15] [19/2, 11, 12, 25/2, 13, 14, 29/2, 15] = Res.ok out ∧
      ∀ idx : Nat, idx < 8 →
        ((idx : Int) < 3 - 1 → out.tenkanVals.getD idx 0 = F64.nan) ∧
        ((3 : Int) - 1 ≤ (idx : Int) → ∃ M m : ℚ,
          IsWindowMax [10, 12, 13, 13, 14, 15, 15, 16] (idx + 1 - (3 : Int).toNat) idx M ∧
          IsWindowMin [9, 10, 11, 12, 12, 13, 14, 15] (idx + 1 - (3 : Int).toNat) idx m ∧
          out.tenkanVals.getD idx 0 = F64.num ((M + m) / 2)) ∧
        ((idx : Int) < 5 - 1 → out.kijunVals.getD idx 0 = F64.nan) ∧
        ((5 : Int) - 1 ≤ (idx : Int) → ∃ M m : ℚ,
          IsWindowMax [10, 12, 13, 13, 14, 15, 15, 16] (idx + 1 - (5 : Int).toNat) idx M ∧
          IsWindowMin [9, 10, 11, 12, 12, 13, 14, 15] (idx + 1 - (5 : Int).toNat) idx m ∧
          out.kijunVals.getD idx 0 = F64.num ((M + m) / 2)) :=
  Ichimoku.Calculate_lines 3 5 7 3 [10, 12, 13, 13, 14, 15, 15, 16]
    [9, 10, 11, 12, 12, 13, 14, 15] [19/2, 11, 12, 25/2, 13, 14, 29/2, 15]
    (by decide) (by decide) (by decide) (by decide) (by decide) (by decide) (by decide)
    (by decide!) (by decide!) (by decide) (by decide) (by decide)

theorem F64.add_num_divBy (a b : ℚ) :
    F64.divBy (F64.add (F64.num a) (F64.num b)) 2 = F64.num ((a + b) / 2) := rfl

/-- Counterexample to C13: periods 1, 2, 2 and `Shift = math.MaxInt64` on
three finite bars. The configuration is valid and `n >= SenkouPeriod`, but
the call returns no `spanA` and no `spanB`: at `idx = 1`, the first index
where the Tenkan and the Kijun line are both defined, `idx + Shift` wraps
around to `math.MinInt64` and `spanA[forwardIndex]` is out of range. -/
theorem Ichimoku.Calculate_spans_overflow :
    (0 : Int) ≤ maxInt ∧
    (([2, 3, 4] : List ℚ).length = ([1, 1, 2] : List ℚ).length ∧
      ([2, 3, 4] : List ℚ).length = ([1, 2, 3] : List ℚ).length) ∧
    (2 : Int) ≤ (([2, 3, 4] : List ℚ).length : Int) ∧
    Float64Range [2, 3, 4] ∧ Float64Range [1, 1, 2] ∧
    Ichimoku.Calculate ⟨1, 2, 2, maxInt⟩ [2, 3, 4] [1, 1, 2] [1, 2, 3] = Res.panic ∧
    ¬ ∃ out, Ichimoku.Calculate ⟨1, 2, 2, maxInt⟩ [2, 3, 4] [1, 1, 2] [1, 2, 3]
      = Res.ok out := by
  have h : Ichimoku.Calculate ⟨1, 2, 2, maxInt⟩ [2, 3, 4] [1, 1, 2] [1, 2, 3]
      = Res.panic := by
    decide!
  refine ⟨by decide, by decide, by decide, by decide!, by decide!, h, ?_⟩
  rintro ⟨out, ho⟩
  rw [h] at ho
  exact Res.noConfusion ho

/-- C13 (amended): for periods `>= 1` and `Shift >= 0` that are `int` values
with `n - 1 + Shift <= math.MaxInt64` (no forward index `idx + Shift`
overflows), finite bars of one length
`n >= SenkouPeriod` and every index `j < n`: `spanA[j]` is defined exactly
when `j - Shift >= max(TenkanPeriod, KijunPeriod) - 1`, and is then
`(tenkan[j-Shift] + kijun[j-Shift])/2`; `spanB[j]` is defined exactly when
`j - Shift >= SenkouPeriod - 1`, and is then the midpoint of the maximum high
and the minimum low of the `SenkouPeriod` bars ending at `j-Shift`; every
other position holds NaN. -/
theorem Ichimoku.Calculate_spans (t k s sh : Int) (high low close : List ℚ)
    (ht : 1 ≤ t) (hk : 1 ≤ k) (hs : 1 ≤ s) (hsh : 0 ≤ sh)
    (hl : high.length = low.length) (hc : high.length = close.length)
    (hn : s ≤ (high.length : Int)) (fh : Float64Range high) (fl : Float64Range low)
    (hti : t ≤ maxInt) (hki : k ≤ maxInt)
    (hov : (high.length : Int) - 1 + sh ≤ maxInt) :
    ∃ out : Ichimoku.Out, Ichimoku.Calculate ⟨t, k, s, sh⟩ high low close = Res.ok out ∧
      ∀ j : Nat, j < high.length →
        (max t k - 1 ≤ (j : Int) - sh → ∃ a b : ℚ,
          out.tenkanVals.getD (j - sh.toNat) 0 = F64.num a ∧
          out.kijunVals.getD (j - sh.toNat) 0 = F64.num b ∧
          out.spanA.getD j 0 = F64.num ((a + b) / 2)) ∧
        (¬ max t k - 1 ≤ (j : Int) - sh → out.spanA.getD j 0 = F64.nan) ∧
        (s - 1 ≤ (j : Int) - sh → ∃ M m : ℚ,
          IsWindowMax high (j - sh.toNat + 1 - s.toNat) (j - sh.toNat) M ∧
          IsWindowMin low (j - sh.toNat + 1 - s.toNat) (j - sh.toNat) m ∧
          out.spanB.getD j 0 = F64.num ((M + m) / 2)) ∧
        (¬ s - 1 ≤ (j : Int) - sh → out.spanB.getD j 0 = F64.nan) := by
  obtain ⟨T, rfl⟩ : ∃ T : Nat, t = (T : Int) := ⟨t.toNat, by omega⟩
  obtain ⟨K, rfl⟩ : ∃ K : Nat, k = (K : Int) := ⟨k.toNat, by omega⟩
  obtain ⟨S, rfl⟩ : ∃ S : Nat, s = (S : Int) := ⟨s.toNat, by omega⟩
  obtain ⟨shift, rfl⟩ : ∃ shift : Nat, sh = (shift : Int) := ⟨sh.toNat, by omega⟩
  refine ⟨_, Ichimoku.ichimoku_closed T K S shift high low close (by omega) (by omega)
    (by omega) hl hc (by omega) hti hki hov, ?_⟩
  intro j hj
  simp only [Int.toNat_ofNat]
  rw [getD_map_range _ j _ hj, getD_map_range _ j _ hj]
  refine ⟨fun h => ?_, fun h => ?_, fun h => ?_, fun h => ?_⟩
  · have h1 : shift ≤ j := by omega
    have h2 : ¬ j < shift := by omega
    rw [getD_map_range _ (j - shift) _ (by omega), getD_map_range _ (j - shift) _ (by omega),
      midLine_full high low T (j - shift) (by omega),
      midLine_full high low K (j - shift) (by omega)]
    refine ⟨_, _, rfl, rfl, ?_⟩
    simp only [spanASeries, h2, if_false]
    rw [midLine_full high low T (j - shift) (by omega),
      midLine_full high low K (j - shift) (by omega)]
    rfl
  · by_cases h2 : j < shift
    · simp only [spanASeries, h2, if_true]
    · simp only [spanASeries, h2, if_false]
      by_cases h3 : j - shift + 1 < T
      · rw [midLine_warm high low T (j - shift) h3]
        rfl
      · rw [midLine_warm high low K (j - shift) (by omega)]
        cases midLine high low T (j - shift) <;> rfl
  · have h2 : ¬ j < shift := by omega
    simp only [spanBSeries, h2, if_false]
    exact midLine_window high low S (j - shift) (by omega) (by omega) (by omega) (by omega)
      fh fl
  · by_cases h2 : j < shift
    · simp only [spanBSeries, h2, if_true]
    · simp only [spanBSeries, h2, if_false]
      exact midLine_warm high low S (j - shift) (by omega)

/-- Instance of the amended C13 on the bars of `TestIchimoku`, periods 2, 3,
4, shift 2: `spanA` is defined from index 4 on, `spanB` from index 5 on. -/
theorem Ichimoku.Calculate_spans_witness :
    ∃ out : Ichimoku.Out,
      Ichimoku.Calculate ⟨2, 3, 4, 2⟩ [10, 12, 13, 13, 14, 15, 15, 16]
        [9, 10, 11, 12, 12, 13, 14, 15] [19/2, 11, 12, 25/2, 13, 14, 29/2, 15] = Res.ok out ∧
      ∀ j : Nat, j < 8 →
        (max (2 : Int) 3 - 1 ≤ (j : Int) - 2 → ∃ a b : ℚ,
          out.tenkanVals.getD (j - (2 : Int).toNat) 0 = F64.num a ∧
          out.kijunVals.getD (j - (2 : Int).toNat) 0 = F64.num b ∧
          out.spanA.getD j 0 = F64.num ((a + b) / 2)) ∧
        (¬ max (2 : Int) 3 - 1 ≤ (j : Int) - 2 → out.spanA.getD j 0 = F64.nan) ∧
        ((4 : Int) - 1 ≤ (j : Int) - 2 → ∃ M m : ℚ,
          IsWindowMax [10, 12, 13, 13, 14, 15, 15, 16]
            (j - (2 : Int).toNat + 1 - (4 : Int).toNat) (j - (2 : Int).toNat) M ∧
          IsWindowMin [9, 10, 11, 12, 12, 13, 14, 15]
            (j - (2 : Int).toNat + 1 - (4 : Int).toNat) (j - (2 : Int).toNat) m ∧
          out.spanB.getD j 0 = F64.num ((M + m) / 2)) ∧
        (¬ (4 : Int) - 1 ≤ (j : Int) - 2 → out.spanB.getD j 0 = F64.nan) :=
  Ichimoku.Calculate_spans 2 3 4 2 [10, 12, 13, 13, 14, 15, 15, 16]
    [9, 10, 11, 12, 12, 13, 14, 15] [19/2, 11, 12, 25/2, 13, 14, 29/2, 15]
    (by decide) (by decide) (by decide) (by decide) (by decide) (by decide) (by decide)
    (by decide!) (by decide!) (by decide) (by decide) (by decide)

/-- Counterexample to C14: periods 2, 2, 2 and `Shift = math.MaxInt64 - 1` on
three bars. The configuration is valid and `n >= SenkouPeriod`, but no Chikou
slice is returned: at `idx = 2` the sum `idx + Shift` of the span loops wraps
around to `math.MinInt64` and the write at that index is out of range. With
`Shift` one smaller, `n - 1 + Shift = math.MaxInt64` and the call returns. -/
theorem Ichimoku.Calculate_chikou_overflow :
    (0 : Int) ≤ 9223372036854775806 ∧
    (([2, 3, 4] : List ℚ).length = ([1, 1, 2] : List ℚ).length ∧
      ([2, 3, 4] : List ℚ).length = ([1, 2, 3] : List ℚ).length) ∧
    (2 : Int) ≤ (([2, 3, 4] : List ℚ).length : Int) ∧
    Ichimoku.Calculate ⟨2, 2, 2, 9223372036854775806⟩ [2, 3, 4] [1, 1, 2] [1, 2, 3]
      = Res.panic ∧
    (¬ ∃ out, Ichimoku.Calculate ⟨2, 2, 2, 9223372036854775806⟩ [2, 3, 4] [1, 1, 2]
      [1, 2, 3] = Res.ok out) ∧
    Ichimoku.Calculate ⟨2, 2, 2, 9223372036854775805⟩ [2, 3, 4] [1, 1, 2] [1, 2, 3]
      = Res.ok ⟨[F64.nan, F64.num 2, F64.num (5 / 2)], [F64.nan, F64.num 2, F64.num (5 / 2)],
          [F64.nan, F64.nan, F64.nan], [F64.nan, F64.nan, F64.nan],
          [F64.nan, F64.nan, F64.nan]⟩ := by
  have h : Ichimoku.Calculate ⟨2, 2, 2, 9223372036854775806⟩ [2, 3, 4] [1, 1, 2] [1, 2, 3]
      = Res.panic := by
    decide!
  refine ⟨by decide, by decide, by decide, h, ?_, by decide!⟩
  rintro ⟨out, ho⟩
  rw [h] at ho
  exact Res.noConfusion ho

/-- C14 (amended): for periods `>= 1` and `Shift >= 0` that are `int` values
with `n - 1 + Shift <= math.MaxInt64` (no forward index `idx + Shift`
overflows) and bars of one length `n >= SenkouPeriod`, the call returns and
`chikou[i] = close[i+Shift]` for every `i` with `i + Shift < n`, and
`chikou[i]` is NaN for every `i >= n - Shift`. -/
theorem Ichimoku.Calculate_chikou (t k s sh : Int) (high low close : List ℚ)
    (ht : 1 ≤ t) (hk : 1 ≤ k) (hs : 1 ≤ s) (hsh : 0 ≤ sh)
    (hl : high.length = low.length) (hc : high.length = close.length)
    (hn : s ≤ (high.length : Int)) (hti : t ≤ maxInt) (hki : k ≤ maxInt)
    (hov : (high.length : Int) - 1 + sh ≤ maxInt) :
    ∃ out : Ichimoku.Out, Ichimoku.Calculate ⟨t, k, s, sh⟩ high low close = Res.ok out ∧
      (∀ i : Nat, (i : Int) + sh < (high.length : Int) →
        out.chikouSpan.getD i 0 = F64.num (close.getD (i + sh.toNat) 0)) ∧
      (∀ i : Nat, i < high.length → (high.length : Int) - sh ≤ (i : Int) →
        out.chikouSpan.getD i 0 = F64.nan) := by
  obtain ⟨T, rfl⟩ : ∃ T : Nat, t = (T : Int) := ⟨t.toNat, by omega⟩
  obtain ⟨K, rfl⟩ : ∃ K : Nat, k = (K : Int) := ⟨k.toNat, by omega⟩
  obtain ⟨S, rfl⟩ : ∃ S : Nat, s = (S : Int) := ⟨s.toNat, by omega⟩
  obtain ⟨shift, rfl⟩ : ∃ shift : Nat, sh = (shift : Int) := ⟨sh.toNat, by omega⟩
  refine ⟨_, Ichimoku.ichimoku_closed T K S shift high low close (by omega) (by omega)
    (by omega) hl hc (by omega) hti hki hov, ?_, ?_⟩
  · intro i hi
    simp only [Int.toNat_ofNat]
    rw [getD_map_range _ i _ (by omega)]
    have h : i + shift < close.length := by omega
    simp only [chikouSeries, h, if_true]
  · intro i hi h2
    simp only
    rw [getD_map_range _ i _ hi]
    have h : ¬ i + shift < close.length := by omega
    simp only [chikouSeries, h, if_false]

/-- Instance of the amended C14 on the bars of `TestIchimoku`, periods 3, 5,
7, shift 3. -/
theorem Ichimoku.Calculate_chikou_witness :
    ∃ out : Ichimoku.Out,
      Ichimoku.Calculate ⟨3, 5, 7, 3⟩ [10, 12, 13, 13, 14, 15, 15, 16]
        [9, 10, 11, 12, 12, 13, 14, 15] [19/2, 11, 12, 25/2, 13, 14, 29/2, 15] = Res.ok out ∧
      (∀ i : Nat, (i : Int) + 3 < ((8 : Nat) : Int) →
        out.chikouSpan.getD i 0
          = F64.num (([19/2, 11, 12, 25/2, 13, 14, 29/2, 15] : List ℚ).getD
              (i + (3 : Int).toNat) 0)) ∧
      (∀ i : Nat, i < 8 → ((8 : Nat) : Int) - 3 ≤ (i : Int) →
        out.chikouSpan.getD i 0 = F64.nan) :=
  Ichimoku.Calculate_chikou 3 5 7 3 [10, 12, 13, 13, 14, 15, 15, 16]
    [9, 10, 11, 12, 12, 13, 14, 15] [19/2, 11, 12, 25/2, 13, 14, 29/2, 15]
    (by decide) (by decide) (by decide) (by decide) (by decide) (by decide) (by decide)
    (by decide) (by decide) (by decide)

/-! ## Output lengths of successful calls -/

theorem Res.bind_eq_ok {α β : Type} {x : Res α} {f : α → Res β} {b : β}
    (h : (x >>= f) = Res.ok b) : ∃ a, x = Res.ok a ∧ f a = Res.ok b := by
  cases x with
  | ok a => exact ⟨a, rfl, h⟩
  | error msg => cases h
  | panic => cases h

theorem wr_eq_ok {α : Type} {xs ys : List α} {i : Int} {v : α} (h : wr xs i v = Res.ok ys) :
    0 ≤ i ∧ i < len xs ∧ ys.length = xs.length := by
  unfold wr at h
  by_cases hc : 0 ≤ i ∧ i < len xs
  · rw [if_pos hc] at h
    have e : xs.set i.toNat v = ys := Res.ok.inj h
    exact ⟨hc.1, hc.2, by rw [← e]; simp⟩
  · rw [if_neg hc] at h
    cases h

theorem iter_preserve {σ : Type} (P : σ → Prop) (body : Int → σ → Res σ)
    (hb : ∀ i s s', P s → body i s = Res.ok s' → P s') :
    ∀ (k : Nat) (i : Int) (s s' : σ), P s → iter k i body s = Res.ok s' → P s' := by
  intro k
  induction k with
  | zero =>
    intro i s s' h0 h
    have e : s = s' := Res.ok.inj h
    rw [← e]
    exact h0
  | succ k ih =>
    intro i s s' h0 h
    simp only [iter] at h
    cases hbody : body i s with
    | ok t =>
      rw [hbody] at h
      exact ih (i + 1) t s' (hb i s t h0 hbody) h
    | error msg =>
      rw [hbody] at h
      cases h
    | panic =>
      rw [hbody] at h
      cases h

theorem forRange_preserve {σ : Type} (P : σ → Prop) (body : Int → σ → Res σ)
    (hb : ∀ i s s', P s → body i s = Res.ok s' → P s') (lo hi : Int) (s s' : σ)
    (h0 : P s) (h : forRange lo hi body s = Res.ok s') : P s' :=
  iter_preserve P body hb _ lo s s' h0 h

/-- A call of `ATR.Calculate` that returns without error was made on bars of
one length, at least `Window` of them, with `Window >= 1`. -/
theorem ATR.ok_shape_atr (a : ATR) (highs lows closes atr : List ℚ)
    (h : ATR.Calculate a highs lows closes = Res.ok atr) :
    highs.length = lows.length ∧ lows.length = closes.length ∧ 1 ≤ a.Window ∧
      a.Window ≤ (highs.length : Int) := by
  by_cases c1 : len highs ≠ len lows ∨ len lows ≠ len closes
  · simp only [ATR.Calculate, c1, if_true] at h
    cases h
  · by_cases c2 : len highs < a.Window
    · simp only [ATR.Calculate, c1, c2, if_true, if_false] at h
      cases h
    · simp only [ATR.Calculate, c1, c2, if_false] at h
      obtain ⟨_, _, h⟩ := Res.bind_eq_ok h
      obtain ⟨_, _, h⟩ := Res.bind_eq_ok h
      obtain ⟨_, _, h⟩ := Res.bind_eq_ok h
      obtain ⟨_, _, h⟩ := Res.bind_eq_ok h
      obtain ⟨_, _, h⟩ := Res.bind_eq_ok h
      obtain ⟨_, _, h⟩ := Res.bind_eq_ok h
      obtain ⟨_, e, h⟩ := Res.bind_eq_ok h
      have hw := (wr_eq_ok e).1
      simp only [len] at c1 c2
      omega

/-- A call of `ADX.Calculate` that returns without error was made on bars of
one length, at least `Window` of them, with `Window >= 1`. -/
theorem ADX.ok_shape_adx (a : ADX) (highs lows closes : List ℚ)
    (out : List ℚ × List ℚ × List ℚ)
    (h : ADX.Calculate a highs lows closes = Res.ok out) :
    highs.length = lows.length ∧ lows.length = closes.length ∧ 1 ≤ a.Window ∧
      a.Window ≤ (highs.length : Int) := by
  by_cases c1 : len highs ≠ len lows ∨ len lows ≠ len closes
  · simp only [ADX.Calculate, c1, if_true] at h
    cases h
  · by_cases c2 : len highs < a.Window
    · simp only [ADX.Calculate, c1, c2, if_true, if_false] at h
      cases h
    · simp only [ADX.Calculate, c1, c2, if_false] at h
      obtain ⟨_, _, h⟩ := Res.bind_eq_ok h
      obtain ⟨_, e, h⟩ := Res.bind_eq_ok h
      simp only [ADX.smoothSeries] at e
      obtain ⟨_, _, e⟩ := Res.bind_eq_ok e
      obtain ⟨_, e, _⟩ := Res.bind_eq_ok e
      have hw := (wr_eq_ok e).1
      simp only [len] at c1 c2
      omega

theorem ATR.ok_length_atr (a : ATR) (highs lows closes atr : List ℚ)
    (h : ATR.Calculate a highs lows closes = Res.ok atr) : atr.length = highs.length := by
  obtain ⟨h1, h2, h3, h4⟩ := ATR.ok_shape_atr a highs lows closes atr h
  obtain ⟨w⟩ := a
  simp only at h3 h4
  obtain ⟨k, rfl⟩ : ∃ k : Nat, w = (k : Int) := ⟨w.toNat, by omega⟩
  rw [ATR.atr_closed k highs.length highs lows closes (by omega) (by omega) rfl h1.symm
    (by omega)] at h
  rw [← Res.ok.inj h]
  simp

theorem ADX.ok_length_adx (a : ADX) (highs lows closes adx pdi mdi : List ℚ)
    (h : ADX.Calculate a highs lows closes = Res.ok (adx, pdi, mdi)) :
    adx.length = highs.length ∧ pdi.length = highs.length ∧ mdi.length = highs.length := by
  obtain ⟨h1, h2, h3, h4⟩ := ADX.ok_shape_adx a highs lows closes _ h
  obtain ⟨w⟩ := a
  simp only at h3 h4
  obtain ⟨k, rfl⟩ : ∃ k : Nat, w = (k : Int) := ⟨w.toNat, by omega⟩
  rw [ADX.adx_closed k highs.length highs lows closes (by omega) (by omega) rfl h1.symm
    (by omega)] at h
  have e := Res.ok.inj h
  simp only [Prod.mk.injEq] at e
  obtain ⟨e1, e2, e3⟩ := e
  rw [← e1, ← e2, ← e3]
  simp

theorem ParabolicSAR.ok_length_sar (p : ParabolicSAR) (high low sar : List ℚ)
    (h : ParabolicSAR.Calculate p high low = Res.ok sar) : sar.length = high.length := by
  by_cases c1 : high.length = low.length
  · by_cases c2 : high.length = 0
    · obtain ⟨msg, hm⟩ := ParabolicSAR.error_of_shape p high low (Or.inr c2)
      rw [hm] at h
      cases h
    · by_cases c3 : high.length = 1
      · rw [ParabolicSAR.single_bar p high low c3 (by omega)] at h
        rw [← Res.ok.inj h, c3]
        rfl
      · rw [ParabolicSAR.sar_closed p high low c1 (by omega)] at h
        rw [← Res.ok.inj h]
        simp
  · obtain ⟨msg, hm⟩ := ParabolicSAR.error_of_shape p high low (Or.inl c1)
    rw [hm] at h
    cases h

theorem KAMA.ok_length_kama (k : KAMA) (prices kama : List ℚ)
    (h : KAMA.Calculate k prices = Res.ok kama) : kama.length = prices.length := by
  by_cases hv : prices.length = 0 ∨ k.ERPeriod < 2 ∨ k.FastPeriod < 1 ∨ k.SlowPeriod < 1
      ∨ (prices.length : Int) < k.ERPeriod
  · obtain ⟨msg, hm⟩ := KAMA.error_of_invalid k prices hv
    rw [hm] at h
    cases h
  · obtain ⟨er, fp, sp⟩ := k
    simp only at hv
    obtain ⟨e, rfl⟩ : ∃ e : Nat, er = (e : Int) := ⟨er.toNat, by omega⟩
    rw [KAMA.kama_closed e fp sp prices (by omega) (by omega) (by omega) (by omega)] at h
    rw [← Res.ok.inj h]
    simp

theorem Ichimoku.getMinMax_any (high low : List ℚ) (a b : Int) (vals r : List F64)
    (f : Ichimoku.MinMax → Res (List F64))
    (hf : ∀ mm r, f mm = Res.ok r → r.length = vals.length)
    (h : (Ichimoku.getMinMax high low a b >>= f) = Res.ok r) : r.length = vals.length := by
  obtain ⟨mm, _, e⟩ := Res.bind_eq_ok h
  exact hf mm r e

theorem Ichimoku.lineBody_length (period : Int) (high low : List ℚ) (idx : Int)
    (vals r : List F64) (h : Ichimoku.lineBody period high low idx vals = Res.ok r) :
    r.length = vals.length := by
  simp only [Ichimoku.lineBody] at h
  exact Ichimoku.getMinMax_any high low _ _ vals r _
    (fun mm r e => (wr_eq_ok e).2.2) h

theorem Ichimoku.spanABody_length (shift n : Int) (tenkanVals kijunVals : List F64)
    (idx : Int) (spanA r : List F64)
    (h : Ichimoku.spanABody shift n tenkanVals kijunVals idx spanA = Res.ok r) :
    r.length = spanA.length := by
  simp only [Ichimoku.spanABody] at h
  obtain ⟨t, _, h⟩ := Res.bind_eq_ok h
  by_cases h1 : t.isNaN = true
  · rw [if_pos h1] at h
    rw [← Res.ok.inj h]
  · rw [if_neg h1] at h
    obtain ⟨k, _, h⟩ := Res.bind_eq_ok h
    by_cases h2 : k.isNaN = true
    · rw [if_pos h2] at h
      rw [← Res.ok.inj h]
    · rw [if_neg h2] at h
      by_cases h3 : addInt idx shift < n
      · rw [if_pos h3] at h
        exact (wr_eq_ok h).2.2
      · rw [if_neg h3] at h
        rw [← Res.ok.inj h]

theorem Ichimoku.spanBBody_length (period shift n : Int) (high low : List ℚ) (idx : Int)
    (spanB r : List F64)
    (h : Ichimoku.spanBBody period shift n high low idx spanB = Res.ok r) :
    r.length = spanB.length := by
  simp only [Ichimoku.spanBBody] at h
  refine Ichimoku.getMinMax_any high low _ _ spanB r _ (fun mm r e => ?_) h
  by_cases h1 : addInt idx shift < n
  · rw [if_pos h1] at e
    exact (wr_eq_ok e).2.2
  · rw [if_neg h1] at e
    rw [← Res.ok.inj e]

theorem Ichimoku.chikouBody_length (shift : Int) (close : List ℚ) (idx : Int)
    (chikouSpan r : List F64)
    (h : Ichimoku.chikouBody shift close idx chikouSpan = Res.ok r) :
    r.length = chikouSpan.length := by
  simp only [Ichimoku.chikouBody] at h
  by_cases h1 : subInt idx shift ≥ 0
  · rw [if_pos h1] at h
    obtain ⟨c, _, h⟩ := Res.bind_eq_ok h
    exact (wr_eq_ok h).2.2
  · rw [if_neg h1] at h
    rw [← Res.ok.inj h]

theorem Ichimoku.nanBody_length (n : Nat) (idx : Int) (s r : Ichimoku.Out)
    (hs : s.tenkanVals.length = n ∧ s.kijunVals.length = n ∧ s.spanA.length = n ∧
      s.spanB.length = n ∧ s.chikouSpan.length = n)
    (h : Ichimoku.nanBody idx s = Res.ok r) :
    r.tenkanVals.length = n ∧ r.kijunVals.length = n ∧ r.spanA.length = n ∧
      r.spanB.length = n ∧ r.chikouSpan.length = n := by
  simp only [Ichimoku.nanBody] at h
  obtain ⟨a1, e1, h⟩ := Res.bind_eq_ok h
  obtain ⟨a2, e2, h⟩ := Res.bind_eq_ok h
  obtain ⟨a3, e3, h⟩ := Res.bind_eq_ok h
  obtain ⟨a4, e4, h⟩ := Res.bind_eq_ok h
  obtain ⟨a5, e5, h⟩ := Res.bind_eq_ok h
  rw [← Res.ok.inj h]
  exact ⟨by rw [(wr_eq_ok e1).2.2, hs.1], by rw [(wr_eq_ok e2).2.2, hs.2.1],
    by rw [(wr_eq_ok e3).2.2, hs.2.2.1], by rw [(wr_eq_ok e4).2.2, hs.2.2.2.1],
    by rw [(wr_eq_ok e5).2.2, hs.2.2.2.2]⟩

/-- Whatever the configuration, the five slices of a successful
`Ichimoku.Calculate` call have the length of the input. -/
theorem Ichimoku.ok_length_ichimoku (c : Ichimoku) (high low close : List ℚ)
    (out : Ichimoku.Out) (h : Ichimoku.Calculate c high low close = Res.ok out) :
    out.tenkanVals.length = high.length ∧ out.kijunVals.length = high.length ∧
      out.spanA.length = high.length ∧ out.spanB.length = high.length ∧
      out.chikouSpan.length = high.length := by
  by_cases c1 : len high ≠ len low ∨ len high ≠ len close
  · simp only [Ichimoku.Calculate] at h
    rw [if_pos c1] at h
    cases h
  · by_cases c2 : len high < c.SenkouPeriod
    · simp only [Ichimoku.Calculate] at h
      rw [if_neg c1, if_pos c2] at h
      cases h
    · simp only [Ichimoku.Calculate] at h
      rw [if_neg c1, if_neg c2] at h
      obtain ⟨o, e0, h⟩ := Res.bind_eq_ok h
      obtain ⟨tv, e1, h⟩ := Res.bind_eq_ok h
      obtain ⟨kv, e2, h⟩ := Res.bind_eq_ok h
      obtain ⟨sa, e3, h⟩ := Res.bind_eq_ok h
      obtain ⟨sb, e4, h⟩ := Res.bind_eq_ok h
      obtain ⟨ch, e5, h⟩ := Res.bind_eq_ok h
      have l0 := forRange_preserve
        (fun s : Ichimoku.Out => s.tenkanVals.length = high.length ∧
          s.kijunVals.length = high.length ∧ s.spanA.length = high.length ∧
          s.spanB.length = high.length ∧ s.chikouSpan.length = high.length)
        Ichimoku.nanBody (fun i s s' hs hb => Ichimoku.nanBody_length high.length i s s' hs hb)
        _ _ _ _ ⟨length_make _, length_make _, length_make _, length_make _, length_make _⟩ e0
      have l1 := forRange_preserve (fun s : List F64 => s.length = high.length) _
        (fun i s s' hs hb => (Ichimoku.lineBody_length _ _ _ _ _ _ hb).trans hs) _ _ _ _ l0.1 e1
      have l2 := forRange_preserve (fun s : List F64 => s.length = high.length) _
        (fun i s s' hs hb => (Ichimoku.lineBody_length _ _ _ _ _ _ hb).trans hs) _ _ _ _ l0.2.1 e2
      have l3 := forRange_preserve (fun s : List F64 => s.length = high.length) _
        (fun i s s' hs hb => (Ichimoku.spanABody_length _ _ _ _ _ _ _ hb).trans hs) _ _ _ _ l0.2.2.1 e3
      have l4 := forRange_preserve (fun s : List F64 => s.length = high.length) _
        (fun i s s' hs hb => (Ichimoku.spanBBody_length _ _ _ _ _ _ _ _ hb).trans hs) _ _ _ _ l0.2.2.2.1 e4
      have l5 := forRange_preserve (fun s : List F64 => s.length = high.length) _
        (fun i s s' hs hb => (Ichimoku.chikouBody_length _ _ _ _ _ hb).trans hs) _ _ _ _ l0.2.2.2.2 e5
      rw [← Res.ok.inj h]
      exact ⟨l1, l2, l3, l4, l5⟩

/-- C16: whenever `Calculate` of ATR, ADX, ParabolicSAR, SuperTrend, KAMA or
Ichimoku returns without error on input slices of length `n`, every returned
slice (1, 3, 1, 4, 1 and 5 of them) has length exactly `n`. -/
theorem Calculate_output_lengths :
    (∀ (a : ATR) (highs lows closes atr : List ℚ),
      ATR.Calculate a highs lows closes = Res.ok atr → atr.length = highs.length) ∧
    (∀ (a : ADX) (highs lows closes adx pdi mdi : List ℚ),
      ADX.Calculate a highs lows closes = Res.ok (adx, pdi, mdi) →
      adx.length = highs.length ∧ pdi.length = highs.length ∧ mdi.length = highs.length) ∧
    (∀ (p : ParabolicSAR) (high low sar : List ℚ),
      ParabolicSAR.Calculate p high low = Res.ok sar → sar.length = high.length) ∧
    (∀ (s : SuperTrend) (high low close : List ℚ) (out : SuperTrend.Out),
      SuperTrend.Calculate s high low close = Res.ok out →
      out.superTrendLine.length = high.length ∧ out.trendDirection.length = high.length ∧
        out.finalUB.length = high.length ∧ out.finalLB.length = high.length) ∧
    (∀ (k : KAMA) (prices kama : List ℚ),
      KAMA.Calculate k prices = Res.ok kama → kama.length = prices.length) ∧
    (∀ (c : Ichimoku) (high low close : List ℚ) (out : Ichimoku.Out),
      Ichimoku.Calculate c high low close = Res.ok out →
      out.tenkanVals.length = high.length ∧ out.kijunVals.length = high.length ∧
        out.spanA.length = high.length ∧ out.spanB.length = high.length ∧
        out.chikouSpan.length = high.length) := by
  refine ⟨ATR.ok_length_atr, ADX.ok_length_adx, ParabolicSAR.ok_length_sar, ?_,
    KAMA.ok_length_kama, Ichimoku.ok_length_ichimoku⟩
  intro s high low close out h
  obtain ⟨k, _, rfl⟩ := SuperTrend.ok_eq s high low close out h
  simp

/-- Instance of C16: a successful ATR call on four bars and a successful
SuperTrend call on five bars. -/
theorem Calculate_output_lengths_witness :
    (ATR.Calculate ⟨3⟩ [10, 11, 13, 14] [9, 9, 11, 13] [9, 10, 12, 14] = Res.ok [0, 0, 2, 2] ∧
      ([0, 0, 2, 2] : List ℚ).length = ([10, 11, 13, 14] : List ℚ).length) ∧
    (SuperTrend.Calculate ⟨2, 1⟩ [10, 12, 9, 8, 12] [8, 10, 6, 5, 9] [9, 11, 7, 6, 12]
        = Res.ok ⟨[9, 9, 45/4, 79/8, 93/16], [1, 1, -1, -1, 1], [9, 9, 45/4, 79/8, 79/8],
            [9, 9, 9, 25/8, 93/16]⟩ ∧
      ([9, 9, 45/4, 79/8, 79/8] : List ℚ).length = ([10, 12, 9, 8, 12] : List ℚ).length) :=
  ⟨⟨by decide!, Calculate_output_lengths.1 ⟨3⟩ [10, 11, 13, 14] [9, 9, 11, 13] [9, 10, 12, 14]
      [0, 0, 2, 2] (by decide!)⟩,
    ⟨by decide!, (Calculate_output_lengths.2.2.2.1 ⟨2, 1⟩ [10, 12, 9, 8, 12] [8, 10, 6, 5, 9]
      [9, 11, 7, 6, 12]
      ⟨[9, 9, 45/4, 79/8, 93/16], [1, 1, -1, -1, 1], [9, 9, 45/4, 79/8, 79/8],
        [9, 9, 9, 25/8, 93/16]⟩ (by decide!)).2.2.1⟩⟩

/-! ## Ichimoku: which lengths are refused -/

theorem Ichimoku.shape_error_ichimoku (i : Ichimoku) (high low close : List ℚ)
    (h : ¬ (high.length = low.length ∧ high.length = close.length)) :
    Ichimoku.Calculate i high low close
      = Res.error "high, low, close must have the same length" := by
  have c1 : len high ≠ len low ∨ len high ≠ len close := by
    simp only [len]
    omega
  simp only [Ichimoku.Calculate]
  rw [if_pos c1]

theorem Ichimoku.short_error_ichimoku (i : Ichimoku) (high low close : List ℚ)
    (h : high.length = low.length ∧ high.length = close.length)
    (hs : (high.length : Int) < i.SenkouPeriod) :
    Ichimoku.Calculate i high low close
      = Res.error "not enough data for Ichimoku: need >= senkouPeriod bars" := by
  have c1 : ¬ (len high ≠ len low ∨ len high ≠ len close) := by
    simp only [len]
    omega
  have c2 : len high < i.SenkouPeriod := hs
  simp only [Ichimoku.Calculate]
  rw [if_neg c1, if_pos c2]

/-- Counterexample to C21: two bars with periods 2, 3, 1 and shift 1. The
series is shorter than the longest period (2 < 3), the three lengths are
equal, and `Ichimoku.Calculate` returns five slices and no error. -/
theorem Ichimoku.Calculate_accepts_short_series :
    (([2, 3] : List ℚ).length : Int) < max 2 (max 3 1) ∧
    Ichimoku.Calculate ⟨2, 3, 1, 1⟩ [2, 3] [1, 1] [1, 2]
      = Res.ok ⟨[F64.nan, F64.num 2], [F64.nan, F64.nan], [F64.nan, F64.nan],
          [F64.nan, F64.num (3 / 2)], [F64.num 2, F64.nan]⟩ ∧
    ¬ ∃ msg, Ichimoku.Calculate ⟨2, 3, 1, 1⟩ [2, 3] [1, 1] [1, 2] = Res.error msg := by
  have h : Ichimoku.Calculate ⟨2, 3, 1, 1⟩ [2, 3] [1, 1] [1, 2]
      = Res.ok ⟨[F64.nan, F64.num 2], [F64.nan, F64.nan], [F64.nan, F64.nan],
          [F64.nan, F64.num (3 / 2)], [F64.num 2, F64.nan]⟩ := by decide!
  refine ⟨by decide, h, ?_⟩
  rintro ⟨msg, hm⟩
  rw [h] at hm
  exact Res.noConfusion hm

/-- C21 (amended): `Ichimoku.Calculate` returns an error, and no outputs,
whenever the three input lengths are not all equal or the series length `n`
is smaller than `SenkouPeriod`. -/
theorem Ichimoku.Calculate_error_senkou (i : Ichimoku) (high low close : List ℚ)
    (h : ¬ (high.length = low.length ∧ high.length = close.length)
      ∨ (high.length : Int) < i.SenkouPeriod) :
    ∃ msg, Ichimoku.Calculate i high low close = Res.error msg := by
  by_cases c : high.length = low.length ∧ high.length = close.length
  · have hs : (high.length : Int) < i.SenkouPeriod := by
      rcases h with h | h
      · exact absurd c h
      · exact h
    exact ⟨_, Ichimoku.short_error_ichimoku i high low close c hs⟩
  · exact ⟨_, Ichimoku.shape_error_ichimoku i high low close c⟩

/-- Instance of the amended C21: unequal lengths are refused, and so are three
bars with `SenkouPeriod = 4`. -/
theorem Ichimoku.Calculate_error_senkou_witness :
    (∃ msg, Ichimoku.Calculate ⟨9, 26, 52, 26⟩ [2, 3] [1] [1, 2] = Res.error msg) ∧
    (∃ msg, Ichimoku.Calculate ⟨2, 3, 4, 1⟩ [2, 3, 4] [1, 1, 2] [1, 2, 3]
      = Res.error msg) :=
  ⟨Ichimoku.Calculate_error_senkou ⟨9, 26, 52, 26⟩ [2, 3] [1] [1, 2] (Or.inl (by decide)),
    Ichimoku.Calculate_error_senkou ⟨2, 3, 4, 1⟩ [2, 3, 4] [1, 1, 2] [1, 2, 3]
      (Or.inr (by decide))⟩

/-! ## Periods that are not positive -/

/-- C22, evaluated: with `Window = 0` on one bar `ATR.Calculate` and
`ADX.Calculate` run into an index out of range instead of returning an error,
as does `Ichimoku.Calculate` with `TenkanPeriod = 0`; with `SenkouPeriod = 0`
`Ichimoku.Calculate` returns slices and no error. `computeATR`, the same
computation inside SuperTrend, refuses the period `0` with an error. -/
theorem Calculate_nonpositive_period :
    ATR.Calculate ⟨0⟩ [2] [1] [1] = Res.panic ∧
    ADX.Calculate ⟨0⟩ [2] [1] [1] = Res.panic ∧
    Ichimoku.Calculate ⟨0, 1, 1, 1⟩ [2, 3] [1, 1] [1, 2] = Res.panic ∧
    Ichimoku.Calculate ⟨1, 1, 0, 1⟩ [2, 3] [1, 1] [1, 2]
      = Res.ok ⟨[F64.num (3 / 2), F64.num 2], [F64.num (3 / 2), F64.num 2],
          [F64.nan, F64.num (3 / 2)], [F64.num 0, F64.num 0], [F64.num 2, F64.nan]⟩ ∧
    computeATR [2] [1] [1] 0 = Res.error "invalid ATR period" := by
  decide!

/-! ## SuperTrend: a close equal to the band -/

/-- C23, evaluated: period 1, multiplier 1/2, two bars with high 4, low 0 and
closes 2, 0. Bar 0 is an up trend, `finalLB[1] = 0 = close[1]`, and the
direction returned for bar 1 is `-1`: the close equal to the lower band flips
the trend. -/
theorem SuperTrend.Calculate_flips_on_equal_close :
    SuperTrend.Calculate ⟨1, 1 / 2⟩ [4, 4] [0, 0] [2, 0]
      = Res.ok ⟨[0, 4], [1, -1], [4, 4], [0, 0]⟩ := by
  decide!

/-! ## Parabolic SAR: the initial state -/

/-- C24: for bars of one length `n >= 2`, `ParabolicSAR.Calculate` starts in
the up trend exactly when `(high[1]+low[1])/2 > (high[0]+low[0])/2` and in the
down trend otherwise; in the up trend `sar[0] = low[0]` and the initial
extreme point is `high[0]`, in the down trend `sar[0] = high[0]` and the
initial extreme point is `low[0]`; the initial acceleration factor is
`StartAF`. -/
theorem ParabolicSAR.Calculate_initial (p : ParabolicSAR) (high low : List ℚ)
    (hl : high.length = low.length) (hn : 2 ≤ high.length) :
    ∃ (s0 : ParabolicSAR.State) (sar : List ℚ),
      ParabolicSAR.init p high low (make high.length) = Res.ok s0 ∧
      ParabolicSAR.Calculate p high low = Res.ok sar ∧
      (s0.upTrend = true
        ↔ (high.getD 1 0 + low.getD 1 0) / 2 > (high.getD 0 0 + low.getD 0 0) / 2) ∧
      (s0.upTrend = true → sar.getD 0 0 = low.getD 0 0 ∧ s0.ep = high.getD 0 0) ∧
      (s0.upTrend = false → sar.getD 0 0 = high.getD 0 0 ∧ s0.ep = low.getD 0 0) ∧
      s0.af = p.StartAF ∧ s0.sar.getD 0 0 = sar.getD 0 0 := by
  obtain ⟨arr, ha, hf⟩ := ParabolicSAR.stateAfter_eq p high low high.length rfl hl.symm hn 0
    (by omega)
  have ha2 : (ParabolicSAR.init p high low (make high.length) >>=
      fun s0 => iter 0 1 (ParabolicSAR.step p high low) s0)
      = Res.ok ⟨arr, (sarTrace p high low 0).up, (sarTrace p high low 0).ep,
          (sarTrace p high low 0).af⟩ := ha
  obtain ⟨s0, hs0, hit⟩ := Res.bind_eq_ok ha2
  have hs0eq : s0 = ⟨arr, (sarTrace p high low 0).up, (sarTrace p high low 0).ep,
      (sarTrace p high low 0).af⟩ := by
    have h : Res.ok s0 = Res.ok (⟨arr, (sarTrace p high low 0).up,
      (sarTrace p high low 0).ep, (sarTrace p high low 0).af⟩ : ParabolicSAR.State) := hit
    exact Res.ok.inj h
  have h0 : ((List.range high.length).map (fun j => (sarTrace p high low j).sar)).getD 0 0
      = (sarTrace p high low 0).sar := getD_map_range _ 0 _ (by omega)
  have harr : arr.getD 0 0 = (sarTrace p high low 0).sar := hf.2 0 (by omega)
  refine ⟨s0, _, hs0, ParabolicSAR.sar_closed p high low hl hn, ?_⟩
  rw [h0, hs0eq]
  simp only [harr, sarTrace, sarStart]
  by_cases c : (high.getD 1 0 + low.getD 1 0) / 2 > (high.getD 0 0 + low.getD 0 0) / 2
  · rw [if_pos c]
    exact ⟨⟨fun _ => c, fun _ => rfl⟩, fun _ => ⟨rfl, rfl⟩, fun h => Bool.noConfusion h,
      rfl, trivial⟩
  · rw [if_neg c]
    exact ⟨⟨fun h => Bool.noConfusion h, fun h => absurd h c⟩, fun h => Bool.noConfusion h,
      fun _ => ⟨rfl, rfl⟩, rfl, trivial⟩

/-- Instance of C24 on three bars that start in the up trend. -/
theorem ParabolicSAR.Calculate_initial_witness :
    ∃ (s0 : ParabolicSAR.State) (sar : List ℚ),
      ParabolicSAR.init ⟨1/50, 1/50, 1/5⟩ [10, 11, 12] [9, 10, 11] (make 3) = Res.ok s0 ∧
      ParabolicSAR.Calculate ⟨1/50, 1/50, 1/5⟩ [10, 11, 12] [9, 10, 11] = Res.ok sar ∧
      (s0.upTrend = true
        ↔ (([10, 11, 12] : List ℚ).getD 1 0 + ([9, 10, 11] : List ℚ).getD 1 0) / 2
          > (([10, 11, 12] : List ℚ).getD 0 0 + ([9, 10, 11] : List ℚ).getD 0 0) / 2) ∧
      (s0.upTrend = true → sar.getD 0 0 = ([9, 10, 11] : List ℚ).getD 0 0
        ∧ s0.ep = ([10, 11, 12] : List ℚ).getD 0 0) ∧
      (s0.upTrend = false → sar.getD 0 0 = ([10, 11, 12] : List ℚ).getD 0 0
        ∧ s0.ep = ([9, 10, 11] : List ℚ).getD 0 0) ∧
      s0.af = 1/50 ∧ s0.sar.getD 0 0 = sar.getD 0 0 :=
  ParabolicSAR.Calculate_initial ⟨1/50, 1/50, 1/5⟩ [10, 11, 12] [9, 10, 11] (by decide)
    (by decide)

/-! ## SuperTrend: bar 0 -/

/-- C25: for every successful `SuperTrend.Calculate` call, with `ATR` the
series of `computeATR`: `finalUB[0] = (high[0]+low[0])/2 + Multiplier*ATR[0]`,
`finalLB[0] = (high[0]+low[0])/2 - Multiplier*ATR[0]`, `direction[0] = 1` and
`superTrendLine[0] = finalLB[0]`; and when `Period >= 2`, `ATR[0] = 0` and
`finalUB[0] = finalLB[0] = superTrendLine[0] = (high[0]+low[0])/2`. -/
theorem SuperTrend.Calculate_first_bar (s : SuperTrend) (high low close : List ℚ)
    (out : SuperTrend.Out) (h : SuperTrend.Calculate s high low close = Res.ok out) :
    ∃ atr : List ℚ, computeATR high low close s.Period = Res.ok atr ∧
      out.finalUB.getD 0 0
        = (high.getD 0 0 + low.getD 0 0) / 2 + s.Multiplier * atr.getD 0 0 ∧
      out.finalLB.getD 0 0
        = (high.getD 0 0 + low.getD 0 0) / 2 - s.Multiplier * atr.getD 0 0 ∧
      out.trendDirection.getD 0 0 = 1 ∧
      out.superTrendLine.getD 0 0 = out.finalLB.getD 0 0 ∧
      (2 ≤ s.Period →
        atr.getD 0 0 = 0 ∧
        out.finalUB.getD 0 0 = (high.getD 0 0 + low.getD 0 0) / 2 ∧
        out.finalLB.getD 0 0 = (high.getD 0 0 + low.getD 0 0) / 2 ∧
        out.superTrendLine.getD 0 0 = (high.getD 0 0 + low.getD 0 0) / 2) := by
  obtain ⟨hl, hc, hp1, hpn⟩ := SuperTrend.ok_shape s high low close out h
  obtain ⟨k, hk, hout⟩ := SuperTrend.ok_eq s high low close out h
  have hk1 : 1 ≤ k := by omega
  have hkn : k ≤ high.length := by omega
  have hpos : 0 < high.length := by omega
  have hatr := computeATR_eq k high.length high low close hk1 hkn rfl hl.symm hc.symm
  rw [← hk] at hatr
  have g : ∀ (α : Type) [Zero α] (F : Nat → α),
      ((List.range high.length).map F).getD 0 0 = F 0 :=
    fun α _ F => getD_map_range _ 0 F hpos
  refine ⟨_, hatr, ?_⟩
  rw [hout]
  simp only [g]
  have e1 : superUB k s.Multiplier high low close 0
      = (high.getD 0 0 + low.getD 0 0) / 2
        + s.Multiplier * wilderAvg k (trueRange high low close) 0 := rfl
  have e2 : superLB k s.Multiplier high low close 0
      = (high.getD 0 0 + low.getD 0 0) / 2
        - s.Multiplier * wilderAvg k (trueRange high low close) 0 := rfl
  have e3 : trendDir (superUB k s.Multiplier high low close)
      (superLB k s.Multiplier high low close) close 0 = 1 := rfl
  have e4 : trendLine (superUB k s.Multiplier high low close)
      (superLB k s.Multiplier high low close) close 0
      = superLB k s.Multiplier high low close 0 := by
    simp only [trendLine, e3, if_true]
  refine ⟨e1, e2, e3, e4, ?_⟩
  intro h2
  have hw : wilderAvg k (trueRange high low close) 0 = 0 :=
    wilderAvg_warm k _ 0 (by omega)
  rw [e4, e1, e2, hw]
  refine ⟨rfl, ?_, ?_, ?_⟩ <;> ring

/-- Instance of C25 on three bars with period 2 and multiplier 3. -/
theorem SuperTrend.Calculate_first_bar_witness :
    ∃ out : SuperTrend.Out,
      SuperTrend.Calculate ⟨2, 3⟩ [10, 11, 13] [9, 9, 11] [9, 10, 12] = Res.ok out ∧
      ∃ atr : List ℚ, computeATR [10, 11, 13] [9, 9, 11] [9, 10, 12] 2 = Res.ok atr ∧
        out.finalUB.getD 0 0
          = (([10, 11, 13] : List ℚ).getD 0 0 + ([9, 9, 11] : List ℚ).getD 0 0) / 2
            + 3 * atr.getD 0 0 ∧
        out.finalLB.getD 0 0
          = (([10, 11, 13] : List ℚ).getD 0 0 + ([9, 9, 11] : List ℚ).getD 0 0) / 2
            - 3 * atr.getD 0 0 ∧
        out.trendDirection.getD 0 0 = 1 ∧
        out.superTrendLine.getD 0 0 = out.finalLB.getD 0 0 ∧
        ((2 : Int) ≤ 2 →
          atr.getD 0 0 = 0 ∧
          out.finalUB.getD 0 0
            = (([10, 11, 13] : List ℚ).getD 0 0 + ([9, 9, 11] : List ℚ).getD 0 0) / 2 ∧
          out.finalLB.getD 0 0
            = (([10, 11, 13] : List ℚ).getD 0 0 + ([9, 9, 11] : List ℚ).getD 0 0) / 2 ∧
          out.superTrendLine.getD 0 0
            = (([10, 11, 13] : List ℚ).getD 0 0 + ([9, 9, 11] : List ℚ).getD 0 0) / 2) :=
  have hcalc : SuperTrend.Calculate ⟨2, 3⟩ [10, 11, 13] [9, 9, 11] [9, 10, 12]
      = Res.ok ⟨[19 / 2, 11 / 2, 11 / 2], [1, 1, 1], [19 / 2, 19 / 2, 75 / 4],
          [19 / 2, 11 / 2, 11 / 2]⟩ := by decide!
  ⟨_, hcalc, SuperTrend.Calculate_first_bar ⟨2, 3⟩ [10, 11, 13] [9, 9, 11] [9, 10, 12] _ hcalc⟩

/-! ## Constant true range and flat series -/

theorem wilderAvg_const (w n : Nat) (raw : Nat → ℚ) (t : ℚ) (hw : 1 ≤ w)
    (h : ∀ j, j < n → raw j = t) :
    ∀ i, w ≤ i + 1 → i < n → wilderAvg w raw i = t := by
  have hw0 : (w : ℚ) ≠ 0 := by
    have : (0 : ℚ) < (w : ℚ) := by exact_mod_cast hw
    exact ne_of_gt this
  have seed : ∀ i, i + 1 = w → i < n → wilderAvg w raw i = t := by
    intro i hs hi
    rw [wilderAvg_seed w raw i hs,
      Finset.sum_congr rfl (fun j hj => h j (by
        have := Finset.mem_range.mp hj
        omega)),
      Finset.sum_const, Finset.card_range, nsmul_eq_mul]
    field_simp
  intro i
  induction i with
  | zero =>
    intro h1 h2
    exact seed 0 (by omega) h2
  | succ i ih =>
    intro h1 h2
    by_cases hs : i + 1 + 1 = w
    · exact seed (i + 1) hs h2
    · rw [wilderAvg_step w raw i (by omega), ih (by omega) (by omega), h (i + 1) h2]
      field_simp
      ring

theorem wilderAvg_zero (w n : Nat) (raw : Nat → ℚ) (hw : 1 ≤ w)
    (h : ∀ j, j < n → raw j = 0) (i : Nat) (hi : i < n) : wilderAvg w raw i = 0 := by
  by_cases hwarm : i + 1 < w
  · exact wilderAvg_warm w raw i hwarm
  · exact wilderAvg_const w n raw 0 hw h i (by omega) hi

theorem wilderAcc_zero (w n : Nat) (raw : Nat → ℚ) (hw : 1 ≤ w)
    (h : ∀ j, j < n → raw j = 0) : ∀ i, i < n → wilderAcc w raw i = 0 := by
  have early : ∀ i, i + 1 ≤ w → i < n → wilderAcc w raw i = 0 := by
    intro i hs hi
    by_cases hwarm : i + 1 < w
    · exact wilderAcc_warm w raw i hwarm
    · rw [wilderAcc_seed w raw i (by omega)]
      exact Finset.sum_eq_zero (fun j hj => h j (by
        have := Finset.mem_range.mp hj
        omega))
  intro i
  induction i with
  | zero =>
    intro hi
    exact early 0 (by omega) hi
  | succ i ih =>
    intro hi
    by_cases hs : i + 1 + 1 ≤ w
    · exact early (i + 1) hs hi
    · rw [wilderAcc_step w raw i (by omega), ih (by omega), h (i + 1) hi]
      simp

theorem trueRange_flat (highs lows closes : List ℚ) (n : Nat) (c : ℚ)
    (h : ∀ i, i < n → highs.getD i 0 = c ∧ lows.getD i 0 = c ∧ closes.getD i 0 = c)
    (i : Nat) (hi : i < n) : trueRange highs lows closes i = 0 := by
  unfold trueRange
  by_cases h0 : i = 0
  · subst h0
    rw [if_pos rfl, (h 0 hi).1, (h 0 hi).2.1]
    ring
  · rw [if_neg h0, (h i hi).1, (h i hi).2.1, (h (i - 1) (by omega)).2.2]
    simp

theorem plusDM_flat (highs lows closes : List ℚ) (n : Nat) (c : ℚ)
    (h : ∀ i, i < n → highs.getD i 0 = c ∧ lows.getD i 0 = c ∧ closes.getD i 0 = c)
    (i : Nat) (hi : i < n) : plusDM highs lows i = 0 := by
  unfold plusDM
  by_cases h0 : i = 0
  · rw [if_pos h0]
  · rw [if_neg h0, (h i hi).1, (h (i - 1) (by omega)).1]
    simp

theorem minusDM_flat (highs lows closes : List ℚ) (n : Nat) (c : ℚ)
    (h : ∀ i, i < n → highs.getD i 0 = c ∧ lows.getD i 0 = c ∧ closes.getD i 0 = c)
    (i : Nat) (hi : i < n) : minusDM highs lows i = 0 := by
  unfold minusDM
  by_cases h0 : i = 0
  · rw [if_pos h0]
  · rw [if_neg h0, (h i hi).2.1, (h (i - 1) (by omega)).2.1]
    simp

theorem dirIndex_zero (w : Nat) (sx st : Nat → ℚ) (i : Nat) (h : st i = 0) :
    dirIndex w sx st i = 0 := by
  unfold dirIndex
  split_ifs <;> rfl

/-- C26: in exact arithmetic, for `Window >= 1` and bars of one length
`n >= Window`: if every bar has the same true range `t`, `ATR.Calculate`
returns `atr[i] = t` for every `i >= Window-1`; and on a flat series
(`high[i] = low[i] = close[i] = c` for all `i`) every true range is `0` and
`ADX.Calculate` returns ADX, `+DI` and `-DI` equal to `0` at every index. -/
theorem ATR_ADX_flat_series (w : Int) (highs lows closes : List ℚ) (hw : 1 ≤ w)
    (hl : highs.length = lows.length) (hc : lows.length = closes.length)
    (hn : w ≤ (highs.length : Int)) :
    (∀ t : ℚ, (∀ i, i < highs.length → trueRange highs lows closes i = t) →
      ∃ atr : List ℚ, ATR.Calculate ⟨w⟩ highs lows closes = Res.ok atr ∧
        ∀ i : Nat, w - 1 ≤ (i : Int) → i < highs.length → atr.getD i 0 = t) ∧
    (∀ c : ℚ,
      (∀ i, i < highs.length →
        highs.getD i 0 = c ∧ lows.getD i 0 = c ∧ closes.getD i 0 = c) →
      (∀ i, i < highs.length → trueRange highs lows closes i = 0) ∧
      ∃ adx pdi mdi : List ℚ,
        ADX.Calculate ⟨w⟩ highs lows closes = Res.ok (adx, pdi, mdi) ∧
        ∀ i : Nat, i < highs.length →
          adx.getD i 0 = 0 ∧ pdi.getD i 0 = 0 ∧ mdi.getD i 0 = 0) := by
  obtain ⟨k, rfl⟩ : ∃ k : Nat, w = (k : Int) := ⟨w.toNat, by omega⟩
  have hk : 1 ≤ k := by omega
  have hkn : k ≤ highs.length := by omega
  constructor
  · intro t ht
    refine ⟨_, ATR.atr_closed k highs.length highs lows closes hk hkn rfl hl.symm
      (by omega), ?_⟩
    intro i h1 h2
    rw [getD_map_range _ i _ h2]
    exact wilderAvg_const k highs.length _ t hk ht i (by omega) h2
  · intro c hflat
    have htr := trueRange_flat highs lows closes highs.length c hflat
    have hp := plusDM_flat highs lows closes highs.length c hflat
    have hm := minusDM_flat highs lows closes highs.length c hflat
    have hst : ∀ i, i < highs.length → wilderAcc k (trueRange highs lows closes) i = 0 :=
      wilderAcc_zero k highs.length _ hk htr
    have hpdi : ∀ i, i < highs.length → plusDISeries k highs lows closes i = 0 :=
      fun i hi => dirIndex_zero k _ _ i (hst i hi)
    have hmdi : ∀ i, i < highs.length → minusDISeries k highs lows closes i = 0 :=
      fun i hi => dirIndex_zero k _ _ i (hst i hi)
    have hdx : ∀ i, i < highs.length →
        dxSeries k (plusDISeries k highs lows closes) (minusDISeries k highs lows closes) i
          = 0 := by
      intro i hi
      unfold dxSeries
      rw [hpdi i hi, hmdi i hi]
      simp
    refine ⟨htr, _, _, _, ADX.adx_closed k highs.length highs lows closes hk hkn rfl
      hl.symm (by omega), ?_⟩
    intro i hi
    rw [getD_map_range _ i _ hi, getD_map_range _ i _ hi, getD_map_range _ i _ hi]
    exact ⟨wilderAvg_zero k highs.length _ hk hdx i hi, hpdi i hi, hmdi i hi⟩

/-- Instance of C26: three bars of constant true range 1 with `Window = 2`,
and the flat series at 5. -/
theorem ATR_ADX_flat_series_witness :
    (∃ atr : List ℚ, ATR.Calculate ⟨2⟩ [2, 2, 2] [1, 1, 1] [3/2, 3/2, 3/2] = Res.ok atr ∧
      ∀ i : Nat, (2 : Int) - 1 ≤ (i : Int) → i < 3 → atr.getD i 0 = 1) ∧
    (∃ adx pdi mdi : List ℚ,
      ADX.Calculate ⟨2⟩ [5, 5, 5] [5, 5, 5] [5, 5, 5] = Res.ok (adx, pdi, mdi) ∧
      ∀ i : Nat, i < 3 → adx.getD i 0 = 0 ∧ pdi.getD i 0 = 0 ∧ mdi.getD i 0 = 0) :=
  ⟨(ATR_ADX_flat_series 2 [2, 2, 2] [1, 1, 1] [3/2, 3/2, 3/2] (by decide) (by decide)
      (by decide) (by decide)).1 1 (by decide!),
    ((ATR_ADX_flat_series 2 [5, 5, 5] [5, 5, 5] [5, 5, 5] (by decide) (by decide)
      (by decide) (by decide)).2 5 (by decide!)).2⟩

/-! ## KAMA: the two extremes of the efficiency ratio -/

theorem sum_steps_of_nondecreasing (prices : List ℚ) (lo : Nat) :
    ∀ d : Nat, (∀ j, lo ≤ j → j < lo + d → prices.getD j 0 ≤ prices.getD (j + 1) 0) →
      ∑ j in Finset.Ico lo (lo + d), |prices.getD (j + 1) 0 - prices.getD j 0|
        = prices.getD (lo + d) 0 - prices.getD lo 0 := by
  intro d
  induction d with
  | zero =>
    intro _
    simp
  | succ d ih =>
    intro h
    have h1 : lo + (d + 1) = lo + d + 1 := by omega
    rw [h1, Finset.sum_Ico_succ_top (by omega), ih (fun j a b => h j a (by omega)),
      abs_of_nonneg (sub_nonneg.mpr (h (lo + d) (by omega) (by omega)))]
    ring

theorem sum_steps_of_nonincreasing (prices : List ℚ) (lo : Nat) :
    ∀ d : Nat, (∀ j, lo ≤ j → j < lo + d → prices.getD (j + 1) 0 ≤ prices.getD j 0) →
      ∑ j in Finset.Ico lo (lo + d), |prices.getD (j + 1) 0 - prices.getD j 0|
        = prices.getD lo 0 - prices.getD (lo + d) 0 := by
  intro d
  induction d with
  | zero =>
    intro _
    simp
  | succ d ih =>
    intro h
    have h1 : lo + (d + 1) = lo + d + 1 := by omega
    rw [h1, Finset.sum_Ico_succ_top (by omega), ih (fun j a b => h j a (by omega)),
      abs_of_nonpos (sub_nonpos.mpr (h (lo + d) (by omega) (by omega)))]
    ring

/-- A window without volatility is constant. -/
theorem constant_of_no_volatility (prices : List ℚ) (lo hi : Nat)
    (h : ∑ j in Finset.Ico lo hi, |prices.getD (j + 1) 0 - prices.getD j 0| = 0) :
    ∀ d : Nat, lo + d ≤ hi → prices.getD (lo + d) 0 = prices.getD lo 0 := by
  have hz := (Finset.sum_eq_zero_iff_of_nonneg (fun j _ => abs_nonneg _)).mp h
  intro d
  induction d with
  | zero =>
    intro _
    rfl
  | succ d ih =>
    intro hd
    have hstep := hz (lo + d) (Finset.mem_Ico.mpr ⟨by omega, by omega⟩)
    have h2 : prices.getD (lo + d + 1) 0 = prices.getD (lo + d) 0 :=
      sub_eq_zero.mp (abs_eq_zero.mp hstep)
    have h1 : lo + (d + 1) = lo + d + 1 := by omega
    rw [h1, h2]
    exact ih (by omega)

theorem kamaER_of_monotone (prices : List ℚ) (e i : Nat) (he : 1 ≤ e) (hi : e ≤ i)
    (hmono : (∀ j, i + 1 - e ≤ j → j < i → prices.getD j 0 ≤ prices.getD (j + 1) 0)
      ∨ (∀ j, i + 1 - e ≤ j → j < i → prices.getD (j + 1) 0 ≤ prices.getD j 0))
    (hne : ¬ ∀ j, i + 1 - e ≤ j → j ≤ i → prices.getD j 0 = prices.getD (i + 1 - e) 0) :
    kamaER prices e i = 1 := by
  have hi2 : i + 1 - e + (e - 1) = i := by omega
  have hv : kamaVolatility prices e i ≠ 0 := by
    intro h0
    apply hne
    intro j h1 h2
    have := constant_of_no_volatility prices (i + 1 - e) i h0 (j - (i + 1 - e)) (by omega)
    have hj : i + 1 - e + (j - (i + 1 - e)) = j := by omega
    rw [hj] at this
    exact this
  have hnn := kamaVolatility_nonneg prices e i
  unfold kamaER
  rw [if_neg hv]
  rcases hmono with hm | hm
  · have hs := sum_steps_of_nondecreasing prices (i + 1 - e) (e - 1)
      (fun j a b => hm j a (by omega))
    rw [hi2] at hs
    have hs2 : kamaVolatility prices e i = prices.getD i 0 - prices.getD (i + 1 - e) 0 := hs
    rw [← hs2, abs_of_nonneg hnn]
    exact div_self hv
  · have hs := sum_steps_of_nonincreasing prices (i + 1 - e) (e - 1)
      (fun j a b => hm j a (by omega))
    rw [hi2] at hs
    have hs2 : kamaVolatility prices e i = prices.getD (i + 1 - e) 0 - prices.getD i 0 := hs
    rw [abs_sub_comm, ← hs2, abs_of_nonneg hnn]
    exact div_self hv

/-- Counterexample to C27: `NewKAMA(3, 2, 30)` on the `float64` prices 0.1,
0.1, 0.2, 0.9, at bar 3. The window 0.1, 0.2, 0.9 is increasing, so monotone
and not all equal, but in `float64` arithmetic the efficiency ratio is
`1 + 2^-52`, not 1, and `kama[3]` is 0.4925925925925927, which is not
`kama[2] + fastSC^2 * (prices[3] - kama[2])`, whether that expression is
evaluated in `float64` arithmetic (0.49259259259259264) or exactly. -/
theorem KAMA.Calculate_er_monotone_rounded :
    f64Round (1 / 10) < f64Round (2 / 10) ∧ f64Round (2 / 10) < f64Round (9 / 10) ∧
    KAMA.erAtF64 ⟨3, 2, 30⟩
        [f64Round (1 / 10), f64Round (1 / 10), f64Round (2 / 10), f64Round (9 / 10)] 3
      = Res.ok (1 + 1 / 4503599627370496) ∧
    (1 + 1 / 4503599627370496 : ℚ) ≠ 1 ∧
    KAMA.CalculateF64 ⟨3, 2, 30⟩
        [f64Round (1 / 10), f64Round (1 / 10), f64Round (2 / 10), f64Round (9 / 10)]
      = Res.ok [3602879701896397 / 36028797018963968, 3602879701896397 / 36028797018963968,
          3002399751580331 / 18014398509481984, 2218439816445467 / 4503599627370496] ∧
    f64Add (3002399751580331 / 18014398509481984)
        (f64Mul (f64Mul (KAMA.fastSCF64 ⟨3, 2, 30⟩) (KAMA.fastSCF64 ⟨3, 2, 30⟩))
          (f64Sub (f64Round (9 / 10)) (3002399751580331 / 18014398509481984)))
      = 8873759265781867 / 18014398509481984 ∧
    (2218439816445467 / 4503599627370496 : ℚ) ≠ 8873759265781867 / 18014398509481984 ∧
    (2218439816445467 / 4503599627370496 : ℚ)
      ≠ 3002399751580331 / 18014398509481984
        + KAMA.fastSCF64 ⟨3, 2, 30⟩ ^ 2
          * (f64Round (9 / 10) - 3002399751580331 / 18014398509481984) := by
  decide!

/-- C27 (amended): in exact arithmetic, for a valid KAMA configuration and
every bar `i >= ERPeriod`: when the
sum of the absolute steps over `prices[i-ERPeriod+1..i]` is `0`, `ER = 0` and
`kama[i] = kama[i-1] + slowSC^2*(prices[i]-kama[i-1])`; when the prices over
that window are monotone and not all equal, `ER = 1` and
`kama[i] = kama[i-1] + fastSC^2*(prices[i]-kama[i-1])`. -/
theorem KAMA.Calculate_er_extremes (er fp sp : Int) (prices : List ℚ) (he : 2 ≤ er)
    (hf : 1 ≤ fp) (hs : 1 ≤ sp) (hn : er ≤ (prices.length : Int))
    (i : Nat) (hi : er ≤ (i : Int)) (hin : i < prices.length) :
    ∃ (kama : List ℚ) (r : ℚ),
      KAMA.Calculate ⟨er, fp, sp⟩ prices = Res.ok kama ∧
      KAMA.erAt ⟨er, fp, sp⟩ prices (i : Int) = Res.ok r ∧
      ((∑ j in Finset.Ico (i + 1 - er.toNat) i,
          |prices.getD (j + 1) 0 - prices.getD j 0|) = 0 →
        r = 0 ∧
        kama.getD i 0
          = kama.getD (i - 1) 0
            + (2 / ((sp : ℚ) + 1)) ^ 2 * (prices.getD i 0 - kama.getD (i - 1) 0)) ∧
      (((∀ j, i + 1 - er.toNat ≤ j → j < i → prices.getD j 0 ≤ prices.getD (j + 1) 0)
          ∨ (∀ j, i + 1 - er.toNat ≤ j → j < i →
              prices.getD (j + 1) 0 ≤ prices.getD j 0)) →
        (¬ ∀ j, i + 1 - er.toNat ≤ j → j ≤ i →
            prices.getD j 0 = prices.getD (i + 1 - er.toNat) 0) →
        r = 1 ∧
        kama.getD i 0
          = kama.getD (i - 1) 0
            + (2 / ((fp : ℚ) + 1)) ^ 2 * (prices.getD i 0 - kama.getD (i - 1) 0)) := by
  obtain ⟨e, rfl⟩ : ∃ e : Nat, er = (e : Int) := ⟨er.toNat, by omega⟩
  have he2 : 2 ≤ e := by omega
  have hn2 : e ≤ prices.length := by omega
  have hi2 : e ≤ i := by omega
  simp only [Int.toNat_ofNat]
  refine ⟨_, _, KAMA.kama_closed e fp sp prices he2 hf hs hn2,
    KAMA.erAt_eq e fp sp prices he2 i hi2 hin, ?_, ?_⟩
  · intro h0
    have h0v : kamaVolatility prices e i = 0 := h0
    have hr : kamaER prices e i = 0 := by
      unfold kamaER
      rw [if_pos h0v]
    refine ⟨hr, ?_⟩
    obtain ⟨q, rfl⟩ : ∃ q, i = q + 1 := ⟨i - 1, by omega⟩
    have hw : ¬ (q + 1 < e) := by omega
    rw [getD_map_range _ (q + 1) _ hin, Nat.add_sub_cancel, getD_map_range _ q _ (by omega)]
    simp only [kamaSeries, hw, if_false]
    rw [hr]
    ring
  · intro hmono hne
    have hr : kamaER prices e i = 1 := kamaER_of_monotone prices e i (by omega) hi2 hmono hne
    refine ⟨hr, ?_⟩
    obtain ⟨q, rfl⟩ : ∃ q, i = q + 1 := ⟨i - 1, by omega⟩
    have hw : ¬ (q + 1 < e) := by omega
    rw [getD_map_range _ (q + 1) _ hin, Nat.add_sub_cancel, getD_map_range _ q _ (by omega)]
    simp only [kamaSeries, hw, if_false]
    rw [hr]
    ring

/-- Instance of the amended C27: bar 3 of the rising prices 1, 2, 4, 7 with `ERPeriod = 3`,
`FastPeriod = 2`, `SlowPeriod = 30`; the window 2, 4, 7 is monotone. -/
theorem KAMA.Calculate_er_extremes_witness :
    ∃ (kama : List ℚ) (r : ℚ),
      KAMA.Calculate ⟨3, 2, 30⟩ [1, 2, 4, 7] = Res.ok kama ∧
      KAMA.erAt ⟨3, 2, 30⟩ [1, 2, 4, 7] ((3 : Nat) : Int) = Res.ok r ∧
      r = 1 ∧
      kama.getD 3 0
        = kama.getD (3 - 1) 0
          + (2 / (((2 : Int) : ℚ) + 1)) ^ 2
            * (([1, 2, 4, 7] : List ℚ).getD 3 0 - kama.getD (3 - 1) 0) := by
  obtain ⟨kama, r, h1, h2, -, h4⟩ := KAMA.Calculate_er_extremes 3 2 30 [1, 2, 4, 7]
    (by decide) (by decide) (by decide) (by decide) 3 (by decide) (by decide)
  have hmono : ∀ j, 3 + 1 - (3 : Int).toNat ≤ j → j < 3 →
      ([1, 2, 4, 7] : List ℚ).getD j 0 ≤ ([1, 2, 4, 7] : List ℚ).getD (j + 1) 0 := by
    intro j a b
    have a2 : 1 ≤ j := a
    interval_cases j <;> decide!
  have hne : ¬ ∀ j, 3 + 1 - (3 : Int).toNat ≤ j → j ≤ 3 →
      ([1, 2, 4, 7] : List ℚ).getD j 0
        = ([1, 2, 4, 7] : List ℚ).getD (3 + 1 - (3 : Int).toNat) 0 := by
    intro h
    have := h 3 (by decide) (by decide)
    revert this
    decide!
  exact ⟨kama, r, h1, h2, h4 (Or.inl hmono) hne⟩

/-! ## The scenario of `TestADX` -/

/-- C28: on the seven bars of `TestADX`, `ADX.Calculate` with `Window = 3`
returns no error and three slices of length 7; at index 6 the values are
`ADX = 21100/243`, `+DI = 60` and `-DI = 0`; and no division by zero is
reached: from index `Window-1 = 2` on, the smoothed true range and the sum
`+DI + -DI`, the two divisors that depend on the data, are not zero. -/
theorem ADX.Calculate_scenario :
    ∃ adx pdi mdi : List ℚ,
      ADX.Calculate ⟨3⟩ [10, 11, 13, 14, 15, 18, 20] [9, 10, 11, 13, 14, 15, 16]
        [9, 10, 12, 14, 14, 16, 19] = Res.ok (adx, pdi, mdi) ∧
      adx.length = 7 ∧ pdi.length = 7 ∧ mdi.length = 7 ∧
      pdi.getD 6 0 = 60 ∧ mdi.getD 6 0 = 0 ∧ adx.getD 6 0 = 21100 / 243 ∧
      ∃ (raw : ADX.Raw) (sm : ADX.Smoothed),
        ADX.rawSeries [10, 11, 13, 14, 15, 18, 20] [9, 10, 11, 13, 14, 15, 16]
          [9, 10, 12, 14, 14, 16, 19] = Res.ok raw ∧
        ADX.smoothSeries 3 7 7 raw = Res.ok sm ∧
        ∀ i : Nat, i < 7 → 2 ≤ i →
          sm.smTr.getD i 0 ≠ 0 ∧ pdi.getD i 0 + mdi.getD i 0 ≠ 0 :=
  ⟨[0, 0, 100 / 3, 500 / 9, 1900 / 27, 6500 / 81, 21100 / 243],
    [0, 0, 50, 50, 60, 750 / 11, 60], [0, 0, 0, 0, 0, 0, 0],
    by decide!, by decide!, by decide!, by decide!, by decide!, by decide!, by decide!,
    ⟨[1, 2, 3, 2, 1, 4, 4], [0, 1, 2, 1, 1, 3, 2], [0, 0, 0, 0, 0, 0, 0]⟩,
    ⟨[0, 0, 6, 6, 5, 22 / 3, 80 / 9], [0, 0, 3, 3, 3, 5, 16 / 3], [0, 0, 0, 0, 0, 0, 0]⟩,
    by decide!, by decide!, by decide!⟩

/-! ## The two average-form ATR computations -/

/-- C29: for `1 <= period <= n` and bars of one length `n`, `computeATR` of
SuperTrend returns exactly what `ATR.Calculate` with `Window = period`
returns, and both return a series. -/
theorem computeATR_eq_ATR (period : Int) (high low close : List ℚ) (hp : 1 ≤ period)
    (hn : period ≤ (high.length : Int)) (hl : high.length = low.length)
    (hc : high.length = close.length) :
    computeATR high low close period = ATR.Calculate ⟨period⟩ high low close ∧
    ∃ atr : List ℚ, ATR.Calculate ⟨period⟩ high low close = Res.ok atr := by
  obtain ⟨k, rfl⟩ : ∃ k : Nat, period = (k : Int) := ⟨period.toNat, by omega⟩
  have h1 := computeATR_eq k high.length high low close (by omega) (by omega) rfl
    hl.symm hc.symm
  have h2 := ATR.atr_closed k high.length high low close (by omega) (by omega) rfl
    hl.symm hc.symm
  exact ⟨h1.trans h2.symm, _, h2⟩

/-- Instance of C29 on four bars with period 3. -/
theorem computeATR_eq_ATR_witness :
    computeATR [10, 11, 13, 14] [9, 9, 11, 13] [9, 10, 12, 14] 3
      = ATR.Calculate ⟨3⟩ [10, 11, 13, 14] [9, 9, 11, 13] [9, 10, 12, 14] ∧
    ∃ atr : List ℚ,
      ATR.Calculate ⟨3⟩ [10, 11, 13, 14] [9, 9, 11, 13] [9, 10, 12, 14] = Res.ok atr :=
  computeATR_eq_ATR 3 [10, 11, 13, 14] [9, 9, 11, 13] [9, 10, 12, 14] (by decide)
    (by decide) (by decide) (by decide)

/-! ## OBV -/

theorem OBV.obvBody_eq (closes volumes : List ℚ) (n q : Nat) (hc : closes.length = n)
    (hv : volumes.length = n) (hq : q + 1 < n) (t : List ℚ)
    (g : FilledTo n (q + 1) (obvSeries closes volumes) t) :
    OBV.body closes volumes ((q + 1 : Nat) : Int) t
      = Res.ok (t.set (q + 1) (obvSeries closes volumes (q + 1))) := by
  have r1 := rd_nat closes ((q + 1 : Nat) : Int) (q + 1) rfl (by omega)
  have r2 := rd_nat closes (((q + 1 : Nat) : Int) - 1) q (by push_cast; omega) (by omega)
  have r3 := rd_nat t (((q + 1 : Nat) : Int) - 1) q (by push_cast; omega) (by rw [g.1]; omega)
  have r4 := rd_nat volumes ((q + 1 : Nat) : Int) (q + 1) rfl (by omega)
  have w1 : ∀ v : ℚ, wr t ((q + 1 : Nat) : Int) v = Res.ok (t.set (q + 1) v) :=
    fun v => wr_nat _ _ (q + 1) v rfl (by rw [g.1]; omega)
  simp only [OBV.body]
  rw [r1, r2]
  simp only [Res.ok_bind]
  by_cases h1 : closes.getD (q + 1) 0 > closes.getD q 0
  · rw [if_pos h1, r3, r4]
    simp only [Res.ok_bind]
    rw [w1, g.2 q (by omega)]
    simp only [obvSeries]
    rw [if_pos h1]
  · rw [if_neg h1]
    by_cases h2 : closes.getD (q + 1) 0 < closes.getD q 0
    · rw [if_pos h2, r3, r4]
      simp only [Res.ok_bind]
      rw [w1, g.2 q (by omega)]
      simp only [obvSeries]
      rw [if_neg h1, if_pos h2]
    · rw [if_neg h2, r3]
      simp only [Res.ok_bind]
      rw [w1, g.2 q (by omega)]
      simp only [obvSeries]
      rw [if_neg h1, if_neg h2]

/-- Closed form of `OBV.Calculate` on non-empty inputs of one length. -/
theorem OBV.obv_closed (o : OBV) (closes volumes : List ℚ) (n : Nat) (hn : 1 ≤ n)
    (hc : closes.length = n) (hv : volumes.length = n) :
    OBV.Calculate o closes volumes
      = Res.ok ((List.range n).map (obvSeries closes volumes)) := by
  have c1 : ¬ (len closes ≠ len volumes) := by simp only [len]; omega
  have c2 : ¬ (len closes = 0) := by simp only [len]; omega
  obtain ⟨r, hr, f⟩ := forRange_inv
    (fun m (t : List ℚ) => FilledTo n m (obvSeries closes volumes) t)
    (OBV.body closes volumes) 1 n 1 (len closes)
    ((make n : List ℚ).set 0 (volumes.getD 0 0)) rfl (by simp only [len]; omega) hn
    (FilledTo.set_next (FilledTo.make_zero _ 0 _ (fun j hj => by omega)) (by omega) _ rfl)
    (fun m t h1 h2 hinv => by
      obtain ⟨q, rfl⟩ : ∃ q, m = q + 1 := ⟨m - 1, by omega⟩
      exact ⟨_, OBV.obvBody_eq closes volumes n q hc hv h2 t hinv,
        FilledTo.set_next hinv h2 _ rfl⟩)
  simp only [OBV.Calculate]
  rw [if_neg c1, if_neg c2, rd_nat volumes 0 0 rfl (by omega)]
  simp only [Res.ok_bind]
  rw [hc, wr_nat _ 0 0 _ rfl (by rw [length_make]; omega)]
  simp only [Res.ok_bind]
  rw [hr, FilledTo.eq_map f]

/-- C30: for non-empty closes and volumes of one length, `OBV.Calculate`
returns `obv` of that length with `obv[0] = volumes[0]` and, for `i >= 1`,
`obv[i] = obv[i-1] + volumes[i]` when `closes[i] > closes[i-1]`,
`obv[i] = obv[i-1] - volumes[i]` when `closes[i] < closes[i-1]`, and
`obv[i] = obv[i-1]` otherwise; on closes `{10,11,11,12,11,12}` and volumes
`{100,200,150,300,250,400}` the result is `{100,300,300,600,350,750}`. -/
theorem OBV.Calculate_cumulative :
    (∀ (o : OBV) (closes volumes : List ℚ), closes.length = volumes.length →
      1 ≤ closes.length →
      ∃ obv : List ℚ, OBV.Calculate o closes volumes = Res.ok obv ∧
        obv.length = closes.length ∧
        obv.getD 0 0 = volumes.getD 0 0 ∧
        ∀ i : Nat, 1 ≤ i → i < closes.length →
          (closes.getD i 0 > closes.getD (i - 1) 0 →
            obv.getD i 0 = obv.getD (i - 1) 0 + volumes.getD i 0) ∧
          (closes.getD i 0 < closes.getD (i - 1) 0 →
            obv.getD i 0 = obv.getD (i - 1) 0 - volumes.getD i 0) ∧
          (¬ closes.getD i 0 > closes.getD (i - 1) 0 →
            ¬ closes.getD i 0 < closes.getD (i - 1) 0 →
            obv.getD i 0 = obv.getD (i - 1) 0)) ∧
    OBV.Calculate ⟨⟩ [10, 11, 11, 12, 11, 12] [100, 200, 150, 300, 250, 400]
      = Res.ok [100, 300, 300, 600, 350, 750] := by
  refine ⟨?_, by decide!⟩
  intro o closes volumes hl hn
  have g : ∀ (i : Nat), i < closes.length →
      ((List.range closes.length).map (obvSeries closes volumes)).getD i 0
        = obvSeries closes volumes i :=
    fun i hi => getD_map_range _ i _ hi
  refine ⟨_, OBV.obv_closed o closes volumes closes.length hn rfl hl.symm, by simp, ?_, ?_⟩
  · rw [g 0 (by omega)]
    rfl
  · intro i h1 h2
    obtain ⟨q, rfl⟩ : ∃ q, i = q + 1 := ⟨i - 1, by omega⟩
    rw [g (q + 1) h2, Nat.add_sub_cancel, g q (by omega)]
    refine ⟨?_, ?_, ?_⟩
    · intro h
      simp only [obvSeries]
      rw [if_pos h]
    · intro h
      have hn1 : ¬ closes.getD (q + 1) 0 > closes.getD q 0 := not_lt.mpr (le_of_lt h)
      simp only [obvSeries]
      rw [if_neg hn1, if_pos h]
    · intro h3 h4
      simp only [obvSeries]
      rw [if_neg h3, if_neg h4]

/-- Instance of C30 on the closes and volumes of `TestOBV`. -/
theorem OBV.Calculate_cumulative_witness :
    ∃ obv : List ℚ,
      OBV.Calculate ⟨⟩ [10, 11, 11, 12, 11, 12] [100, 200, 150, 300, 250, 400] = Res.ok obv ∧
      obv.length = 6 ∧
      obv.getD 0 0 = 100 ∧
      ∀ i : Nat, 1 ≤ i → i < 6 →
        (([10, 11, 11, 12, 11, 12] : List ℚ).getD i 0
            > ([10, 11, 11, 12, 11, 12] : List ℚ).getD (i - 1) 0 →
          obv.getD i 0
            = obv.getD (i - 1) 0 + ([100, 200, 150, 300, 250, 400] : List ℚ).getD i 0) ∧
        (([10, 11, 11, 12, 11, 12] : List ℚ).getD i 0
            < ([10, 11, 11, 12, 11, 12] : List ℚ).getD (i - 1) 0 →
          obv.getD i 0
            = obv.getD (i - 1) 0 - ([100, 200, 150, 300, 250, 400] : List ℚ).getD i 0) ∧
        (¬ ([10, 11, 11, 12, 11, 12] : List ℚ).getD i 0
            > ([10, 11, 11, 12, 11, 12] : List ℚ).getD (i - 1) 0 →
          ¬ ([10, 11, 11, 12, 11, 12] : List ℚ).getD i 0
            < ([10, 11, 11, 12, 11, 12] : List ℚ).getD (i - 1) 0 →
          obv.getD i 0 = obv.getD (i - 1) 0) :=
  OBV.Calculate_cumulative.1 ⟨⟩ [10, 11, 11, 12, 11, 12] [100, 200, 150, 300, 250, 400]
    (by decide) (by decide)

/-! ## Parabolic SAR: extreme point and acceleration factor -/

theorem ParabolicSAR.trendAfter_eq (p : ParabolicSAR) (high low : List ℚ)
    (hl : high.length = low.length) (hn : 2 ≤ high.length) (i : Nat) (hi : i < high.length) :
    ParabolicSAR.trendAfter p high low i = (sarTrace p high low i).up := by
  obtain ⟨arr, e, _⟩ := ParabolicSAR.stateAfter_eq p high low high.length rfl hl.symm hn i hi
  simp only [ParabolicSAR.trendAfter, e]

theorem ParabolicSAR.flipsAt_succ (p : ParabolicSAR) (high low : List ℚ)
    (hl : high.length = low.length) (hn : 2 ≤ high.length) (q : Nat)
    (hq : q + 1 < high.length) :
    ParabolicSAR.flipsAt p high low (q + 1)
      = ((sarTrace p high low (q + 1)).up != (sarTrace p high low q).up) := by
  simp only [ParabolicSAR.flipsAt, Nat.add_sub_cancel]
  rw [ParabolicSAR.trendAfter_eq p high low hl hn (q + 1) hq,
    ParabolicSAR.trendAfter_eq p high low hl hn q (by omega)]
  simp

theorem ParabolicSAR.newExtremeAt_succ (p : ParabolicSAR) (high low : List ℚ)
    (hl : high.length = low.length) (hn : 2 ≤ high.length) (q : Nat)
    (hq : q + 1 < high.length) :
    ParabolicSAR.newExtremeAt p high low (q + 1)
      = (if (sarTrace p high low q).up then decide (high.getD (q + 1) 0 > (sarTrace p high low q).ep)
          else decide (low.getD (q + 1) 0 < (sarTrace p high low q).ep)) := by
  obtain ⟨arr, e, _⟩ := ParabolicSAR.stateAfter_eq p high low high.length rfl hl.symm hn q
    (by omega)
  simp only [ParabolicSAR.newExtremeAt, Nat.add_sub_cancel, e]

/-- One step of the run, read off the trend flags: the bar flips exactly when
the candidate crosses the limit. -/
theorem sarNext_flip (p : ParabolicSAR) (high low : List ℚ) (i : Nat) (T : SarPoint) :
    (((sarNext p high low i T).up != T.up) = true →
      (sarNext p high low i T).af = p.StartAF ∧
      ((sarNext p high low i T).up = true →
        (sarNext p high low i T).ep = high.getD i 0 ∧
        (sarNext p high low i T).sar = min (low.getD (i - 1) 0) (low.getD i 0)) ∧
      ((sarNext p high low i T).up = false →
        (sarNext p high low i T).ep = low.getD i 0 ∧
        (sarNext p high low i T).sar = max (high.getD (i - 1) 0) (high.getD i 0))) ∧
    (((sarNext p high low i T).up != T.up) = false →
      (sarNext p high low i T).sar = T.sar + T.af * (T.ep - T.sar) ∧
      (T.up = true →
        (sarNext p high low i T).sar ≤ min (low.getD (i - 1) 0) (low.getD i 0) ∧
        (high.getD i 0 > T.ep →
          (sarNext p high low i T).ep = high.getD i 0 ∧
          (sarNext p high low i T).af = min (T.af + p.IncrementAF) p.MaxAF) ∧
        (¬ high.getD i 0 > T.ep →
          (sarNext p high low i T).ep = T.ep ∧ (sarNext p high low i T).af = T.af)) ∧
      (T.up = false →
        (sarNext p high low i T).sar ≥ max (high.getD (i - 1) 0) (high.getD i 0) ∧
        (low.getD i 0 < T.ep →
          (sarNext p high low i T).ep = low.getD i 0 ∧
          (sarNext p high low i T).af = min (T.af + p.IncrementAF) p.MaxAF) ∧
        (¬ low.getD i 0 < T.ep →
          (sarNext p high low i T).ep = T.ep ∧ (sarNext p high low i T).af = T.af))) := by
  cases hu : T.up with
  | true =>
    obtain ⟨h1, h2⟩ := sarNext_up p high low i T hu
    by_cases hc : T.sar + T.af * (T.ep - T.sar) > min (low.getD (i - 1) 0) (low.getD i 0)
    · obtain ⟨a, b, c, d⟩ := h1 hc
      rw [a]
      refine ⟨fun _ => ⟨c, fun h => Bool.noConfusion h, fun _ => ⟨d, b⟩⟩,
        fun h => Bool.noConfusion h⟩
    · obtain ⟨a, b, c, d⟩ := h2 hc
      rw [b]
      refine ⟨fun h => Bool.noConfusion h,
        fun _ => ⟨a, fun _ => ⟨?_, c, d⟩, fun h => Bool.noConfusion h⟩⟩
      rw [a]
      exact not_lt.mp hc
  | false =>
    obtain ⟨h1, h2⟩ := sarNext_down p high low i T hu
    by_cases hc : T.sar + T.af * (T.ep - T.sar) < max (high.getD (i - 1) 0) (high.getD i 0)
    · obtain ⟨a, b, c, d⟩ := h1 hc
      rw [a]
      refine ⟨fun _ => ⟨c, fun _ => ⟨d, b⟩, fun h => Bool.noConfusion h⟩,
        fun h => Bool.noConfusion h⟩
    · obtain ⟨a, b, c, d⟩ := h2 hc
      rw [b]
      refine ⟨fun h => Bool.noConfusion h,
        fun _ => ⟨a, fun h => Bool.noConfusion h, fun _ => ⟨?_, c, d⟩⟩⟩
      rw [a]
      exact not_lt.mp hc

theorem IsWindowMax.max_single (xs : List ℚ) (i : Nat) : IsWindowMax xs i i (xs.getD i 0) :=
  ⟨fun j h1 h2 => by
    have : j = i := by omega
    rw [this], i, le_refl _, le_refl _, rfl⟩

theorem IsWindowMin.min_single (xs : List ℚ) (i : Nat) : IsWindowMin xs i i (xs.getD i 0) :=
  ⟨fun j h1 h2 => by
    have : j = i := by omega
    rw [this], i, le_refl _, le_refl _, rfl⟩

theorem IsWindowMax.max_push_new {xs : List ℚ} {lo hi : Nat} {M : ℚ} (h : IsWindowMax xs lo hi M)
    (hlo : lo ≤ hi + 1) (hx : xs.getD (hi + 1) 0 > M) :
    IsWindowMax xs lo (hi + 1) (xs.getD (hi + 1) 0) := by
  refine ⟨fun j h1 h2 => ?_, hi + 1, hlo, le_refl _, rfl⟩
  by_cases hj : j = hi + 1
  · rw [hj]
  · exact le_trans (h.1 j h1 (by omega)) (le_of_lt hx)

theorem IsWindowMax.max_push_keep {xs : List ℚ} {lo hi : Nat} {M : ℚ} (h : IsWindowMax xs lo hi M)
    (hx : ¬ xs.getD (hi + 1) 0 > M) : IsWindowMax xs lo (hi + 1) M := by
  obtain ⟨j0, a, b, c⟩ := h.2
  refine ⟨fun j h1 h2 => ?_, j0, a, by omega, c⟩
  by_cases hj : j = hi + 1
  · rw [hj]
    exact not_lt.mp hx
  · exact h.1 j h1 (by omega)

theorem IsWindowMin.min_push_new {xs : List ℚ} {lo hi : Nat} {m : ℚ} (h : IsWindowMin xs lo hi m)
    (hlo : lo ≤ hi + 1) (hx : xs.getD (hi + 1) 0 < m) :
    IsWindowMin xs lo (hi + 1) (xs.getD (hi + 1) 0) := by
  refine ⟨fun j h1 h2 => ?_, hi + 1, hlo, le_refl _, rfl⟩
  by_cases hj : j = hi + 1
  · rw [hj]
  · exact le_trans (le_of_lt hx) (h.1 j h1 (by omega))

theorem IsWindowMin.min_push_keep {xs : List ℚ} {lo hi : Nat} {m : ℚ} (h : IsWindowMin xs lo hi m)
    (hx : ¬ xs.getD (hi + 1) 0 < m) : IsWindowMin xs lo (hi + 1) m := by
  obtain ⟨j0, a, b, c⟩ := h.2
  refine ⟨fun j h1 h2 => ?_, j0, a, by omega, c⟩
  by_cases hj : j = hi + 1
  · rw [hj]
    exact not_lt.mp hx
  · exact h.1 j h1 (by omega)

theorem bne_false_eq {a b : Bool} (h : (a != b) = false) : a = b := by
  revert h
  cases a <;> cases b <;> simp

/-- The extreme point of the run is the extreme of the bars since the last
flip. -/
theorem sarTrace_ep_window (p : ParabolicSAR) (high low : List ℚ)
    (hl : high.length = low.length) (hn : 2 ≤ high.length) :
    ∀ i, i < high.length →
      ParabolicSAR.lastFlip p high low i ≤ i ∧
      ((sarTrace p high low i).up = true →
        IsWindowMax high (ParabolicSAR.lastFlip p high low i) i (sarTrace p high low i).ep) ∧
      ((sarTrace p high low i).up = false →
        IsWindowMin low (ParabolicSAR.lastFlip p high low i) i (sarTrace p high low i).ep) := by
  intro i
  induction i with
  | zero =>
    intro _
    refine ⟨le_refl _, ?_, ?_⟩
    · intro hu
      have he : (sarTrace p high low 0).ep = high.getD 0 0 := by
        revert hu
        simp only [sarTrace, sarStart]
        split_ifs <;> simp
      rw [he]
      exact IsWindowMax.max_single high 0
    · intro hu
      have he : (sarTrace p high low 0).ep = low.getD 0 0 := by
        revert hu
        simp only [sarTrace, sarStart]
        split_ifs <;> simp
      rw [he]
      exact IsWindowMin.min_single low 0
  | succ q ih =>
    intro hq
    obtain ⟨ihle, ihU, ihD⟩ := ih (by omega)
    have hT : sarTrace p high low (q + 1)
        = sarNext p high low (q + 1) (sarTrace p high low q) := rfl
    obtain ⟨hf, hnf⟩ := sarNext_flip p high low (q + 1) (sarTrace p high low q)
    have hfl := ParabolicSAR.flipsAt_succ p high low hl hn q hq
    rw [hT] at hfl
    simp only [ParabolicSAR.lastFlip]
    rw [hfl, hT]
    by_cases hflip : ((sarNext p high low (q + 1) (sarTrace p high low q)).up
        != (sarTrace p high low q).up) = true
    · rw [if_pos hflip]
      obtain ⟨_, hup, hdn⟩ := hf hflip
      refine ⟨le_refl _, fun hu => ?_, fun hu => ?_⟩
      · rw [(hup hu).1]
        exact IsWindowMax.max_single high (q + 1)
      · rw [(hdn hu).1]
        exact IsWindowMin.min_single low (q + 1)
    · rw [if_neg hflip]
      have hflip2 := Bool.eq_false_iff.mpr hflip
      have hsame := bne_false_eq hflip2
      obtain ⟨_, hU, hD⟩ := hnf hflip2
      refine ⟨by omega, fun hu => ?_, fun hu => ?_⟩
      · have hTu : (sarTrace p high low q).up = true := hsame ▸ hu
        obtain ⟨_, hnew, hkeep⟩ := hU hTu
        by_cases hx : high.getD (q + 1) 0 > (sarTrace p high low q).ep
        · rw [(hnew hx).1]
          exact IsWindowMax.max_push_new (ihU hTu) (by omega) hx
        · rw [(hkeep hx).1]
          exact IsWindowMax.max_push_keep (ihU hTu) hx
      · have hTu : (sarTrace p high low q).up = false := hsame ▸ hu
        obtain ⟨_, hnew, hkeep⟩ := hD hTu
        by_cases hx : low.getD (q + 1) 0 < (sarTrace p high low q).ep
        · rw [(hnew hx).1]
          exact IsWindowMin.min_push_new (ihD hTu) (by omega) hx
        · rw [(hkeep hx).1]
          exact IsWindowMin.min_push_keep (ihD hTu) hx

/-- The index `lastFlip i` is the most recent bar `<= i` that flipped the
trend, and `0` when there is none. -/
theorem ParabolicSAR.lastFlip_recent (p : ParabolicSAR) (high low : List ℚ) :
    ∀ i, ParabolicSAR.lastFlip p high low i ≤ i ∧
      (ParabolicSAR.lastFlip p high low i = 0
        ∨ ParabolicSAR.flipsAt p high low (ParabolicSAR.lastFlip p high low i) = true) ∧
      ∀ j, ParabolicSAR.lastFlip p high low i < j → j ≤ i →
        ParabolicSAR.flipsAt p high low j = false := by
  intro i
  induction i with
  | zero =>
    exact ⟨le_refl _, Or.inl rfl, fun j h1 h2 => by
      have h3 : 0 < j := h1
      omega⟩
  | succ q ih =>
    obtain ⟨a, b, c⟩ := ih
    simp only [ParabolicSAR.lastFlip]
    by_cases hf : ParabolicSAR.flipsAt p high low (q + 1) = true
    · rw [if_pos hf]
      exact ⟨le_refl _, Or.inr hf, fun j h1 h2 => by omega⟩
    · rw [if_neg hf]
      refine ⟨by omega, b, fun j h1 h2 => ?_⟩
      by_cases hj : j = q + 1
      · rw [hj]
        exact Bool.eq_false_iff.mpr hf
      · exact c j h1 (by omega)

/-- The acceleration factor over one bar: reset on a flip, raised on a new
extreme without a flip, kept otherwise. -/
theorem sarTrace_af_step (p : ParabolicSAR) (high low : List ℚ)
    (hl : high.length = low.length) (hn : 2 ≤ high.length) (q : Nat)
    (hq : q + 1 < high.length) :
    (ParabolicSAR.flipsAt p high low (q + 1) = true →
      (sarTrace p high low (q + 1)).af = p.StartAF) ∧
    (ParabolicSAR.flipsAt p high low (q + 1) = false →
      (ParabolicSAR.newExtremeAt p high low (q + 1) = true →
        (sarTrace p high low (q + 1)).af
          = min ((sarTrace p high low q).af + p.IncrementAF) p.MaxAF) ∧
      (ParabolicSAR.newExtremeAt p high low (q + 1) = false →
        (sarTrace p high low (q + 1)).af = (sarTrace p high low q).af)) := by
  have hT : sarTrace p high low (q + 1)
      = sarNext p high low (q + 1) (sarTrace p high low q) := rfl
  obtain ⟨hf, hnf⟩ := sarNext_flip p high low (q + 1) (sarTrace p high low q)
  rw [ParabolicSAR.flipsAt_succ p high low hl hn q hq,
    ParabolicSAR.newExtremeAt_succ p high low hl hn q hq, hT]
  refine ⟨fun h => (hf h).1, fun h => ?_⟩
  obtain ⟨_, hU, hD⟩ := hnf h
  cases hu : (sarTrace p high low q).up with
  | true =>
    obtain ⟨_, hnew, hkeep⟩ := hU hu
    simp only [if_true, decide_eq_true_eq, decide_eq_false_iff_not]
    exact ⟨fun hx => (hnew hx).2, fun hx => (hkeep hx).2⟩
  | false =>
    obtain ⟨_, hnew, hkeep⟩ := hD hu
    simp only [Bool.false_eq_true, if_false, decide_eq_true_eq, decide_eq_false_iff_not]
    exact ⟨fun hx => (hnew hx).2, fun hx => (hkeep hx).2⟩

/-- C33: for bars of one length `n >= 2` and every bar `i`, with `f` the most
recent bar `<= i` that flipped the trend (`f = 0` when none has): after bar
`i` the extreme point is the maximum of `high[f..i]` in an up trend and the
minimum of `low[f..i]` in a down trend; and the acceleration factor is set
back to `StartAF` on the bars that flip the trend and on no other bar: a bar
without a flip raises it to `min(AF + IncrementAF, MaxAF)` on a new extreme
and keeps it otherwise. -/
theorem ParabolicSAR.Calculate_extreme_point (p : ParabolicSAR) (high low : List ℚ)
    (hl : high.length = low.length) (hn : 2 ≤ high.length) (i : Nat)
    (hi : i < high.length) :
    ∃ s : ParabolicSAR.State, ParabolicSAR.stateAfter p high low i = Res.ok s ∧
      ParabolicSAR.lastFlip p high low i ≤ i ∧
      (ParabolicSAR.lastFlip p high low i = 0
        ∨ ParabolicSAR.flipsAt p high low (ParabolicSAR.lastFlip p high low i) = true) ∧
      (∀ j, ParabolicSAR.lastFlip p high low i < j → j ≤ i →
        ParabolicSAR.flipsAt p high low j = false) ∧
      (s.upTrend = true → IsWindowMax high (ParabolicSAR.lastFlip p high low i) i s.ep) ∧
      (s.upTrend = false → IsWindowMin low (ParabolicSAR.lastFlip p high low i) i s.ep) ∧
      (1 ≤ i → ∃ s0 : ParabolicSAR.State,
        ParabolicSAR.stateAfter p high low (i - 1) = Res.ok s0 ∧
        (ParabolicSAR.flipsAt p high low i = true → s.af = p.StartAF) ∧
        (ParabolicSAR.flipsAt p high low i = false →
          (ParabolicSAR.newExtremeAt p high low i = true →
            s.af = min (s0.af + p.IncrementAF) p.MaxAF) ∧
          (ParabolicSAR.newExtremeAt p high low i = false → s.af = s0.af))) := by
  obtain ⟨arr, e, _⟩ := ParabolicSAR.stateAfter_eq p high low high.length rfl hl.symm hn i hi
  obtain ⟨a, b, c⟩ := ParabolicSAR.lastFlip_recent p high low i
  obtain ⟨_, wU, wD⟩ := sarTrace_ep_window p high low hl hn i hi
  refine ⟨_, e, a, b, c, wU, wD, ?_⟩
  intro h1
  obtain ⟨q, rfl⟩ : ∃ q, i = q + 1 := ⟨i - 1, by omega⟩
  obtain ⟨arr0, e0, _⟩ := ParabolicSAR.stateAfter_eq p high low high.length rfl hl.symm hn q
    (by omega)
  rw [Nat.add_sub_cancel]
  exact ⟨_, e0, sarTrace_af_step p high low hl hn q hi⟩

/-- Instance of C33: bar 3 of four rising bars; bars 1 and 2 flip, bar 3
brings a new high. -/
theorem ParabolicSAR.Calculate_extreme_point_witness :
    ∃ s : ParabolicSAR.State,
      ParabolicSAR.stateAfter ⟨1/50, 1/50, 1/5⟩ [10, 11, 12, 13] [9, 10, 11, 12] 3
        = Res.ok s ∧
      ParabolicSAR.lastFlip ⟨1/50, 1/50, 1/5⟩ [10, 11, 12, 13] [9, 10, 11, 12] 3 ≤ 3 ∧
      (ParabolicSAR.lastFlip ⟨1/50, 1/50, 1/5⟩ [10, 11, 12, 13] [9, 10, 11, 12] 3 = 0
        ∨ ParabolicSAR.flipsAt ⟨1/50, 1/50, 1/5⟩ [10, 11, 12, 13] [9, 10, 11, 12]
            (ParabolicSAR.lastFlip ⟨1/50, 1/50, 1/5⟩ [10, 11, 12, 13] [9, 10, 11, 12] 3)
          = true) ∧
      (∀ j, ParabolicSAR.lastFlip ⟨1/50, 1/50, 1/5⟩ [10, 11, 12, 13] [9, 10, 11, 12] 3 < j →
        j ≤ 3 →
        ParabolicSAR.flipsAt ⟨1/50, 1/50, 1/5⟩ [10, 11, 12, 13] [9, 10, 11, 12] j = false) ∧
      (s.upTrend = true →
        IsWindowMax [10, 11, 12, 13]
          (ParabolicSAR.lastFlip ⟨1/50, 1/50, 1/5⟩ [10, 11, 12, 13] [9, 10, 11, 12] 3) 3
          s.ep) ∧
      (s.upTrend = false →
        IsWindowMin [9, 10, 11, 12]
          (ParabolicSAR.lastFlip ⟨1/50, 1/50, 1/5⟩ [10, 11, 12, 13] [9, 10, 11, 12] 3) 3
          s.ep) ∧
      (1 ≤ 3 → ∃ s0 : ParabolicSAR.State,
        ParabolicSAR.stateAfter ⟨1/50, 1/50, 1/5⟩ [10, 11, 12, 13] [9, 10, 11, 12] (3 - 1)
          = Res.ok s0 ∧
        (ParabolicSAR.flipsAt ⟨1/50, 1/50, 1/5⟩ [10, 11, 12, 13] [9, 10, 11, 12] 3 = true →
          s.af = 1/50) ∧
        (ParabolicSAR.flipsAt ⟨1/50, 1/50, 1/5⟩ [10, 11, 12, 13] [9, 10, 11, 12] 3 = false →
          (ParabolicSAR.newExtremeAt ⟨1/50, 1/50, 1/5⟩ [10, 11, 12, 13] [9, 10, 11, 12] 3
              = true →
            s.af = min (s0.af + 1/50) (1/5)) ∧
          (ParabolicSAR.newExtremeAt ⟨1/50, 1/50, 1/5⟩ [10, 11, 12, 13] [9, 10, 11, 12] 3
              = false →
            s.af = s0.af))) :=
  ParabolicSAR.Calculate_extreme_point ⟨1/50, 1/50, 1/5⟩ [10, 11, 12, 13] [9, 10, 11, 12]
    (by decide) (by decide) 3 (by decide)

theorem min_min_add (a c M : ℚ) (hc : 0 ≤ c) : min (min a M + c) M = min (a + c) M := by
  by_cases h : a ≤ M
  · rw [min_eq_left h]
  · have h2 : M < a := not_le.mp h
    rw [min_eq_right (le_of_lt h2), min_eq_right (by linarith), min_eq_right (by linarith)]

/-- Closed form of the acceleration factor of the run. -/
theorem sarTrace_af_closed (p : ParabolicSAR) (high low : List ℚ)
    (hl : high.length = low.length) (hn : 2 ≤ high.length) (h1 : p.StartAF ≤ p.MaxAF)
    (h2 : 0 ≤ p.IncrementAF) :
    ∀ i, i < high.length →
      (sarTrace p high low i).af
        = min (p.StartAF + (ParabolicSAR.extremesSinceFlip p high low i : ℚ) * p.IncrementAF)
            p.MaxAF := by
  intro i
  induction i with
  | zero =>
    intro _
    have ha : (sarTrace p high low 0).af = p.StartAF := by
      simp only [sarTrace, sarStart]
      split_ifs <;> rfl
    rw [ha]
    simp only [ParabolicSAR.extremesSinceFlip, Nat.cast_zero, zero_mul, add_zero]
    exact (min_eq_left h1).symm
  | succ q ih =>
    intro hq
    obtain ⟨sf, snf⟩ := sarTrace_af_step p high low hl hn q hq
    simp only [ParabolicSAR.extremesSinceFlip]
    by_cases hf : ParabolicSAR.flipsAt p high low (q + 1) = true
    · rw [if_pos hf, sf hf]
      simp only [Nat.cast_zero, zero_mul, add_zero]
      exact (min_eq_left h1).symm
    · rw [if_neg hf]
      obtain ⟨snew, skeep⟩ := snf (Bool.eq_false_iff.mpr hf)
      by_cases hx : ParabolicSAR.newExtremeAt p high low (q + 1) = true
      · rw [if_pos hx, snew hx, ih (by omega), min_min_add _ _ _ h2]
        push_cast
        ring_nf
      · rw [if_neg hx, skeep (Bool.eq_false_iff.mpr hx), ih (by omega)]

theorem sarTrace_af_bounds (p : ParabolicSAR) (high low : List ℚ)
    (hl : high.length = low.length) (hn : 2 ≤ high.length) (h1 : p.StartAF ≤ p.MaxAF)
    (h2 : 0 ≤ p.IncrementAF) (i : Nat) (hi : i < high.length) :
    p.StartAF ≤ (sarTrace p high low i).af ∧ (sarTrace p high low i).af ≤ p.MaxAF := by
  rw [sarTrace_af_closed p high low hl hn h1 h2 i hi]
  have hk : (0 : ℚ) ≤ (ParabolicSAR.extremesSinceFlip p high low i : ℚ) * p.IncrementAF :=
    mul_nonneg (Nat.cast_nonneg _) h2
  exact ⟨le_min (by linarith) h1, min_le_right _ _⟩

/-- C34: for `StartAF <= MaxAF`, `IncrementAF >= 0` and bars of one length
`n >= 2`, the acceleration factor held after every bar (which is the one held
before the next bar) lies between `StartAF` and `MaxAF`, and equals
`min(StartAF + k*IncrementAF, MaxAF)`, `k` being the number of new extremes
since the last flip (or since bar 0). -/
theorem ParabolicSAR.Calculate_acceleration (p : ParabolicSAR) (high low : List ℚ)
    (h1 : p.StartAF ≤ p.MaxAF) (h2 : 0 ≤ p.IncrementAF)
    (hl : high.length = low.length) (hn : 2 ≤ high.length) (i : Nat)
    (hi : i < high.length) :
    ∃ s : ParabolicSAR.State, ParabolicSAR.stateAfter p high low i = Res.ok s ∧
      p.StartAF ≤ s.af ∧ s.af ≤ p.MaxAF ∧
      s.af = min (p.StartAF
          + (ParabolicSAR.extremesSinceFlip p high low i : ℚ) * p.IncrementAF) p.MaxAF := by
  obtain ⟨arr, e, _⟩ := ParabolicSAR.stateAfter_eq p high low high.length rfl hl.symm hn i hi
  obtain ⟨b1, b2⟩ := sarTrace_af_bounds p high low hl hn h1 h2 i hi
  exact ⟨_, e, b1, b2, sarTrace_af_closed p high low hl hn h1 h2 i hi⟩

/-- Instance of C34: bar 3 of four rising bars, one new extreme after the
flip of bar 2. -/
theorem ParabolicSAR.Calculate_acceleration_witness :
    ∃ s : ParabolicSAR.State,
      ParabolicSAR.stateAfter ⟨1/50, 1/50, 1/5⟩ [10, 11, 12, 13] [9, 10, 11, 12] 3
        = Res.ok s ∧
      1/50 ≤ s.af ∧ s.af ≤ 1/5 ∧
      s.af = min (1/50
          + (ParabolicSAR.extremesSinceFlip ⟨1/50, 1/50, 1/5⟩ [10, 11, 12, 13]
              [9, 10, 11, 12] 3 : ℚ) * (1/50)) (1/5) :=
  ParabolicSAR.Calculate_acceleration ⟨1/50, 1/50, 1/5⟩ [10, 11, 12, 13] [9, 10, 11, 12]
    (by decide!) (by decide!) (by decide) (by decide) 3 (by decide)

/-! ## Parabolic SAR: the SAR stays on its side of the extreme point -/

theorem sarTrace_sar_ep (p : ParabolicSAR) (high low : List ℚ)
    (hw : ∀ i, i < high.length → low.getD i 0 ≤ high.getD i 0) (i : Nat)
    (hi : i < high.length) :
    ((sarTrace p high low i).up = true →
      (sarTrace p high low i).sar ≤ (sarTrace p high low i).ep) ∧
    ((sarTrace p high low i).up = false →
      (sarTrace p high low i).sar ≥ (sarTrace p high low i).ep) := by
  cases i with
  | zero =>
    have h0 := hw 0 hi
    simp only [sarTrace, sarStart]
    split_ifs
    · exact ⟨fun _ => h0, fun h => False.elim h⟩
    · exact ⟨fun h => False.elim h, fun _ => h0⟩
  | succ q =>
    have hT : sarTrace p high low (q + 1)
        = sarNext p high low (q + 1) (sarTrace p high low q) := rfl
    obtain ⟨hf, hnf⟩ := sarNext_flip p high low (q + 1) (sarTrace p high low q)
    have h1 := hw (q + 1) hi
    rw [hT]
    by_cases hflip : ((sarNext p high low (q + 1) (sarTrace p high low q)).up
        != (sarTrace p high low q).up) = true
    · obtain ⟨_, hup, hdn⟩ := hf hflip
      refine ⟨fun hu => ?_, fun hu => ?_⟩
      · rw [(hup hu).1, (hup hu).2]
        exact le_trans (min_le_right _ _) h1
      · rw [(hdn hu).1, (hdn hu).2]
        exact le_trans h1 (le_max_right _ _)
    · have hflip2 := Bool.eq_false_iff.mpr hflip
      have hsame := bne_false_eq hflip2
      obtain ⟨_, hU, hD⟩ := hnf hflip2
      refine ⟨fun hu => ?_, fun hu => ?_⟩
      · have hTu : (sarTrace p high low q).up = true := hsame ▸ hu
        obtain ⟨hs, hnew, hkeep⟩ := hU hTu
        have hs2 := le_trans (le_trans hs (min_le_right _ _)) h1
        by_cases hx : high.getD (q + 1) 0 > (sarTrace p high low q).ep
        · rw [(hnew hx).1]
          exact hs2
        · rw [(hkeep hx).1]
          exact le_trans hs2 (not_lt.mp hx)
      · have hTu : (sarTrace p high low q).up = false := hsame ▸ hu
        obtain ⟨hs, hnew, hkeep⟩ := hD hTu
        have hs2 := le_trans h1 (le_trans (le_max_right _ _) hs)
        by_cases hx : low.getD (q + 1) 0 < (sarTrace p high low q).ep
        · rw [(hnew hx).1]
          exact hs2
        · rw [(hkeep hx).1]
          exact le_trans (not_lt.mp hx) hs2

/-- C38: for `0 <= StartAF <= MaxAF`, `IncrementAF >= 0` and bars of one
length `n >= 2` with `low[i] <= high[i]`: after every bar `sar[i] <= EP` in an
up trend and `sar[i] >= EP` in a down trend; and on every bar `i >= 1` that
does not flip the trend, `sar[i] >= sar[i-1]` in an up trend and
`sar[i] <= sar[i-1]` in a down trend. -/
theorem ParabolicSAR.Calculate_monotone (p : ParabolicSAR) (high low : List ℚ)
    (h0 : 0 ≤ p.StartAF) (h1 : p.StartAF ≤ p.MaxAF) (h2 : 0 ≤ p.IncrementAF)
    (hl : high.length = low.length) (hn : 2 ≤ high.length)
    (hw : ∀ i, i < high.length → low.getD i 0 ≤ high.getD i 0) :
    ∃ sar : List ℚ, ParabolicSAR.Calculate p high low = Res.ok sar ∧
      ∀ i : Nat, i < high.length →
        ∃ s : ParabolicSAR.State, ParabolicSAR.stateAfter p high low i = Res.ok s ∧
          (s.upTrend = true → sar.getD i 0 ≤ s.ep) ∧
          (s.upTrend = false → sar.getD i 0 ≥ s.ep) ∧
          (1 ≤ i → ParabolicSAR.flipsAt p high low i = false →
            (s.upTrend = true → sar.getD i 0 ≥ sar.getD (i - 1) 0) ∧
            (s.upTrend = false → sar.getD i 0 ≤ sar.getD (i - 1) 0)) := by
  refine ⟨_, ParabolicSAR.sar_closed p high low hl hn, ?_⟩
  intro i hi
  obtain ⟨arr, e, _⟩ := ParabolicSAR.stateAfter_eq p high low high.length rfl hl.symm hn i hi
  obtain ⟨sU, sD⟩ := sarTrace_sar_ep p high low hw i hi
  refine ⟨_, e, ?_, ?_, ?_⟩
  · intro hu
    rw [getD_map_range _ i _ hi]
    exact sU hu
  · intro hu
    rw [getD_map_range _ i _ hi]
    exact sD hu
  · intro hi1 hnf
    obtain ⟨q, rfl⟩ : ∃ q, i = q + 1 := ⟨i - 1, by omega⟩
    rw [Nat.add_sub_cancel, getD_map_range _ (q + 1) _ hi, getD_map_range _ q _ (by omega)]
    rw [ParabolicSAR.flipsAt_succ p high low hl hn q hi] at hnf
    have hT : sarTrace p high low (q + 1)
        = sarNext p high low (q + 1) (sarTrace p high low q) := rfl
    rw [hT] at hnf
    have hsame := bne_false_eq hnf
    obtain ⟨hs, _, _⟩ := (sarNext_flip p high low (q + 1) (sarTrace p high low q)).2 hnf
    obtain ⟨pU, pD⟩ := sarTrace_sar_ep p high low hw q (by omega)
    have haf : 0 ≤ (sarTrace p high low q).af :=
      le_trans h0 (sarTrace_af_bounds p high low hl hn h1 h2 q (by omega)).1
    rw [hT, hs]
    refine ⟨fun hu => ?_, fun hu => ?_⟩
    · have hTu : (sarTrace p high low q).up = true := hsame ▸ hu
      have := pU hTu
      nlinarith [mul_nonneg haf (sub_nonneg.mpr this)]
    · have hTu : (sarTrace p high low q).up = false := hsame ▸ hu
      have := pD hTu
      nlinarith [mul_nonneg haf (sub_nonneg.mpr this)]

/-- Instance of C38 on four rising bars. -/
theorem ParabolicSAR.Calculate_monotone_witness :
    ∃ sar : List ℚ,
      ParabolicSAR.Calculate ⟨1/50, 1/50, 1/5⟩ [10, 11, 12, 13] [9, 10, 11, 12] = Res.ok sar ∧
      ∀ i : Nat, i < 4 →
        ∃ s : ParabolicSAR.State,
          ParabolicSAR.stateAfter ⟨1/50, 1/50, 1/5⟩ [10, 11, 12, 13] [9, 10, 11, 12] i
            = Res.ok s ∧
          (s.upTrend = true → sar.getD i 0 ≤ s.ep) ∧
          (s.upTrend = false → sar.getD i 0 ≥ s.ep) ∧
          (1 ≤ i →
            ParabolicSAR.flipsAt ⟨1/50, 1/50, 1/5⟩ [10, 11, 12, 13] [9, 10, 11, 12] i
              = false →
            (s.upTrend = true → sar.getD i 0 ≥ sar.getD (i - 1) 0) ∧
            (s.upTrend = false → sar.getD i 0 ≤ sar.getD (i - 1) 0)) :=
  ParabolicSAR.Calculate_monotone ⟨1/50, 1/50, 1/5⟩ [10, 11, 12, 13] [9, 10, 11, 12]
    (by decide!) (by decide!) (by decide!) (by decide) (by decide) (by decide!)

/-! ## ADX: bounds on the directional indicators -/

theorem ADX.dxSlice_eq (PDI MDI : Nat → ℚ) (n k : Nat) (hk : 1 ≤ k) (hkn : k ≤ n) :
    ADX.dxSlice (k : Int) (n : Int) n ⟨(List.range n).map PDI, (List.range n).map MDI⟩
      = Res.ok ((List.range n).map (dxSeries k PDI MDI)) := by
  obtain ⟨z, hz, z1⟩ := forRange_inv
    (fun _ (t : List ℚ) => t.length = n ∧ ∀ j, t.getD j 0 = 0)
    ADX.dxZeroBody 0 (k - 1) 0 ((k : Int) - 1) (make n) rfl (by omega) (by omega)
    (zeros_make n)
    (fun m t _ h2 hinv => by
      refine ⟨t.set m 0, ?_, zeros_set_zero n m _ hinv⟩
      simp only [ADX.dxZeroBody]
      rw [wr_nat t m m _ rfl (by rw [hinv.1]; omega)])
  obtain ⟨dx, hdx, f1⟩ := forRange_inv
    (fun m (t : List ℚ) => FilledTo n m (dxSeries k PDI MDI) t)
    (ADX.dxBody ⟨(List.range n).map PDI, (List.range n).map MDI⟩)
    (k - 1) n ((k : Int) - 1) (n : Int) z (by omega) rfl (by omega)
    (FilledTo.of_zeros n (k - 1) _ _ z1 (fun j hj => dxSeries_warm k PDI MDI j (by omega)))
    (fun m t h1 h2 hinv => by
      have hw : ¬ (m + 1 < k) := by omega
      refine ⟨t.set m (dxSeries k PDI MDI m), ?_, FilledTo.set_next hinv h2 _ rfl⟩
      simp only [ADX.dxBody]
      rw [rd_nat _ _ m rfl (by simp; omega), rd_nat _ _ m rfl (by simp; omega)]
      simp only [Res.ok_bind]
      rw [getD_map_range n m PDI h2, getD_map_range n m MDI h2]
      by_cases h0 : PDI m + MDI m = 0
      · simp only [h0, if_true]
        rw [wr_nat t m m _ rfl (by rw [hinv.1]; omega)]
        simp [dxSeries, hw, h0]
      · simp only [h0, if_false]
        rw [wr_nat t m m _ rfl (by rw [hinv.1]; omega)]
        have e1 : mathAbs (PDI m - MDI m) / (PDI m + MDI m) * 100 = dxSeries k PDI MDI m := by
          simp only [dxSeries, hw, h0, if_false, mathAbs_eq]
          ring
        rw [e1])
  simp only [ADX.dxSlice]
  rw [hz]
  simp only [Res.ok_bind]
  rw [hdx, FilledTo.eq_map f1]

theorem plusDM_nonneg (highs lows : List ℚ) (i : Nat) : 0 ≤ plusDM highs lows i := by
  unfold plusDM
  split_ifs with h0 h1
  · exact le_refl _
  · exact le_of_lt h1.2
  · exact le_refl _

theorem minusDM_nonneg (highs lows : List ℚ) (i : Nat) : 0 ≤ minusDM highs lows i := by
  unfold minusDM
  split_ifs with h0 h1
  · exact le_refl _
  · exact le_of_lt h1.2
  · exact le_refl _

/-- On well-formed bars the two directional movements of a bar together do not
exceed its true range. -/
theorem dm_le_trueRange (highs lows closes : List ℚ) (n : Nat)
    (hw : ∀ i, i < n → lows.getD i 0 ≤ closes.getD i 0 ∧ closes.getD i 0 ≤ highs.getD i 0)
    (i : Nat) (hi : i < n) :
    plusDM highs lows i + minusDM highs lows i ≤ trueRange highs lows closes i := by
  unfold plusDM minusDM trueRange
  by_cases h0 : i = 0
  · rw [if_pos h0, if_pos h0, if_pos h0]
    obtain ⟨a, b⟩ := hw 0 (by omega)
    linarith
  · rw [if_neg h0, if_neg h0, if_neg h0]
    obtain ⟨a, b⟩ := hw (i - 1) (by omega)
    have t1 : highs.getD i 0 - closes.getD (i - 1) 0
        ≤ max (highs.getD i 0 - lows.getD i 0)
          (max |highs.getD i 0 - closes.getD (i - 1) 0|
            |lows.getD i 0 - closes.getD (i - 1) 0|) :=
      le_trans (le_abs_self _) (le_trans (le_max_left _ _) (le_max_right _ _))
    have t2 : closes.getD (i - 1) 0 - lows.getD i 0
        ≤ max (highs.getD i 0 - lows.getD i 0)
          (max |highs.getD i 0 - closes.getD (i - 1) 0|
            |lows.getD i 0 - closes.getD (i - 1) 0|) :=
      le_trans (neg_sub (lows.getD i 0) (closes.getD (i - 1) 0) ▸ neg_le_abs _)
        (le_trans (le_max_right _ _) (le_max_right _ _))
    have t3 : (0 : ℚ)
        ≤ max (highs.getD i 0 - lows.getD i 0)
          (max |highs.getD i 0 - closes.getD (i - 1) 0|
            |lows.getD i 0 - closes.getD (i - 1) 0|) :=
      le_trans (abs_nonneg _) (le_trans (le_max_left _ _) (le_max_right _ _))
    split_ifs with c1 c2 c2
    · linarith [c1.1, c2.1]
    · linarith
    · linarith
    · linarith

theorem wilderAcc_add (k : Nat) (a b : Nat → ℚ) :
    ∀ i, wilderAcc k (fun j => a j + b j) i = wilderAcc k a i + wilderAcc k b i := by
  intro i
  induction i with
  | zero =>
    simp only [wilderAcc]
    split_ifs
    · simp
    · exact Finset.sum_add_distrib
  | succ i ih =>
    simp only [wilderAcc]
    split_ifs
    · simp
    · exact Finset.sum_add_distrib
    · rw [ih]
      ring

theorem wilderAcc_nonneg (k n : Nat) (a : Nat → ℚ) (hk : 1 ≤ k)
    (h : ∀ j, j < n → 0 ≤ a j) : ∀ i, i < n → 0 ≤ wilderAcc k a i := by
  have hk0 : (0 : ℚ) < (k : ℚ) := by exact_mod_cast hk
  have hk1 : (1 : ℚ) ≤ (k : ℚ) := by exact_mod_cast hk
  have early : ∀ i, i + 1 ≤ k → i < n → 0 ≤ wilderAcc k a i := by
    intro i hs hi
    by_cases hwarm : i + 1 < k
    · rw [wilderAcc_warm k a i hwarm]
    · rw [wilderAcc_seed k a i (by omega)]
      exact Finset.sum_nonneg (fun j hj => h j (by
        have := Finset.mem_range.mp hj
        omega))
  intro i
  induction i with
  | zero =>
    intro hi
    exact early 0 (by omega) hi
  | succ i ih =>
    intro hi
    by_cases hs : i + 1 + 1 ≤ k
    · exact early (i + 1) hs hi
    · rw [wilderAcc_step k a i (by omega)]
      have h1 := ih (by omega)
      have h2 := h (i + 1) hi
      have h3 : wilderAcc k a i / (k : ℚ) ≤ wilderAcc k a i :=
        div_le_self h1 hk1
      linarith

theorem wilderAcc_mono (k n : Nat) (a b : Nat → ℚ) (hk : 1 ≤ k)
    (h : ∀ j, j < n → a j ≤ b j) (i : Nat) (hi : i < n) :
    wilderAcc k a i ≤ wilderAcc k b i := by
  have h1 := wilderAcc_nonneg k n (fun j => b j + (-1) * a j) hk
    (fun j hj => by
      have := h j hj
      show 0 ≤ b j + (-1) * a j
      linarith) i hi
  have h3 : wilderAcc k b i = wilderAcc k (fun j => b j + (-1) * a j) i + wilderAcc k a i := by
    rw [← wilderAcc_add]
    congr 1
    funext j
    ring
  linarith

theorem dirIndex_bounds (k : Nat) (sp sm st : Nat → ℚ) (i : Nat) (hp : 0 ≤ sp i)
    (hm : 0 ≤ sm i) (hs : sp i + sm i ≤ st i) :
    0 ≤ dirIndex k sp st i ∧ 0 ≤ dirIndex k sm st i ∧
      dirIndex k sp st i + dirIndex k sm st i ≤ 100 := by
  unfold dirIndex
  by_cases hw : i + 1 < k
  · rw [if_pos hw, if_pos hw]
    norm_num
  · rw [if_neg hw, if_neg hw]
    by_cases h0 : st i = 0
    · rw [if_pos h0, if_pos h0]
      norm_num
    · rw [if_neg h0, if_neg h0]
      have hpos : 0 < st i := lt_of_le_of_ne (by linarith) (Ne.symm h0)
      refine ⟨div_nonneg (by linarith) (le_of_lt hpos),
        div_nonneg (by linarith) (le_of_lt hpos), ?_⟩
      rw [← add_div, div_le_iff₀ hpos]
      linarith

/-- C35: in exact arithmetic, for `Window >= 1` and well-formed bars
(`low[i] <= close[i] <= high[i]`) of one length `n >= Window`,
`ADX.Calculate` returns `+DI[i] >= 0`, `-DI[i] >= 0` and
`+DI[i] + -DI[i] <= 100` at every index, because `+DM[i] + -DM[i] <= TR[i]` on
every bar of the raw slices and the accumulator-form smoothing keeps that
inequality. -/
theorem ADX.Calculate_di_bounds (w : Int) (highs lows closes : List ℚ) (hw : 1 ≤ w)
    (hl : highs.length = lows.length) (hc : lows.length = closes.length)
    (hn : w ≤ (highs.length : Int))
    (hwf : ∀ i, i < highs.length →
      lows.getD i 0 ≤ closes.getD i 0 ∧ closes.getD i 0 ≤ highs.getD i 0) :
    ∃ (adx pdi mdi : List ℚ) (raw : ADX.Raw) (sm : ADX.Smoothed),
      ADX.Calculate ⟨w⟩ highs lows closes = Res.ok (adx, pdi, mdi) ∧
      ADX.rawSeries highs lows closes = Res.ok raw ∧
      ADX.smoothSeries w (len highs) highs.length raw = Res.ok sm ∧
      ∀ i : Nat, i < highs.length →
        0 ≤ pdi.getD i 0 ∧ 0 ≤ mdi.getD i 0 ∧ pdi.getD i 0 + mdi.getD i 0 ≤ 100 ∧
        raw.pDM.getD i 0 + raw.mDM.getD i 0 ≤ raw.tr.getD i 0 ∧
        sm.smPDM.getD i 0 + sm.smMDM.getD i 0 ≤ sm.smTr.getD i 0 := by
  obtain ⟨k, rfl⟩ : ∃ k : Nat, w = (k : Int) := ⟨w.toNat, by omega⟩
  have hk : 1 ≤ k := by omega
  have hkn : k ≤ highs.length := by omega
  have hraw := ADX.rawSeries_eq highs lows closes highs.length (by omega) rfl hl.symm
    (by omega)
  have hsm := ADX.smoothSeries_eq (trueRange highs lows closes) (plusDM highs lows)
    (minusDM highs lows) highs.length k hk hkn
  refine ⟨_, _, _, _, _, ADX.adx_closed k highs.length highs lows closes hk hkn rfl
    hl.symm (by omega), hraw, hsm, ?_⟩
  intro i hi
  have hdm : ∀ j, j < highs.length →
      plusDM highs lows j + minusDM highs lows j ≤ trueRange highs lows closes j :=
    dm_le_trueRange highs lows closes highs.length hwf
  have hsp := wilderAcc_nonneg k highs.length (plusDM highs lows) hk
    (fun j _ => plusDM_nonneg highs lows j) i hi
  have hsmm := wilderAcc_nonneg k highs.length (minusDM highs lows) hk
    (fun j _ => minusDM_nonneg highs lows j) i hi
  have hsum : wilderAcc k (plusDM highs lows) i + wilderAcc k (minusDM highs lows) i
      ≤ wilderAcc k (trueRange highs lows closes) i := by
    rw [← wilderAcc_add]
    exact wilderAcc_mono k highs.length _ _ hk hdm i hi
  obtain ⟨b1, b2, b3⟩ := dirIndex_bounds k (wilderAcc k (plusDM highs lows))
    (wilderAcc k (minusDM highs lows)) (wilderAcc k (trueRange highs lows closes)) i
    hsp hsmm hsum
  simp only [getD_map_range _ i _ hi]
  exact ⟨b1, b2, b3, hdm i hi, hsum⟩

/-- Instance of C35 on the bars of `TestADX`, `Window = 3`. -/
theorem ADX.Calculate_di_bounds_witness :
    ∃ (adx pdi mdi : List ℚ) (raw : ADX.Raw) (sm : ADX.Smoothed),
      ADX.Calculate ⟨3⟩ [10, 11, 13, 14, 15, 18, 20] [9, 10, 11, 13, 14, 15, 16]
        [9, 10, 12, 14, 14, 16, 19] = Res.ok (adx, pdi, mdi) ∧
      ADX.rawSeries [10, 11, 13, 14, 15, 18, 20] [9, 10, 11, 13, 14, 15, 16]
        [9, 10, 12, 14, 14, 16, 19] = Res.ok raw ∧
      ADX.smoothSeries 3 (len ([10, 11, 13, 14, 15, 18, 20] : List ℚ)) 7 raw = Res.ok sm ∧
      ∀ i : Nat, i < 7 →
        0 ≤ pdi.getD i 0 ∧ 0 ≤ mdi.getD i 0 ∧ pdi.getD i 0 + mdi.getD i 0 ≤ 100 ∧
        raw.pDM.getD i 0 + raw.mDM.getD i 0 ≤ raw.tr.getD i 0 ∧
        sm.smPDM.getD i 0 + sm.smMDM.getD i 0 ≤ sm.smTr.getD i 0 :=
  ADX.Calculate_di_bounds 3 [10, 11, 13, 14, 15, 18, 20] [9, 10, 11, 13, 14, 15, 16]
    [9, 10, 12, 14, 14, 16, 19] (by decide) (by decide) (by decide) (by decide)
    (by decide!)

/-! ## ADX: bounds on DX and ADX -/

theorem dxSeries_bounds (k : Nat) (P M : Nat → ℚ) (i : Nat) (hp : 0 ≤ P i) (hm : 0 ≤ M i) :
    0 ≤ dxSeries k P M i ∧ dxSeries k P M i ≤ 100 := by
  unfold dxSeries
  by_cases hw : i + 1 < k
  · rw [if_pos hw]
    norm_num
  · rw [if_neg hw]
    by_cases h0 : P i + M i = 0
    · rw [if_pos h0]
      norm_num
    · rw [if_neg h0]
      have hpos : 0 < P i + M i := lt_of_le_of_ne (by linarith) (Ne.symm h0)
      have habs : |P i - M i| ≤ P i + M i := by
        rw [abs_le]
        constructor <;> linarith
      refine ⟨div_nonneg (mul_nonneg (by norm_num) (abs_nonneg _)) (le_of_lt hpos), ?_⟩
      rw [div_le_iff₀ hpos]
      linarith

/-- Average-form Wilder smoothing stays between any two bounds of the raw
values seen so far. -/
theorem wilderAvg_between (k : Nat) (hk : 1 ≤ k) (raw : Nat → ℚ) (lo hi : ℚ) :
    ∀ i, k ≤ i + 1 → (∀ j, j ≤ i → lo ≤ raw j ∧ raw j ≤ hi) →
      lo ≤ wilderAvg k raw i ∧ wilderAvg k raw i ≤ hi := by
  have hk0 : (0 : ℚ) < (k : ℚ) := by exact_mod_cast hk
  have hk1 : (1 : ℚ) ≤ (k : ℚ) := by exact_mod_cast hk
  have seed : ∀ i, i + 1 = k → (∀ j, j ≤ i → lo ≤ raw j ∧ raw j ≤ hi) →
      lo ≤ wilderAvg k raw i ∧ wilderAvg k raw i ≤ hi := by
    intro i hs h
    rw [wilderAvg_seed k raw i hs]
    have h1 : (k : ℚ) * lo ≤ ∑ j in Finset.range k, raw j := by
      have := Finset.card_nsmul_le_sum (Finset.range k) raw lo
        (fun j hj => (h j (by have := Finset.mem_range.mp hj; omega)).1)
      simpa [nsmul_eq_mul] using this
    have h2 : (∑ j in Finset.range k, raw j) ≤ (k : ℚ) * hi := by
      have := Finset.sum_le_card_nsmul (Finset.range k) raw hi
        (fun j hj => (h j (by have := Finset.mem_range.mp hj; omega)).2)
      simpa [nsmul_eq_mul] using this
    constructor
    · rw [le_div_iff₀ hk0]
      linarith
    · rw [div_le_iff₀ hk0]
      linarith
  intro i
  induction i with
  | zero =>
    intro h1 h
    exact seed 0 (by omega) h
  | succ i ih =>
    intro h1 h
    by_cases hs : i + 1 + 1 = k
    · exact seed (i + 1) hs h
    · rw [wilderAvg_step k raw i (by omega)]
      obtain ⟨a, b⟩ := ih (by omega) (fun j hj => h j (by omega))
      obtain ⟨c, d⟩ := h (i + 1) (le_refl _)
      have hk2 : (0 : ℚ) ≤ (k : ℚ) - 1 := by linarith
      constructor
      · rw [le_div_iff₀ hk0]
        nlinarith [mul_le_mul_of_nonneg_right a hk2]
      · rw [div_le_iff₀ hk0]
        nlinarith [mul_le_mul_of_nonneg_right b hk2]

/-- C36: in exact arithmetic, for `Window >= 1` and well-formed bars of one
length `n >= Window`, every `DX[i]` that `ADX.Calculate` forms and every
returned `adx[i]` lies in `[0, 100]`, and `adx[Window-1] <= 100/Window`. -/
theorem ADX.Calculate_adx_bounds (w : Int) (highs lows closes : List ℚ) (hw : 1 ≤ w)
    (hl : highs.length = lows.length) (hc : lows.length = closes.length)
    (hn : w ≤ (highs.length : Int))
    (hwf : ∀ i, i < highs.length →
      lows.getD i 0 ≤ closes.getD i 0 ∧ closes.getD i 0 ≤ highs.getD i 0) :
    ∃ adx pdi mdi dx : List ℚ,
      ADX.Calculate ⟨w⟩ highs lows closes = Res.ok (adx, pdi, mdi) ∧
      ADX.dxSlice w (len highs) highs.length ⟨pdi, mdi⟩ = Res.ok dx ∧
      (∀ i : Nat, i < highs.length →
        0 ≤ dx.getD i 0 ∧ dx.getD i 0 ≤ 100 ∧ 0 ≤ adx.getD i 0 ∧ adx.getD i 0 ≤ 100) ∧
      adx.getD (w - 1).toNat 0 ≤ 100 / (w : ℚ) := by
  obtain ⟨k, rfl⟩ : ∃ k : Nat, w = (k : Int) := ⟨w.toNat, by omega⟩
  have hk : 1 ≤ k := by omega
  have hkn : k ≤ highs.length := by omega
  have hk0 : (0 : ℚ) < (k : ℚ) := by exact_mod_cast hk
  have hdm : ∀ j, j < highs.length →
      plusDM highs lows j + minusDM highs lows j ≤ trueRange highs lows closes j :=
    dm_le_trueRange highs lows closes highs.length hwf
  have hdi : ∀ i, i < highs.length →
      0 ≤ plusDISeries k highs lows closes i ∧ 0 ≤ minusDISeries k highs lows closes i := by
    intro i hi
    have hsp := wilderAcc_nonneg k highs.length (plusDM highs lows) hk
      (fun j _ => plusDM_nonneg highs lows j) i hi
    have hsmm := wilderAcc_nonneg k highs.length (minusDM highs lows) hk
      (fun j _ => minusDM_nonneg highs lows j) i hi
    have hsum : wilderAcc k (plusDM highs lows) i + wilderAcc k (minusDM highs lows) i
        ≤ wilderAcc k (trueRange highs lows closes) i := by
      rw [← wilderAcc_add]
      exact wilderAcc_mono k highs.length _ _ hk hdm i hi
    obtain ⟨b1, b2, _⟩ := dirIndex_bounds k (wilderAcc k (plusDM highs lows))
      (wilderAcc k (minusDM highs lows)) (wilderAcc k (trueRange highs lows closes)) i
      hsp hsmm hsum
    exact ⟨b1, b2⟩
  have hdx : ∀ i, i < highs.length →
      0 ≤ dxSeries k (plusDISeries k highs lows closes) (minusDISeries k highs lows closes) i
      ∧ dxSeries k (plusDISeries k highs lows closes) (minusDISeries k highs lows closes) i
        ≤ 100 :=
    fun i hi => dxSeries_bounds k _ _ i (hdi i hi).1 (hdi i hi).2
  have hadx : ∀ i, i < highs.length →
      0 ≤ wilderAvg k (dxSeries k (plusDISeries k highs lows closes)
          (minusDISeries k highs lows closes)) i
      ∧ wilderAvg k (dxSeries k (plusDISeries k highs lows closes)
          (minusDISeries k highs lows closes)) i ≤ 100 := by
    intro i hi
    by_cases hwarm : i + 1 < k
    · rw [wilderAvg_warm k _ i hwarm]
      norm_num
    · exact wilderAvg_between k hk _ 0 100 i (by omega) (fun j hj => hdx j (by omega))
  refine ⟨_, _, _, _, ADX.adx_closed k highs.length highs lows closes hk hkn rfl
    hl.symm (by omega), ADX.dxSlice_eq _ _ highs.length k hk hkn, ?_, ?_⟩
  · intro i hi
    rw [getD_map_range _ i _ hi, getD_map_range _ i _ hi]
    exact ⟨(hdx i hi).1, (hdx i hi).2, (hadx i hi).1, (hadx i hi).2⟩
  · have h1 : ((k : Int) - 1).toNat = k - 1 := by omega
    rw [h1, getD_map_range _ (k - 1) _ (by omega),
      wilderAvg_seed k _ (k - 1) (by omega), sum_dxSeries_seed k hk]
    simp only [Int.cast_natCast]
    exact div_le_div_of_nonneg_right (hdx (k - 1) (by omega)).2 (le_of_lt hk0)

/-- Instance of C36 on the bars of `TestADX`, `Window = 3`. -/
theorem ADX.Calculate_adx_bounds_witness :
    ∃ adx pdi mdi dx : List ℚ,
      ADX.Calculate ⟨3⟩ [10, 11, 13, 14, 15, 18, 20] [9, 10, 11, 13, 14, 15, 16]
        [9, 10, 12, 14, 14, 16, 19] = Res.ok (adx, pdi, mdi) ∧
      ADX.dxSlice 3 (len ([10, 11, 13, 14, 15, 18, 20] : List ℚ)) 7 ⟨pdi, mdi⟩ = Res.ok dx ∧
      (∀ i : Nat, i < 7 →
        0 ≤ dx.getD i 0 ∧ dx.getD i 0 ≤ 100 ∧ 0 ≤ adx.getD i 0 ∧ adx.getD i 0 ≤ 100) ∧
      adx.getD ((3 : Int) - 1).toNat 0 ≤ 100 / ((3 : Int) : ℚ) :=
  ADX.Calculate_adx_bounds 3 [10, 11, 13, 14, 15, 18, 20] [9, 10, 11, 13, 14, 15, 16]
    [9, 10, 12, 14, 14, 16, 19] (by decide) (by decide) (by decide) (by decide)
    (by decide!)

/-! ## ATR: between the true ranges seen so far -/

theorem trueRange_nonneg (highs lows closes : List ℚ) (i : Nat) (h0 : lows.getD 0 0 ≤ highs.getD 0 0) :
    0 ≤ trueRange highs lows closes i := by
  unfold trueRange
  split_ifs
  · linarith
  · exact le_trans (abs_nonneg _) (le_trans (le_max_left _ _) (le_max_right _ _))

/-- C37: in exact arithmetic, for `Window >= 1`, bars of one length
`n >= Window` and every index `i >= Window-1`, the value `atr[i]` that
`ATR.Calculate` returns lies between the minimum and the maximum of
`TR[0..i]`; and `atr[i] >= 0` at every index when `high[0] >= low[0]`. -/
theorem ATR.Calculate_tr_between (w : Int) (highs lows closes : List ℚ) (hw : 1 ≤ w)
    (hl : highs.length = lows.length) (hc : lows.length = closes.length)
    (hn : w ≤ (highs.length : Int)) :
    ∃ atr : List ℚ, ATR.Calculate ⟨w⟩ highs lows closes = Res.ok atr ∧
      (∀ i : Nat, w - 1 ≤ (i : Int) → i < highs.length →
        (Finset.range (i + 1)).inf' Finset.nonempty_range_succ
            (trueRange highs lows closes) ≤ atr.getD i 0 ∧
        atr.getD i 0 ≤ (Finset.range (i + 1)).sup' Finset.nonempty_range_succ
            (trueRange highs lows closes)) ∧
      (lows.getD 0 0 ≤ highs.getD 0 0 → ∀ i : Nat, i < highs.length → 0 ≤ atr.getD i 0) := by
  obtain ⟨k, rfl⟩ : ∃ k : Nat, w = (k : Int) := ⟨w.toNat, by omega⟩
  have hk : 1 ≤ k := by omega
  have hkn : k ≤ highs.length := by omega
  refine ⟨_, ATR.atr_closed k highs.length highs lows closes hk hkn rfl hl.symm
    (by omega), ?_, ?_⟩
  · intro i h1 h2
    rw [getD_map_range _ i _ h2]
    exact wilderAvg_between k hk _ _ _ i (by omega)
      (fun j hj => ⟨Finset.inf'_le _ (Finset.mem_range.mpr (by omega)),
        Finset.le_sup' _ (Finset.mem_range.mpr (by omega))⟩)
  · intro h0 i hi
    rw [getD_map_range _ i _ hi]
    by_cases hwarm : i + 1 < k
    · rw [wilderAvg_warm k _ i hwarm]
    · exact (wilderAvg_between k hk _ 0
        ((Finset.range (i + 1)).sup' Finset.nonempty_range_succ
          (trueRange highs lows closes)) i (by omega)
        (fun j hj => ⟨trueRange_nonneg highs lows closes j h0,
          Finset.le_sup' _ (Finset.mem_range.mpr (by omega))⟩)).1

/-- Instance of C37 on four bars with `Window = 3`. -/
theorem ATR.Calculate_tr_between_witness :
    ∃ atr : List ℚ,
      ATR.Calculate ⟨3⟩ [10, 11, 13, 14] [9, 9, 11, 13] [9, 10, 12, 14] = Res.ok atr ∧
      (∀ i : Nat, (3 : Int) - 1 ≤ (i : Int) → i < 4 →
        (Finset.range (i + 1)).inf' Finset.nonempty_range_succ
            (trueRange [10, 11, 13, 14] [9, 9, 11, 13] [9, 10, 12, 14]) ≤ atr.getD i 0 ∧
        atr.getD i 0 ≤ (Finset.range (i + 1)).sup' Finset.nonempty_range_succ
            (trueRange [10, 11, 13, 14] [9, 9, 11, 13] [9, 10, 12, 14])) ∧
      (([9, 9, 11, 13] : List ℚ).getD 0 0 ≤ ([10, 11, 13, 14] : List ℚ).getD 0 0 →
        ∀ i : Nat, i < 4 → 0 ≤ atr.getD i 0) :=
  ATR.Calculate_tr_between 3 [10, 11, 13, 14] [9, 9, 11, 13] [9, 10, 12, 14] (by decide)
    (by decide) (by decide) (by decide)

/-! ## KAMA: between the prices seen so far -/

theorem convex_step (lo hi k x a : ℚ) (ha0 : 0 ≤ a) (ha1 : a ≤ 1) (hk : lo ≤ k ∧ k ≤ hi)
    (hx : lo ≤ x ∧ x ≤ hi) : lo ≤ k + a * (x - k) ∧ k + a * (x - k) ≤ hi := by
  obtain ⟨k1, k2⟩ := hk
  obtain ⟨x1, x2⟩ := hx
  constructor
  · nlinarith [mul_nonneg ha0 (sub_nonneg.mpr x1), mul_nonneg (sub_nonneg.mpr ha1)
      (sub_nonneg.mpr k1)]
  · nlinarith [mul_nonneg ha0 (sub_nonneg.mpr x2), mul_nonneg (sub_nonneg.mpr ha1)
      (sub_nonneg.mpr k2)]

theorem kamaSeries_between (prices : List ℚ) (e : Nat) (fast slow lo hi : ℚ) (he : 1 ≤ e)
    (hf0 : 0 ≤ fast) (hf1 : fast ≤ 1) (hs0 : 0 ≤ slow) (hs1 : slow ≤ 1) :
    ∀ i, (∀ j, j ≤ i → lo ≤ prices.getD j 0 ∧ prices.getD j 0 ≤ hi) →
      lo ≤ kamaSeries prices e fast slow i ∧ kamaSeries prices e fast slow i ≤ hi := by
  intro i
  induction i with
  | zero =>
    intro h
    exact h 0 (le_refl _)
  | succ i ih =>
    intro h
    have hprev := ih (fun j hj => h j (by omega))
    have hx := h (i + 1) (le_refl _)
    simp only [kamaSeries]
    by_cases hw : i + 1 < e
    · rw [if_pos hw]
      exact convex_step lo hi _ _ fast hf0 hf1 hprev hx
    · rw [if_neg hw]
      obtain ⟨r0, r1⟩ := kamaER_bounds prices e (i + 1) he (by omega)
      have c0 : 0 ≤ kamaER prices e (i + 1) * (fast - slow) + slow := by
        nlinarith [mul_nonneg r0 hf0, mul_nonneg (sub_nonneg.mpr r1) hs0]
      have c1 : kamaER prices e (i + 1) * (fast - slow) + slow ≤ 1 := by
        nlinarith [mul_nonneg r0 (sub_nonneg.mpr hf1),
          mul_nonneg (sub_nonneg.mpr r1) (sub_nonneg.mpr hs1)]
      exact convex_step lo hi _ _ _ (pow_nonneg c0 2) (pow_le_one₀ c0 c1) hprev hx

/-- C39: in exact arithmetic, for a valid KAMA configuration, at least
`ERPeriod` prices and every index `i`, the value `kama[i]` that
`KAMA.Calculate` returns lies between the minimum and the maximum of
`prices[0..i]`; a constant price series yields that constant at every
index. -/
theorem KAMA.Calculate_price_between (er fp sp : Int) (prices : List ℚ) (he : 2 ≤ er)
    (hf : 1 ≤ fp) (hs : 1 ≤ sp) (hn : er ≤ (prices.length : Int)) :
    ∃ kama : List ℚ, KAMA.Calculate ⟨er, fp, sp⟩ prices = Res.ok kama ∧
      (∀ i : Nat, i < prices.length →
        (Finset.range (i + 1)).inf' Finset.nonempty_range_succ (fun j => prices.getD j 0)
          ≤ kama.getD i 0 ∧
        kama.getD i 0
          ≤ (Finset.range (i + 1)).sup' Finset.nonempty_range_succ
              (fun j => prices.getD j 0)) ∧
      (∀ c : ℚ, (∀ j : Nat, j < prices.length → prices.getD j 0 = c) →
        ∀ i : Nat, i < prices.length → kama.getD i 0 = c) := by
  obtain ⟨e, rfl⟩ : ∃ e : Nat, er = (e : Int) := ⟨er.toNat, by omega⟩
  have he2 : 2 ≤ e := by omega
  have hn2 : e ≤ prices.length := by omega
  have hfq : (1 : ℚ) ≤ (fp : ℚ) := by exact_mod_cast hf
  have hsq : (1 : ℚ) ≤ (sp : ℚ) := by exact_mod_cast hs
  have f0 : (0 : ℚ) ≤ 2 / ((fp : ℚ) + 1) := by positivity
  have s0 : (0 : ℚ) ≤ 2 / ((sp : ℚ) + 1) := by positivity
  have f1 : 2 / ((fp : ℚ) + 1) ≤ 1 := by
    rw [div_le_one (by linarith)]
    linarith
  have s1 : 2 / ((sp : ℚ) + 1) ≤ 1 := by
    rw [div_le_one (by linarith)]
    linarith
  refine ⟨_, KAMA.kama_closed e fp sp prices he2 hf hs hn2, ?_, ?_⟩
  · intro i hi
    rw [getD_map_range _ i _ hi]
    exact kamaSeries_between prices e _ _ _ _ (by omega) f0 f1 s0 s1 i
      (fun j hj => ⟨Finset.inf'_le (fun j => prices.getD j 0)
          (Finset.mem_range.mpr (by omega)),
        Finset.le_sup' (fun j => prices.getD j 0) (Finset.mem_range.mpr (by omega))⟩)
  · intro c hconst i hi
    rw [getD_map_range _ i _ hi]
    obtain ⟨a, b⟩ := kamaSeries_between prices e _ _ c c (by omega) f0 f1 s0 s1 i
      (fun j hj => by
        rw [hconst j (by omega)]
        exact ⟨le_refl _, le_refl _⟩)
    exact le_antisymm b a

/-- Instance of C39 on the first prices of `TestKAMA`. -/
theorem KAMA.Calculate_price_between_witness :
    ∃ kama : List ℚ,
      KAMA.Calculate ⟨3, 2, 30⟩ [10, 51/5, 21/2, 103/10, 52/5] = Res.ok kama ∧
      (∀ i : Nat, i < 5 →
        (Finset.range (i + 1)).inf' Finset.nonempty_range_succ
            (fun j => ([10, 51/5, 21/2, 103/10, 52/5] : List ℚ).getD j 0)
          ≤ kama.getD i 0 ∧
        kama.getD i 0
          ≤ (Finset.range (i + 1)).sup' Finset.nonempty_range_succ
              (fun j => ([10, 51/5, 21/2, 103/10, 52/5] : List ℚ).getD j 0)) ∧
      (∀ c : ℚ, (∀ j : Nat, j < 5 →
          ([10, 51/5, 21/2, 103/10, 52/5] : List ℚ).getD j 0 = c) →
        ∀ i : Nat, i < 5 → kama.getD i 0 = c) :=
  KAMA.Calculate_price_between 3 2 30 [10, 51/5, 21/2, 103/10, 52/5] (by decide) (by decide)
    (by decide) (by decide)

/-! ## SuperTrend: the final bands need not be ordered -/

/-- C40: the final bands of `SuperTrend.Calculate` are not ordered in general.
On the well-formed bars high `{11,13,13}`, low `{9,11,11}`, close `{10,12,12}`
with `Period = 3` and `Multiplier = 2` the call succeeds, the warm-up ATR is
`0` at bars 0 and 1, and `finalUB[1] = 10 < 12 = finalLB[1]`. -/
theorem SuperTrend.Calculate_bands_unordered :
    ∃ (high low close : List ℚ) (s : SuperTrend) (out : SuperTrend.Out) (atr : List ℚ),
      high = [11, 13, 13] ∧ low = [9, 11, 11] ∧ close = [10, 12, 12] ∧
      (∀ i, i < high.length →
        low.getD i 0 ≤ close.getD i 0 ∧ close.getD i 0 ≤ high.getD i 0) ∧
      3 ≤ s.Period ∧ 0 < s.Multiplier ∧
      SuperTrend.Calculate s high low close = Res.ok out ∧
      computeATR high low close s.Period = Res.ok atr ∧
      atr.getD 0 0 = 0 ∧ atr.getD 1 0 = 0 ∧
      out.finalUB.getD 1 0 = 10 ∧ out.finalLB.getD 1 0 = 12 ∧
      out.finalLB.getD 1 0 > out.finalUB.getD 1 0 :=
  ⟨[11, 13, 13], [9, 11, 11], [10, 12, 12], ⟨3, 2⟩,
    ⟨[10, 10, 50 / 3], [1, -1, -1], [10, 10, 50 / 3], [10, 12, 12]⟩, [0, 0, 7 / 3],
    rfl, rfl, rfl, by decide!, by decide, by decide!, by decide!, by decide!, by decide!,
    by decide!, by decide!, by decide!, by decide!⟩

/-! ## RSI: the length that the guard lets through -/

/-- A loop whose body panics at the counter `lo + j`, after `j` successful
rounds, panics. -/
theorem iter_panic_at {σ : Type} (Inv : Nat → σ → Prop) (body : Int → σ → Res σ) :
    ∀ (j k lo : Nat) (i : Int) (s : σ), i = (lo : Int) → j < k → Inv lo s →
      (∀ m t, lo ≤ m → m < lo + j → Inv m t →
        ∃ t', body (m : Int) t = Res.ok t' ∧ Inv (m + 1) t') →
      (∀ t, Inv (lo + j) t → body ((lo + j : Nat) : Int) t = Res.panic) →
      iter k i body s = Res.panic := by
  intro j
  induction j with
  | zero =>
    intro k lo i s hi hk h0 _ hp
    obtain ⟨k', rfl⟩ : ∃ k', k = k' + 1 := ⟨k - 1, by omega⟩
    subst hi
    have := hp s h0
    simp only [Nat.add_zero] at this
    simp only [iter, this]
  | succ j ih =>
    intro k lo i s hi hk h0 hstep hp
    obtain ⟨k', rfl⟩ : ∃ k', k = k' + 1 := ⟨k - 1, by omega⟩
    subst hi
    obtain ⟨t', hb, ht'⟩ := hstep lo s (le_refl _) (by omega) h0
    have hrest := ih k' (lo + 1) ((lo : Int) + 1) t' (by push_cast; rfl) (by omega) ht'
      (fun m t h1 h2 h3 => hstep m t (by omega) (by omega) h3)
      (fun t ht => by
        have e : lo + 1 + j = lo + (j + 1) := by omega
        rw [e]
        exact hp t (e ▸ ht))
    simp only [iter, hb]
    exact hrest

theorem RSI.diffLoop (prices : List ℚ) (n : Nat) (hlen : prices.length = n) (hn : 1 ≤ n) :
    ∃ m : RSI.Moves,
      forRange 1 (len prices) (RSI.diffBody prices) ⟨make (n - 1), make (n - 1)⟩ = Res.ok m ∧
      m.gains.length = n - 1 ∧ m.losses.length = n - 1 := by
  obtain ⟨m, hm, h1, h2⟩ := forRange_inv
    (fun _ (t : RSI.Moves) => t.gains.length = n - 1 ∧ t.losses.length = n - 1)
    (RSI.diffBody prices) 1 n 1 (len prices) ⟨make (n - 1), make (n - 1)⟩ rfl
    (by simp only [len]; omega) hn ⟨length_make _, length_make _⟩
    (fun q t a b hinv => by
      obtain ⟨g1, g2⟩ := hinv
      simp only [RSI.diffBody]
      rw [rd_nat prices (q : Int) q rfl (by omega),
        rd_nat prices ((q : Int) - 1) (q - 1) (by omega) (by omega)]
      simp only [Res.ok_bind]
      by_cases hd : prices.getD q 0 - prices.getD (q - 1) 0 > 0
      · rw [if_pos hd, wr_nat t.gains ((q : Int) - 1) (q - 1) _ (by omega) (by omega)]
        exact ⟨_, rfl, by simp [g1], g2⟩
      · rw [if_neg hd, wr_nat t.losses ((q : Int) - 1) (q - 1) _ (by omega) (by omega)]
        exact ⟨_, rfl, g1, by simp [g2]⟩)
  exact ⟨m, hm, h1, h2⟩

theorem RSI.zeroLoop (n k : Nat) (hkn : k ≤ n) :
    ∃ v : List ℚ, forRange 0 (k : Int) RSI.zeroBody (make n) = Res.ok v ∧ v.length = n := by
  obtain ⟨v, hv, h1⟩ := forRange_inv (fun _ (t : List ℚ) => t.length = n)
    RSI.zeroBody 0 k 0 (k : Int) (make n) rfl rfl (by omega) (length_make n)
    (fun q t a b hinv => by
      have hinv : t.length = n := hinv
      simp only [RSI.zeroBody]
      rw [wr_nat t (q : Int) q _ rfl (by omega)]
      exact ⟨_, rfl, by simp [hinv]⟩)
  exact ⟨v, hv, h1⟩

theorem RSI.sumLoop (m : RSI.Moves) (k : Nat) (hg : k ≤ m.gains.length)
    (hl : k ≤ m.losses.length) :
    ∃ s : RSI.Sums, forRange 0 (k : Int) (RSI.sumBody m) ⟨0, 0⟩ = Res.ok s := by
  obtain ⟨s, hs, _⟩ := forRange_inv (fun _ (_ : RSI.Sums) => True)
    (RSI.sumBody m) 0 k 0 (k : Int) ⟨0, 0⟩ rfl rfl (by omega) trivial
    (fun q t a b _ => by
      simp only [RSI.sumBody]
      rw [rd_nat m.gains (q : Int) q rfl (by omega), rd_nat m.losses (q : Int) q rfl (by omega)]
      exact ⟨_, rfl, trivial⟩)
  exact ⟨s, hs⟩

theorem RSI.sumLoop_panic (m : RSI.Moves) (k : Nat) (hk : 1 ≤ k)
    (hg : m.gains.length = k - 1) (hl : m.losses.length = k - 1) :
    forRange 0 (k : Int) (RSI.sumBody m) ⟨0, 0⟩ = Res.panic := by
  have hk2 : ((k : Int) - 0).toNat = k := by omega
  unfold forRange
  rw [hk2]
  refine iter_panic_at (fun _ (_ : RSI.Sums) => True) (RSI.sumBody m) (k - 1) k 0 0 ⟨0, 0⟩
    rfl (by omega) trivial ?_ ?_
  · intro q t a b _
    simp only [RSI.sumBody]
    rw [rd_nat m.gains (q : Int) q rfl (by omega), rd_nat m.losses (q : Int) q rfl (by omega)]
    exact ⟨_, rfl, trivial⟩
  · intro t _
    have hr : rd m.gains ((0 + (k - 1) : Nat) : Int) = Res.panic := by
      have hc : ¬ ((0 : Int) ≤ ((0 + (k - 1) : Nat) : Int)
          ∧ ((0 + (k - 1) : Nat) : Int) < len m.gains) := by
        simp only [len]
        omega
      simp only [rd, hc, if_false]
    simp only [RSI.sumBody, hr]
    rfl

theorem RSI.smoothLoop (w : Int) (m : RSI.Moves) (n k : Nat) (hk : k < n)
    (hg : m.gains.length = n - 1) (hl : m.losses.length = n - 1) (s0 : RSI.State)
    (h0 : s0.rsiVals.length = n) :
    ∃ s : RSI.State,
      forRange ((k : Int) + 1) (n : Int) (RSI.smoothBody w m) s0 = Res.ok s ∧
      s.rsiVals.length = n := by
  obtain ⟨s, hs, h1⟩ := forRange_inv (fun _ (t : RSI.State) => t.rsiVals.length = n)
    (RSI.smoothBody w m) (k + 1) n ((k : Int) + 1) (n : Int) s0 (by push_cast; rfl) rfl
    (by omega) h0
    (fun q t a b hinv => by
      have hinv : t.rsiVals.length = n := hinv
      simp only [RSI.smoothBody]
      rw [rd_nat m.gains ((q : Int) - 1) (q - 1) (by omega) (by omega),
        rd_nat m.losses ((q : Int) - 1) (q - 1) (by omega) (by omega)]
      simp only [Res.ok_bind]
      split_ifs
      · rw [wr_nat t.rsiVals (q : Int) q _ rfl (by omega)]
        exact ⟨_, rfl, by simp [hinv]⟩
      · rw [wr_nat t.rsiVals (q : Int) q _ rfl (by omega)]
        exact ⟨_, rfl, by simp [hinv]⟩)
  exact ⟨s, hs, h1⟩

/-- With more than `Window` prices `RSI.Calculate` returns a series of the
length of the input. -/
theorem RSI.ok_of_longer (k : Nat) (prices : List ℚ) (hk : 1 ≤ k) (hn : k < prices.length) :
    ∃ out : List ℚ, RSI.Calculate ⟨(k : Int)⟩ prices = Res.ok out ∧
      out.length = prices.length := by
  have c1 : ¬ (len prices < (k : Int)) := by simp only [len]; omega
  have c2 : ¬ (len prices - 1 < 0) := by simp only [len]; omega
  obtain ⟨m, hm, g1, g2⟩ := RSI.diffLoop prices prices.length rfl (by omega)
  obtain ⟨v, hv, hvl⟩ := RSI.zeroLoop prices.length k (by omega)
  obtain ⟨s, hs⟩ := RSI.sumLoop m k (by omega) (by omega)
  have hw : ∀ x : ℚ, wr v (k : Int) x = Res.ok (v.set k x) :=
    fun x => wr_nat v (k : Int) k x rfl (by omega)
  simp only [RSI.Calculate]
  rw [if_neg c1, if_neg c2, hm]
  simp only [Res.ok_bind]
  rw [hv]
  simp only [Res.ok_bind]
  rw [hs]
  simp only [Res.ok_bind]
  rw [hw]
  simp only [Res.ok_bind]
  obtain ⟨t, ht, htl⟩ := RSI.smoothLoop (k : Int) m prices.length k hn g1 g2
    ⟨v.set k (100 - 100 / (1 + if s.sumL / ((k : Int) : ℚ) ≠ 0
        then s.sumG / ((k : Int) : ℚ) / (s.sumL / ((k : Int) : ℚ)) else 0)),
      s.sumG / ((k : Int) : ℚ), s.sumL / ((k : Int) : ℚ),
      if s.sumL / ((k : Int) : ℚ) ≠ 0
        then s.sumG / ((k : Int) : ℚ) / (s.sumL / ((k : Int) : ℚ)) else 0⟩
    (by simp [hvl])
  exact ⟨t.rsiVals, by simp only [len]; rw [ht]; rfl, htl⟩

/-- With exactly `Window >= 1` prices the guard of `RSI.Calculate` passes and
the seed loop reads `gains[Window-1]`, one past the end of `gains`. -/
theorem RSI.panic_of_equal (k : Nat) (prices : List ℚ) (hk : 1 ≤ k) (hn : prices.length = k) :
    RSI.Calculate ⟨(k : Int)⟩ prices = Res.panic := by
  have c1 : ¬ (len prices < (k : Int)) := by simp only [len]; omega
  have c2 : ¬ (len prices - 1 < 0) := by simp only [len]; omega
  obtain ⟨m, hm, g1, g2⟩ := RSI.diffLoop prices prices.length rfl (by omega)
  obtain ⟨v, hv, hvl⟩ := RSI.zeroLoop prices.length k (by omega)
  have hs := RSI.sumLoop_panic m k hk (by omega) (by omega)
  simp only [RSI.Calculate]
  rw [if_neg c1, if_neg c2, hm]
  simp only [Res.ok_bind]
  rw [hv]
  simp only [Res.ok_bind]
  rw [hs]
  rfl

/-- C31, evaluated: `Window = 3` and the three prices `{10, 11, 11}` pass the
only guard (`len(prices) < Window` is false), and the call panics on an index
out of range. More generally, for every `Window >= 1`, exactly `Window` prices
make the call panic, and more than `Window` prices give a series of the
length of the input. -/
theorem RSI.Calculate_window_prices :
    ¬ (len ([10, 11, 11] : List ℚ) < 3) ∧
    RSI.Calculate ⟨3⟩ [10, 11, 11] = Res.panic ∧
    (∀ (w : Int) (prices : List ℚ), 1 ≤ w → (prices.length : Int) = w →
      RSI.Calculate ⟨w⟩ prices = Res.panic) ∧
    (∀ (w : Int) (prices : List ℚ), 1 ≤ w → w < (prices.length : Int) →
      ∃ out : List ℚ, RSI.Calculate ⟨w⟩ prices = Res.ok out ∧
        out.length = prices.length) := by
  refine ⟨by decide, by decide!, ?_, ?_⟩
  · intro w prices hw hn
    obtain ⟨k, rfl⟩ : ∃ k : Nat, w = (k : Int) := ⟨w.toNat, by omega⟩
    exact RSI.panic_of_equal k prices (by omega) (by omega)
  · intro w prices hw hn
    obtain ⟨k, rfl⟩ : ∃ k : Nat, w = (k : Int) := ⟨w.toNat, by omega⟩
    exact RSI.ok_of_longer k prices (by omega) (by omega)

/-- Instance of the two general parts of C31: one price with `Window = 1`
panics, the seven prices of `TestRSI` with `Window = 3` give seven values. -/
theorem RSI.Calculate_window_prices_witness :
    RSI.Calculate ⟨1⟩ [10] = Res.panic ∧
    ∃ out : List ℚ, RSI.Calculate ⟨3⟩ [10, 11, 11, 9, 8, 12, 15] = Res.ok out ∧
      out.length = ([10, 11, 11, 9, 8, 12, 15] : List ℚ).length :=
  ⟨RSI.Calculate_window_prices.2.2.1 1 [10] (by decide) (by decide),
    RSI.Calculate_window_prices.2.2.2 3 [10, 11, 11, 9, 8, 12, 15] (by decide) (by decide)⟩

/-! ## Ichimoku: when the forward index overflows -/

/-- Every round of a loop that returns has returned. -/
theorem iter_ok_at {σ : Type} (body : Int → σ → Res σ) :
    ∀ (k : Nat) (i : Int) (s s' : σ), iter k i body s = Res.ok s' →
      ∀ j : Nat, j < k → ∃ t t', body (i + (j : Int)) t = Res.ok t' := by
  intro k
  induction k with
  | zero =>
    intro i s s' _ j hj
    omega
  | succ k ih =>
    intro i s s' h j hj
    simp only [iter] at h
    cases hb : body i s with
    | ok s1 =>
      rw [hb] at h
      cases j with
      | zero => exact ⟨s, s1, by simpa using hb⟩
      | succ j =>
        obtain ⟨t, t', ht⟩ := ih (i + 1) s1 s' h j (by omega)
        refine ⟨t, t', ?_⟩
        have e : i + ((j + 1 : Nat) : Int) = i + 1 + (j : Int) := by push_cast; ring
        rw [e]
        exact ht
    | error msg =>
      rw [hb] at h
      cases h
    | panic =>
      rw [hb] at h
      cases h

/-- A sum of two `int` values that exceeds `math.MaxInt64` wraps around to a
negative value. -/
theorem addInt_overflow (a b : Int) (ha : a ≤ maxInt) (hb : b ≤ maxInt)
    (h : maxInt < a + b) : addInt a b < 0 := by
  have ha : a ≤ 9223372036854775807 := ha
  have hb : b ≤ 9223372036854775807 := hb
  have h : 9223372036854775807 < a + b := h
  unfold addInt wrapInt
  omega

/-- The condition `n - 1 + Shift <= math.MaxInt64` is needed: when
`SenkouPeriod` is between 1 and `n` and the last forward index `n - 1 + Shift`
overflows, the Senkou Span B loop reaches `idx = n - 1`, the sum wraps around
to a negative index and the write is out of range, so the call does not
return, whatever the Tenkan and Kijun periods are. -/
theorem Ichimoku.Calculate_overflow_fails (t k s sh : Int) (high low close : List ℚ)
    (hs : 1 ≤ s) (hn : s ≤ (high.length : Int)) (hshi : sh ≤ maxInt)
    (hni : (high.length : Int) - 1 ≤ maxInt)
    (hov : maxInt < (high.length : Int) - 1 + sh) (out : Ichimoku.Out) :
    Ichimoku.Calculate ⟨t, k, s, sh⟩ high low close ≠ Res.ok out := by
  intro h
  by_cases c1 : len high ≠ len low ∨ len high ≠ len close
  · simp only [Ichimoku.Calculate] at h
    rw [if_pos c1] at h
    cases h
  · by_cases c2 : len high < s
    · simp only [Ichimoku.Calculate] at h
      rw [if_neg c1, if_pos c2] at h
      cases h
    · simp only [Ichimoku.Calculate] at h
      rw [if_neg c1, if_neg c2] at h
      obtain ⟨o, e0, h⟩ := Res.bind_eq_ok h
      obtain ⟨tv, e1, h⟩ := Res.bind_eq_ok h
      obtain ⟨kv, e2, h⟩ := Res.bind_eq_ok h
      obtain ⟨sa, e3, h⟩ := Res.bind_eq_ok h
      obtain ⟨sb, e4, h⟩ := Res.bind_eq_ok h
      have hni2 : (high.length : Int) - 1 ≤ 9223372036854775807 := hni
      have eS : subInt s 1 = s - 1 := subInt_eq _ _ (by omega) (by omega)
      rw [eS] at e4
      simp only [forRange, len] at e4
      obtain ⟨j, hj⟩ : ∃ j : Nat, (j : Int) = (high.length : Int) - s :=
        ⟨high.length - s.toNat, by omega⟩
      obtain ⟨b, b', hb⟩ := iter_ok_at _ _ _ _ _ e4 j (by omega)
      have eidx : s - 1 + (j : Int) = (high.length : Int) - 1 := by omega
      rw [eidx] at hb
      simp only [Ichimoku.spanBBody] at hb
      obtain ⟨mm, _, hb⟩ := Res.bind_eq_ok hb
      have hneg := addInt_overflow ((high.length : Int) - 1) sh hni hshi hov
      have hlt : addInt ((high.length : Int) - 1) sh < (high.length : Int) := by omega
      rw [if_pos hlt] at hb
      have := (wr_eq_ok hb).1
      omega

end Indicators
